import Mathlib

/-!
# FileStore transaction interpreter and replay guards

A shallow embedding of the transaction pipeline of `src/os/FileStore.cc`:
the replay guard (`_set_replay_guard`, `_close_replay_guard`,
`_check_replay_guard`), the opcode interpreter (`_do_transaction`,
`do_transactions`) with its error policy, the object primitives it dispatches
to, and the read side (`read`).

Beside the pipeline stand the attribute layer (the chunked extended attributes
of `do_setxattr`, `do_getxattr` and `do_removexattr`, and `_setattrs` with its
spill to the object map), `collection_empty`, the throttle of the op queue
(`_op_queue_reserve_throttle`), one commit cycle of `sync_entry`, and the choice
of the snapshot that `mount` rolls back to.

Further parts of the file follow them: the journal mode that `mount` selects and
the branch `queue_transactions` takes on it, the sequence number file
(`write_op_seq`, `read_op_seq`), the raw attribute names read back
(`translate_raw_name`, `do_listxattr`), the body of `_do_clone_range`, and
`fiemap`. `Throttle::get_or_fail` of `src/common/Throttle.cc` stands before the
namespace of the file store.

The code runs against collaborators that are not part of the file: the POSIX
system calls, the collection index, the object map and the attribute store.
They are the fields of `Sys`, over an arbitrary state type; a `Store` adds the
members of `FileStore` the code only reads, and every theorem that quantifies
over `Store` holds for every behaviour of the collaborators. `MemFS` is one
concrete in-memory implementation of them, used for the concrete runs and for
the write/read round trip.

A computation threads a `World`: the state of the collaborators, the list of
the state-changing calls made so far, the failure injection counter and the
completions handed over. A failed assertion or `_exit` ends it with a `Fatal`.
-/

/-! ## The class `Throttle` (`common/Throttle.cc`) -/

/-- The members of `Throttle` that `get_or_fail` uses: `count` and `max`, of type
`int64_t`, and the list `cond` of the waiters, the first of them in front. The
performance counters are left out. -/
structure Throttle where
  count : Int
  max : Int
  cond : List Nat
deriving DecidableEq, Repr

/-- The function `Throttle::get_or_fail(c)`, under the lock: the result and the
members it leaves. The member function `_should_wait`, whose body is in
`Throttle.h`, is a parameter. `none` stands for a failed assertion `c >= 0` and
for a sum `count + c` out of the range of `int64_t`. -/
def Throttle.get_or_fail (_should_wait : Throttle → Int → Bool) (t : Throttle) (c : Int) :
    Option (Bool × Throttle) :=
  if c < 0 then none
  else if _should_wait t c || !t.cond.isEmpty then some (false, t)
  else if t.count + c > 9223372036854775807 then none
  else some (true, { t with count := t.count + c })

namespace FileStore

/-! ## Platform constants (`errno.h`, `fcntl.h` on Linux) -/

def ENOENT : Int := 2
def EIO : Int := 5
def EEXIST : Int := 17
def EINVAL : Int := 22
def ENOSPC : Int := 28
def ERANGE : Int := 34
def ENOTEMPTY : Int := 39
def ENODATA : Int := 61
def EOPNOTSUPP : Int := 95
def ENOTSUP : Int := 95

def O_RDONLY : Nat := 0
def O_WRONLY : Nat := 1
def O_RDWR : Nat := 2
def O_CREAT : Nat := 64
def O_TRUNC : Nat := 512

/-! ## Constants of `FileStore.cc` -/

def ATTR_MAX_NAME_LEN : Nat := 128
def ATTR_MAX_BLOCK_LEN : Nat := 2048

/-- The characters of `snap_`, the text of `COMMIT_SNAP_ITEM` before its `%lld`. -/
def COMMIT_SNAP_ITEM : List Nat := [115, 110, 97, 112, 95]

/-- The characters of `clustersnap_`, the text of `CLUSTER_SNAP_ITEM` before its `%s`. -/
def CLUSTER_SNAP_ITEM : List Nat := [99, 108, 117, 115, 116, 101, 114, 115, 110, 97, 112, 95]

/-! ## Data model -/

/-- Modelled from the spec: collection identifier, "an opaque, totally-ordered
name" (the class `coll_t` is declared outside `FileStore.cc`). -/
abbrev coll_t := Nat

/-- Modelled from the spec: object identifier, "an opaque, hashable,
totally-ordered name" (the class `hobject_t` is declared outside
`FileStore.cc`). -/
abbrev hobject_t := Nat

/-- Modelled from the spec: sequencer position, "the triple
`(op_seq, trans_num, op_index)`" (the class `SequencerPosition` is declared
outside `FileStore.cc`; the code builds it as `spos(op_seq, trans_num, 0)` and
advances it with `spos.op++`). -/
structure SequencerPosition where
  seq : Nat
  trans : Nat
  op : Nat
deriving DecidableEq, Repr

/-- Modelled from the spec: "`SP` is totally ordered lexicographically"; this is
`operator<` of `SequencerPosition`, used by the code as `opos > spos`. -/
def SequencerPosition.lt (a b : SequencerPosition) : Prop :=
  a.seq < b.seq ∨ (a.seq = b.seq ∧ (a.trans < b.trans ∨ (a.trans = b.trans ∧ a.op < b.op)))

instance : LT SequencerPosition := ⟨SequencerPosition.lt⟩

instance : LE SequencerPosition := ⟨fun a b => a < b ∨ a = b⟩

instance (a b : SequencerPosition) : Decidable (a < b) :=
  inferInstanceAs (Decidable (a.seq < b.seq ∨
    (a.seq = b.seq ∧ (a.trans < b.trans ∨ (a.trans = b.trans ∧ a.op < b.op)))))

instance (a b : SequencerPosition) : Decidable (a ≤ b) :=
  inferInstanceAs (Decidable (a < b ∨ a = b))

/-- The decoded value of the replay guard attribute: `::encode(spos, v)` followed
by `::encode(in_progress, v)`. Guards written by older versions end after the
position, which is `in_progress = none`. -/
structure GuardAttr where
  opos : SequencerPosition
  in_progress : Option Bool
deriving DecidableEq, Repr

/-- The path the collection index yields for an object (`IndexedPath`, declared
outside `FileStore.cc`): the collection directory and a file name in it. -/
structure IndexedPath where
  coll : coll_t
  file : Nat
deriving DecidableEq, Repr

/-- A byte string (`bufferlist`, `bufferptr`). -/
abbrev Bytes := List Nat

/-- The members of `struct fiemap_extent` (`linux/fiemap.h`) that the code uses,
both of 64 bits. -/
structure fiemap_extent where
  fe_logical : Nat
  fe_length : Nat
deriving DecidableEq, Repr

/-- An attribute map `map<string, bufferptr>`; names are lists of character codes. -/
abbrev AttrSet := List (List Nat × Bytes)

/-- The characters of `user.ceph.`, which `get_attrname` puts before the name of
an object attribute. -/
def user_ceph : List Nat := [117, 115, 101, 114, 46, 99, 101, 112, 104, 46]

/-- The digits of `n`, last digit first in the recursion, put in front of `ds`. -/
def decimal_loop : Nat → Nat → List Nat → List Nat
  | 0, _, ds => ds
  | fuel + 1, n, ds =>
    if n / 10 = 0 then (48 + n % 10) :: ds
    else decimal_loop fuel (n / 10) ((48 + n % 10) :: ds)

/-- The characters `snprintf` prints for `%d` (and `%lld`, `%llu`) of a
non-negative number: its decimal digits. -/
def decimal (n : Nat) : List Nat := decimal_loop (n + 1) n []

/-- Wrap to a 32-bit `int` (the conversions `int r = bl.length()` and
`int got = safe_pread(...)`). -/
def toInt32 (n : Int) : Int := (n + 2147483648) % 4294967296 - 2147483648

/-- Wrap to `int64_t` (the cast `(int64_t)offset`). -/
def toInt64 (n : Int) : Int := (n + 9223372036854775808) % 18446744073709551616 - 9223372036854775808

/-- The opcodes `Transaction::OP_*` the interpreter switches on (the closed set
of the spec); `OP_UNKNOWN` stands for every other value of `i.get_op()`. -/
inductive OpCode
  | OP_NOP | OP_TOUCH | OP_WRITE | OP_ZERO | OP_TRIMCACHE | OP_TRUNCATE | OP_REMOVE
  | OP_SETATTR | OP_SETATTRS | OP_RMATTR | OP_RMATTRS
  | OP_CLONE | OP_CLONERANGE | OP_CLONERANGE2
  | OP_MKCOLL | OP_RMCOLL | OP_COLL_ADD | OP_COLL_REMOVE | OP_COLL_MOVE
  | OP_COLL_SETATTR | OP_COLL_RMATTR | OP_STARTSYNC | OP_COLL_RENAME
  | OP_OMAP_CLEAR | OP_OMAP_SETKEYS | OP_OMAP_RMKEYS | OP_OMAP_SETHEADER
  | OP_UNKNOWN
deriving DecidableEq, Repr

/-- One decoded element of a transaction's opcode stream: the opcode with the
arguments the interpreter reads for it, in the order it reads them. -/
inductive TransactionOp
  | OP_NOP
  | OP_TOUCH (cid : coll_t) (oid : hobject_t)
  | OP_WRITE (cid : coll_t) (oid : hobject_t) (off len : Nat) (bl : Bytes)
  | OP_ZERO (cid : coll_t) (oid : hobject_t) (off len : Nat)
  | OP_TRIMCACHE (cid : coll_t) (oid : hobject_t) (off len : Nat)
  | OP_TRUNCATE (cid : coll_t) (oid : hobject_t) (off : Nat)
  | OP_REMOVE (cid : coll_t) (oid : hobject_t)
  | OP_SETATTR (cid : coll_t) (oid : hobject_t) (name : List Nat) (bl : Bytes)
  | OP_SETATTRS (cid : coll_t) (oid : hobject_t) (aset : AttrSet)
  | OP_RMATTR (cid : coll_t) (oid : hobject_t) (name : List Nat)
  | OP_RMATTRS (cid : coll_t) (oid : hobject_t)
  | OP_CLONE (cid : coll_t) (oid noid : hobject_t)
  | OP_CLONERANGE (cid : coll_t) (oid noid : hobject_t) (off len : Nat)
  | OP_CLONERANGE2 (cid : coll_t) (oid noid : hobject_t) (srcoff len dstoff : Nat)
  | OP_MKCOLL (cid : coll_t)
  | OP_RMCOLL (cid : coll_t)
  | OP_COLL_ADD (ncid ocid : coll_t) (oid : hobject_t)
  | OP_COLL_REMOVE (cid : coll_t) (oid : hobject_t)
  | OP_COLL_MOVE (ocid ncid : coll_t) (oid : hobject_t)
  | OP_COLL_SETATTR (cid : coll_t) (name : List Nat) (bl : Bytes)
  | OP_COLL_RMATTR (cid : coll_t) (name : List Nat)
  | OP_STARTSYNC
  | OP_COLL_RENAME (cid ncid : coll_t)
  | OP_OMAP_CLEAR (cid : coll_t) (oid : hobject_t)
  | OP_OMAP_SETKEYS (cid : coll_t) (oid : hobject_t) (aset : AttrSet)
  | OP_OMAP_RMKEYS (cid : coll_t) (oid : hobject_t) (keys : List (List Nat))
  | OP_OMAP_SETHEADER (cid : coll_t) (oid : hobject_t) (bl : Bytes)
  | OP_UNKNOWN
deriving DecidableEq, Repr

/-- The value `i.get_op()`. -/
def TransactionOp.get_op : TransactionOp → OpCode
  | .OP_NOP => .OP_NOP
  | .OP_TOUCH .. => .OP_TOUCH
  | .OP_WRITE .. => .OP_WRITE
  | .OP_ZERO .. => .OP_ZERO
  | .OP_TRIMCACHE .. => .OP_TRIMCACHE
  | .OP_TRUNCATE .. => .OP_TRUNCATE
  | .OP_REMOVE .. => .OP_REMOVE
  | .OP_SETATTR .. => .OP_SETATTR
  | .OP_SETATTRS .. => .OP_SETATTRS
  | .OP_RMATTR .. => .OP_RMATTR
  | .OP_RMATTRS .. => .OP_RMATTRS
  | .OP_CLONE .. => .OP_CLONE
  | .OP_CLONERANGE .. => .OP_CLONERANGE
  | .OP_CLONERANGE2 .. => .OP_CLONERANGE2
  | .OP_MKCOLL .. => .OP_MKCOLL
  | .OP_RMCOLL .. => .OP_RMCOLL
  | .OP_COLL_ADD .. => .OP_COLL_ADD
  | .OP_COLL_REMOVE .. => .OP_COLL_REMOVE
  | .OP_COLL_MOVE .. => .OP_COLL_MOVE
  | .OP_COLL_SETATTR .. => .OP_COLL_SETATTR
  | .OP_COLL_RMATTR .. => .OP_COLL_RMATTR
  | .OP_STARTSYNC => .OP_STARTSYNC
  | .OP_COLL_RENAME .. => .OP_COLL_RENAME
  | .OP_OMAP_CLEAR .. => .OP_OMAP_CLEAR
  | .OP_OMAP_SETKEYS .. => .OP_OMAP_SETKEYS
  | .OP_OMAP_RMKEYS .. => .OP_OMAP_RMKEYS
  | .OP_OMAP_SETHEADER .. => .OP_OMAP_SETHEADER
  | .OP_UNKNOWN => .OP_UNKNOWN

/-- A transaction: its opcode stream, decoded. -/
abbrev Transaction := List TransactionOp

/-- The members of `FileStore::Op` the apply path uses: the transactions, the
sequence number, and the contexts to complete (`none` for a null pointer). -/
structure Op where
  tls : List Transaction
  op : Nat
  onreadable : Option Nat
  onreadable_sync : Option Nat

/-! ## The collaborators -/

set_option maxHeartbeats 1000000 in
/-- The calls by which the code changes something outside itself, with their
arguments. Each returns an `int`: a descriptor or `0` on success, `-errno`
otherwise. The attribute store (`_setattrs`, `_rmattr`, `_rmattrs`,
`_collection_setattr`, `_collection_rmattr`), the data copy `_do_clone_range`
and `_start_sync` are one call each to the interpreter; the attribute layer
further down goes through `sys_setxattr`, `sys_removexattr` and the attribute
calls of the object map. The last ones are the calls of the commit cycle:
`::pwrite`, the steps `commit_start`, `commit_started` and `commit_finish` of the
journaling base class, the snapshot and sync `ioctl`s and `sync_filesystem`.
After them come the `::open` of the sequence number file, and the two calls of
the body of `_do_clone_range`: the `ioctl` `BTRFS_IOC_CLONE_RANGE` and
`_do_copy_range`, whose loop of `::read` and `safe_write` is one call. -/
inductive Mut
  | sys_open (path : IndexedPath) (flags : Nat)
  | index_created (cid : coll_t) (oid : hobject_t) (path : IndexedPath)
  | index_unlink (cid : coll_t) (oid : hobject_t)
  | sys_link (path_old path_new : IndexedPath)
  | sys_rename (cid ncid : coll_t)
  | sys_truncate (path : IndexedPath) (length : Nat)
  | sys_mkdir (cid : coll_t)
  | init_index (cid : coll_t)
  | sys_rmdir (cid : coll_t)
  | sys_lseek64 (fd : Int) (offset : Nat)
  | write_fd (fd : Int) (bl : Bytes)
  | sync_file_range (fd : Int) (offset len : Nat)
  | queue_flusher (fd : Int) (offset len : Nat)
  | sys_fallocate_punch_hole (fd : Int) (offset len : Nat)
  | sys_fsync (fd : Int)
  | object_map_sync (hoid : Option hobject_t) (spos : SequencerPosition)
  | object_map_clone (oldoid newoid : hobject_t) (spos : SequencerPosition)
  | object_map_clear (hoid : hobject_t) (spos : SequencerPosition)
  | object_map_set_keys (hoid : hobject_t) (aset : AttrSet) (spos : SequencerPosition)
  | object_map_rm_keys (hoid : hobject_t) (keys : List (List Nat)) (spos : SequencerPosition)
  | object_map_set_header (hoid : hobject_t) (bl : Bytes) (spos : SequencerPosition)
  | do_fsetxattr_guard (fd : Int) (v : GuardAttr)
  | _do_clone_range (src dst : Int) (srcoff len dstoff : Nat)
  | _setattrs (cid : coll_t) (oid : hobject_t) (aset : AttrSet) (spos : SequencerPosition)
  | _rmattr (cid : coll_t) (oid : hobject_t) (name : List Nat) (spos : SequencerPosition)
  | _rmattrs (cid : coll_t) (oid : hobject_t) (spos : SequencerPosition)
  | _collection_setattr (cid : coll_t) (name : List Nat) (value : Bytes)
  | _collection_rmattr (cid : coll_t) (name : List Nat)
  | _start_sync
  | sys_setxattr (fn : IndexedPath) (name : List Nat) (val : Bytes)
  | sys_removexattr (fn : IndexedPath) (name : List Nat)
  | object_map_remove_xattrs (hoid : hobject_t) (to_remove : List (List Nat))
      (spos : SequencerPosition)
  | object_map_set_xattrs (hoid : hobject_t) (to_set : AttrSet) (spos : SequencerPosition)
  | sys_pwrite (fd : Int) (buf : Bytes) (offset : Nat)
  | commit_start
  | commit_started
  | commit_finish
  | btrfs_ioc_snap_create_v2 (name : List Nat)
  | btrfs_ioc_snap_create (name : List Nat)
  | btrfs_ioc_wait_sync (transid : Nat)
  | btrfs_ioc_sync
  | sync_filesystem (fd : Int)
  | btrfs_ioc_snap_destroy (name : List Nat)
  | open_current_op_seq (flags : Nat)
  | btrfs_ioc_clone_range (dst src : Int) (src_offset src_length dest_offset : Nat)
  | _do_copy_range (src dst : Int) (srcoff len dstoff : Nat)
deriving DecidableEq, Repr

/-- The collaborators of the code over a state `σ` of the outside world. The
read-only calls are functions of the state; every other call goes through
`mutate`. Descriptors are handles: opening without `O_CREAT`/`O_TRUNC` and
closing change no state. -/
structure Sys (σ : Type) where
  /-- The function `index_manager.get_index`: negative on error. -/
  get_index : coll_t → σ → Int
  /-- The function `index->lookup(oid, &path, &exist)`. -/
  index_lookup : coll_t → hobject_t → σ → Int × IndexedPath × Bool
  /-- The call `::open(path, flags)` when `flags` has neither `O_CREAT` nor `O_TRUNC`. -/
  open_ro : IndexedPath → Nat → σ → Int
  /-- The call `::open(get_cdir(cid), O_RDONLY)`. -/
  open_cdir : coll_t → σ → Int
  /-- The call `do_fgetxattr(fd, REPLAY_GUARD_XATTR, buf, sizeof(buf))` and the decoding of `buf`. -/
  do_fgetxattr_guard : Int → σ → Int × GuardAttr
  /-- The call `::stat(path, &st)`: result and `st.st_nlink`. -/
  sys_stat : IndexedPath → σ → Int × Nat
  /-- The size `st.st_size` that `::fstat(fd, &st)` gives. -/
  fstat_size : Int → σ → Nat
  /-- The call `safe_pread(fd, buf, len, offset)`: result and the bytes placed in `buf`. -/
  safe_pread : Int → Nat → Nat → σ → Int × Bytes
  /-- The function `_getattrs(cid, oid, aset)`. -/
  _getattrs : coll_t → hobject_t → σ → Int × AttrSet
  /-- The function `sys_fgetxattr(fd, name, val, size)`: the result, and the bytes
  placed in `val`; with `size = 0` the result is the length of the value. -/
  sys_fgetxattr : Int → List Nat → Nat → σ → Int × Bytes
  /-- The call `index->collection_list_partial(start, min, max, seq, &ls, next)`:
  the result and `ls`. -/
  collection_list_partial : coll_t → hobject_t → Nat → Nat → Nat → σ → Int × List hobject_t
  /-- The member `committing_seq` of the journaling base class, which `commit_start` sets. -/
  committing_seq : σ → Nat
  /-- The call `object_map->check(errstream)`. -/
  object_map_check : σ → Bool
  /-- The value the last `BTRFS_IOC_SNAP_CREATE_V2` left in `async_args.transid`. -/
  snap_transid : σ → Nat
  /-- The call `safe_read(fd, buf, count)` on a descriptor just opened, which
  reads from the start of the file: the result and the bytes placed in `buf`. -/
  safe_read : Int → Nat → σ → Int × Bytes
  /-- The call `::fstat(fd, &st)`: the result and `st.st_size`. -/
  sys_fstat : Int → σ → Int × Int
  /-- The function `sys_listxattr(fn, names, len)`: the result and the names
  placed in `names`, each a string before its terminating NUL; with `len = 0`
  the result is the length that the names need. -/
  sys_listxattr : IndexedPath → Nat → σ → Int × List (List Nat)
  /-- The call `ioctl(fd, FS_IOC_FIEMAP, fiemap)` with the members `fm_start`,
  `fm_length` and `fm_extent_count`: the result and the extents
  `fm_extents[0 .. fm_mapped_extents)`; with `fm_extent_count = 0` the kernel only
  counts them, and the list has this length. -/
  fs_ioc_fiemap : Int → Nat → Nat → Nat → σ → Int × List fiemap_extent
  /-- The value of `errno` as the last failed call left it. -/
  errno : σ → Int
  /-- Every state-changing call. -/
  mutate : Mut → σ → Int × σ

/-! ## The store object and the execution monad -/

/-- The store: its collaborators and the members of `FileStore` that the
modelled code only reads. -/
structure Store (σ : Type) extends Sys σ where
  replaying : Bool
  btrfs_stable_commits : Bool
  m_filestore_flush_min : Int
  m_filestore_flusher : Bool
  m_filestore_sync_flush : Bool
  btrfs : Bool := false
  btrfs_snap_create_v2 : Bool := false
  m_filestore_fsync_flushes_journal_data : Bool := false
  op_fd : Int := 0
  basedir_fd : Int := 0

/-- What the modelled code changes: the state of the collaborators, the record
of the calls that changed it, the failure injection counter and the completions. -/
structure World (σ : Type) where
  fs : σ
  /-- The state-changing calls made so far, oldest first. -/
  trace : List Mut
  m_filestore_kill_at : Int
  /-- Completions handed over so far: the context and the status passed with it
  (`none` when the caller passes no status). -/
  finished : List (Nat × Option Int)

/-- The ways the process stops: the failed assertions, `_exit(1)`, and a chunk
counter that leaves the range of `int`. The last ones are a division by zero,
the assertion of `translate_raw_name`, a read after the end of a string and a
write after the end of a buffer. -/
inductive Fatal
  | fsetxattr_failed
  | unexpected_error
  | bad_op
  | assert_replaying
  | assert_fd
  | killed
  | assert_raw_name
  | int_overflow
  | assert_write_op_seq
  | assert_omap_check
  | assert_snap_create
  | division_by_zero
  | assert_name_len
  | read_after_terminator
  | write_after_buffer
deriving DecidableEq, Repr

deriving instance DecidableEq for Except

/-- A computation of the store: from a world to a result, or a stop, and the
world left behind. -/
def M (σ : Type) (α : Type) : Type := World σ → Except Fatal α × World σ

instance (σ : Type) : Monad (M σ) where
  pure a := fun w => (Except.ok a, w)
  bind m f := fun w =>
    match m w with
    | (Except.ok a, w1) => f a w1
    | (Except.error e, w1) => (Except.error e, w1)

/-- Stop the process. -/
def die {σ α : Type} (e : Fatal) : M σ α := fun w => (Except.error e, w)

/-- A read-only call. -/
def ask {σ α : Type} (f : σ → α) : M σ α := fun w => (Except.ok (f w.fs), w)

/-- A state-changing call: perform it and record it. -/
def mutate {σ : Type} (sys : Sys σ) (c : Mut) : M σ Int := fun w =>
  (Except.ok (sys.mutate c w.fs).1, { w with fs := (sys.mutate c w.fs).2, trace := w.trace ++ [c] })

/-- Hand a completion to a finisher, with the status the caller passes. -/
def finish {σ : Type} (c : Nat) (r : Option Int) : M σ Unit := fun w =>
  (Except.ok (), { w with finished := w.finished ++ [(c, r)] })

/-! ## Failure injection and the replay guard -/

section Code

variable {σ : Type} (st : Store σ)

/-- The function `FileStore::_inject_failure`: count `m_filestore_kill_at` down and
exit when it reaches zero; nothing when it is zero already. -/
def _inject_failure : M σ Unit := fun w =>
  if w.m_filestore_kill_at ≠ 0 then
    let final := w.m_filestore_kill_at - 1
    if final = 0 then
      (Except.error Fatal.killed, { w with m_filestore_kill_at := final })
    else
      (Except.ok (), { w with m_filestore_kill_at := final })
  else
    (Except.ok (), w)

/-- The function `FileStore::_set_replay_guard(fd, spos, hoid, in_progress)`. -/
def _set_replay_guard (fd : Int) (spos : SequencerPosition) (hoid : Option hobject_t)
    (in_progress : Bool) : M σ Unit := do
  if st.btrfs_stable_commits then
    pure ()
  else do
    _inject_failure
    -- first make sure the previous operation commits
    let _ ← mutate st.toSys (Mut.sys_fsync fd)
    let _ ← mutate st.toSys (Mut.object_map_sync hoid spos)
    _inject_failure
    -- then record that we did it
    let r ← mutate st.toSys (Mut.do_fsetxattr_guard fd ⟨spos, some in_progress⟩)
    if r < 0 then
      die Fatal.fsetxattr_failed
    else do
      let _ ← mutate st.toSys (Mut.sys_fsync fd)
      _inject_failure

/-- Modelled from the spec: the default of the parameter `in_progress` of
`_set_replay_guard`, whose declaration is in `FileStore.h`. The guard records
"a flag set while the modification is in progress"; the calls that leave the
argument out are made after the work ("record our work"). -/
def _set_replay_guard_default_in_progress : Bool := false

/-- The function `FileStore::_close_replay_guard(fd, spos)`. -/
def _close_replay_guard (fd : Int) (spos : SequencerPosition) : M σ Unit := do
  if st.btrfs_stable_commits then
    pure ()
  else do
    _inject_failure
    let in_progress := false
    let r ← mutate st.toSys (Mut.do_fsetxattr_guard fd ⟨spos, some in_progress⟩)
    if r < 0 then
      die Fatal.fsetxattr_failed
    else do
      let _ ← mutate st.toSys (Mut.sys_fsync fd)
      _inject_failure

/-- The function `FileStore::_check_replay_guard(int fd, const SequencerPosition&)`:
`1` replay, `0` conditional replay, `-1` skip. -/
def _check_replay_guard (fd : Int) (spos : SequencerPosition) : M σ Int := do
  if !st.replaying || st.btrfs_stable_commits then
    pure 1
  else do
    let (r, v) ← ask (st.do_fgetxattr_guard fd)
    if r < 0 then
      pure 1   -- no xattr
    else
      let opos := v.opos
      -- older journals don't have the flag
      let in_progress := v.in_progress.getD false
      if opos > spos then
        pure (-1)
      else if opos = spos then
        if in_progress then pure 0 else pure (-1)
      else
        pure 1

/-! ## Indexed names -/

/-- Whether `::open` with these flags may change the file system. -/
def open_changes (flags : Nat) : Bool := flags &&& (O_CREAT ||| O_TRUNC) != 0

/-- The function `FileStore::lfn_open(cid, oid, flags, mode, path, index)`;
`have_index` says that the caller passes an index it already holds. -/
def lfn_open (cid : coll_t) (oid : hobject_t) (flags : Nat) (have_index : Bool) : M σ Int := do
  let r ← (if have_index then pure 0 else ask (st.get_index cid))
  if r < 0 then
    pure r
  else do
    let (r, path, exist) ← ask (st.index_lookup cid oid)
    if r < 0 then
      pure r
    else do
      let r ← (if open_changes flags then mutate st.toSys (Mut.sys_open path flags)
        else ask (st.open_ro path flags))
      if r < 0 then
        pure r
      else
        let fd := r
        if flags &&& O_CREAT != 0 && !exist then do
          let r ← mutate st.toSys (Mut.index_created cid oid path)
          if r < 0 then pure r else pure fd
        else
          pure fd

/-- The function `FileStore::lfn_find`: the result and, when it is `0`, the path. -/
def lfn_find (cid : coll_t) (oid : hobject_t) : M σ (Int × IndexedPath) := do
  let r ← ask (st.get_index cid)
  if r < 0 then
    pure (r, ⟨cid, 0⟩)
  else do
    let (r, path, exist) ← ask (st.index_lookup cid oid)
    if r < 0 then
      pure (r, path)
    else if !exist then
      pure (- ENOENT, path)
    else
      pure (0, path)

/-- The function `FileStore::lfn_truncate`. -/
def lfn_truncate (cid : coll_t) (oid : hobject_t) (length : Nat) : M σ Int := do
  let (r, path) ← lfn_find st cid oid
  if r < 0 then pure r else mutate st.toSys (Mut.sys_truncate path length)

/-- The function `FileStore::lfn_link(c, cid, o)`: link the file of `c/o` as `cid/o`. -/
def lfn_link (c cid : coll_t) (o : hobject_t) : M σ Int := do
  let r1 ← ask (st.get_index (if c < cid then cid else c))
  if r1 < 0 then
    pure r1
  else do
    let r2 ← ask (st.get_index (if c < cid then c else cid))
    if r2 < 0 then
      pure r2
    else do
      -- index_old is the index of c, index_new the index of cid
      let (r, path_old, exist) ← ask (st.index_lookup c o)
      if r < 0 then
        pure r
      else if !exist then
        pure (- ENOENT)
      else do
        let (r, path_new, exist) ← ask (st.index_lookup cid o)
        if r < 0 then
          pure r
        else if exist then
          pure (- EEXIST)
        else do
          let r ← mutate st.toSys (Mut.sys_link path_old path_new)
          if r < 0 then
            pure r
          else
            mutate st.toSys (Mut.index_created cid o path_new)

/-- The function `FileStore::lfn_unlink`. -/
def lfn_unlink (cid : coll_t) (o : hobject_t) (spos : SequencerPosition) : M σ Int := do
  let r ← ask (st.get_index cid)
  if r < 0 then
    pure r
  else do
    let (r, path, _) ← ask (st.index_lookup cid o)
    if r < 0 then
      pure r
    else do
      let (r, st_nlink) ← ask (st.sys_stat path)
      if r < 0 then
        pure r   -- -errno
      else if st_nlink = 1 then do
        let r ← mutate st.toSys (Mut.object_map_clear o spos)
        if r < 0 ∧ r ≠ - ENOENT then
          pure r
        else
          mutate st.toSys (Mut.index_unlink cid o)
      else do
        if !st.btrfs_stable_commits then do
          let _ ← mutate st.toSys (Mut.object_map_sync (some o) spos)
          mutate st.toSys (Mut.index_unlink cid o)
        else
          mutate st.toSys (Mut.index_unlink cid o)

/-- The function `_check_replay_guard(coll_t cid, hobject_t oid, const SequencerPosition&)`. -/
def _check_replay_guard_oid (cid : coll_t) (oid : hobject_t) (spos : SequencerPosition) :
    M σ Int := do
  if !st.replaying || st.btrfs_stable_commits then
    pure 1
  else do
    let fd ← lfn_open st cid oid 0 false
    if fd < 0 then
      pure 1  -- if file does not exist, there is no guard, and we can replay.
    else
      _check_replay_guard st fd spos

/-- The function `_check_replay_guard(coll_t cid, const SequencerPosition&)`. -/
def _check_replay_guard_cid (cid : coll_t) (spos : SequencerPosition) : M σ Int := do
  if !st.replaying || st.btrfs_stable_commits then
    pure 1
  else do
    let fd ← ask (st.open_cdir cid)
    if fd < 0 then
      pure 1  -- if collection does not exist, there is no guard, and we can replay.
    else
      _check_replay_guard st fd spos

/-! ## Object primitives -/

/-- The function `FileStore::_remove`. -/
def _remove (cid : coll_t) (oid : hobject_t) (spos : SequencerPosition) : M σ Int :=
  lfn_unlink st cid oid spos

/-- The function `FileStore::_truncate`. -/
def _truncate (cid : coll_t) (oid : hobject_t) (size : Nat) : M σ Int :=
  lfn_truncate st cid oid size

/-- The function `FileStore::_touch`. -/
def _touch (cid : coll_t) (oid : hobject_t) : M σ Int := do
  let flags := O_WRONLY ||| O_CREAT
  let fd ← lfn_open st cid oid flags false
  if fd ≥ 0 then pure 0 else pure fd

/-- The statements of `FileStore::_write` after the open, on the descriptor `fd`. -/
def _write_opened (fd : Int) (offset len : Nat) (bl : Bytes) : M σ Int := do
  -- seek
  let actual ← mutate st.toSys (Mut.sys_lseek64 fd offset)
  if actual < 0 then
    pure actual   -- -errno
  else if actual ≠ toInt64 offset then
    pure (- EIO)
  else do
    -- write
    let r ← mutate st.toSys (Mut.write_fd fd bl)
    let r := if r = 0 then toInt32 bl.length else r
    -- flush?
    if (len : Int) < st.m_filestore_flush_min || !st.m_filestore_flusher then do
      if st.m_filestore_sync_flush then do
        let _ ← mutate st.toSys (Mut.sync_file_range fd offset len)
        pure r
      else
        pure r
    else do
      let queued ← mutate st.toSys (Mut.queue_flusher fd offset len)
      if queued = 0 then
        if st.m_filestore_sync_flush then do
          let _ ← mutate st.toSys (Mut.sync_file_range fd offset len)
          pure r
        else
          pure r
      else
        pure r

/-- The function `FileStore::_write`. The buffer is written whole at `offset`;
`len` only drives the flush. -/
def _write (cid : coll_t) (oid : hobject_t) (offset len : Nat) (bl : Bytes) : M σ Int := do
  let flags := O_WRONLY ||| O_CREAT
  let fd ← lfn_open st cid oid flags false
  if fd < 0 then
    pure fd
  else
    _write_opened st fd offset len bl

/-- The function `FileStore::_zero`, with `fallocate` available. -/
def _zero (cid : coll_t) (oid : hobject_t) (offset len : Nat) : M σ Int := do
  -- first try to punch a hole.
  let fd ← lfn_open st cid oid O_RDONLY false
  if fd < 0 then do
    let e ← ask st.errno
    pure (-e)
  else do
    let ret ← mutate st.toSys (Mut.sys_fallocate_punch_hole fd offset len)
    if ret = 0 then
      pure ret
    else if ret ≠ - EOPNOTSUPP then
      pure ret
    else
      -- write zeros
      _write st cid oid offset len (List.replicate len 0)

/-- The function `FileStore::read`: the result and the bytes appended to `bl`. -/
def read (cid : coll_t) (oid : hobject_t) (offset len : Nat) : M σ (Int × Bytes) := do
  let fd ← lfn_open st cid oid O_RDONLY false
  if fd < 0 then
    pure (fd, [])
  else do
    let len ← (if len = 0 then ask (st.fstat_size fd) else pure len)
    let (n, buf) ← ask (st.safe_pread fd len offset)
    let got := toInt32 n
    if got < 0 then
      pure (got, [])
    else
      pure (got, buf.take got.toNat)

/-- The statements of `FileStore::_clone` after the guard check. -/
def _clone_apply (cid : coll_t) (oldoid newoid : hobject_t) (spos : SequencerPosition) :
    M σ Int := do
  let o ← lfn_open st cid oldoid O_RDONLY false
  if o < 0 then
    pure o
  else do
    let n ← lfn_open st cid newoid (O_CREAT ||| O_TRUNC ||| O_WRONLY) true
    if n < 0 then
      pure n
    else do
      let st_size ← ask (st.fstat_size o)
      let r ← mutate st.toSys (Mut._do_clone_range o n 0 st_size 0)
      if r < 0 then do
        let e ← ask st.errno
        pure (-e)
      else do
        let r ← mutate st.toSys (Mut.object_map_clone oldoid newoid spos)
        if r < 0 ∧ r ≠ - ENOENT then
          pure r
        else do
          let (r, aset) ← ask (st._getattrs cid oldoid)
          if r < 0 then
            pure r
          else do
            let r ← mutate st.toSys (Mut._setattrs cid newoid aset spos)
            if r < 0 then
              pure r
            else do
              -- clone is non-idempotent; record our work.
              _set_replay_guard st n spos (some newoid) _set_replay_guard_default_in_progress
              pure r

/-- The function `FileStore::_clone`. -/
def _clone (cid : coll_t) (oldoid newoid : hobject_t) (spos : SequencerPosition) : M σ Int := do
  let c ← _check_replay_guard_oid st cid newoid spos
  if c < 0 then
    pure 0
  else
    _clone_apply st cid oldoid newoid spos

/-- The statements of `FileStore::_clone_range` after the guard check. -/
def _clone_range_apply (cid : coll_t) (oldoid newoid : hobject_t) (srcoff len dstoff : Nat)
    (spos : SequencerPosition) : M σ Int := do
  let o ← lfn_open st cid oldoid O_RDONLY false
  if o < 0 then
    pure o
  else do
    let n ← lfn_open st cid newoid (O_CREAT ||| O_WRONLY) false
    if n < 0 then
      pure n
    else do
      let r ← mutate st.toSys (Mut._do_clone_range o n srcoff len dstoff)
      -- clone is non-idempotent; record our work.
      _set_replay_guard st n spos (some newoid) _set_replay_guard_default_in_progress
      pure r

/-- The function `FileStore::_clone_range`. -/
def _clone_range (cid : coll_t) (oldoid newoid : hobject_t) (srcoff len dstoff : Nat)
    (spos : SequencerPosition) : M σ Int := do
  let c ← _check_replay_guard_oid st cid newoid spos
  if c < 0 then
    pure 0
  else
    _clone_range_apply st cid oldoid newoid srcoff len dstoff spos

/-! ## Collection primitives -/

/-- The function `FileStore::_create_collection`. -/
def _create_collection (c : coll_t) : M σ Int := do
  let r ← mutate st.toSys (Mut.sys_mkdir c)
  if r < 0 then pure r else mutate st.toSys (Mut.init_index c)

/-- The function `FileStore::_destroy_collection`. -/
def _destroy_collection (c : coll_t) : M σ Int :=
  mutate st.toSys (Mut.sys_rmdir c)

/-- The statements of `FileStore::_collection_rename` after the guard check. -/
def _collection_rename_apply (cid ncid : coll_t) (spos : SequencerPosition) : M σ Int := do
  let r ← mutate st.toSys (Mut.sys_rename cid ncid)
  let ret : Int :=
    if r ≠ 0 then
      if st.replaying && !st.btrfs_stable_commits && (-r = EEXIST || -r = ENOTEMPTY) then
        0   -- crashed between rename and set_replay_guard
      else
        r
    else 0
  if ret ≥ 0 then do
    let fd ← ask (st.open_cdir ncid)
    if fd < 0 then
      die Fatal.assert_fd
    else do
      _set_replay_guard st fd spos none _set_replay_guard_default_in_progress
      pure ret
  else
    pure ret

/-- The function `FileStore::_collection_rename`. -/
def _collection_rename (cid ncid : coll_t) (spos : SequencerPosition) : M σ Int := do
  let c ← _check_replay_guard_cid st ncid spos
  if c < 0 then
    pure 0
  else
    _collection_rename_apply st cid ncid spos

/-- The statements of `FileStore::_collection_add` after the two guard checks,
`dstcmp` being the result of the check on the destination. -/
def _collection_add_apply (c oldcid : coll_t) (o : hobject_t) (spos : SequencerPosition)
    (dstcmp : Int) : M σ Int := do
  -- open guard on object
  let fd ← lfn_open st oldcid o 0 false
  if fd < 0 then
    -- the source collection/object does not exist
    if st.replaying then pure 0 else die Fatal.assert_replaying
  else do
    -- if dstcmp == 0 the guard already says "in-progress"
    (if dstcmp > 0 then _set_replay_guard st fd spos (some o) true else pure ())
    let r ← lfn_link st oldcid c o
    -- crashed between link() and set_replay_guard()
    let r := if st.replaying && !st.btrfs_stable_commits && r = - EEXIST then 0 else r
    _inject_failure
    -- close guard on object so we don't do this again
    if r = 0 then do
      _close_replay_guard st fd spos
      pure r
    else
      pure r

/-- The statements of `FileStore::_collection_add` after the guard check on the
destination, which gave `dstcmp ≥ 0`. -/
def _collection_add_checked (c oldcid : coll_t) (o : hobject_t) (spos : SequencerPosition)
    (dstcmp : Int) : M σ Int := do
  -- check the src name too; it might have a newer guard, and we don't
  -- want to clobber it
  let srccmp ← _check_replay_guard_oid st oldcid o spos
  if srccmp < 0 then
    pure 0
  else
    _collection_add_apply st c oldcid o spos dstcmp

/-- The function `FileStore::_collection_add(c, oldcid, o, spos)`. -/
def _collection_add (c oldcid : coll_t) (o : hobject_t) (spos : SequencerPosition) : M σ Int := do
  let dstcmp ← _check_replay_guard_oid st c o spos
  if dstcmp < 0 then
    pure 0
  else
    _collection_add_checked st c oldcid o spos dstcmp

/-! ## Object map primitives -/

/-- The function `FileStore::_omap_clear`. -/
def _omap_clear (cid : coll_t) (hoid : hobject_t) (spos : SequencerPosition) : M σ Int := do
  let (r, _) ← lfn_find st cid hoid
  if r < 0 then
    pure r
  else do
    let r ← mutate st.toSys (Mut.object_map_clear hoid spos)
    if r < 0 ∧ r ≠ - ENOENT then pure r else pure 0

/-- The function `FileStore::_omap_setkeys`. -/
def _omap_setkeys (cid : coll_t) (hoid : hobject_t) (aset : AttrSet) (spos : SequencerPosition) :
    M σ Int := do
  let (r, _) ← lfn_find st cid hoid
  if r < 0 then pure r else mutate st.toSys (Mut.object_map_set_keys hoid aset spos)

/-- The function `FileStore::_omap_rmkeys`. -/
def _omap_rmkeys (cid : coll_t) (hoid : hobject_t) (keys : List (List Nat))
    (spos : SequencerPosition) : M σ Int := do
  let (r, _) ← lfn_find st cid hoid
  if r < 0 then
    pure r
  else do
    let r ← mutate st.toSys (Mut.object_map_rm_keys hoid keys spos)
    if r < 0 ∧ r ≠ - ENOENT then pure r else pure 0

/-- The function `FileStore::_omap_setheader`. -/
def _omap_setheader (cid : coll_t) (hoid : hobject_t) (bl : Bytes) (spos : SequencerPosition) :
    M σ Int := do
  let (r, _) ← lfn_find st cid hoid
  if r < 0 then pure r else mutate st.toSys (Mut.object_map_set_header hoid bl spos)

/-! ## The transaction interpreter -/

/-- The `switch (op)` of `FileStore::_do_transaction`: the value of `r` after it. -/
def _do_transaction_switch (op : TransactionOp) (spos : SequencerPosition) : M σ Int :=
  match op with
  | .OP_NOP => pure 0
  | .OP_TOUCH cid oid => do
      let c ← _check_replay_guard_oid st cid oid spos
      if c > 0 then _touch st cid oid else pure 0
  | .OP_WRITE cid oid off len bl => do
      let c ← _check_replay_guard_oid st cid oid spos
      if c > 0 then _write st cid oid off len bl else pure 0
  | .OP_ZERO cid oid off len => do
      let c ← _check_replay_guard_oid st cid oid spos
      if c > 0 then _zero st cid oid off len else pure 0
  | .OP_TRIMCACHE _ _ _ _ => pure 0   -- deprecated, no-op
  | .OP_TRUNCATE cid oid off => do
      let c ← _check_replay_guard_oid st cid oid spos
      if c > 0 then _truncate st cid oid off else pure 0
  | .OP_REMOVE cid oid => do
      let c ← _check_replay_guard_oid st cid oid spos
      if c > 0 then _remove st cid oid spos else pure 0
  | .OP_SETATTR cid oid name bl => do
      let c ← _check_replay_guard_oid st cid oid spos
      if c > 0 then mutate st.toSys (Mut._setattrs cid oid [(name, bl)] spos) else pure 0
  | .OP_SETATTRS cid oid aset => do
      let c ← _check_replay_guard_oid st cid oid spos
      if c > 0 then mutate st.toSys (Mut._setattrs cid oid aset spos) else pure 0
  | .OP_RMATTR cid oid name => do
      let c ← _check_replay_guard_oid st cid oid spos
      if c > 0 then mutate st.toSys (Mut._rmattr cid oid name spos) else pure 0
  | .OP_RMATTRS cid oid => do
      let c ← _check_replay_guard_oid st cid oid spos
      if c > 0 then mutate st.toSys (Mut._rmattrs cid oid spos) else pure 0
  | .OP_CLONE cid oid noid => _clone st cid oid noid spos
  | .OP_CLONERANGE cid oid noid off len => _clone_range st cid oid noid off len off spos
  | .OP_CLONERANGE2 cid oid noid srcoff len dstoff =>
      _clone_range st cid oid noid srcoff len dstoff spos
  | .OP_MKCOLL cid => do
      let c ← _check_replay_guard_cid st cid spos
      if c > 0 then _create_collection st cid else pure 0
  | .OP_RMCOLL cid => do
      let c ← _check_replay_guard_cid st cid spos
      if c > 0 then _destroy_collection st cid else pure 0
  | .OP_COLL_ADD ncid ocid oid => _collection_add st ncid ocid oid spos
  | .OP_COLL_REMOVE cid oid => do
      let c ← _check_replay_guard_oid st cid oid spos
      if c > 0 then _remove st cid oid spos else pure 0
  | .OP_COLL_MOVE ocid ncid oid => do
      -- WARNING: this is deprecated and buggy; only here to replay old journals.
      let r ← _collection_add st ocid ncid oid spos
      if r = 0 then do
        let c ← _check_replay_guard_oid st ocid oid spos
        if c > 0 then _remove st ocid oid spos else pure r
      else
        pure r
  | .OP_COLL_SETATTR cid name bl => do
      let c ← _check_replay_guard_cid st cid spos
      if c > 0 then mutate st.toSys (Mut._collection_setattr cid name bl) else pure 0
  | .OP_COLL_RMATTR cid name => do
      let c ← _check_replay_guard_cid st cid spos
      if c > 0 then mutate st.toSys (Mut._collection_rmattr cid name) else pure 0
  | .OP_STARTSYNC => do
      let _ ← mutate st.toSys Mut._start_sync
      pure 0
  | .OP_COLL_RENAME cid ncid => _collection_rename st cid ncid spos
  | .OP_OMAP_CLEAR cid oid => _omap_clear st cid oid spos
  | .OP_OMAP_SETKEYS cid oid aset => _omap_setkeys st cid oid aset spos
  | .OP_OMAP_RMKEYS cid oid keys => _omap_rmkeys st cid oid keys spos
  | .OP_OMAP_SETHEADER cid oid bl => _omap_setheader st cid oid bl spos
  | .OP_UNKNOWN => die Fatal.bad_op

/-- The value of `ok` in the error policy of `FileStore::_do_transaction`, for a
result `r < 0` of opcode `op`. -/
def _do_transaction_ok (replaying btrfs_stable_commits : Bool) (op : OpCode) (r : Int) : Bool :=
  let ok := false
  -- -ENOENT is normally okay
  let ok := if r = - ENOENT ∧ ¬ (op = .OP_CLONERANGE ∨ op = .OP_CLONE ∨ op = .OP_CLONERANGE2)
    then true else ok
  let ok := if r = - ENODATA then true else ok
  if replaying && !btrfs_stable_commits then
    let ok := if r = - EEXIST ∧ op = .OP_MKCOLL then true else ok
    let ok := if r = - EEXIST ∧ op = .OP_COLL_ADD then true else ok
    let ok := if r = - EEXIST ∧ op = .OP_COLL_MOVE then true else ok
    let ok := if r = - ERANGE then true else ok
    let ok := if r = - ENOENT then true else ok
    ok
  else
    ok

/-- The `while (i.have_op())` loop of `FileStore::_do_transaction` over the
opcodes still to apply, the first of them at position `spos`. -/
def _do_transaction_loop : List TransactionOp → SequencerPosition → M σ Unit
  | [], _ => pure ()
  | op :: rest, spos => do
      _inject_failure
      let r ← _do_transaction_switch st op spos
      if r < 0 ∧ _do_transaction_ok st.replaying st.btrfs_stable_commits op.get_op r = false then
        die Fatal.unexpected_error
      else
        _do_transaction_loop rest { spos with op := spos.op + 1 }

/-- The function `FileStore::_do_transaction`. -/
def _do_transaction (t : Transaction) (op_seq : Nat) (trans_num : Nat) : M σ Int := do
  _do_transaction_loop st t ⟨op_seq, trans_num, 0⟩
  _inject_failure
  pure 0  -- FIXME count errors

/-- The second `for` loop of `FileStore::do_transactions`: `r` is the result of
the transaction before, `trans_num` the number of the next one. -/
def do_transactions_loop (op_seq : Nat) : List Transaction → Nat → Int → M σ Int
  | [], _, r => pure r
  | t :: tls, trans_num, _ => do
      let r ← _do_transaction st t op_seq trans_num
      if r < 0 then pure r else do_transactions_loop op_seq tls (trans_num + 1) r

/-- The function `FileStore::do_transactions`. -/
def do_transactions (tls : List Transaction) (op_seq : Nat) : M σ Int :=
  do_transactions_loop st op_seq tls 0 0

/-! ## The apply path of a queued op -/

/-- The function `FileStore::_do_op` on the op at the head of the sequencer's
queue: the value of `r` it logs. -/
def _do_op (o : Op) : M σ Int :=
  do_transactions st o.tls o.op

/-- The function `FileStore::_finish_op` on the op it dequeues. -/
def _finish_op (o : Op) : M σ Unit := do
  match o.onreadable_sync with
  | some c => finish c (some 0)
  | none => pure ()
  match o.onreadable with
  | some c => finish c none
  | none => pure ()

/-! ## Chunked extended attributes -/

/-- The `while (*name)` loop of `get_raw_xattr_name`, from position `pos`: the
characters written to `raw_name` and the position reached, or `none` when one of
the assertions `pos < raw_len - 1` fails. The name is the string before its
terminating NUL; `64` is `@`. -/
def get_raw_xattr_name_loop (raw_len : Int) : List Nat → Int → Option (List Nat × Int)
  | [], pos => some ([], pos)
  | c :: name, pos =>
    if c = 64 then
      if pos + 2 < raw_len - 1 then
        (get_raw_xattr_name_loop raw_len name (pos + 2)).map (fun p => (64 :: 64 :: p.1, p.2))
      else none
    else
      if pos + 1 < raw_len - 1 then
        (get_raw_xattr_name_loop raw_len name (pos + 1)).map (fun p => (c :: p.1, p.2))
      else none

/-- The function `get_raw_xattr_name(name, i, raw_name, raw_len)`: the string
left in `raw_name`, or `none` when an assertion fails. -/
def get_raw_xattr_name (name : List Nat) (i : Nat) (raw_len : Int) : Option (List Nat) :=
  match get_raw_xattr_name_loop raw_len name 0 with
  | none => none
  | some (raw_name, pos) =>
    if i = 0 then some raw_name
    else if ((64 :: decimal i).length : Int) < raw_len - pos then some (raw_name ++ 64 :: decimal i)
    else none

/-- The call `get_raw_xattr_name(name, i, raw_name, sizeof(raw_name))` on a buffer
`char raw_name[ATTR_MAX_NAME_LEN * 2 + 16]`; a failed assertion stops the process. -/
def raw_xattr_name (name : List Nat) (i : Nat) : M σ (List Nat) :=
  match get_raw_xattr_name name i (ATTR_MAX_NAME_LEN * 2 + 16) with
  | some raw_name => pure raw_name
  | none => die Fatal.assert_raw_name

/-- The loop of `do_removexattr` from chunk `i` on. The first argument is the
number of values the counter `int i` can still take. -/
def do_removexattr_loop (fn : IndexedPath) (name : List Nat) : Nat → Nat → M σ Int
  | 0, _ => die Fatal.int_overflow
  | fuel + 1, i => do
    let raw_name ← raw_xattr_name name i
    let r ← mutate st.toSys (Mut.sys_removexattr fn raw_name)
    if i = 0 ∧ r < 0 then pure r
    else if r ≥ 0 then do_removexattr_loop fn name fuel (i + 1)
    else pure 0

/-- The function `do_removexattr(fn, name)`. -/
def do_removexattr (fn : IndexedPath) (name : List Nat) : M σ Int :=
  do_removexattr_loop st fn name 2147483648 0

/-- The loop of `do_setxattr` with `size` bytes left to write from `val + pos`:
`ret`, `chunk_size` and `i` when the loop is left. The first argument bounds the
iterations; `size + 1` is enough. -/
def do_setxattr_loop (fn : IndexedPath) (name : List Nat) (val : Bytes) :
    Nat → Nat → Nat → Nat → M σ (Int × Nat × Nat)
  | 0, _, i, _ => pure (0, 0, i)
  | fuel + 1, size, i, pos => do
    let chunk_size := if size < ATTR_MAX_BLOCK_LEN then size else ATTR_MAX_BLOCK_LEN
    let raw_name ← raw_xattr_name name i
    let r ← mutate st.toSys (Mut.sys_setxattr fn raw_name ((val.drop pos).take chunk_size))
    if r < 0 then pure (r, chunk_size, i)
    else if size - chunk_size ≠ 0 then
      do_setxattr_loop fn name val fuel (size - chunk_size) (i + 1) (pos + chunk_size)
    else pure (toInt32 (pos + chunk_size), chunk_size, i + 1)

/-- The function `do_setxattr(fn, name, val, size)` with `size` the length of `val`. -/
def do_setxattr (fn : IndexedPath) (name : List Nat) (val : Bytes) : M σ Int := do
  let (ret, chunk_size, i) ← do_setxattr_loop st fn name val (val.length + 1) val.length 0 0
  if ret ≥ 0 ∧ chunk_size = ATTR_MAX_BLOCK_LEN then do
    let raw_name ← raw_xattr_name name i
    let _ ← do_removexattr st fn raw_name
    pure ret
  else pure ret

/-- The loop of `do_fgetxattr_len` from chunk `i` on, with `total` so far. -/
def do_fgetxattr_len_loop (fd : Int) (name : List Nat) : Nat → Nat → Int → M σ Int
  | 0, _, _ => die Fatal.int_overflow
  | fuel + 1, i, total => do
    let raw_name ← raw_xattr_name name i
    let r ← ask (fun s => (st.sys_fgetxattr fd raw_name 0 s).1)
    if i = 0 ∧ r < 0 then pure r
    else if r < 0 then pure total
    else if r = ATTR_MAX_BLOCK_LEN then do_fgetxattr_len_loop fd name fuel (i + 1) (toInt32 (total + r))
    else pure (toInt32 (total + r))

/-- The function `do_fgetxattr_len(fd, name)`. -/
def do_fgetxattr_len (fd : Int) (name : List Nat) : M σ Int :=
  do_fgetxattr_len_loop st fd name 2147483648 0 0

/-- The loop of `do_fgetxattr` with `size` bytes of buffer left at `val + pos`:
`r`, `chunk_size`, `i`, `pos` and the bytes placed in `val` when the loop is
left. The first argument bounds the iterations; `size + 1` is enough. -/
def do_fgetxattr_loop (fd : Int) (name : List Nat) :
    Nat → Nat → Nat → Nat → Bytes → M σ (Int × Nat × Nat × Nat × Bytes)
  | 0, _, i, pos, val => pure (0, 0, i, pos, val)
  | fuel + 1, size, i, pos, val => do
    let chunk_size := if size < ATTR_MAX_BLOCK_LEN then size else ATTR_MAX_BLOCK_LEN
    let raw_name ← raw_xattr_name name i
    let (r, got) ← ask (st.sys_fgetxattr fd raw_name chunk_size)
    if r < 0 then pure (r, chunk_size, i, pos, val)
    else if size - chunk_size ≠ 0 ∧ r = ATTR_MAX_BLOCK_LEN then
      do_fgetxattr_loop fd name fuel (size - chunk_size) (i + 1) (pos + r.toNat) (val ++ got)
    else pure (r, chunk_size, i + 1, pos + r.toNat, val ++ got)

/-- The function `do_fgetxattr(fd, name, val, size)`: the result and the bytes
placed in `val`. -/
def do_fgetxattr (fd : Int) (name : List Nat) (size : Nat) : M σ (Int × Bytes) := do
  if size = 0 then do
    let r ← do_fgetxattr_len st fd name
    pure (r, [])
  else do
    let (r, chunk_size, i, pos, val) ← do_fgetxattr_loop st fd name (size + 1) size 0 0 []
    if r ≥ 0 then
      if chunk_size = ATTR_MAX_BLOCK_LEN then do
        let raw_name ← raw_xattr_name name i
        let r ← ask (fun s => (st.sys_fgetxattr fd raw_name 0 s).1)
        if r > 0 then pure (- ERANGE, val) else pure (toInt32 pos, val)
      else pure (toInt32 pos, val)
    else pure (r, val)

/-- The function `do_getxattr(fn, name, val, size)`. -/
def do_getxattr (fn : IndexedPath) (name : List Nat) (size : Nat) : M σ (Int × Bytes) := do
  let fd ← ask (st.open_ro fn O_RDONLY)
  if fd < 0 then pure (fd, []) else do_fgetxattr st fd name size

/-- The function `get_attrname(name, buf, len)`: `snprintf` of `user.ceph.%s`
into `len` bytes, the last of them the terminating NUL. -/
def get_attrname (name : List Nat) (len : Nat) : List Nat := (user_ceph ++ name).take (len - 1)

/-- The function `FileStore::lfn_setxattr`. -/
def lfn_setxattr (cid : coll_t) (oid : hobject_t) (name : List Nat) (val : Bytes) : M σ Int := do
  let (r, path) ← lfn_find st cid oid
  if r < 0 then pure r else do_setxattr st path name val

/-- The function `FileStore::lfn_removexattr`. -/
def lfn_removexattr (cid : coll_t) (oid : hobject_t) (name : List Nat) : M σ Int := do
  let (r, path) ← lfn_find st cid oid
  if r < 0 then pure r else do_removexattr st path name

/-- The function `FileStore::lfn_getxattr`. -/
def lfn_getxattr (cid : coll_t) (oid : hobject_t) (name : List Nat) (size : Nat) :
    M σ (Int × Bytes) := do
  let (r, path) ← lfn_find st cid oid
  if r < 0 then pure (r, []) else do_getxattr st path name size

/-! ## Object attributes -/

/-- The test `m.count(k)` on a map kept as a list of its entries. -/
def map_count (m : AttrSet) (k : List Nat) : Bool := m.any (fun p => p.1 == k)

/-- The call `m.erase(k)`. -/
def map_erase (m : AttrSet) (k : List Nat) : AttrSet := m.filter (fun p => p.1 != k)

/-- The call `m.insert(p)`, which leaves an entry already there as it is. -/
def map_insert (m : AttrSet) (p : List Nat × Bytes) : AttrSet :=
  if map_count m p.1 then m else m ++ [p]

/-- The statement `omap_set[k].push_back(v)`. -/
def omap_push_back (m : AttrSet) (k : List Nat) (v : Bytes) : AttrSet :=
  if map_count m k then m.map (fun p => if p.1 = k then (p.1, p.2 ++ v) else p)
  else m ++ [(k, v)]

/-- The call `s.insert(k)` on a `set<string>`. -/
def set_insert (s : List (List Nat)) (k : List Nat) : List (List Nat) :=
  if s.contains k then s else s ++ [k]

/-- The options of `g_conf` that `_setattrs` reads. -/
structure md_config_t where
  filestore_xattr_use_omap : Bool
  filestore_max_inline_xattr_size : Nat
  filestore_max_inline_xattrs : Nat

/-- The local variables of `_setattrs` that live across its loop. -/
structure SetattrsLocals where
  omap_set : AttrSet
  omap_remove : List (List Nat)
  inline_set : AttrSet
  r : Int
deriving DecidableEq, Repr

/-- The block of the loop of `_setattrs` that sends the value of `p` to the
object map (it stands twice in the loop): `Except.error r` is `return r`,
`Except.ok` the locals at `continue`. -/
def _setattrs_to_omap (cid : coll_t) (oid : hobject_t) (n : List Nat) (p : List Nat × Bytes)
    (l : SetattrsLocals) : M σ (Except Int SetattrsLocals) :=
  if map_count l.inline_set p.1 then
    lfn_removexattr st cid oid n >>= fun r =>
      if r < 0 then pure (Except.error r)
      else pure (Except.ok { l with inline_set := map_erase l.inline_set p.1, r := r,
                                    omap_set := omap_push_back l.omap_set p.1 p.2 })
  else pure (Except.ok { l with omap_set := omap_push_back l.omap_set p.1 p.2 })

/-- The loop of `_setattrs` over the entries of `aset` still to do:
`Except.error r` is `return r` inside the loop, `Except.ok` the locals when the
loop is left, at its end or by `break`. -/
def _setattrs_loop (g_conf : md_config_t) (cid : coll_t) (oid : hobject_t) :
    AttrSet → SetattrsLocals → M σ (Except Int SetattrsLocals)
  | [], l => pure (Except.ok l)
  | p :: rest, l =>
    if g_conf.filestore_xattr_use_omap ∧
        p.2.length > g_conf.filestore_max_inline_xattr_size then
      _setattrs_to_omap st cid oid (get_attrname p.1 ATTR_MAX_NAME_LEN) p l >>= fun out =>
        match out with
        | Except.error r => pure (Except.error r)
        | Except.ok l1 => _setattrs_loop g_conf cid oid rest l1
    else if g_conf.filestore_xattr_use_omap ∧ (map_count l.inline_set p.1 = false ∧
        l.inline_set.length ≥ g_conf.filestore_max_inline_xattrs) then
      _setattrs_to_omap st cid oid (get_attrname p.1 ATTR_MAX_NAME_LEN) p l >>= fun out =>
        match out with
        | Except.error r => pure (Except.error r)
        | Except.ok l1 => _setattrs_loop g_conf cid oid rest l1
    else
      lfn_setxattr st cid oid (get_attrname p.1 ATTR_MAX_NAME_LEN) p.2 >>= fun r =>
        if r < 0 then
          pure (Except.ok
            (if g_conf.filestore_xattr_use_omap then
              { l with omap_remove := set_insert l.omap_remove p.1,
                       inline_set := map_insert l.inline_set p, r := r }
            else { l with r := r }))
        else
          _setattrs_loop g_conf cid oid rest
            (if g_conf.filestore_xattr_use_omap then
              { l with omap_remove := set_insert l.omap_remove p.1,
                       inline_set := map_insert l.inline_set p, r := r }
            else { l with r := r })

/-- The block of `_setattrs` after the loop, which has an `r` of its own: the
result of `_setattrs`. -/
def _setattrs_omap (g_conf : md_config_t) (cid : coll_t) (oid : hobject_t)
    (spos : SequencerPosition) (l : SetattrsLocals) : M σ Int :=
  if g_conf.filestore_xattr_use_omap then
    ask (st.get_index cid) >>= fun r =>
      if r < 0 then pure r
      else
        mutate st.toSys (Mut.object_map_remove_xattrs oid l.omap_remove spos) >>= fun r =>
          if r < 0 ∧ r ≠ - ENOENT then pure r
          else
            mutate st.toSys (Mut.object_map_set_xattrs oid l.omap_set spos) >>= fun r =>
              if r < 0 then pure r else pure l.r
  else pure l.r

/-- The function `FileStore::_setattrs(cid, oid, aset, spos)`; `aset` lists the
entries of the map in the order of its iterator. -/
def _setattrs (g_conf : md_config_t) (cid : coll_t) (oid : hobject_t) (aset : AttrSet)
    (spos : SequencerPosition) : M σ Int :=
  (if g_conf.filestore_xattr_use_omap then ask (fun s => (st._getattrs cid oid s).2)
    else pure []) >>= fun inline_set =>
    _setattrs_loop st g_conf cid oid aset ⟨[], [], inline_set, 0⟩ >>= fun out =>
      match out with
      | Except.error r => pure r
      | Except.ok l => _setattrs_omap st g_conf cid oid spos l

/-! ## Collections -/

/-- The function `FileStore::collection_empty(c)`; it only reads. The start of
the listing, `hobject_t()`, is the object `0`. -/
def collection_empty (c : coll_t) (s : σ) : Bool :=
  if st.get_index c s < 0 then false
  else if (st.collection_list_partial c 0 1 1 0 s).1 < 0 then false
  else (st.collection_list_partial c 0 1 1 0 s).2.length > 0

/-! ## The commit cycle -/

/-- The characters `snprintf` prints for `%lld` (`PRId64`) of a 64-bit value: it
is read as signed. -/
def PRId64 (n : Nat) : List Nat :=
  if n % 18446744073709551616 < 9223372036854775808 then decimal (n % 18446744073709551616)
  else 45 :: decimal (18446744073709551616 - n % 18446744073709551616)

/-- The function `FileStore::write_op_seq(fd, seq)`. -/
def write_op_seq (fd : Int) (seq : Nat) : M σ Int :=
  mutate st.toSys (Mut.sys_pwrite fd (PRId64 seq ++ [10]) 0)

/-- The loop `while (snaps.size() > 2)` of `sync_entry`: the snapshots left. -/
def sync_entry_remove_snaps : List Nat → M σ (List Nat)
  | a :: b :: c :: rest =>
    mutate st.toSys (Mut.btrfs_ioc_snap_destroy (COMMIT_SNAP_ITEM ++ PRId64 a)) >>= fun _ =>
      sync_entry_remove_snaps (b :: c :: rest)
  | snaps => pure snaps

/-- The durability step of `sync_entry`, between the check of the object map and
the statistics, for the sequence number `cp`: the member `snaps` after it. -/
def sync_entry_durability (cp : Nat) (snaps : List Nat) : M σ (List Nat) :=
  if st.btrfs_stable_commits then
    if st.btrfs_snap_create_v2 then
      mutate st.toSys (Mut.btrfs_ioc_snap_create_v2 (COMMIT_SNAP_ITEM ++ PRId64 cp)) >>= fun r =>
        if r < 0 then die Fatal.assert_snap_create
        else
          mutate st.toSys Mut.commit_started >>= fun _ =>
          ask st.snap_transid >>= fun transid =>
          mutate st.toSys (Mut.btrfs_ioc_wait_sync transid) >>= fun _ =>
          pure (snaps ++ [cp])
    else
      mutate st.toSys (Mut.btrfs_ioc_snap_create (COMMIT_SNAP_ITEM ++ PRId64 cp)) >>= fun r =>
        if r ≠ 0 then die Fatal.assert_snap_create
        else mutate st.toSys Mut.commit_started >>= fun _ => pure (snaps ++ [cp])
  else
    mutate st.toSys Mut.commit_started >>= fun _ =>
    (if st.btrfs then mutate st.toSys Mut.btrfs_ioc_sync
      else if st.m_filestore_fsync_flushes_journal_data then mutate st.toSys (Mut.sys_fsync st.op_fd)
      else mutate st.toSys (Mut.sync_filesystem st.basedir_fd)) >>= fun _ =>
    pure snaps

/-- One commit cycle of `FileStore::sync_entry`: the statement
`if (commit_start()) { ... }`, with the member `snaps` before and after. The
watchdog timer, the counters and `sync_epoch` are left out;
`filestore_debug_omap_check` is the option of `g_conf`. -/
def sync_entry_commit (filestore_debug_omap_check : Bool) (snaps : List Nat) : M σ (List Nat) :=
  mutate st.toSys Mut.commit_start >>= fun started =>
    if started = 0 then pure snaps
    else
      ask st.committing_seq >>= fun cp =>
      write_op_seq st st.op_fd cp >>= fun err =>
      if err < 0 then die Fatal.assert_write_op_seq
      else
        ask st.object_map_check >>= fun ok =>
        if filestore_debug_omap_check ∧ ok = false then die Fatal.assert_omap_check
        else
          sync_entry_durability st cp snaps >>= fun snaps =>
          mutate st.toSys Mut.commit_finish >>= fun _ =>
          if st.btrfs_stable_commits then sync_entry_remove_snaps st snaps else pure snaps

end Code

/-! ## The op queue throttle -/

/-- Conversion to `uint64_t`. -/
def toUInt64 (n : Int) : Nat := (n % 18446744073709551616).toNat

/-- The members of `FileStore` that hold the limits of the op queue. They are
declared outside `FileStore.cc`; the throttle converts them to `uint64_t`. -/
structure ThrottleLimits where
  m_filestore_queue_max_ops : Int
  m_filestore_queue_max_bytes : Int
  m_filestore_queue_committing_max_ops : Int
  m_filestore_queue_committing_max_bytes : Int

/-- The members `op_queue_len` and `op_queue_bytes`, as values of `uint64_t`. -/
structure OpQueueCounts where
  op_queue_len : Nat
  op_queue_bytes : Nat
deriving DecidableEq, Repr

/-- The locals `max_ops` and `max_bytes` of `_op_queue_reserve_throttle` when
its loop begins. -/
def _op_queue_reserve_throttle_max (m : ThrottleLimits) (is_committing : Bool) : Nat × Nat :=
  if is_committing then
    (toUInt64 (toUInt64 m.m_filestore_queue_max_ops + m.m_filestore_queue_committing_max_ops),
      toUInt64 (toUInt64 m.m_filestore_queue_max_bytes + m.m_filestore_queue_committing_max_bytes))
  else (toUInt64 m.m_filestore_queue_max_ops, toUInt64 m.m_filestore_queue_max_bytes)

/-- The condition of the `while` loop of `_op_queue_reserve_throttle` for an op
of `bytes` bytes: the caller waits on `op_throttle_cond`. -/
def _op_queue_reserve_throttle_wait (max_ops max_bytes : Nat) (q : OpQueueCounts) (bytes : Nat) :
    Bool :=
  (max_ops ≠ 0 ∧ toUInt64 (q.op_queue_len + 1) > max_ops) ∨
  (max_bytes ≠ 0 ∧ q.op_queue_bytes ≠ 0 ∧ toUInt64 (q.op_queue_bytes + bytes) > max_bytes)

/-- The function `FileStore::_op_queue_reserve_throttle(o)` entered with the
counts `q`, for `o->bytes = bytes`: `none` when the caller has to wait (it tests
again each time it is woken), otherwise the counts it leaves. -/
def _op_queue_reserve_throttle (m : ThrottleLimits) (is_committing : Bool) (q : OpQueueCounts)
    (bytes : Nat) : Option OpQueueCounts :=
  if _op_queue_reserve_throttle_wait (_op_queue_reserve_throttle_max m is_committing).1
      (_op_queue_reserve_throttle_max m is_committing).2 q bytes then none
  else some ⟨toUInt64 (q.op_queue_len + 1), toUInt64 (q.op_queue_bytes + bytes)⟩

/-! ## Mount: the snapshot to roll back to -/

/-- The white space `sscanf` skips. -/
def is_space (c : Nat) : Bool := c = 32 ∨ (9 ≤ c ∧ c ≤ 13)

/-- The value of the decimal digits at the head of `s`, continuing `acc`. -/
def scan_digits : List Nat → Nat → Nat
  | [], acc => acc
  | c :: s, acc => if 48 ≤ c ∧ c ≤ 57 then scan_digits s (10 * acc + (c - 48)) else acc

/-- The conversion `%lld` of `sscanf` stored in a `long long unsigned`: white
space, an optional sign, then at least one digit; a value out of the range of
`long long` is taken as the nearest end of the range. -/
def scan_lld (s : List Nat) : Option Nat :=
  match s.dropWhile is_space with
  | [] => none
  | c :: t =>
    if c = 45 then
      match t with
      | d :: _ =>
        if 48 ≤ d ∧ d ≤ 57 then
          some (toUInt64 (- (min (scan_digits t 0) 9223372036854775808 : Nat)))
        else none
      | [] => none
    else if c = 43 then
      match t with
      | d :: _ =>
        if 48 ≤ d ∧ d ≤ 57 then some (min (scan_digits t 0) 9223372036854775807) else none
      | [] => none
    else if 48 ≤ c ∧ c ≤ 57 then some (min (scan_digits (c :: t) 0) 9223372036854775807)
    else none

/-- The test `sscanf(d_name, COMMIT_SNAP_ITEM, &c) == 1` and the value of `c`. -/
def sscanf_commit_snap (d_name : List Nat) : Option Nat :=
  if COMMIT_SNAP_ITEM.isPrefixOf d_name then scan_lld (d_name.drop COMMIT_SNAP_ITEM.length)
  else none

/-- The test `sscanf(d_name, CLUSTER_SNAP_ITEM, clustersnap) == 1` and the string
read: the characters up to the next white space, at least one. -/
def sscanf_cluster_snap (d_name : List Nat) : Option (List Nat) :=
  if CLUSTER_SNAP_ITEM.isPrefixOf d_name then
    match ((d_name.drop CLUSTER_SNAP_ITEM.length).dropWhile is_space).takeWhile
        (fun c => !is_space c) with
    | [] => none
    | n => some n
  else none

/-- The `readdir_r` loop of `FileStore::mount` over the names of the entries of
the base directory, in the order the directory returns them: `snaps` and
`cluster_snaps`. -/
def mount_snaps : List (List Nat) → List Nat × List (List Nat) → List Nat × List (List Nat)
  | [], acc => acc
  | d_name :: rest, (snaps, cluster_snaps) =>
    match sscanf_commit_snap d_name with
    | some c => mount_snaps rest (snaps ++ [c], cluster_snaps)
    | none =>
      match sscanf_cluster_snap d_name with
      | some n => mount_snaps rest (snaps, set_insert cluster_snaps n)
      | none => mount_snaps rest (snaps, cluster_snaps)

/-- What `FileStore::mount` rolls `current/` back to. -/
inductive RollbackTarget
  | nothing
  | cluster_snap (name : List Nat)
  | commit_snap (cp : Nat)
deriving DecidableEq, Repr

/-- The part of `FileStore::mount` from the listing of the base directory to the
choice of the snapshot `s` it then opens and clones as `current`: the error it
returns, or the snapshot. `nosnap` says whether `current/nosnap` exists. -/
def mount_rollback (btrfs_stable_commits btrfs : Bool) (m_osd_rollback_to_cluster_snap : List Nat)
    (nosnap m_osd_use_stale_snap : Bool) (entries : List (List Nat)) :
    Except Int RollbackTarget :=
  if m_osd_rollback_to_cluster_snap.length ≠ 0 ∧
      (mount_snaps entries ([], [])).2.contains m_osd_rollback_to_cluster_snap = false then
    Except.error (- ENOENT)
  else if btrfs_stable_commits then
    if (mount_snaps entries ([], [])).1 = [] then Except.ok RollbackTarget.nothing
    else if !btrfs then Except.ok RollbackTarget.nothing
    else if m_osd_rollback_to_cluster_snap.length ≠ 0 then
      Except.ok (RollbackTarget.cluster_snap m_osd_rollback_to_cluster_snap)
    else if nosnap ∧ !m_osd_use_stale_snap then Except.error (- ENOTSUP)
    else Except.ok (RollbackTarget.commit_snap ((mount_snaps entries ([], [])).1.getLastD 0))
  else Except.ok RollbackTarget.nothing

/-! ## Mount: the journal mode -/

/-- The members `m_filestore_journal_parallel`, `m_filestore_journal_trailing` and
`m_filestore_journal_writeahead`, which the constructor takes from the
configuration. -/
structure JournalMode where
  m_filestore_journal_parallel : Bool
  m_filestore_journal_trailing : Bool
  m_filestore_journal_writeahead : Bool
deriving DecidableEq, Repr

/-- The statement `if (journal) { ... }` of `FileStore::mount` after
`open_journal()`: the members it leaves. `journal` says whether the pointer is
set. -/
def mount_select_journal_mode (journal btrfs btrfs_stable_commits btrfs_snap_create_v2 : Bool)
    (m : JournalMode) : JournalMode :=
  if journal then
    if !m.m_filestore_journal_writeahead && !m.m_filestore_journal_parallel &&
        !m.m_filestore_journal_trailing then
      if !btrfs then { m with m_filestore_journal_writeahead := true }
      else if !btrfs_stable_commits then { m with m_filestore_journal_writeahead := true }
      else if !btrfs_snap_create_v2 then { m with m_filestore_journal_writeahead := true }
      else { m with m_filestore_journal_parallel := true }
    else m
  else m

/-- The function `FileStore::_sanity_check_fs`; its warnings are left out. -/
def _sanity_check_fs (m : JournalMode) : Int :=
  if m.m_filestore_journal_writeahead.toNat + m.m_filestore_journal_parallel.toNat +
      m.m_filestore_journal_trailing.toNat > 1 then - EINVAL
  else 0

/-- The part of `FileStore::mount` from `open_journal()` to the test of the
result of `_sanity_check_fs`: the error `mount` returns there, or the members
with which it goes on. -/
def mount_journal_mode (journal btrfs btrfs_stable_commits btrfs_snap_create_v2 : Bool)
    (m : JournalMode) : Except Int JournalMode :=
  if _sanity_check_fs
      (mount_select_journal_mode journal btrfs btrfs_stable_commits btrfs_snap_create_v2 m) ≠ 0 then
    Except.error (_sanity_check_fs
      (mount_select_journal_mode journal btrfs btrfs_stable_commits btrfs_snap_create_v2 m))
  else
    Except.ok (mount_select_journal_mode journal btrfs btrfs_stable_commits btrfs_snap_create_v2 m)

/-- The branches of `FileStore::queue_transactions`. -/
inductive QueuePath
  | blackhole
  | parallel
  | writeahead
  | trailing
  | assert_0
deriving DecidableEq, Repr

/-- The branch `FileStore::queue_transactions` takes: the transactions are
dropped under `filestore_blackhole`, journalled in parallel or ahead, the
assertion `assert(0)` fails, or the code after the `if` runs, which journals
behind. `journal_is_writeable` is `journal->is_writeable()`. -/
def queue_transactions_path (filestore_blackhole journal journal_is_writeable : Bool)
    (m : JournalMode) : QueuePath :=
  if filestore_blackhole then QueuePath.blackhole
  else if journal && journal_is_writeable && !m.m_filestore_journal_trailing then
    if m.m_filestore_journal_parallel then QueuePath.parallel
    else if m.m_filestore_journal_writeahead then QueuePath.writeahead
    else QueuePath.assert_0
  else QueuePath.trailing

/-! ## The sequence number file -/

/-- The function `atoll` on the string that ends at the first NUL of `s`, as
`strtoll(s, NULL, 10)` computes it: white space, an optional sign, then the
digits; `0` without a digit; a value out of the range of `long long` is taken
as the nearest end of the range. -/
def atoll (s : List Nat) : Int :=
  match (s.takeWhile (fun c => c != 0)).dropWhile is_space with
  | [] => 0
  | c :: t =>
    if c = 45 then - ((min (scan_digits t 0) 9223372036854775808 : Nat) : Int)
    else if c = 43 then ((min (scan_digits t 0) 9223372036854775807 : Nat) : Int)
    else ((min (scan_digits (c :: t) 0) 9223372036854775807 : Nat) : Int)

/-! ## Raw attribute names read back -/

/-- The loop `while (*raw_name)` of `translate_raw_name` from position `pos`: the
characters written to `name`, the position reached and `*is_first`. An `@`
before another character ends the name. The loop stops the process when the
assertion `pos < name_len` fails, and on a raw name that ends in a single `@`:
there `break` only leaves the `switch`, and `raw_name++` steps over the
terminating NUL. -/
def translate_raw_name_loop (name_len : Int) :
    List Nat → Int → Except Fatal (List Nat × Int × Bool)
  | [], pos => Except.ok ([], pos, true)
  | c :: raw_name, pos =>
    if c = 64 then
      match raw_name with
      | [] =>
        if pos + 1 < name_len then Except.error Fatal.read_after_terminator
        else Except.error Fatal.assert_name_len
      | d :: rest =>
        if d ≠ 64 then Except.ok ([], pos, false)
        else if pos + 1 < name_len then
          (translate_raw_name_loop name_len rest (pos + 1)).map (fun p => (64 :: p.1, p.2))
        else Except.error Fatal.assert_name_len
    else if pos + 1 < name_len then
      (translate_raw_name_loop name_len raw_name (pos + 1)).map (fun p => (c :: p.1, p.2))
    else Except.error Fatal.assert_name_len

/-- The function `translate_raw_name(raw_name, name, name_len, is_first)`: the
string left in `name`, the result and `*is_first`. -/
def translate_raw_name (raw_name : List Nat) (name_len : Int) :
    Except Fatal (List Nat × Int × Bool) :=
  translate_raw_name_loop name_len raw_name 0

/-! ## Block alignment -/

/-- The macro `ALIGN_DOWN(x, by)` on values of `uint64_t`. -/
def ALIGN_DOWN (x b : Nat) : Nat := toUInt64 ((x : Int) - ((x % b : Nat) : Int))

/-- The macro `ALIGNED(x, by)`. -/
def ALIGNED (x b : Nat) : Bool := x % b = 0

/-- The macro `ALIGN_UP(x, by)` on values of `uint64_t`. -/
def ALIGN_UP (x b : Nat) : Nat :=
  if ALIGNED x b then x else toUInt64 ((ALIGN_DOWN x b : Int) + (b : Int))

/-! ## The extent map -/

/-- The assignment `exomap[k] = v` on a `map<uint64_t, uint64_t>`, kept as the
list of its entries in the order of the keys. -/
def exomap_set : List (Nat × Nat) → Nat → Nat → List (Nat × Nat)
  | [], k, v => [(k, v)]
  | (k1, v1) :: m, k, v =>
    if k < k1 then (k, v) :: (k1, v1) :: m
    else if k = k1 then (k, v) :: m
    else (k1, v1) :: exomap_set m k v

/-- The statement of `FileStore::fiemap` that cuts an extent at the end of the
range, `if (fe_logical + fe_length > offset + len) fe_length = offset + len - fe_logical`:
the length it leaves. -/
def fiemap_cut (offset len : Nat) (extent : fiemap_extent) : Nat :=
  if toUInt64 ((extent.fe_logical : Int) + extent.fe_length) > toUInt64 ((offset : Int) + len) then
    toUInt64 ((offset : Int) + len - extent.fe_logical)
  else extent.fe_length

/-- The loop `while (i < fiemap->fm_mapped_extents)` of `FileStore::fiemap`, at
the extent `extent` with the extents `next`, ... after it: an extent that ends
where the next one begins is added to the next one; otherwise it is cut at the
end of the range and entered into `exomap`. -/
def fiemap_loop (offset len : Nat) :
    fiemap_extent → List fiemap_extent → List (Nat × Nat) → List (Nat × Nat)
  | extent, [], exomap => exomap_set exomap extent.fe_logical (fiemap_cut offset len extent)
  | extent, next :: rest, exomap =>
    if toUInt64 ((extent.fe_logical : Int) + extent.fe_length) = next.fe_logical then
      fiemap_loop offset len
        ⟨extent.fe_logical, toUInt64 ((next.fe_length : Int) + extent.fe_length)⟩ rest exomap
    else
      fiemap_loop offset len next rest
        (exomap_set exomap extent.fe_logical (fiemap_cut offset len extent))

/-- The statements of `FileStore::fiemap` between the call of `do_fiemap` and the
label `done`, on the extents the kernel gave: the map `exomap`. The first extent
begins where the range begins at the earliest. -/
def fiemap_exomap (offset len : Nat) : List fiemap_extent → List (Nat × Nat)
  | [] => []
  | extent :: rest =>
    if extent.fe_logical < offset then
      fiemap_loop offset len
        ⟨offset, toUInt64 ((extent.fe_length : Int) - ((offset : Int) - extent.fe_logical))⟩ rest []
    else fiemap_loop offset len extent rest []

section Code

variable {σ : Type} (st : Store σ)

/-- The function `FileStore::read_op_seq(seq)`: the result and `*seq`, which is
`seq` until the function assigns it. The buffer `s` holds `39` bytes and a NUL. -/
def read_op_seq (seq : Nat) : M σ (Int × Nat) :=
  mutate st.toSys (Mut.open_current_op_seq (O_CREAT ||| O_RDWR)) >>= fun op_fd =>
    if op_fd < 0 then ask st.errno >>= fun e => pure (- e, seq)
    else
      ask (st.safe_read op_fd 39) >>= fun rs =>
        if rs.1 < 0 then pure (rs.1, seq)
        else pure (op_fd, toUInt64 (atoll (rs.2.take 39)))

/-- The loop `while (p < end)` of `do_listxattr` over the raw names in
`full_buf`: `dest` bytes of the `len` bytes of `names` are taken, by the names
`names`. `strcpy` writes the name and its NUL. -/
def do_listxattr_loop (len : Nat) : List (List Nat) → Nat → List (List Nat) →
    M σ (Int × List (List Nat))
  | [], dest, names => pure (toInt32 dest, names)
  | p :: rest, dest, names =>
    match translate_raw_name p (ATTR_MAX_NAME_LEN * 2 + 16) with
    | Except.error e => die e
    | Except.ok (name, name_len, is_first) =>
      if is_first then
        if (dest : Int) + name_len > len then pure (- ERANGE, names)
        else if (dest : Int) + name_len + 1 > len then die Fatal.write_after_buffer
        else do_listxattr_loop len rest (dest + name_len.toNat + 1) (names ++ [name])
      else do_listxattr_loop len rest dest names

/-- The function `do_listxattr(fn, names, len)`: the result and the names left
in `names`. `malloc` is taken to succeed. -/
def do_listxattr (fn : IndexedPath) (len : Nat) : M σ (Int × List (List Nat)) :=
  if len = 0 then ask (st.sys_listxattr fn len)
  else
    ask (st.sys_listxattr fn 0) >>= fun r0 =>
      if r0.1 < 0 then pure (r0.1, [])
      else if r0.1 * 2 ≥ 2147483648 then die Fatal.int_overflow
      else
        ask (st.sys_listxattr fn (r0.1 * 2).toNat) >>= fun r =>
          if r.1 < 0 then pure (r.1, [])
          else do_listxattr_loop len r.2 0 []

/-- The statements of `_do_clone_range` that fix `lenclone`: a length that is not
a multiple of the block size is cut down to one unless the range ends at the end
of the source and not before the end of the destination. An error of `::fstat`
is the result of `_do_clone_range`. -/
def _do_clone_range_lenclone (blk_size : Nat) (src dst : Int) (srcoff len dstoff lenclone : Nat) :
    M σ (Except Int Nat) :=
  if !ALIGNED lenclone blk_size then
    ask (st.sys_fstat src) >>= fun from_stat =>
      if from_stat.1 ≠ 0 then ask st.errno >>= fun e => pure (Except.error (- e))
      else
        ask (st.sys_fstat dst) >>= fun to_stat =>
          if to_stat.1 ≠ 0 then ask st.errno >>= fun e => pure (Except.error (- e))
          else if toUInt64 ((srcoff : Int) + len) ≠ toUInt64 from_stat.2 ∨
              toUInt64 ((dstoff : Int) + len) < toUInt64 to_stat.2 then
            pure (Except.ok (ALIGN_DOWN lenclone blk_size))
          else pure (Except.ok lenclone)
  else pure (Except.ok lenclone)

/-- The end of `_do_clone_range`, "Copy end", with `r` so far. -/
def _do_clone_range_end (src dst : Int) (srcoff len srcoffclone dstoffclone lenclone : Nat)
    (r : Int) : M σ Int :=
  if toUInt64 ((srcoffclone : Int) + lenclone) ≠ toUInt64 ((srcoff : Int) + len) then
    mutate st.toSys (Mut._do_copy_range src dst
        (toUInt64 ((srcoffclone : Int) + lenclone))
        (toUInt64 ((srcoff : Int) + len - (srcoffclone + lenclone)))
        (toUInt64 ((dstoffclone : Int) + lenclone))) >>= fun err =>
      if err ≥ 0 then pure (toInt32 (r + err))
      else ask st.errno >>= fun e => pure (- e)
  else pure r

/-- The function `FileStore::_do_clone_range(from, to, srcoff, len, dstoff)`.
The members `btrfs_clone_range` and `blk_size` are parameters. -/
def _do_clone_range (btrfs_clone_range : Bool) (blk_size : Nat) (src dst : Int)
    (srcoff len dstoff : Nat) : M σ Int :=
  if !btrfs_clone_range then mutate st.toSys (Mut._do_copy_range src dst srcoff len dstoff)
  else if blk_size = 0 then die Fatal.division_by_zero
  else if srcoff % blk_size ≠ dstoff % blk_size then
    mutate st.toSys (Mut._do_copy_range src dst srcoff len dstoff)
  else if ALIGN_UP srcoff blk_size ≥ toUInt64 ((srcoff : Int) + len) then
    -- extent too short to align srcoff
    mutate st.toSys (Mut._do_copy_range src dst srcoff len dstoff)
  else
    _do_clone_range_lenclone st blk_size src dst srcoff len dstoff
        (toUInt64 ((len : Int) - ((ALIGN_UP srcoff blk_size : Int) - srcoff))) >>= fun lc =>
      match lc with
      | Except.error e => pure e
      | Except.ok lenclone =>
        if lenclone = 0 then
          -- too short
          mutate st.toSys (Mut._do_copy_range src dst srcoff len dstoff)
        else
          mutate st.toSys (Mut.btrfs_ioc_clone_range dst src (ALIGN_UP srcoff blk_size) lenclone
              (ALIGN_UP dstoff blk_size)) >>= fun err =>
            if err ≥ 0 then
              -- take care any trimmed from front
              (if ALIGN_UP srcoff blk_size ≠ srcoff then
                mutate st.toSys (Mut._do_copy_range src dst srcoff
                    (toUInt64 ((ALIGN_UP srcoff blk_size : Int) - srcoff)) dstoff) >>= fun err1 =>
                  if err1 ≥ 0 then
                    _do_clone_range_end st src dst srcoff len (ALIGN_UP srcoff blk_size)
                      (ALIGN_UP dstoff blk_size) lenclone (toInt32 (err + err1))
                  else ask st.errno >>= fun e => pure (- e)
              else
                _do_clone_range_end st src dst srcoff len (ALIGN_UP srcoff blk_size)
                  (ALIGN_UP dstoff blk_size) lenclone err)
            else
              ask st.errno >>= fun e =>
                if e = EINVAL then
                  -- still failed, might be compressed
                  mutate st.toSys (Mut._do_copy_range src dst srcoff len dstoff)
                else pure (- e)

/-- The function `do_fiemap(fd, start, len, pfiemap)`: the result and the extents
of `*pfiemap`. The first `ioctl` counts the extents, the second one fills as
many; `calloc` and `realloc` are taken to succeed. -/
def do_fiemap (fd : Int) (start len : Nat) : M σ (Int × List fiemap_extent) :=
  mutate st.toSys (Mut.sys_fsync fd) >>= fun _ =>
    ask (st.fs_ioc_fiemap fd start len 0) >>= fun counted =>
      if counted.1 < 0 then ask st.errno >>= fun e => pure (- e, [])
      else
        ask (st.fs_ioc_fiemap fd start len counted.2.length) >>= fun filled =>
          if filled.1 < 0 then ask st.errno >>= fun e => pure (- e, [])
          else pure (0, filled.2)

/-- The function `FileStore::fiemap(cid, oid, offset, len, bl)`: the result and
the map encoded into `bl`, `none` when nothing is encoded. The members
`ioctl_fiemap` and `m_filestore_fiemap_threshold` are parameters. -/
def fiemap (ioctl_fiemap : Bool) (m_filestore_fiemap_threshold : Int) (cid : coll_t)
    (oid : hobject_t) (offset len : Nat) : M σ (Int × Option (List (Nat × Nat))) :=
  if !ioctl_fiemap || len ≤ toUInt64 m_filestore_fiemap_threshold then
    pure (0, some [(offset, len)])
  else
    lfn_open st cid oid O_RDONLY false >>= fun fd =>
      if fd < 0 then pure (fd, none)
      else
        do_fiemap st fd offset len >>= fun r =>
          if r.1 < 0 then pure (r.1, none)
          else pure (r.1, some (fiemap_exomap offset len r.2))

end Code

/-! ## An in-memory file system

One implementation of the collaborators, with the POSIX meaning of the calls:
directories of names that refer to inodes, inodes with their bytes, link count,
replay guard attribute and extended attributes under their raw names, and a
file offset per descriptor. A descriptor is the number of the inode it refers
to. The values of the attributes of one inode may take `xattr_space` bytes
together; a `setxattr` beyond that fails with `ENOSPC`. The object map is not
kept: its calls succeed and store nothing. Nor are snapshots: `commit_start`
always finds something to commit, at the sequence number `committing_seq`, and
the snapshot and sync calls succeed. -/

structure Inode where
  data : Bytes
  nlink : Nat
  guard : Option GuardAttr
  xattrs : AttrSet
deriving DecidableEq, Repr

structure MemFS where
  /-- The collection directories under `current/` and their inodes. -/
  colls : List (coll_t × Nat)
  /-- The directory entries: the files in the collection directories. -/
  names : List (IndexedPath × Nat)
  inodes : List (Nat × Inode)
  /-- The file offsets of the descriptors that have been positioned. -/
  offsets : List (Int × Nat)
  next_ino : Nat
  errno : Int
  xattr_space : Nat := 65536
  committing_seq : Nat := 0
  /-- The inode of `current/commit_op_seq`, when the file exists. -/
  op_seq_ino : Option Nat := none
deriving DecidableEq, Repr

namespace MemFS

def EBADF : Int := 9

/-- The inode a descriptor refers to. -/
def inode (s : MemFS) (fd : Int) : Option Inode :=
  if fd < 0 then none else s.inodes.lookup fd.toNat

/-- Replace the inode with number `i`. -/
def set_inode (s : MemFS) (i : Nat) (n : Inode) : MemFS :=
  { s with inodes := (i, n) :: s.inodes.filter (fun p => p.1 != i) }

/-- The bytes of a file after writing `bl` at offset `off`: a gap between the old
size and `off` reads as zeros; writing nothing changes nothing. -/
def pwrite (data : Bytes) (off : Nat) (bl : Bytes) : Bytes :=
  if bl = [] then data
  else (data ++ List.replicate (off - data.length) 0).take off ++ bl ++ data.drop (off + bl.length)

/-- The bytes of a file cut or zero-extended to `length`. -/
def resize (data : Bytes) (length : Nat) : Bytes :=
  (data ++ List.replicate (length - data.length) 0).take length

/-- Fail with `e`: the result `-e`, and `errno` set. -/
def fail (s : MemFS) (e : Int) : Int × MemFS := (-e, { s with errno := e })

/-- Apply `f` to the inode of `fd` and succeed, or fail with `EBADF`. -/
def on_inode (s : MemFS) (fd : Int) (f : Inode → Inode) : Int × MemFS :=
  match s.inode fd with
  | some n => (0, s.set_inode fd.toNat (f n))
  | none => s.fail EBADF

/-- Set the attributes of `aset` in `xs`, replacing the values of names already there. -/
def set_attrs (xs aset : AttrSet) : AttrSet :=
  aset ++ xs.filter (fun p => !(aset.any (fun q => q.1 == p.1)))

def get_index (cid : coll_t) (s : MemFS) : Int :=
  if (s.colls.lookup cid).isSome then 0 else - ENOENT

def index_lookup (cid : coll_t) (oid : hobject_t) (s : MemFS) : Int × IndexedPath × Bool :=
  (0, ⟨cid, oid⟩, (s.names.lookup ⟨cid, oid⟩).isSome)

def open_ro (path : IndexedPath) (_flags : Nat) (s : MemFS) : Int :=
  match s.names.lookup path with
  | some i => (i : Int)
  | none => - ENOENT

def open_cdir (cid : coll_t) (s : MemFS) : Int :=
  match s.colls.lookup cid with
  | some i => (i : Int)
  | none => - ENOENT

def do_fgetxattr_guard (fd : Int) (s : MemFS) : Int × GuardAttr :=
  match s.inode fd with
  | some n =>
    match n.guard with
    | some g => (1, g)
    | none => (- ENODATA, ⟨⟨0, 0, 0⟩, none⟩)
  | none => (- EBADF, ⟨⟨0, 0, 0⟩, none⟩)

def sys_stat (path : IndexedPath) (s : MemFS) : Int × Nat :=
  match s.names.lookup path with
  | some i =>
    match s.inodes.lookup i with
    | some n => (0, n.nlink)
    | none => (- ENOENT, 0)
  | none => (- ENOENT, 0)

def fstat_size (fd : Int) (s : MemFS) : Nat :=
  match s.inode fd with
  | some n => n.data.length
  | none => 0

def safe_pread (fd : Int) (len offset : Nat) (s : MemFS) : Int × Bytes :=
  match s.inode fd with
  | some n => ((((n.data.drop offset).take len).length : Nat), (n.data.drop offset).take len)
  | none => (- EBADF, [])

/-- The bytes the values in `xs` take. -/
def xattr_bytes (xs : AttrSet) : Nat := (xs.map (fun p => p.2.length)).sum

/-- The value chained under the raw name `raw`: chunk `i` and, while a chunk is a
full block, the chunks `raw@i+1`, ... after it. -/
def chained (xs : AttrSet) (raw : List Nat) : Nat → Nat → Bytes
  | 0, _ => []
  | fuel + 1, i =>
    match xs.lookup (if i = 0 then raw else raw ++ 64 :: decimal i) with
    | some v => if v.length = ATTR_MAX_BLOCK_LEN then v ++ chained xs raw fuel (i + 1) else v
    | none => []

/-- The attributes of the object as `_getattrs` lists them: the raw names under
`user.ceph.` that are first chunks, without the prefix, each with its chained
value. Names with an `@` are left out. -/
def _getattrs (cid : coll_t) (oid : hobject_t) (s : MemFS) : Int × AttrSet :=
  match s.names.lookup ⟨cid, oid⟩ with
  | some i =>
    match s.inodes.lookup i with
    | some n =>
      (0, n.xattrs.filterMap (fun p =>
        if user_ceph.isPrefixOf p.1 && !p.1.contains 64 then
          some (p.1.drop user_ceph.length, chained n.xattrs p.1 n.xattrs.length 0)
        else none))
    | none => (- ENOENT, [])
  | none => (- ENOENT, [])

def sys_fgetxattr (fd : Int) (name : List Nat) (size : Nat) (s : MemFS) : Int × Bytes :=
  match s.inode fd with
  | some n =>
    match n.xattrs.lookup name with
    | some v =>
      if size = 0 then ((v.length : Int), [])
      else if size < v.length then (- ERANGE, [])
      else ((v.length : Int), v)
    | none => (- ENODATA, [])
  | none => (- EBADF, [])

def collection_list_partial (cid : coll_t) (start : hobject_t) (_min max _seq : Nat) (s : MemFS) :
    Int × List hobject_t :=
  if (s.colls.lookup cid).isSome then
    (0, ((s.names.filter (fun p => p.1.coll == cid && start ≤ p.1.file)).map (fun p => p.1.file)).take max)
  else (- ENOENT, [])

def safe_read (fd : Int) (count : Nat) (s : MemFS) : Int × Bytes :=
  match s.inode fd with
  | some n => ((((n.data.take count).length : Nat) : Int), n.data.take count)
  | none => (- EBADF, [])

def sys_fstat (fd : Int) (s : MemFS) : Int × Int :=
  match s.inode fd with
  | some n => (0, (n.data.length : Int))
  | none => (-1, 0)

/-- The names of the attributes of the file, nothing of them when `len` is too
small. -/
def sys_listxattr (fn : IndexedPath) (len : Nat) (s : MemFS) : Int × List (List Nat) :=
  match s.names.lookup fn with
  | some i =>
    match s.inodes.lookup i with
    | some n =>
      if len = 0 then ((((n.xattrs.map (fun p => p.1.length + 1)).sum : Nat) : Int), [])
      else if len < (n.xattrs.map (fun p => p.1.length + 1)).sum then (- ERANGE, [])
      else ((((n.xattrs.map (fun p => p.1.length + 1)).sum : Nat) : Int), n.xattrs.map (fun p => p.1))
    | none => (- ENOENT, [])
  | none => (- ENOENT, [])

/-- A file is one extent, from its start to its size. -/
def fs_ioc_fiemap (fd : Int) (fm_start fm_length _fm_extent_count : Nat) (s : MemFS) :
    Int × List fiemap_extent :=
  match s.inode fd with
  | some n =>
    if fm_start < n.data.length ∧ 0 < fm_length then (0, [⟨0, n.data.length⟩]) else (0, [])
  | none => (- EBADF, [])

/-- Apply `f` to the inode the name `path` refers to. -/
def on_path (s : MemFS) (path : IndexedPath) (f : Inode → Inode) : Int × MemFS :=
  match s.names.lookup path with
  | some i => s.on_inode i f
  | none => s.fail ENOENT

def mutate (c : Mut) (s : MemFS) : Int × MemFS :=
  match c with
  | .sys_open path flags =>
    match s.names.lookup path with
    | some i =>
      if flags &&& O_TRUNC != 0 then
        match s.inodes.lookup i with
        | some n => ((i : Int), s.set_inode i { n with data := [] })
        | none => s.fail ENOENT
      else ((i : Int), s)
    | none =>
      if flags &&& O_CREAT != 0 then
        if (s.colls.lookup path.coll).isSome then
          ((s.next_ino : Int),
            { s with names := (path, s.next_ino) :: s.names,
                     inodes := (s.next_ino, ⟨[], 1, none, []⟩) :: s.inodes,
                     next_ino := s.next_ino + 1 })
        else s.fail ENOENT
      else s.fail ENOENT
  | .index_created _ _ _ => (0, s)
  | .index_unlink cid oid =>
    match s.names.lookup ⟨cid, oid⟩ with
    | some i =>
      let s1 := { s with names := s.names.filter (fun p => p.1 != ⟨cid, oid⟩) }
      match s1.inodes.lookup i with
      | some n =>
        if n.nlink ≤ 1 then (0, { s1 with inodes := s1.inodes.filter (fun p => p.1 != i) })
        else (0, s1.set_inode i { n with nlink := n.nlink - 1 })
      | none => (0, s1)
    | none => s.fail ENOENT
  | .sys_link path_old path_new =>
    match s.names.lookup path_old with
    | some i =>
      if (s.names.lookup path_new).isSome then s.fail EEXIST
      else
        match s.inodes.lookup i with
        | some n => (0, { s.set_inode i { n with nlink := n.nlink + 1 } with
                          names := (path_new, i) :: s.names })
        | none => s.fail ENOENT
    | none => s.fail ENOENT
  | .sys_rename cid ncid =>
    match s.colls.lookup cid with
    | some i =>
      if (s.colls.lookup ncid).isSome then s.fail ENOTEMPTY
      else (0, { s with
        colls := (ncid, i) :: s.colls.filter (fun p => p.1 != cid),
        names := s.names.map (fun p => if p.1.coll = cid then (⟨ncid, p.1.file⟩, p.2) else p) })
    | none => s.fail ENOENT
  | .sys_truncate path length => s.on_path path (fun n => { n with data := resize n.data length })
  | .sys_mkdir cid =>
    if (s.colls.lookup cid).isSome then s.fail EEXIST
    else (0, { s with colls := (cid, s.next_ino) :: s.colls,
                      inodes := (s.next_ino, ⟨[], 2, none, []⟩) :: s.inodes,
                      next_ino := s.next_ino + 1 })
  | .init_index _ => (0, s)
  | .sys_rmdir cid =>
    match s.colls.lookup cid with
    | some i =>
      if s.names.any (fun p => p.1.coll == cid) then s.fail ENOTEMPTY
      else (0, { s with colls := s.colls.filter (fun p => p.1 != cid),
                        inodes := s.inodes.filter (fun p => p.1 != i) })
    | none => s.fail ENOENT
  | .sys_lseek64 fd offset =>
    if (s.inode fd).isNone then s.fail EBADF
    else if offset ≥ 9223372036854775808 then s.fail EINVAL
    else ((offset : Int), { s with offsets := (fd, offset) :: s.offsets.filter (fun p => p.1 != fd) })
  | .write_fd fd bl =>
    let off := (s.offsets.lookup fd).getD 0
    match s.inode fd with
    | some n =>
      (0, { s.set_inode fd.toNat { n with data := pwrite n.data off bl } with
            offsets := (fd, off + bl.length) :: s.offsets.filter (fun p => p.1 != fd) })
    | none => s.fail EBADF
  | .sync_file_range _ _ _ => (0, s)
  | .queue_flusher _ _ _ => (0, s)
  | .sys_fallocate_punch_hole fd offset len =>
    s.on_inode fd (fun n =>
      let zeros := List.replicate (min len (n.data.length - offset)) 0
      { n with data := n.data.take offset ++ zeros ++ n.data.drop (offset + len) })
  | .sys_fsync _ => (0, s)
  | .object_map_sync _ _ => (0, s)
  | .object_map_clone _ _ _ => (0, s)
  | .object_map_clear _ _ => (0, s)
  | .object_map_set_keys _ _ _ => (0, s)
  | .object_map_rm_keys _ _ _ => (0, s)
  | .object_map_set_header _ _ _ => (0, s)
  | .do_fsetxattr_guard fd v => s.on_inode fd (fun n => { n with guard := some v })
  | ._do_clone_range src dst srcoff len dstoff =>
    match s.inode src with
    | some n =>
      if n.data.length < srcoff + len then s.fail ERANGE
      else
        match s.inode dst with
        | some m =>
          ((len : Int), s.set_inode dst.toNat
            { m with data := pwrite m.data dstoff ((n.data.drop srcoff).take len) })
        | none => s.fail EBADF
    | none => s.fail EBADF
  | ._setattrs cid oid aset _ =>
    s.on_path ⟨cid, oid⟩ (fun n =>
      { n with xattrs := set_attrs n.xattrs (aset.map (fun p => (user_ceph ++ p.1, p.2))) })
  | ._rmattr cid oid name _ =>
    s.on_path ⟨cid, oid⟩ (fun n =>
      { n with xattrs := n.xattrs.filter (fun p => p.1 != user_ceph ++ name) })
  | ._rmattrs cid oid _ =>
    s.on_path ⟨cid, oid⟩ (fun n =>
      { n with xattrs := n.xattrs.filter (fun p => !user_ceph.isPrefixOf p.1) })
  | ._collection_setattr cid name value =>
    match s.colls.lookup cid with
    | some i => s.on_inode i (fun n => { n with xattrs := set_attrs n.xattrs [(name, value)] })
    | none => s.fail ENOENT
  | ._collection_rmattr cid name =>
    match s.colls.lookup cid with
    | some i => s.on_inode i (fun n => { n with xattrs := n.xattrs.filter (fun p => p.1 != name) })
    | none => s.fail ENOENT
  | ._start_sync => (0, s)
  | .sys_setxattr fn name val =>
    match s.names.lookup fn with
    | some i =>
      match s.inodes.lookup i with
      | some n =>
        if s.xattr_space < xattr_bytes (set_attrs n.xattrs [(name, val)]) then s.fail ENOSPC
        else (0, s.set_inode i { n with xattrs := set_attrs n.xattrs [(name, val)] })
      | none => s.fail ENOENT
    | none => s.fail ENOENT
  | .sys_removexattr fn name =>
    match s.names.lookup fn with
    | some i =>
      match s.inodes.lookup i with
      | some n =>
        if n.xattrs.any (fun p => p.1 == name) then
          (0, s.set_inode i { n with xattrs := n.xattrs.filter (fun p => p.1 != name) })
        else s.fail ENODATA
      | none => s.fail ENOENT
    | none => s.fail ENOENT
  | .object_map_remove_xattrs _ _ _ => (0, s)
  | .object_map_set_xattrs _ _ _ => (0, s)
  | .sys_pwrite fd buf offset =>
    match s.inode fd with
    | some n => ((buf.length : Int), s.set_inode fd.toNat { n with data := pwrite n.data offset buf })
    | none => s.fail EBADF
  | .commit_start => (1, s)
  | .commit_started => (0, s)
  | .commit_finish => (0, s)
  | .btrfs_ioc_snap_create_v2 _ => (0, s)
  | .btrfs_ioc_snap_create _ => (0, s)
  | .btrfs_ioc_wait_sync _ => (0, s)
  | .btrfs_ioc_sync => (0, s)
  | .sync_filesystem _ => (0, s)
  | .btrfs_ioc_snap_destroy _ => (0, s)
  | .open_current_op_seq flags =>
    match s.op_seq_ino with
    | some i => ((i : Int), s)
    | none =>
      if flags &&& O_CREAT != 0 then
        ((s.next_ino : Int),
          { s with inodes := (s.next_ino, ⟨[], 1, none, []⟩) :: s.inodes,
                   op_seq_ino := some s.next_ino,
                   next_ino := s.next_ino + 1 })
      else s.fail ENOENT
  | .btrfs_ioc_clone_range dst src src_offset src_length dest_offset =>
    match s.inode src with
    | some n =>
      if n.data.length < src_offset + src_length then s.fail EINVAL
      else
        match s.inode dst with
        | some m =>
          (0, s.set_inode dst.toNat
            { m with data := pwrite m.data dest_offset ((n.data.drop src_offset).take src_length) })
        | none => s.fail EBADF
    | none => s.fail EBADF
  | ._do_copy_range src dst srcoff len dstoff =>
    match s.inode src with
    | some n =>
      if n.data.length < srcoff + len then s.fail ERANGE
      else
        match s.inode dst with
        | some m =>
          ((len : Int), s.set_inode dst.toNat
            { m with data := pwrite m.data dstoff ((n.data.drop srcoff).take len) })
        | none => s.fail EBADF
    | none => s.fail EBADF

end MemFS

/-- The collaborators implemented by `MemFS`. -/
def memsys : Sys MemFS where
  get_index := MemFS.get_index
  index_lookup := MemFS.index_lookup
  open_ro := MemFS.open_ro
  open_cdir := MemFS.open_cdir
  do_fgetxattr_guard := MemFS.do_fgetxattr_guard
  sys_stat := MemFS.sys_stat
  fstat_size := MemFS.fstat_size
  safe_pread := MemFS.safe_pread
  _getattrs := MemFS._getattrs
  sys_fgetxattr := MemFS.sys_fgetxattr
  collection_list_partial := MemFS.collection_list_partial
  committing_seq := MemFS.committing_seq
  object_map_check := fun _ => true
  snap_transid := fun _ => 0
  safe_read := MemFS.safe_read
  sys_fstat := MemFS.sys_fstat
  sys_listxattr := MemFS.sys_listxattr
  fs_ioc_fiemap := MemFS.fs_ioc_fiemap
  errno := MemFS.errno
  mutate := MemFS.mutate

/-- The store over `MemFS` in the given mode, with the flusher off. -/
def memstore (replaying btrfs_stable_commits : Bool) : Store MemFS where
  toSys := memsys
  replaying := replaying
  btrfs_stable_commits := btrfs_stable_commits
  m_filestore_flush_min := 65536
  m_filestore_flusher := false
  m_filestore_sync_flush := false

/-- A world over `fs` in which no call has been made yet and failure injection is off. -/
def World.init {σ : Type} (fs : σ) : World σ where
  fs := fs
  trace := []
  m_filestore_kill_at := 0
  finished := []

/-! ## Notions the properties are stated with -/

/-- The object `cid/oid` carries the replay guard `g` in `w`: it opens, as the
guard check opens it, and its guard attribute reads as `g`. -/
def carries_guard {σ : Type} (st : Store σ) (w : World σ) (cid : coll_t) (oid : hobject_t)
    (g : GuardAttr) : Prop :=
  ∃ fd : Int, 0 ≤ fd ∧ lfn_open st cid oid 0 false w = (Except.ok fd, w) ∧
    0 ≤ (st.do_fgetxattr_guard fd w.fs).1 ∧ (st.do_fgetxattr_guard fd w.fs).2 = g

/-- The collection directory `cid` carries the replay guard `g` in `w`. -/
def coll_carries_guard {σ : Type} (st : Store σ) (w : World σ) (cid : coll_t)
    (g : GuardAttr) : Prop :=
  0 ≤ st.open_cdir cid w.fs ∧ 0 ≤ (st.do_fgetxattr_guard (st.open_cdir cid w.fs) w.fs).1 ∧
    (st.do_fgetxattr_guard (st.open_cdir cid w.fs) w.fs).2 = g

/-- The file-mutating opcodes that target the object `cid/oid`: TOUCH, WRITE,
ZERO, TRUNCATE, REMOVE, SETATTR, SETATTRS, RMATTR and RMATTRS on it, CLONE,
CLONERANGE and CLONERANGE2 into it, and COLL_ADD of it, from `cid` or into `cid`. -/
def TransactionOp.mutates_object (cid : coll_t) (oid : hobject_t) : TransactionOp → Bool
  | .OP_TOUCH c o => c = cid ∧ o = oid
  | .OP_WRITE c o _ _ _ => c = cid ∧ o = oid
  | .OP_ZERO c o _ _ => c = cid ∧ o = oid
  | .OP_TRUNCATE c o _ => c = cid ∧ o = oid
  | .OP_REMOVE c o => c = cid ∧ o = oid
  | .OP_SETATTR c o _ _ => c = cid ∧ o = oid
  | .OP_SETATTRS c o _ => c = cid ∧ o = oid
  | .OP_RMATTR c o _ => c = cid ∧ o = oid
  | .OP_RMATTRS c o => c = cid ∧ o = oid
  | .OP_CLONE c _ noid => c = cid ∧ noid = oid
  | .OP_CLONERANGE c _ noid _ _ => c = cid ∧ noid = oid
  | .OP_CLONERANGE2 c _ noid _ _ _ => c = cid ∧ noid = oid
  | .OP_COLL_ADD ncid ocid o => (ncid = cid ∨ ocid = cid) ∧ o = oid
  | _ => false

/-- The opcodes on the object `cid/oid` whose primitive the interpreter calls
only when the guard check is positive: TOUCH, WRITE, ZERO, TRUNCATE, REMOVE,
SETATTR, SETATTRS, RMATTR and RMATTRS. -/
def TransactionOp.checks_before_call (cid : coll_t) (oid : hobject_t) : TransactionOp → Bool
  | .OP_TOUCH c o => c = cid ∧ o = oid
  | .OP_WRITE c o _ _ _ => c = cid ∧ o = oid
  | .OP_ZERO c o _ _ => c = cid ∧ o = oid
  | .OP_TRUNCATE c o _ => c = cid ∧ o = oid
  | .OP_REMOVE c o => c = cid ∧ o = oid
  | .OP_SETATTR c o _ _ => c = cid ∧ o = oid
  | .OP_SETATTRS c o _ => c = cid ∧ o = oid
  | .OP_RMATTR c o _ => c = cid ∧ o = oid
  | .OP_RMATTRS c o => c = cid ∧ o = oid
  | _ => false

/-- The calls that write a guard: the `fsync`s, the object map sync and the
write of the guard attribute. -/
def Mut.is_guard_step : Mut → Bool
  | .sys_fsync _ => true
  | .object_map_sync _ _ => true
  | .do_fsetxattr_guard _ _ => true
  | _ => false

/-- The calls that are no guard steps. -/
def Mut.not_guard_step (e : Mut) : Bool := !e.is_guard_step

/-- The calls of `lfn_link`. -/
def Mut.is_link : Mut → Bool
  | .sys_link _ _ => true
  | .index_created _ _ _ => true
  | _ => false

/-- The calls of a completed `_set_replay_guard(fd, spos, hoid, in_progress)`
without snapshot commits, in order. -/
def guard_steps (fd : Int) (spos : SequencerPosition) (hoid : Option hobject_t)
    (in_progress : Bool) : List Mut :=
  [Mut.sys_fsync fd, Mut.object_map_sync hoid spos,
   Mut.do_fsetxattr_guard fd ⟨spos, some in_progress⟩, Mut.sys_fsync fd]

/-- The calls of a completed `_close_replay_guard(fd, spos)` without snapshot
commits, in order. -/
def close_steps (fd : Int) (spos : SequencerPosition) : List Mut :=
  [Mut.do_fsetxattr_guard fd ⟨spos, some false⟩, Mut.sys_fsync fd]

/-- The calls of a completed `lfn_link` that links a file as `cid/o`: the `::link`
and the entry made in the index of `cid`. -/
def link_steps (path_old path_new : IndexedPath) (cid : coll_t) (o : hobject_t) : List Mut :=
  [Mut.sys_link path_old path_new, Mut.index_created cid o path_new]

/-- The state of the collaborators after the calls `tr`, made one after the other. -/
def after_calls {σ : Type} (sys : Sys σ) : σ → List Mut → σ
  | fs, [] => fs
  | fs, c :: tr => after_calls sys (sys.mutate c fs).2 tr

/-- The calls a computation added to the trace of `w`, given the trace it left. -/
def added {σ : Type} (w : World σ) (trace : List Mut) : List Mut := trace.drop w.trace.length

/-- A trace in which the guard is written last and closed: calls that are no
guard steps, followed either by nothing or, if there was at least one such
call, by exactly the calls of one `_set_replay_guard(fd, spos, hoid, false)`. -/
def closed_guard_last (spos : SequencerPosition) (hoid : Option hobject_t) (tr : List Mut) : Bool :=
  match tr.dropWhile Mut.not_guard_step with
  | [] => true
  | Mut.sys_fsync fd :: rest =>
    !(tr.takeWhile Mut.not_guard_step).isEmpty && rest = (guard_steps fd spos hoid false).tail
  | _ => false

/-- A trace in which the link is made inside an open guard: the calls of
`_set_replay_guard(fd, spos, hoid, true)`, then calls of `lfn_link` only, then
the calls of `_close_replay_guard(fd, spos)`. -/
def link_inside_guard (spos : SequencerPosition) (hoid : Option hobject_t) (tr : List Mut) : Bool :=
  match tr with
  | Mut.sys_fsync fd :: rest =>
    rest.take 3 = (guard_steps fd spos hoid true).tail &&
      (rest.drop 3).dropWhile Mut.is_link = close_steps fd spos
  | _ => false

/-- Run from a world with failure injection off, `m` leaves it off and adds to
the trace calls `l` such that `R` holds of its result and `l`. -/
def Adds {σ α : Type} (m : M σ α) (R : Except Fatal α → List Mut → Prop) : Prop :=
  ∀ w : World σ, w.m_filestore_kill_at = 0 →
    (m w).2.m_filestore_kill_at = 0 ∧ ∃ l, (m w).2.trace = w.trace ++ l ∧ R (m w).1 l

/-- The sequencer position that a call is handed, for the calls that are handed
one: the calls of the object map, the write of the guard attribute, whose value
holds the position, and the calls of the attribute store. -/
def Mut.position : Mut → Option SequencerPosition
  | .object_map_sync _ spos => some spos
  | .object_map_clone _ _ spos => some spos
  | .object_map_clear _ spos => some spos
  | .object_map_set_keys _ _ spos => some spos
  | .object_map_rm_keys _ _ spos => some spos
  | .object_map_set_header _ _ spos => some spos
  | .do_fsetxattr_guard _ v => some v.opos
  | ._setattrs _ _ _ spos => some spos
  | ._rmattr _ _ _ spos => some spos
  | ._rmattrs _ _ spos => some spos
  | .object_map_remove_xattrs _ _ spos => some spos
  | .object_map_set_xattrs _ _ spos => some spos
  | _ => none

/-- The call `e` is handed no position but `spos`. -/
def Mut.at_position (spos : SequencerPosition) (e : Mut) : Prop :=
  ∀ p, e.position = some p → p = spos

/-- Run from a world with failure injection off, `m` leaves it off and adds to
the trace only calls of which `p` holds. -/
def AddsAll {σ α : Type} (m : M σ α) (p : Mut → Prop) : Prop :=
  Adds m (fun _ l => ∀ e ∈ l, p e)

/-! ## Notions for the attribute layer -/

/-- The name with every `@` doubled. -/
def esc : List Nat → List Nat
  | [] => []
  | c :: name => if c = 64 then 64 :: 64 :: esc name else c :: esc name

/-- The raw name of chunk `i` of the attribute `name`: `esc(name)` for the first
chunk, `esc(name)@i` for the later ones. -/
def chunk_name (name : List Nat) (i : Nat) : List Nat :=
  if i = 0 then esc name else esc name ++ 64 :: decimal i

/-- The bytes `[a, b)` of `v`. -/
def bytes_range (v : Bytes) (a b : Nat) : Bytes := (v.drop a).take (b - a)

/-- The calls `sys_setxattr` that write `v` in chunks under `name`, first chunk first. -/
def chunk_writes (fn : IndexedPath) (name : List Nat) (v : Bytes) : List Mut :=
  (List.range ((v.length + 2047) / 2048 - 1 + 1)).map (fun i =>
    Mut.sys_setxattr fn (chunk_name name i) (bytes_range v (2048 * i) (min v.length (2048 * (i + 1)))))

/-- The test of the claim: the value of `p` is longer than
`filestore_max_inline_xattr_size`, or its name is not stored inline and the
inline attributes already number `filestore_max_inline_xattrs` or more. -/
def goes_to_omap (g_conf : md_config_t) (inline_set : AttrSet) (p : List Nat × Bytes) : Bool :=
  decide (p.2.length > g_conf.filestore_max_inline_xattr_size) ||
    (!map_count inline_set p.1 &&
      decide (inline_set.length ≥ g_conf.filestore_max_inline_xattrs))

/-- The attributes stored inline once `p` has been placed. -/
def inline_after (g_conf : md_config_t) (inline_set : AttrSet) (p : List Nat × Bytes) : AttrSet :=
  if goes_to_omap g_conf inline_set p then map_erase inline_set p.1 else map_insert inline_set p

/-- The calls `seg` place `p` as the test says. To the object map: no inline
write, only removals of raw attributes, beginning with the first chunk of the
inline copy when there is one and none otherwise. Inline: the chunk writes of the
value under `user.ceph.<name>`, with nothing but removals after them. -/
def placed (g_conf : md_config_t) (inline_set : AttrSet) (p : List Nat × Bytes)
    (seg : List Mut) : Prop :=
  if goes_to_omap g_conf inline_set p then
    (∀ e ∈ seg, ∃ fn raw, e = Mut.sys_removexattr fn raw) ∧
    (if map_count inline_set p.1 then
      ∃ fn tl, seg = Mut.sys_removexattr fn (chunk_name (get_attrname p.1 ATTR_MAX_NAME_LEN) 0) :: tl
    else seg = [])
  else
    ∃ fn rest, seg = chunk_writes fn (get_attrname p.1 ATTR_MAX_NAME_LEN) p.2 ++ rest ∧
      ∀ e ∈ rest, ∃ raw, e = Mut.sys_removexattr fn raw

/-- The lists of calls `segs` place the entries of `aset` one after the other,
each against the inline attributes as the entries before it left them. -/
def placements (g_conf : md_config_t) : AttrSet → AttrSet → List (List Mut) → Prop
  | _, [], segs => segs = []
  | inline_set, p :: rest, segs =>
    ∃ seg segs1, segs = seg :: segs1 ∧ placed g_conf inline_set p seg ∧
      placements g_conf (inline_after g_conf inline_set p) rest segs1

/-- The entries of `aset` that go to the object map, added to `acc`. -/
def omap_values (g_conf : md_config_t) : AttrSet → AttrSet → AttrSet → AttrSet
  | _, [], acc => acc
  | inline_set, p :: rest, acc =>
    omap_values g_conf (inline_after g_conf inline_set p) rest
      (if goes_to_omap g_conf inline_set p then omap_push_back acc p.1 p.2 else acc)

/-- The names of the entries of `aset` that are written inline, added to `acc`. -/
def omap_removals (g_conf : md_config_t) : AttrSet → AttrSet → List (List Nat) → List (List Nat)
  | _, [], acc => acc
  | inline_set, p :: rest, acc =>
    omap_removals g_conf (inline_after g_conf inline_set p) rest
      (if goes_to_omap g_conf inline_set p then acc else set_insert acc p.1)

/-! ## Notions for the commit cycle -/

/-- The opcodes of the transaction number `trans_num` of a batch applied at
`op_seq`, each with the position the claim gives it: the `k`-th opcode, counted
from `0`, with `(op_seq, trans_num, k)`. -/
def stamped (op_seq trans_num : Nat) (t : Transaction) :
    List (TransactionOp × SequencerPosition) :=
  t.enum.map (fun p => (p.2, ⟨op_seq, trans_num, p.1⟩))

/-- The transactions of a batch applied at `op_seq`, the `j`-th one, counted from
`0`, stamped as transaction number `j`. -/
def batch_stamped (op_seq : Nat) (tls : List Transaction) :
    List (List (TransactionOp × SequencerPosition)) :=
  tls.enum.map (fun p => stamped op_seq p.1 p.2)

/-- Opcodes applied one after the other, each at the position given with it:
failure injection, the guard check and the call made at this position, and the
error policy on the result. -/
def apply_stamped {σ : Type} (st : Store σ) :
    List (TransactionOp × SequencerPosition) → M σ Unit
  | [] => pure ()
  | (op, spos) :: rest => do
      _inject_failure
      let r ← _do_transaction_switch st op spos
      if r < 0 ∧ _do_transaction_ok st.replaying st.btrfs_stable_commits op.get_op r = false then
        die Fatal.unexpected_error
      else
        apply_stamped st rest

/-- Stamped transactions applied one after the other, with the failure injection
that ends each of them; the result is `0`. -/
def apply_batch {σ : Type} (st : Store σ) :
    List (List (TransactionOp × SequencerPosition)) → M σ Int
  | [] => pure 0
  | t :: rest => do
      apply_stamped st t
      _inject_failure
      apply_batch st rest
/-- What the guard check of an opcode looks at: an object or a collection. -/
inductive GuardTarget
  | object (cid : coll_t) (oid : hobject_t)
  | collection (cid : coll_t)
deriving DecidableEq, Repr

/-- The object or collection of the first guard check made for an opcode: the
object of the opcodes that check before the call and of COLL_REMOVE, the
destination of CLONE, CLONERANGE, CLONERANGE2 and COLL_ADD, the first collection
and the object of COLL_MOVE, the collection of MKCOLL, RMCOLL, COLL_SETATTR and
COLL_RMATTR, the new collection of COLL_RENAME; `none` for the opcodes without a
check. -/
def TransactionOp.guard_target : TransactionOp → Option GuardTarget
  | .OP_TOUCH cid oid => some (.object cid oid)
  | .OP_WRITE cid oid _ _ _ => some (.object cid oid)
  | .OP_ZERO cid oid _ _ => some (.object cid oid)
  | .OP_TRUNCATE cid oid _ => some (.object cid oid)
  | .OP_REMOVE cid oid => some (.object cid oid)
  | .OP_SETATTR cid oid _ _ => some (.object cid oid)
  | .OP_SETATTRS cid oid _ => some (.object cid oid)
  | .OP_RMATTR cid oid _ => some (.object cid oid)
  | .OP_RMATTRS cid oid => some (.object cid oid)
  | .OP_CLONE cid _ noid => some (.object cid noid)
  | .OP_CLONERANGE cid _ noid _ _ => some (.object cid noid)
  | .OP_CLONERANGE2 cid _ noid _ _ _ => some (.object cid noid)
  | .OP_MKCOLL cid => some (.collection cid)
  | .OP_RMCOLL cid => some (.collection cid)
  | .OP_COLL_ADD ncid _ oid => some (.object ncid oid)
  | .OP_COLL_REMOVE cid oid => some (.object cid oid)
  | .OP_COLL_MOVE ocid _ oid => some (.object ocid oid)
  | .OP_COLL_SETATTR cid _ _ => some (.collection cid)
  | .OP_COLL_RMATTR cid _ => some (.collection cid)
  | .OP_COLL_RENAME _ ncid => some (.collection ncid)
  | _ => none

/-- The guard check on a target at a position: `_check_replay_guard(cid, oid, spos)`
on an object, `_check_replay_guard(cid, spos)` on a collection. -/
def check_guard {σ : Type} (st : Store σ) : GuardTarget → SequencerPosition → M σ Int
  | .object cid oid, spos => _check_replay_guard_oid st cid oid spos
  | .collection cid, spos => _check_replay_guard_cid st cid spos

/-- The call that an opcode with a check in front makes when the check says
replay, as the `switch` has it: `_touch`, `_write`, `_zero`, `_truncate`,
`_remove`, `_setattrs` (for SETATTR with the one attribute), `_rmattr` and
`_rmattrs`, with the position for those that take one. -/
def TransactionOp.primitive {σ : Type} (st : Store σ) (spos : SequencerPosition) :
    TransactionOp → M σ Int
  | .OP_TOUCH cid oid => _touch st cid oid
  | .OP_WRITE cid oid off len bl => _write st cid oid off len bl
  | .OP_ZERO cid oid off len => _zero st cid oid off len
  | .OP_TRUNCATE cid oid off => _truncate st cid oid off
  | .OP_REMOVE cid oid => _remove st cid oid spos
  | .OP_SETATTR cid oid name bl => mutate st.toSys (Mut._setattrs cid oid [(name, bl)] spos)
  | .OP_SETATTRS cid oid aset => mutate st.toSys (Mut._setattrs cid oid aset spos)
  | .OP_RMATTR cid oid name => mutate st.toSys (Mut._rmattr cid oid name spos)
  | .OP_RMATTRS cid oid => mutate st.toSys (Mut._rmattrs cid oid spos)
  | _ => pure 0


/-! ## Notions for the pieces of a cloned range -/

/-- The piece of the source that a call moves: the range `[src, src + len)` of the
source and the offset in the destination it is written at, for the `ioctl`
`BTRFS_IOC_CLONE_RANGE` and for `_do_copy_range`. -/
structure Piece where
  src : Nat
  len : Nat
  dst : Nat
deriving DecidableEq, Repr

/-- The piece of a call, `none` for the calls that move nothing. -/
def Mut.piece : Mut → Option Piece
  | .btrfs_ioc_clone_range _ _ src_offset src_length dest_offset =>
    some ⟨src_offset, src_length, dest_offset⟩
  | ._do_copy_range _ _ srcoff len dstoff => some ⟨srcoff, len, dstoff⟩
  | _ => none

/-- The calls `tr`, made one after the other from the state `fs`, all succeed:
none has a negative result. -/
def calls_succeed {σ : Type} (sys : Sys σ) : σ → List Mut → Prop
  | _, [] => True
  | fs, c :: tr => 0 ≤ (sys.mutate c fs).1 ∧ calls_succeed sys (sys.mutate c fs).2 tr

/-! ## Concrete stores -/

/-- A file system with the collection `1`, which holds the object `2` with the
bytes of "hello", and the empty collection `4`. -/
def fs_hello : MemFS where
  colls := [(1, 100), (4, 101)]
  names := [(⟨1, 2⟩, 7)]
  inodes := [(7, ⟨[104, 101, 108, 108, 111], 1, none, []⟩), (100, ⟨[], 2, none, []⟩),
    (101, ⟨[], 2, none, []⟩)]
  offsets := []
  next_ino := 102
  errno := 0

/-- The world over `fs_hello`. -/
def w_hello : World MemFS := World.init fs_hello

/-- The world after `_close_replay_guard` at position `(5, 0, 1)` on the object `1/2`. -/
def w_closed : World MemFS := (_close_replay_guard (memstore true false) 7 ⟨5, 0, 1⟩ w_hello).2

/-- The world after `_set_replay_guard` at position `(5, 0, 1)` on the object `1/2`
with `in_progress` set. -/
def w_in_progress : World MemFS :=
  (_set_replay_guard (memstore true false) 7 ⟨5, 0, 1⟩ (some 2) true w_hello).2

/-- The world after `CLONE(1, 2, 3)` applied outside replay at position `(5, 0, 1)`. -/
def w_cloned : World MemFS := (_clone (memstore false false) 1 2 3 ⟨5, 0, 1⟩ w_hello).2

/-- The world after `do_setxattr` has stored 4096 bytes under the name `k` on the
object `1/2`: the raw attributes `k` and `k@1` of 2048 bytes each. -/
def w_k4096 : World MemFS :=
  (do_setxattr (memstore false false) ⟨1, 2⟩ [107] (List.replicate 4096 1) w_hello).2

/-- The world after a second `do_setxattr` on `w_k4096` has stored 2048 bytes under `k`. -/
def w_k2048 : World MemFS :=
  (do_setxattr (memstore false false) ⟨1, 2⟩ [107] (List.replicate 2048 2) w_k4096).2

/-- The world after `do_setxattr` has stored 2048 bytes under `k` on the object
`1/2`, which had no attributes. -/
def w_fresh2048 : World MemFS :=
  (do_setxattr (memstore false false) ⟨1, 2⟩ [107] (List.replicate 2048 2) w_hello).2

/-- Configuration with the object map preferred: values of more than 512 bytes,
and attributes beyond two inline ones, go to the object map. -/
def conf_omap : md_config_t := ⟨true, 512, 2⟩

/-- The world after `_setattrs` has stored the three bytes `1 2 3` under the name
`_` of the object `1/2`, inline. -/
def w_attr : World MemFS :=
  (_setattrs (memstore false false) conf_omap 1 2 [([95], [1, 2, 3])] ⟨5, 0, 0⟩ w_hello).2

/-- The world over `fs_hello` with room for eight bytes of attribute values per inode. -/
def w_small : World MemFS := World.init { fs_hello with xattr_space := 8 }

/-- A file system as `fs_hello` in which `current/commit_op_seq` exists, as the
inode `50`, and holds `12345` and a newline. -/
def fs_op_seq : MemFS :=
  { fs_hello with
    inodes := (50, ⟨[49, 50, 51, 52, 53, 10], 1, none, []⟩) :: fs_hello.inodes,
    op_seq_ino := some 50 }

/-- The world over `fs_op_seq`. -/
def w_op_seq : World MemFS := World.init fs_op_seq

/-- A file system as `fs_hello` in which the object `1/2` has the attribute `k@`
in two chunks, under the raw names `k@@` and `k@@@1`, and the attribute `m` in
one. -/
def fs_chunks : MemFS :=
  { fs_hello with
    inodes := (7, ⟨[104, 101, 108, 108, 111], 1, none,
      [([107, 64, 64], [1]), ([107, 64, 64, 64, 49], [2]), ([109], [3])]⟩) ::
        fs_hello.inodes.tail }

/-- The world over `fs_chunks`. -/
def w_chunks : World MemFS := World.init fs_chunks


/-- A file system as `fs_hello` in which the object `1/2`, the inode `7`, holds
twelve bytes and the inode `8` is an empty file. -/
def fs_clone : MemFS :=
  { fs_hello with
    inodes := (7, ⟨[0, 1, 2, 3, 4, 5, 6, 7, 8, 9, 10, 11], 1, none, []⟩) ::
      (8, ⟨[], 1, none, []⟩) :: fs_hello.inodes.tail }

/-- The world over `fs_clone`. -/
def w_clone : World MemFS := World.init fs_clone


/-- The store over `MemFS` for which the kernel reports three extents of every
file: `[0, 20)`, `[20, 25)` and `[30, 40)`. -/
def store_three_extents : Store MemFS :=
  { memstore false false with
    toSys := { memsys with
      fs_ioc_fiemap := fun _ _ _ _ _ => (0, [⟨0, 20⟩, ⟨20, 5⟩, ⟨30, 10⟩]) } }

/-! ## Properties -/

section Proofs

variable {σ : Type} (st : Store σ)

theorem pure_run {α : Type} (a : α) (w : World σ) :
    (pure a : M σ α) w = (Except.ok a, w) := rfl

theorem bind_run {α β : Type} (m : M σ α) (f : α → M σ β) (w : World σ) :
    (m >>= f) w = match m w with
      | (Except.ok a, w1) => f a w1
      | (Except.error e, w1) => (Except.error e, w1) := rfl

theorem ask_run {α : Type} (f : σ → α) (w : World σ) :
    (ask f : M σ α) w = (Except.ok (f w.fs), w) := rfl

theorem ite_run {α : Type} (c : Prop) [Decidable c] (a b : M σ α) (w : World σ) :
    (if c then a else b) w = if c then a w else b w := by
  split_ifs <;> rfl

theorem die_run {α : Type} (e : Fatal) (w : World σ) :
    (die e : M σ α) w = (Except.error e, w) := rfl

theorem SequencerPosition.lt_def (a b : SequencerPosition) :
    a < b ↔ a.seq < b.seq ∨ (a.seq = b.seq ∧ (a.trans < b.trans ∨ (a.trans = b.trans ∧ a.op < b.op))) :=
  Iff.rfl

theorem SequencerPosition.le_def (a b : SequencerPosition) : a ≤ b ↔ a < b ∨ a = b := Iff.rfl

theorem SequencerPosition.eq_iff (a b : SequencerPosition) :
    a = b ↔ a.seq = b.seq ∧ a.trans = b.trans ∧ a.op = b.op := by
  cases a; cases b; simp

theorem SequencerPosition.lt_asymm (a b : SequencerPosition) (h : a < b) : ¬ b < a := by
  rw [SequencerPosition.lt_def] at *; omega

theorem SequencerPosition.lt_irrefl (a : SequencerPosition) : ¬ a < a := by
  rw [SequencerPosition.lt_def]; omega

theorem SequencerPosition.lt_trichotomy (a b : SequencerPosition) : a < b ∨ a = b ∨ b < a := by
  rw [SequencerPosition.lt_def, SequencerPosition.lt_def, SequencerPosition.eq_iff]; omega

/-- The descriptor check under replay without snapshot commits, as a function
of what reading the guard attribute gives. -/
theorem _check_replay_guard_replaying (w : World σ) (fd : Int) (spos : SequencerPosition)
    (hr : st.replaying = true) (hs : st.btrfs_stable_commits = false) :
    _check_replay_guard st fd spos w =
      (Except.ok (if (st.do_fgetxattr_guard fd w.fs).1 < 0 then 1
        else if (st.do_fgetxattr_guard fd w.fs).2.opos > spos then -1
        else if (st.do_fgetxattr_guard fd w.fs).2.opos = spos then
          (if (st.do_fgetxattr_guard fd w.fs).2.in_progress.getD false = true then 0 else -1)
        else 1), w) := by
  simp [_check_replay_guard, bind_run, ask_run, pure_run, hr, hs]
  split_ifs <;> simp_all [pure_run]

/-- The verdict on a guard that reads as `g`. -/
theorem _check_replay_guard_of_read (w : World σ) (fd : Int) (spos : SequencerPosition)
    (g : GuardAttr) (hr : st.replaying = true) (hs : st.btrfs_stable_commits = false)
    (h0 : 0 ≤ (st.do_fgetxattr_guard fd w.fs).1) (hg : (st.do_fgetxattr_guard fd w.fs).2 = g) :
    _check_replay_guard st fd spos w =
      (Except.ok (if g.opos > spos then -1
        else if g.opos = spos then (if g.in_progress.getD false = true then 0 else -1)
        else 1), w) := by
  rw [_check_replay_guard_replaying st w fd spos hr hs, hg, if_neg (not_lt.mpr h0)]

/-- The check by name on an object that carries the guard `g`. -/
theorem _check_replay_guard_oid_of_carries (w : World σ) (cid : coll_t) (oid : hobject_t)
    (spos : SequencerPosition) (g : GuardAttr)
    (hr : st.replaying = true) (hs : st.btrfs_stable_commits = false)
    (h : carries_guard st w cid oid g) :
    _check_replay_guard_oid st cid oid spos w =
      (Except.ok (if g.opos > spos then -1
        else if g.opos = spos then (if g.in_progress.getD false = true then 0 else -1)
        else 1), w) := by
  obtain ⟨fd, hfd, hopen, h0, hg⟩ := h
  simp [_check_replay_guard_oid, bind_run, pure_run, hr, hs, hopen, not_lt.mpr hfd,
    _check_replay_guard_of_read st w fd spos g hr hs h0 hg]

/-- The check by name on a collection that carries the guard `g`. -/
theorem _check_replay_guard_cid_of_carries (w : World σ) (cid : coll_t)
    (spos : SequencerPosition) (g : GuardAttr)
    (hr : st.replaying = true) (hs : st.btrfs_stable_commits = false)
    (h : coll_carries_guard st w cid g) :
    _check_replay_guard_cid st cid spos w =
      (Except.ok (if g.opos > spos then -1
        else if g.opos = spos then (if g.in_progress.getD false = true then 0 else -1)
        else 1), w) := by
  obtain ⟨hfd, h0, hg⟩ := h
  simp [_check_replay_guard_cid, bind_run, pure_run, ask_run, hr, hs, not_lt.mpr hfd,
    _check_replay_guard_of_read st w _ spos g hr hs h0 hg]

/-- Outside replay, and with snapshot commits, every check says replay. -/
theorem _check_replay_guard_oid_not_replaying (w : World σ) (cid : coll_t) (oid : hobject_t)
    (spos : SequencerPosition) (h : st.replaying = false ∨ st.btrfs_stable_commits = true) :
    _check_replay_guard_oid st cid oid spos w = (Except.ok 1, w) := by
  rcases h with h | h <;> simp [_check_replay_guard_oid, h, pure_run]

/-- With failure injection off, `_inject_failure` does nothing. -/
theorem _inject_failure_off (w : World σ) (hk : w.m_filestore_kill_at = 0) :
    (_inject_failure : M σ Unit) w = (Except.ok (), w) := by
  simp [_inject_failure, hk]

/-- One turn of the interpreter loop whose `switch` leaves `r`: the error policy
decides between the fatal assertion and the next opcode. -/
theorem _do_transaction_loop_step (w w1 : World σ) (op : TransactionOp)
    (rest : List TransactionOp) (spos : SequencerPosition) (r : Int)
    (hk : w.m_filestore_kill_at = 0)
    (hsw : _do_transaction_switch st op spos w = (Except.ok r, w1)) :
    _do_transaction_loop st (op :: rest) spos w =
      if r < 0 ∧ _do_transaction_ok st.replaying st.btrfs_stable_commits op.get_op r = false then
        (Except.error Fatal.unexpected_error, w1)
      else
        _do_transaction_loop st rest { spos with op := spos.op + 1 } w1 := by
  rw [_do_transaction_loop]
  simp only [bind_run, _inject_failure_off w hk, hsw]
  split_ifs <;> simp_all [die_run]

/-- The function `do_transactions` never hands back anything but `0`. -/
theorem do_transactions_loop_zero (op_seq : Nat) (tls : List Transaction) (trans_num : Nat)
    (w w1 : World σ) (r : Int)
    (h : do_transactions_loop st op_seq tls trans_num 0 w = (Except.ok r, w1)) : r = 0 := by
  induction tls generalizing trans_num w with
  | nil =>
    simp [do_transactions_loop, pure_run] at h
    exact h.1.symm
  | cons t tls ih =>
    rw [do_transactions_loop] at h
    simp only [bind_run, _do_transaction] at h
    split at h
    · rename_i a w2 heq
      split at heq
      · rename_i a2 w3 heq2
        split at heq
        · rename_i a3 w4 heq3
          simp only [pure_run, Prod.mk.injEq, Except.ok.injEq] at heq
          obtain ⟨rfl, rfl⟩ := heq
          simp only [lt_self_iff_false, if_false] at h
          exact ih _ _ h
        · simp at heq
      · simp at heq
    · simp at h

theorem open_changes_zero : open_changes 0 = false := by decide

/-- Opening without flags changes nothing. -/
theorem lfn_open_zero_pure (w : World σ) (cid : coll_t) (oid : hobject_t) :
    ∃ fd : Int, lfn_open st cid oid 0 false w = (Except.ok fd, w) := by
  simp [lfn_open, bind_run, pure_run, ask_run, ite_run, open_changes_zero, O_CREAT]
  split_ifs <;> exact ⟨_, rfl⟩

/-- The descriptor check changes nothing. -/
theorem _check_replay_guard_pure (w : World σ) (fd : Int) (spos : SequencerPosition) :
    ∃ d : Int, _check_replay_guard st fd spos w = (Except.ok d, w) := by
  simp only [_check_replay_guard, bind_run, pure_run, ask_run, ite_run]
  split_ifs <;> simp [pure_run]

/-- The check by name changes nothing. -/
theorem _check_replay_guard_oid_pure (w : World σ) (cid : coll_t) (oid : hobject_t)
    (spos : SequencerPosition) :
    ∃ d : Int, _check_replay_guard_oid st cid oid spos w = (Except.ok d, w) := by
  obtain ⟨fd, hfd⟩ := lfn_open_zero_pure st w cid oid
  obtain ⟨d, hd⟩ := _check_replay_guard_pure st w fd spos
  simp only [_check_replay_guard_oid, bind_run, pure_run, ite_run, hfd, hd]
  split_ifs <;> simp

/-- A guard `(SP_F, false)` makes the check at every `spos ≤ SP_F` say skip. -/
theorem _check_replay_guard_oid_skip (w : World σ) (cid : coll_t) (oid : hobject_t)
    (spos SP_F : SequencerPosition)
    (hr : st.replaying = true) (hs : st.btrfs_stable_commits = false)
    (hg : carries_guard st w cid oid ⟨SP_F, some false⟩) (hle : spos ≤ SP_F) :
    _check_replay_guard_oid st cid oid spos w = (Except.ok (-1), w) := by
  rw [_check_replay_guard_oid_of_carries st w cid oid spos _ hr hs hg]
  rcases hle with h | rfl
  · simp [h]
  · simp [SequencerPosition.lt_irrefl]

/-- A guard newer than `spos` makes the check say skip, whatever its flag. -/
theorem _check_replay_guard_oid_newer (w : World σ) (cid : coll_t) (oid : hobject_t)
    (spos : SequencerPosition) (g : GuardAttr)
    (hr : st.replaying = true) (hs : st.btrfs_stable_commits = false)
    (hg : carries_guard st w cid oid g) (hlt : g.opos > spos) :
    _check_replay_guard_oid st cid oid spos w = (Except.ok (-1), w) := by
  rw [_check_replay_guard_oid_of_carries st w cid oid spos _ hr hs hg]
  simp only [gt_iff_lt] at hlt
  simp [hlt]

/-! ### What a computation adds to the trace -/

theorem mutate_run (sys : Sys σ) (c : Mut) (w : World σ) :
    mutate sys c w = (Except.ok (sys.mutate c w.fs).1,
      { w with fs := (sys.mutate c w.fs).2, trace := w.trace ++ [c] }) := rfl

theorem Adds.pure {α : Type} (a : α) (R : Except Fatal α → List Mut → Prop)
    (h : R (Except.ok a) []) : Adds (pure a : M σ α) R := by
  intro w hk
  exact ⟨hk, [], by simp [pure_run], h⟩

theorem Adds.die {α : Type} (e : Fatal) (R : Except Fatal α → List Mut → Prop)
    (h : R (Except.error e) []) : Adds (die e : M σ α) R := by
  intro w hk
  exact ⟨hk, [], by simp [die_run], h⟩

theorem Adds.ite {α : Type} (c : Prop) [Decidable c] (a b : M σ α)
    (R : Except Fatal α → List Mut → Prop) (ha : c → Adds a R) (hb : ¬ c → Adds b R) :
    Adds (if c then a else b) R := by
  split_ifs with h
  · exact ha h
  · exact hb h

/-- Sequencing: what `f` adds comes after what `m` added. -/
theorem Adds.bind {α β : Type} (m : M σ α) (f : α → M σ β)
    (P : Except Fatal α → List Mut → Prop) (R : Except Fatal β → List Mut → Prop)
    (hm : Adds m P)
    (hf : ∀ a l1, P (Except.ok a) l1 → Adds (f a) (fun res l2 => R res (l1 ++ l2)))
    (he : ∀ e l1, P (Except.error e) l1 → R (Except.error e) l1) :
    Adds (m >>= f) R := by
  intro w hk
  obtain ⟨hk1, l1, ht1, hp1⟩ := hm w hk
  rw [bind_run]
  rcases hmw : m w with ⟨res1, w1⟩
  rw [hmw] at hk1 ht1 hp1
  cases res1 with
  | error e =>
    exact ⟨hk1, l1, ht1, he e l1 hp1⟩
  | ok a =>
    obtain ⟨hk2, l2, ht2, hp2⟩ := hf a l1 hp1 w1 hk1
    refine ⟨hk2, l1 ++ l2, ?_, hp2⟩
    simp only at ht1
    simp only [ht2, ht1, List.append_assoc]

theorem Adds.bind_ask {α β : Type} (q : σ → α) (f : α → M σ β)
    (R : Except Fatal β → List Mut → Prop) (hf : ∀ a, Adds (f a) R) :
    Adds (ask q >>= f) R := by
  intro w hk
  rw [bind_run, ask_run]
  exact hf _ w hk

theorem Adds.bind_mutate {β : Type} (sys : Sys σ) (c : Mut) (f : Int → M σ β)
    (R : Except Fatal β → List Mut → Prop)
    (hf : ∀ r, Adds (f r) (fun res l => R res (c :: l))) :
    Adds (mutate sys c >>= f) R := by
  intro w hk
  rw [bind_run, mutate_run]
  obtain ⟨hk2, l2, ht2, hp2⟩ := hf (sys.mutate c w.fs).1
    { w with fs := (sys.mutate c w.fs).2, trace := w.trace ++ [c] } hk
  exact ⟨hk2, c :: l2, by simp [ht2], hp2⟩

theorem Adds.bind_inject {β : Type} (f : Unit → M σ β)
    (R : Except Fatal β → List Mut → Prop) (hf : Adds (f ()) R) :
    Adds (_inject_failure >>= f) R := by
  intro w hk
  rw [bind_run, _inject_failure_off w hk]
  exact hf w hk

theorem Adds.mutate (sys : Sys σ) (c : Mut) (R : Except Fatal Int → List Mut → Prop)
    (h : ∀ r, R (Except.ok r) [c]) : Adds (mutate sys c) R := by
  intro w hk
  rw [mutate_run]
  exact ⟨hk, [c], rfl, h _⟩

theorem Adds.inject (R : Except Fatal Unit → List Mut → Prop) (h : R (Except.ok ()) []) :
    Adds (_inject_failure : M σ Unit) R := by
  intro w hk
  rw [_inject_failure_off w hk]
  exact ⟨hk, [], by simp, h⟩

theorem Adds.mono {α : Type} (m : M σ α) (P R : Except Fatal α → List Mut → Prop)
    (hm : Adds m P) (h : ∀ res l, P res l → R res l) : Adds m R := by
  intro w hk
  obtain ⟨hk1, l, ht, hp⟩ := hm w hk
  exact ⟨hk1, l, ht, h _ _ hp⟩

theorem flags_lemmas :
    open_changes O_RDONLY = false ∧ open_changes (O_CREAT ||| O_WRONLY) = true ∧
    open_changes (O_CREAT ||| O_TRUNC ||| O_WRONLY) = true ∧
    ((O_CREAT ||| O_WRONLY) &&& O_CREAT != 0) = true ∧
    ((O_CREAT ||| O_TRUNC ||| O_WRONLY) &&& O_CREAT != 0) = true ∧
    (O_RDONLY &&& O_CREAT != 0) = false := by decide

/-- What `lfn_open` adds: no guard step, and at least one call when it opens
with flags that may change the file system and hands back a descriptor. -/
theorem lfn_open_adds (cid : coll_t) (oid : hobject_t) (flags : Nat) (have_index : Bool) :
    Adds (lfn_open st cid oid flags have_index) (fun res l =>
      (∃ r, res = Except.ok r ∧ (open_changes flags = true → 0 ≤ r → l ≠ [])) ∧
      l.all Mut.not_guard_step = true) := by
  unfold lfn_open
  refine Adds.bind _ _ (fun res l => (∃ r, res = Except.ok r) ∧ l = []) _ ?_ ?_ ?_
  · split_ifs
    · exact Adds.pure _ _ ⟨⟨_, rfl⟩, rfl⟩
    · intro w hk
      exact ⟨hk, [], by simp [ask_run], ⟨_, rfl⟩, rfl⟩
  · rintro r l1 ⟨_, rfl⟩
    simp only [List.nil_append]
    refine Adds.ite _ _ _ _ (fun hneg => Adds.pure _ _ ⟨⟨_, rfl, ?_⟩, rfl⟩) (fun _ => ?_)
    · intro _ h0; omega
    refine Adds.bind_ask _ _ _ ?_
    rintro ⟨r2, path, exist⟩
    refine Adds.ite _ _ _ _ (fun hneg => Adds.pure _ _ ⟨⟨_, rfl, ?_⟩, rfl⟩) (fun _ => ?_)
    · intro _ h0; simp only at hneg; omega
    by_cases hc : open_changes flags = true
    · simp only [hc, if_true]
      refine Adds.bind_mutate _ _ _ _ ?_
      intro r3
      refine Adds.ite _ _ _ _ (fun hneg => Adds.pure _ _ ⟨⟨_, rfl, ?_⟩, ?_⟩) (fun _ => ?_)
      · intro _ _; simp
      · simp [Mut.is_guard_step, Mut.not_guard_step]
      refine Adds.ite _ _ _ _ (fun _ => ?_) (fun _ => Adds.pure _ _ ⟨⟨_, rfl, ?_⟩, ?_⟩)
      · refine Adds.bind_mutate _ _ _ _ ?_
        intro r4
        refine Adds.ite _ _ _ _ (fun _ => Adds.pure _ _ ⟨⟨_, rfl, ?_⟩, ?_⟩)
          (fun _ => Adds.pure _ _ ⟨⟨_, rfl, ?_⟩, ?_⟩) <;> simp [Mut.is_guard_step, Mut.not_guard_step]
      · simp
      · simp [Mut.is_guard_step, Mut.not_guard_step]
    · simp only [hc]
      refine Adds.bind_ask _ _ _ ?_
      intro r3
      refine Adds.ite _ _ _ _ (fun hneg => Adds.pure _ _ ⟨⟨_, rfl, ?_⟩, ?_⟩) (fun _ => ?_)
      · intro h; exact absurd h (by decide)
      · simp
      refine Adds.ite _ _ _ _ (fun _ => ?_) (fun _ => Adds.pure _ _ ⟨⟨_, rfl, ?_⟩, ?_⟩)
      · refine Adds.bind_mutate _ _ _ _ ?_
        intro r4
        refine Adds.ite _ _ _ _ (fun _ => Adds.pure _ _ ⟨⟨_, rfl, ?_⟩, ?_⟩)
          (fun _ => Adds.pure _ _ ⟨⟨_, rfl, ?_⟩, ?_⟩) <;> simp [Mut.is_guard_step, Mut.not_guard_step]
      · intro h; exact absurd h (by decide)
      · simp
  · rintro e l1 ⟨⟨r, hr⟩, _⟩
    cases hr

/-- A completed `_set_replay_guard` has added exactly its guard steps. -/
theorem _set_replay_guard_adds (fd : Int) (spos : SequencerPosition) (hoid : Option hobject_t)
    (in_progress : Bool) (hs : st.btrfs_stable_commits = false) :
    Adds (_set_replay_guard st fd spos hoid in_progress) (fun res l =>
      res = Except.ok () → l = guard_steps fd spos hoid in_progress) := by
  unfold _set_replay_guard
  simp only [hs, Bool.false_eq_true, if_false]
  refine Adds.bind_inject _ _ ?_
  refine Adds.bind_mutate _ _ _ _ (fun _ => ?_)
  refine Adds.bind_mutate _ _ _ _ (fun _ => ?_)
  refine Adds.bind_inject _ _ ?_
  refine Adds.bind_mutate _ _ _ _ (fun r => ?_)
  refine Adds.ite _ _ _ _ (fun _ => Adds.die _ _ ?_) (fun _ => ?_)
  · intro h; cases h
  refine Adds.bind_mutate _ _ _ _ (fun _ => ?_)
  exact Adds.inject _ (fun _ => rfl)

/-- A completed `_close_replay_guard` has added exactly its two steps. -/
theorem _close_replay_guard_adds (fd : Int) (spos : SequencerPosition)
    (hs : st.btrfs_stable_commits = false) :
    Adds (_close_replay_guard st fd spos) (fun res l =>
      res = Except.ok () → l = close_steps fd spos) := by
  unfold _close_replay_guard
  simp only [hs, Bool.false_eq_true, if_false]
  refine Adds.bind_inject _ _ ?_
  refine Adds.bind_mutate _ _ _ _ (fun r => ?_)
  refine Adds.ite _ _ _ _ (fun _ => Adds.die _ _ ?_) (fun _ => ?_)
  · intro h; cases h
  refine Adds.bind_mutate _ _ _ _ (fun _ => ?_)
  exact Adds.inject _ (fun _ => rfl)

/-- The function `lfn_link` adds link calls only. -/
theorem lfn_link_adds (c cid : coll_t) (o : hobject_t) :
    Adds (lfn_link st c cid o) (fun res l =>
      (∃ r, res = Except.ok r) ∧ l.all Mut.is_link = true) := by
  unfold lfn_link
  refine Adds.bind_ask _ _ _ (fun r1 => ?_)
  refine Adds.ite _ _ _ _ (fun _ => Adds.pure _ _ ⟨⟨_, rfl⟩, rfl⟩) (fun _ => ?_)
  refine Adds.bind_ask _ _ _ (fun r2 => ?_)
  refine Adds.ite _ _ _ _ (fun _ => Adds.pure _ _ ⟨⟨_, rfl⟩, rfl⟩) (fun _ => ?_)
  refine Adds.bind_ask _ _ _ ?_
  rintro ⟨r, path_old, exist⟩
  refine Adds.ite _ _ _ _ (fun _ => Adds.pure _ _ ⟨⟨_, rfl⟩, rfl⟩) (fun _ => ?_)
  refine Adds.ite _ _ _ _ (fun _ => Adds.pure _ _ ⟨⟨_, rfl⟩, rfl⟩) (fun _ => ?_)
  refine Adds.bind_ask _ _ _ ?_
  rintro ⟨r, path_new, exist2⟩
  refine Adds.ite _ _ _ _ (fun _ => Adds.pure _ _ ⟨⟨_, rfl⟩, rfl⟩) (fun _ => ?_)
  refine Adds.ite _ _ _ _ (fun _ => Adds.pure _ _ ⟨⟨_, rfl⟩, rfl⟩) (fun _ => ?_)
  refine Adds.bind_mutate _ _ _ _ (fun r => ?_)
  refine Adds.ite _ _ _ _ (fun _ => Adds.pure _ _ ⟨⟨_, rfl⟩, by simp [Mut.is_link]⟩) (fun _ => ?_)
  exact Adds.mutate _ _ _ (fun _ => ⟨⟨_, rfl⟩, by simp [Mut.is_link]⟩)

theorem closed_guard_last_of_none (spos : SequencerPosition) (hoid : Option hobject_t)
    (l : List Mut) (h : l.all Mut.not_guard_step = true) :
    closed_guard_last spos hoid l = true := by
  have h1 : l.dropWhile Mut.not_guard_step = [] := by
    rw [List.dropWhile_eq_nil_iff]
    simpa using h
  simp [closed_guard_last, h1]

theorem closed_guard_last_append (spos : SequencerPosition) (hoid : Option hobject_t) (fd : Int)
    (pre : List Mut) (h : pre.all Mut.not_guard_step = true) (hne : pre ≠ []) :
    closed_guard_last spos hoid (pre ++ guard_steps fd spos hoid false) = true := by
  have h1 : ∀ x ∈ pre, Mut.not_guard_step x = true := by simpa using h
  have hd : (pre ++ guard_steps fd spos hoid false).dropWhile Mut.not_guard_step =
      guard_steps fd spos hoid false := by
    rw [List.dropWhile_append_of_pos h1]
    simp [guard_steps, Mut.is_guard_step, Mut.not_guard_step]
  have ht : (pre ++ guard_steps fd spos hoid false).takeWhile Mut.not_guard_step = pre := by
    rw [List.takeWhile_append_of_pos h1]
    simp [guard_steps, Mut.is_guard_step, Mut.not_guard_step]
  unfold closed_guard_last
  rw [hd, ht]
  cases pre with
  | nil => exact absurd rfl hne
  | cons a t => simp [guard_steps]

theorem all_append_cons (l1 l2 : List Mut) (c : Mut) (p : Mut → Bool)
    (h1 : l1.all p = true) (h2 : l2.all p = true) (hc : p c = true) :
    (l1 ++ l2 ++ [c]).all p = true := by
  simp only [List.all_append, h1, h2, List.all_cons, hc, List.all_nil, Bool.and_self]

theorem _clone_range_apply_adds (cid : coll_t) (oldoid newoid : hobject_t)
    (srcoff len dstoff : Nat) (spos : SequencerPosition) (hs : st.btrfs_stable_commits = false) :
    Adds (_clone_range_apply st cid oldoid newoid srcoff len dstoff spos) (fun res l =>
      ∀ r, res = Except.ok r → closed_guard_last spos (some newoid) l = true) := by
  unfold _clone_range_apply
  refine Adds.bind _ _ _ _ (lfn_open_adds st cid oldoid _ _) ?_ (fun e l1 _ r h => by cases h)
  rintro o l1 ⟨_, h1⟩
  refine Adds.ite _ _ _ _ (fun _ => Adds.pure _ _ (fun _ _ => ?_)) (fun _ => ?_)
  · exact closed_guard_last_of_none _ _ _ (by simpa using h1)
  refine Adds.bind _ _ _ _ (lfn_open_adds st cid newoid _ _) ?_ (fun e l2 _ r h => by cases h)
  rintro n l2 ⟨_, h2⟩
  refine Adds.ite _ _ _ _ (fun _ => Adds.pure _ _ (fun _ _ => ?_)) (fun _ => ?_)
  · exact closed_guard_last_of_none _ _ _ (by simp [h1, h2])
  refine Adds.bind_mutate _ _ _ _ (fun r => ?_)
  refine Adds.bind _ _ _ _ (_set_replay_guard_adds st n spos (some newoid) _ hs) ?_
    (fun e l3 _ r h => by cases h)
  rintro ⟨⟩ l3 h3
  refine Adds.pure _ _ (fun _ _ => ?_)
  have h4 : l1 ++ (l2 ++ Mut._do_clone_range o n srcoff len dstoff :: (l3 ++ [])) =
      (l1 ++ l2 ++ [Mut._do_clone_range o n srcoff len dstoff]) ++
        guard_steps n spos (some newoid) false := by
    rw [h3 rfl]
    simp [_set_replay_guard_default_in_progress]
  rw [h4]
  exact closed_guard_last_append _ _ _ _ (all_append_cons _ _ _ _ h1 h2 rfl) (by simp)

theorem _collection_rename_apply_adds (cid ncid : coll_t) (spos : SequencerPosition)
    (hs : st.btrfs_stable_commits = false) :
    Adds (_collection_rename_apply st cid ncid spos) (fun res l =>
      ∀ r, res = Except.ok r → closed_guard_last spos none l = true) := by
  unfold _collection_rename_apply
  refine Adds.bind_mutate _ _ _ _ (fun r => ?_)
  refine Adds.ite _ _ _ _ (fun _ => ?_) (fun _ => Adds.pure _ _ (fun _ _ => ?_))
  · refine Adds.bind_ask _ _ _ (fun fd => ?_)
    refine Adds.ite _ _ _ _ (fun _ => Adds.die _ _ (fun r h => by cases h)) (fun _ => ?_)
    refine Adds.bind _ _ _ _ (_set_replay_guard_adds st fd spos none _ hs) ?_
      (fun e l3 _ r h => by cases h)
    rintro ⟨⟩ l3 h3
    refine Adds.pure _ _ (fun _ _ => ?_)
    have h4 : Mut.sys_rename cid ncid :: (l3 ++ []) =
        [Mut.sys_rename cid ncid] ++ guard_steps fd spos none false := by
      rw [h3 rfl]
      simp [_set_replay_guard_default_in_progress]
    rw [h4]
    exact closed_guard_last_append _ _ _ _ rfl (by simp)
  · exact closed_guard_last_of_none _ _ _ rfl

theorem _clone_apply_adds (cid : coll_t) (oldoid newoid : hobject_t)
    (spos : SequencerPosition) (hs : st.btrfs_stable_commits = false) :
    Adds (_clone_apply st cid oldoid newoid spos) (fun res l =>
      ∀ r, res = Except.ok r → closed_guard_last spos (some newoid) l = true) := by
  unfold _clone_apply
  refine Adds.bind _ _ _ _ (lfn_open_adds st cid oldoid _ _) ?_ (fun e l1 _ r h => by cases h)
  rintro o l1 ⟨_, h1⟩
  refine Adds.ite _ _ _ _ (fun _ => Adds.pure _ _ (fun _ _ => ?_)) (fun _ => ?_)
  · exact closed_guard_last_of_none _ _ _ (by simpa using h1)
  refine Adds.bind _ _ _ _ (lfn_open_adds st cid newoid _ _) ?_ (fun e l2 _ r h => by cases h)
  rintro n l2 ⟨_, h2⟩
  refine Adds.ite _ _ _ _ (fun _ => Adds.pure _ _ (fun _ _ => ?_)) (fun _ => ?_)
  · exact closed_guard_last_of_none _ _ _ (by simp [h1, h2])
  refine Adds.bind_ask _ _ _ (fun st_size => ?_)
  refine Adds.bind_mutate _ _ _ _ (fun r => ?_)
  refine Adds.ite _ _ _ _ (fun _ => ?_) (fun _ => ?_)
  · refine Adds.bind_ask _ _ _ (fun e => Adds.pure _ _ (fun _ _ => ?_))
    exact closed_guard_last_of_none _ _ _ (by simp [h1, h2, Mut.is_guard_step, Mut.not_guard_step])
  refine Adds.bind_mutate _ _ _ _ (fun r2 => ?_)
  refine Adds.ite _ _ _ _ (fun _ => Adds.pure _ _ (fun _ _ => ?_)) (fun _ => ?_)
  · exact closed_guard_last_of_none _ _ _ (by simp [h1, h2, Mut.is_guard_step, Mut.not_guard_step])
  refine Adds.bind_ask _ _ _ ?_
  rintro ⟨r3, aset⟩
  refine Adds.ite _ _ _ _ (fun _ => Adds.pure _ _ (fun _ _ => ?_)) (fun _ => ?_)
  · exact closed_guard_last_of_none _ _ _ (by simp [h1, h2, Mut.is_guard_step, Mut.not_guard_step])
  refine Adds.bind_mutate _ _ _ _ (fun r4 => ?_)
  refine Adds.ite _ _ _ _ (fun _ => Adds.pure _ _ (fun _ _ => ?_)) (fun _ => ?_)
  · exact closed_guard_last_of_none _ _ _ (by simp [h1, h2, Mut.is_guard_step, Mut.not_guard_step])
  refine Adds.bind _ _ _ _ (_set_replay_guard_adds st n spos (some newoid) _ hs) ?_
    (fun e l3 _ r h => by cases h)
  rintro ⟨⟩ l3 h3
  refine Adds.pure _ _ (fun _ _ => ?_)
  have h4 : l1 ++ (l2 ++ Mut._do_clone_range o n 0 st_size 0 ::
        Mut.object_map_clone oldoid newoid spos :: Mut._setattrs cid newoid aset spos :: (l3 ++ [])) =
      (l1 ++ l2 ++ [Mut._do_clone_range o n 0 st_size 0, Mut.object_map_clone oldoid newoid spos,
        Mut._setattrs cid newoid aset spos]) ++ guard_steps n spos (some newoid) false := by
    rw [h3 rfl]
    simp [_set_replay_guard_default_in_progress]
  rw [h4]
  exact closed_guard_last_append _ _ _ _ (by simp [h1, h2, Mut.is_guard_step, Mut.not_guard_step]) (by simp)

theorem lfn_open_zero_adds (cid : coll_t) (oid : hobject_t) :
    Adds (lfn_open st cid oid 0 false) (fun res l => (∃ r, res = Except.ok r) ∧ l = []) := by
  intro w hk
  obtain ⟨fd, h⟩ := lfn_open_zero_pure st w cid oid
  rw [h]
  exact ⟨hk, [], by simp, ⟨_, rfl⟩, rfl⟩

theorem _check_replay_guard_oid_adds (cid : coll_t) (oid : hobject_t) (spos : SequencerPosition) :
    Adds (_check_replay_guard_oid st cid oid spos) (fun res l =>
      (∃ r, res = Except.ok r) ∧ l = []) := by
  intro w hk
  obtain ⟨d, h⟩ := _check_replay_guard_oid_pure st w cid oid spos
  rw [h]
  exact ⟨hk, [], by simp, ⟨_, rfl⟩, rfl⟩

theorem link_inside_guard_of (spos : SequencerPosition) (hoid : Option hobject_t) (fd : Int)
    (ll : List Mut) (h : ll.all Mut.is_link = true) :
    link_inside_guard spos hoid (guard_steps fd spos hoid true ++ (ll ++ close_steps fd spos))
      = true := by
  have h1 : ∀ x ∈ ll, Mut.is_link x = true := by simpa using h
  have hd : (ll ++ close_steps fd spos).dropWhile Mut.is_link = close_steps fd spos := by
    rw [List.dropWhile_append_of_pos h1]
    simp [close_steps, Mut.is_link]
  simp [link_inside_guard, guard_steps, hd]

theorem _collection_add_apply_adds (c oldcid : coll_t) (o : hobject_t)
    (spos : SequencerPosition) (dstcmp : Int) (hs : st.btrfs_stable_commits = false)
    (hd : dstcmp > 0) :
    Adds (_collection_add_apply st c oldcid o spos dstcmp) (fun res l =>
      res = Except.ok 0 → l = [] ∨ link_inside_guard spos (some o) l = true) := by
  unfold _collection_add_apply
  refine Adds.bind _ _ _ _ (lfn_open_zero_adds st oldcid o) ?_ (fun e l1 _ h => by cases h)
  rintro fd l1 ⟨_, rfl⟩
  refine Adds.ite _ _ _ _ (fun _ => ?_) (fun _ => ?_)
  · refine Adds.ite _ _ _ _ (fun _ => Adds.pure _ _ (fun _ => Or.inl rfl))
      (fun _ => Adds.die _ _ (fun h => by cases h))
  simp only [hd, if_true]
  refine Adds.bind _ _ _ _ (_set_replay_guard_adds st fd spos (some o) true hs) ?_
    (fun e l2 _ h => by cases h)
  rintro ⟨⟩ l2 h2
  refine Adds.bind _ _ _ _ (lfn_link_adds st oldcid c o) ?_ (fun e l3 _ h => by cases h)
  rintro r l3 ⟨_, h3⟩
  refine Adds.bind_inject _ _ ?_
  refine Adds.ite _ _ _ _ (fun _ => ?_) (fun hne => Adds.pure _ _ (fun h => ?_))
  · refine Adds.bind _ _ _ _ (_close_replay_guard_adds st fd spos hs) ?_
      (fun e l4 _ h => by cases h)
    rintro ⟨⟩ l4 h4
    refine Adds.pure _ _ (fun _ => Or.inr ?_)
    rw [h2 rfl, h4 rfl]
    simpa using link_inside_guard_of spos (some o) fd l3 h3
  · exact absurd (Except.ok.inj h) hne

theorem added_append (w : World σ) (l : List Mut) : added w (w.trace ++ l) = l := by
  simp [added]

/-- What `_clone` adds to the trace. -/
theorem _clone_adds (cid : coll_t) (oldoid newoid : hobject_t)
    (spos : SequencerPosition) (hs : st.btrfs_stable_commits = false) :
    Adds (_clone st cid oldoid newoid spos) (fun res l =>
      ∀ r, res = Except.ok r → closed_guard_last spos (some newoid) l = true) := by
  unfold _clone
  refine Adds.bind _ _ _ _ (_check_replay_guard_oid_adds st cid newoid spos) ?_
    (fun e l1 _ r h => by cases h)
  rintro d l1 ⟨_, rfl⟩
  refine Adds.ite _ _ _ _ (fun _ => Adds.pure _ _ (fun _ _ => rfl)) (fun _ => ?_)
  simpa using _clone_apply_adds st cid oldoid newoid spos hs

/-- What `_clone_range` adds to the trace. -/
theorem _clone_range_adds (cid : coll_t) (oldoid newoid : hobject_t)
    (srcoff len dstoff : Nat) (spos : SequencerPosition) (hs : st.btrfs_stable_commits = false) :
    Adds (_clone_range st cid oldoid newoid srcoff len dstoff spos) (fun res l =>
      ∀ r, res = Except.ok r → closed_guard_last spos (some newoid) l = true) := by
  unfold _clone_range
  refine Adds.bind _ _ _ _ (_check_replay_guard_oid_adds st cid newoid spos) ?_
    (fun e l1 _ r h => by cases h)
  rintro d l1 ⟨_, rfl⟩
  refine Adds.ite _ _ _ _ (fun _ => Adds.pure _ _ (fun _ _ => rfl)) (fun _ => ?_)
  simpa using _clone_range_apply_adds st cid oldoid newoid srcoff len dstoff spos hs

/-- What `_collection_rename` adds to the trace. -/
theorem _collection_rename_adds (cid ncid : coll_t)
    (spos : SequencerPosition) (hs : st.btrfs_stable_commits = false) :
    Adds (_collection_rename st cid ncid spos) (fun res l =>
      ∀ r, res = Except.ok r → closed_guard_last spos none l = true) := by
  unfold _collection_rename
  refine Adds.bind _ _ (fun res l => (∃ r, res = Except.ok r) ∧ l = []) _ ?_ ?_
    (fun e l1 _ r h => by cases h)
  · intro w hk
    obtain ⟨d, h⟩ : ∃ d : Int, _check_replay_guard_cid st ncid spos w = (Except.ok d, w) := by
      obtain ⟨d, hd⟩ := _check_replay_guard_pure st w (st.open_cdir ncid w.fs) spos
      simp only [_check_replay_guard_cid, bind_run, pure_run, ite_run, ask_run, hd]
      split_ifs <;> simp
    rw [h]
    exact ⟨hk, [], by simp, ⟨_, rfl⟩, rfl⟩
  rintro d l1 ⟨_, rfl⟩
  refine Adds.ite _ _ _ _ (fun _ => Adds.pure _ _ (fun _ _ => rfl)) (fun _ => ?_)
  simpa using _collection_rename_apply_adds st cid ncid spos hs

/-- What `_collection_add` adds to the trace once the check on the destination
has said replay. -/
theorem _collection_add_checked_adds (c oldcid : coll_t) (o : hobject_t)
    (spos : SequencerPosition) (dstcmp : Int) (hs : st.btrfs_stable_commits = false)
    (hd : dstcmp > 0) :
    Adds (_collection_add_checked st c oldcid o spos dstcmp) (fun res l =>
      res = Except.ok 0 → l = [] ∨ link_inside_guard spos (some o) l = true) := by
  unfold _collection_add_checked
  refine Adds.bind _ _ _ _ (_check_replay_guard_oid_adds st oldcid o spos) ?_
    (fun e l1 _ h => by cases h)
  rintro d l1 ⟨_, rfl⟩
  refine Adds.ite _ _ _ _ (fun _ => Adds.pure _ _ (fun _ => Or.inl rfl)) (fun _ => ?_)
  simpa using _collection_add_apply_adds st c oldcid o spos dstcmp hs hd

/-! ### Writing and reading on the in-memory file system -/

/-- The bytes written at `off` are the bytes found at `off`. -/
theorem pwrite_read (data : Bytes) (off : Nat) (bl : Bytes) (hne : bl ≠ []) :
    ((MemFS.pwrite data off bl).drop off).take bl.length = bl := by
  have hlen : ((data ++ List.replicate (off - data.length) 0).take off).length = off := by
    simp only [List.length_take, List.length_append, List.length_replicate]
    omega
  simp only [MemFS.pwrite, hne, if_false, List.append_assoc]
  rw [List.drop_append_of_le_length (by omega), List.drop_of_length_le (by omega)]
  simp

theorem toInt32_nonneg (n : Nat) (h32 : n < 4294967296) (h : 0 ≤ toInt32 n) :
    toInt32 n = n := by
  unfold toInt32 at *
  omega

theorem toInt64_small (n : Nat) (h : n < 9223372036854775808) : toInt64 n = n := by
  unfold toInt64
  omega

/-- What opening for writing with `O_CREAT` gives on `MemFS`. -/
theorem lfn_open_creat_mem (st : Store MemFS) (hst : st.toSys = memsys) (w : World MemFS)
    (cid : coll_t) (oid : hobject_t) :
    lfn_open st cid oid (O_WRONLY ||| O_CREAT) false w =
      if (w.fs.colls.lookup cid).isSome then
        match w.fs.names.lookup ⟨cid, oid⟩ with
        | some i => (Except.ok (i : Int),
            { w with trace := w.trace ++ [Mut.sys_open ⟨cid, oid⟩ (O_WRONLY ||| O_CREAT)] })
        | none => (Except.ok (w.fs.next_ino : Int),
            { w with
              fs := { w.fs with names := (⟨cid, oid⟩, w.fs.next_ino) :: w.fs.names,
                                inodes := (w.fs.next_ino, ⟨[], 1, none, []⟩) :: w.fs.inodes,
                                next_ino := w.fs.next_ino + 1 },
              trace := w.trace ++ [Mut.sys_open ⟨cid, oid⟩ (O_WRONLY ||| O_CREAT),
                Mut.index_created cid oid ⟨cid, oid⟩] })
      else (Except.ok (- ENOENT), w) := by
  have hf : open_changes (O_WRONLY ||| O_CREAT) = true ∧
      ((O_WRONLY ||| O_CREAT) &&& O_CREAT != 0) = true ∧
      ((O_WRONLY ||| O_CREAT) &&& O_TRUNC != 0) = false := by decide
  obtain ⟨sys, rp, sc, fm, fl, sf, bt, v2, fj, ofd, bfd⟩ := st
  simp only at hst
  subst hst
  simp only [lfn_open, bind_run, pure_run, ask_run, ite_run, mutate_run, hf, memsys,
    MemFS.get_index, MemFS.index_lookup, MemFS.mutate, Bool.false_eq_true, if_false, if_true]
  cases hc : List.lookup cid w.fs.colls <;> cases hn : List.lookup (⟨cid, oid⟩ : IndexedPath) w.fs.names <;>
    simp [ENOENT, hc, hn, MemFS.fail]

/-- What opening for reading gives on `MemFS`. -/
theorem lfn_open_rdonly_mem (st : Store MemFS) (hst : st.toSys = memsys) (w : World MemFS)
    (cid : coll_t) (oid : hobject_t) (i : Nat)
    (hc : (w.fs.colls.lookup cid).isSome = true)
    (hn : w.fs.names.lookup ⟨cid, oid⟩ = some i) :
    lfn_open st cid oid O_RDONLY false w = (Except.ok (i : Int), w) := by
  have hf : open_changes O_RDONLY = false ∧ (O_RDONLY &&& O_CREAT != 0) = false := by decide
  obtain ⟨sys, rp, sc, fm, fl, sf, bt, v2, fj, ofd, bfd⟩ := st
  simp only at hst
  subst hst
  simp [lfn_open, bind_run, pure_run, ask_run, ite_run, hf, memsys,
    MemFS.get_index, MemFS.index_lookup, MemFS.open_ro, hc, hn]

theorem MemFS.inode_cast (s : MemFS) (i : Nat) : s.inode (i : Int) = s.inodes.lookup i := by
  simp [MemFS.inode]

/-- Reading back on `MemFS` a range that holds `B`. -/
theorem read_mem (st : Store MemFS) (hst : st.toSys = memsys) (w : World MemFS)
    (cid : coll_t) (oid : hobject_t) (off : Nat) (B : Bytes) (i : Nat) (n : Inode)
    (hc : (w.fs.colls.lookup cid).isSome = true)
    (hn : w.fs.names.lookup ⟨cid, oid⟩ = some i)
    (hi : w.fs.inodes.lookup i = some n)
    (hne : B ≠ []) (h31 : B.length < 2147483648)
    (hB : (n.data.drop off).take B.length = B) :
    read st cid oid off B.length w = (Except.ok ((B.length : Int), B), w) := by
  have hlen : B.length ≠ 0 := by
    intro h
    exact hne (List.length_eq_zero.mp h)
  have h32 : toInt32 (B.length : Int) = B.length := by
    unfold toInt32
    omega
  have hopen := lfn_open_rdonly_mem st hst w cid oid i hc hn
  have hp : MemFS.safe_pread (i : Int) B.length off w.fs = ((B.length : Int), B) := by
    simp only [MemFS.safe_pread, MemFS.inode_cast, hi, hB]
  obtain ⟨sys, rp, sc, fm, fl, sf, bt, v2, fj, ofd, bfd⟩ := st
  simp only at hst
  subst hst
  simp only [read, bind_run, hopen, ite_run, pure_run, ask_run, hlen, if_false]
  have hi0 : ¬ ((i : Int) < 0) := by omega
  have hl0 : ¬ ((B.length : Int) < 0) := by omega
  simp [memsys, hp, h32, hi0, hl0]

theorem memsys_mutate : memsys.mutate = MemFS.mutate := rfl

theorem lookup_cons_self {α : Type} (k : Int) (v : α) (l : List (Int × α)) :
    List.lookup k ((k, v) :: l) = some v := by
  simp [List.lookup]

theorem lookup_set_inode (s : MemFS) (i : Nat) (n : Inode) :
    (s.set_inode i n).inodes.lookup i = some n := by
  simp [MemFS.set_inode, List.lookup]

/-- The statements of `_write` after the open, on `MemFS`, for a descriptor
whose inode is `n0`. -/
theorem _write_opened_mem (st : Store MemFS) (hst : st.toSys = memsys) (w0 w1 : World MemFS)
    (i : Nat) (n0 : Inode) (off len : Nat) (B : Bytes) (r : Int)
    (hi : w0.fs.inodes.lookup i = some n0)
    (hw : _write_opened st (i : Int) off len B w0 = (Except.ok r, w1)) (hr : 0 ≤ r) :
    r = toInt32 B.length ∧ w1.fs.colls = w0.fs.colls ∧ w1.fs.names = w0.fs.names ∧
      w1.fs.inodes.lookup i = some { n0 with data := MemFS.pwrite n0.data off B } := by
  obtain ⟨sys, rp, sc, fm, fl, sf, bt, v2, fj, ofd, bfd⟩ := st
  simp only at hst
  subst hst
  by_cases hoff : off ≥ 9223372036854775808
  · exfalso
    simp [_write_opened, bind_run, mutate_run, memsys_mutate, MemFS.mutate, MemFS.inode_cast, hi,
      hoff, MemFS.fail, EINVAL, pure_run, ite_run] at hw
    omega
  · have h64 : toInt64 (off : Int) = off := toInt64_small off (by omega)
    have hnn : ¬ ((off : Int) < 0) := by omega
    simp only [_write_opened, bind_run, mutate_run, memsys_mutate, MemFS.mutate, MemFS.inode_cast,
      hi, hoff, Option.isNone_some, Bool.false_eq_true, if_false, ite_run, hnn, h64, ne_eq,
      not_true_eq_false, lookup_cons_self, Option.getD_some, pure_run, if_true] at hw
    split_ifs at hw <;>
      simp only [Prod.mk.injEq, Except.ok.injEq] at hw <;>
      obtain ⟨rfl, rfl⟩ := hw <;>
      exact ⟨rfl, rfl, rfl, lookup_set_inode _ _ _⟩


/-- What a successful `_write` leaves on `MemFS`: the object's name refers to an
inode whose bytes are the old bytes with `B` written at `off`. -/
theorem _write_mem (st : Store MemFS) (hst : st.toSys = memsys) (w w1 : World MemFS)
    (cid : coll_t) (oid : hobject_t) (off len : Nat) (B : Bytes) (r : Int)
    (hw : _write st cid oid off len B w = (Except.ok r, w1)) (hr : 0 ≤ r) :
    r = toInt32 B.length ∧ (w1.fs.colls.lookup cid).isSome = true ∧
    ∃ (i : Nat) (n0 : Inode), w1.fs.names.lookup ⟨cid, oid⟩ = some i ∧
      w1.fs.inodes.lookup i = some { n0 with data := MemFS.pwrite n0.data off B } := by
  have hopen := lfn_open_creat_mem st hst w cid oid
  simp only [_write, bind_run, hopen] at hw
  cases hc : List.lookup cid w.fs.colls with
  | none =>
    exfalso
    simp [hc, ite_run, pure_run, ENOENT] at hw
    omega
  | some ci =>
    cases hn : List.lookup (⟨cid, oid⟩ : IndexedPath) w.fs.names with
    | some i =>
      have hi0 : ¬ ((i : Int) < 0) := by omega
      simp only [hc, hn, Option.isSome_some, if_true, ite_run, hi0, if_false] at hw
      cases hi : List.lookup i w.fs.inodes with
      | none =>
        exfalso
        obtain ⟨sys, rp, sc, fm, fl, sf, bt, v2, fj, ofd, bfd⟩ := st
        simp only at hst
        subst hst
        simp [_write_opened, bind_run, mutate_run, memsys_mutate, MemFS.mutate, MemFS.inode_cast,
          hi, MemFS.fail, MemFS.EBADF, pure_run, ite_run] at hw
        omega
      | some n0 =>
        obtain ⟨h1, h2, h3, h4⟩ :=
          (fun hi2 => _write_opened_mem st hst _ w1 i n0 off len B r hi2 hw hr) hi
        refine ⟨h1, ?_, i, n0, ?_, h4⟩
        · rw [h2]; simp [hc]
        · rw [h3]; exact hn
    | none =>
      have hi0 : ¬ ((w.fs.next_ino : Int) < 0) := by omega
      simp only [hc, hn, Option.isSome_some, if_true, ite_run, hi0, if_false] at hw
      obtain ⟨h1, h2, h3, h4⟩ :=
        (fun hi2 => _write_opened_mem st hst _ w1 w.fs.next_ino ⟨[], 1, none, []⟩
          off len B r hi2 hw hr) (by simp [List.lookup])
      refine ⟨h1, ?_, w.fs.next_ino, ⟨[], 1, none, []⟩, ?_, h4⟩
      · rw [h2]; simp [hc]
      · rw [h3]; simp [List.lookup]

/-! ### Chunked attributes and `_setattrs` -/

theorem eq_of_fst_eq {α β : Type} (x : α × β) (a : α) (h : x.1 = a) : x = (a, x.2) := by
  cases x
  cases h
  rfl

theorem get_raw_xattr_name_loop_esc (raw_len : Int) (name : List Nat) :
    ∀ (pos : Int) (raw_name : List Nat) (pos1 : Int),
      get_raw_xattr_name_loop raw_len name pos = some (raw_name, pos1) → raw_name = esc name := by
  induction name with
  | nil =>
    intro pos raw_name pos1 h
    simp [get_raw_xattr_name_loop] at h
    simp [esc, h.1]
  | cons c name ih =>
    intro pos raw_name pos1 h
    unfold get_raw_xattr_name_loop at h
    unfold esc
    split_ifs at h with h1 h2 h2
    · simp only [Option.map_eq_some'] at h
      obtain ⟨⟨a, b⟩, hab, heq⟩ := h
      simp only [Prod.mk.injEq] at heq
      rw [if_pos h1, ← heq.1, ih _ _ _ hab]
    · simp only [Option.map_eq_some'] at h
      obtain ⟨⟨a, b⟩, hab, heq⟩ := h
      simp only [Prod.mk.injEq] at heq
      rw [if_neg h1, ← heq.1, ih _ _ _ hab]

theorem get_raw_xattr_name_eq (name : List Nat) (i : Nat) (raw_len : Int) (raw_name : List Nat)
    (h : get_raw_xattr_name name i raw_len = some raw_name) : raw_name = chunk_name name i := by
  unfold get_raw_xattr_name at h
  unfold chunk_name
  split at h
  · exact absurd h (by simp)
  · rename_i r pos hl
    have := get_raw_xattr_name_loop_esc raw_len name 0 r pos hl
    split_ifs at h with h1 h2
    · simp only [Option.some.injEq] at h
      rw [if_pos h1, ← h, this]
    · simp only [Option.some.injEq] at h
      rw [if_neg h1, ← h, this]

theorem raw_xattr_name_ok (name : List Nat) (i : Nat) (w w1 : World σ) (raw_name : List Nat)
    (h : raw_xattr_name name i w = (Except.ok raw_name, w1)) :
    raw_name = chunk_name name i ∧ w1 = w := by
  unfold raw_xattr_name at h
  cases hr : get_raw_xattr_name name i (ATTR_MAX_NAME_LEN * 2 + 16) with
  | none =>
    rw [hr] at h
    simp [die_run] at h
  | some r =>
    rw [hr] at h
    simp only [pure_run, Prod.mk.injEq, Except.ok.injEq] at h
    exact ⟨h.1 ▸ get_raw_xattr_name_eq name i _ r hr, h.2.symm⟩

theorem map_range_succ {α : Type} (f : Nat → α) (n : Nat) :
    (List.range (n + 1)).map f = f 0 :: (List.range n).map (fun j => f (j + 1)) := by
  rw [List.range_succ_eq_map, List.map_cons, List.map_map]
  rfl

theorem do_setxattr_loop_ok (fn : IndexedPath) (name : List Nat) (val : Bytes) :
    ∀ (fuel size i pos : Nat) (w w1 : World σ) (ret : Int) (cs i1 : Nat),
      size < fuel →
      do_setxattr_loop st fn name val fuel size i pos w = (Except.ok (ret, cs, i1), w1) →
      0 ≤ ret →
      ret = toInt32 ((pos + size : Nat) : Int) ∧
      w1.trace = w.trace ++ (List.range ((size + 2047) / 2048 - 1 + 1)).map (fun j =>
        Mut.sys_setxattr fn (chunk_name name (i + j))
          ((val.drop (pos + 2048 * j)).take (min 2048 (size - 2048 * j)))) := by
  intro fuel
  induction fuel with
  | zero => intro size i pos w w1 ret cs i1 hf; omega
  | succ fuel ih =>
    intro size i pos w w1 ret cs i1 hf h hret
    unfold do_setxattr_loop at h
    simp only [bind_run] at h
    cases hr : raw_xattr_name name i w with
    | mk res w2 =>
      cases res with
      | error e => rw [hr] at h; simp at h
      | ok raw =>
        obtain ⟨rfl, rfl⟩ := raw_xattr_name_ok name i w w2 raw hr
        rw [hr] at h
        simp only [mutate_run, ite_run, pure_run, ATTR_MAX_BLOCK_LEN] at h
        by_cases hs : size < 2048
        · have hn : (size + 2047) / 2048 - 1 + 1 = 0 + 1 := by omega
          simp only [hs, if_true, Nat.sub_self, ne_eq, not_true_eq_false, if_false] at h
          split_ifs at h with hneg
          · simp only [Prod.mk.injEq, Except.ok.injEq] at h
            omega
          · simp only [Prod.mk.injEq, Except.ok.injEq] at h
            obtain ⟨⟨rfl, -, -⟩, rfl⟩ := h
            have hm : min 2048 size = size := by omega
            refine ⟨by push_cast; rfl, ?_⟩
            rw [hn, map_range_succ]
            simp only [List.range_zero, List.map_nil, Nat.mul_zero, Nat.add_zero, Nat.sub_zero, hm]
        · simp only [hs, if_false] at h
          have hm : min 2048 size = 2048 := by omega
          split_ifs at h with hneg hmore
          · simp only [Prod.mk.injEq, Except.ok.injEq] at h
            omega
          · have hlt : size - 2048 < fuel := by omega
            obtain ⟨h1, h2⟩ := ih _ _ _ _ _ _ _ _ hlt h hret
            have e : pos + 2048 + (size - 2048) = pos + size := by omega
            have hn : (size + 2047) / 2048 - 1 + 1 = ((size - 2048 + 2047) / 2048 - 1 + 1) + 1 := by
              omega
            have e1 : ∀ j, i + 1 + j = i + (j + 1) := by intro j; omega
            have e2 : ∀ j, pos + 2048 + 2048 * j = pos + 2048 * (j + 1) := by intro j; omega
            have e3 : ∀ j, size - 2048 - 2048 * j = size - 2048 * (j + 1) := by intro j; omega
            refine ⟨by rw [h1, e], ?_⟩
            generalize (size - 2048 + 2047) / 2048 - 1 + 1 = N at h2 hn
            rw [h2, hn, map_range_succ]
            simp only [Nat.mul_zero, Nat.add_zero, Nat.sub_zero, hm, e1, e2, e3, List.append_assoc,
              List.singleton_append]
          · simp only [Prod.mk.injEq, Except.ok.injEq] at h
            obtain ⟨⟨rfl, -, -⟩, rfl⟩ := h
            have hn : (size + 2047) / 2048 - 1 + 1 = 0 + 1 := by omega
            have hsz : size = 2048 := by omega
            refine ⟨by rw [hsz]; push_cast; rfl, ?_⟩
            rw [hn, map_range_succ]
            simp only [List.range_zero, List.map_nil, Nat.mul_zero, Nat.add_zero, Nat.sub_zero, hm]

theorem do_removexattr_loop_trace (fn : IndexedPath) (name : List Nat) :
    ∀ (fuel i : Nat) (w : World σ), ∃ rest,
      (do_removexattr_loop st fn name fuel i w).2.trace = w.trace ++ rest ∧
      ∀ e ∈ rest, ∃ n, e = Mut.sys_removexattr fn n := by
  intro fuel
  induction fuel with
  | zero => intro i w; exact ⟨[], by simp [do_removexattr_loop, die_run], by simp⟩
  | succ fuel ih =>
    intro i w
    unfold do_removexattr_loop
    simp only [bind_run]
    cases hr : raw_xattr_name name i w with
    | mk res w2 =>
      cases res with
      | error e =>
        have hw : w2 = w := by
          unfold raw_xattr_name at hr
          cases hg : get_raw_xattr_name name i (ATTR_MAX_NAME_LEN * 2 + 16) with
          | none => rw [hg] at hr; simp only [die_run, Prod.mk.injEq] at hr; exact hr.2.symm
          | some r => rw [hg] at hr; simp [pure_run] at hr
        exact ⟨[], by simp [hw], by simp⟩
      | ok raw =>
        obtain ⟨rfl, rfl⟩ := raw_xattr_name_ok name i w w2 raw hr
        simp only [mutate_run, ite_run, pure_run]
        split_ifs with h1 h2
        · exact ⟨[Mut.sys_removexattr fn (chunk_name name i)], rfl, by simp⟩
        · obtain ⟨rest, hrest, hall⟩ := ih (i + 1)
            { w2 with fs := (st.mutate (Mut.sys_removexattr fn (chunk_name name i)) w2.fs).2,
                      trace := w2.trace ++ [Mut.sys_removexattr fn (chunk_name name i)] }
          refine ⟨Mut.sys_removexattr fn (chunk_name name i) :: rest, ?_, ?_⟩
          · rw [hrest]; simp
          · intro e he
            rcases List.mem_cons.mp he with rfl | he
            · exact ⟨_, rfl⟩
            · exact hall e he
        · exact ⟨[Mut.sys_removexattr fn (chunk_name name i)], rfl, by simp⟩

theorem chunk_writes_eq (fn : IndexedPath) (name : List Nat) (v : Bytes) :
    (List.range ((v.length + 2047) / 2048 - 1 + 1)).map (fun j =>
        Mut.sys_setxattr fn (chunk_name name (0 + j))
          ((v.drop (0 + 2048 * j)).take (min 2048 (v.length - 2048 * j)))) =
      chunk_writes fn name v := by
  unfold chunk_writes bytes_range
  apply List.map_congr_left
  intro j _
  have e : min 2048 (v.length - 2048 * j) = min v.length (2048 * (j + 1)) - 2048 * j := by omega
  rw [e, Nat.zero_add, Nat.zero_add]

theorem do_setxattr_ok (fn : IndexedPath) (name : List Nat) (v : Bytes) (w w1 : World σ)
    (ret : Int) (hw : do_setxattr st fn name v w = (Except.ok ret, w1)) (hret : 0 ≤ ret) :
    ret = toInt32 v.length ∧ ∃ rest, w1.trace = w.trace ++ chunk_writes fn name v ++ rest ∧
      ∀ e ∈ rest, ∃ n, e = Mut.sys_removexattr fn n := by
  unfold do_setxattr at hw
  simp only [bind_run] at hw
  cases hl : do_setxattr_loop st fn name v (v.length + 1) v.length 0 0 w with
  | mk res w2 =>
    cases res with
    | error e => rw [hl] at hw; simp at hw
    | ok out =>
      obtain ⟨ret1, cs, i1⟩ := out
      rw [hl] at hw
      simp only [ite_run, bind_run, pure_run] at hw
      have key : ∀ w3 : World σ, ret = ret1 → (∃ rest, w3.trace = w2.trace ++ rest ∧
          ∀ e ∈ rest, ∃ n, e = Mut.sys_removexattr fn n) →
          ret = toInt32 v.length ∧ ∃ rest, w3.trace = w.trace ++ chunk_writes fn name v ++ rest ∧
            ∀ e ∈ rest, ∃ n, e = Mut.sys_removexattr fn n := by
        intro w3 hr ⟨rest, h3, hall⟩
        obtain ⟨h1, h2⟩ := do_setxattr_loop_ok st fn name v _ _ _ _ _ _ _ _ _
          (Nat.lt_succ_self _) hl (hr ▸ hret)
        rw [chunk_writes_eq] at h2
        refine ⟨?_, rest, by rw [h3, h2], hall⟩
        rw [hr, h1, Nat.zero_add]
      split_ifs at hw with hc
      · cases hr : raw_xattr_name name i1 w2 with
        | mk res w3 =>
          cases res with
          | error e => rw [hr] at hw; simp at hw
          | ok raw =>
            obtain ⟨rfl, rfl⟩ := raw_xattr_name_ok name i1 w2 w3 raw hr
            rw [hr] at hw
            simp only at hw
            obtain ⟨rest, hrest, hall⟩ := do_removexattr_loop_trace st fn (chunk_name name i1)
              2147483648 0 w3
            cases hd : do_removexattr st fn (chunk_name name i1) w3 with
            | mk res2 w4 =>
              have h4 : w4.trace = w3.trace ++ rest := by
                have := hrest
                unfold do_removexattr at hd
                rw [hd] at this
                exact this
              cases res2 with
              | error e => rw [hd] at hw; simp at hw
              | ok r2 =>
                rw [hd] at hw
                simp only [Prod.mk.injEq, Except.ok.injEq] at hw
                obtain ⟨rfl, rfl⟩ := hw
                exact key _ rfl ⟨rest, h4, hall⟩
      · simp only [Prod.mk.injEq, Except.ok.injEq] at hw
        obtain ⟨rfl, rfl⟩ := hw
        exact key _ rfl ⟨[], by simp, by simp⟩

theorem lfn_find_run (cid : coll_t) (oid : hobject_t) (w : World σ) :
    ∃ x, lfn_find st cid oid w = (Except.ok x, w) := by
  unfold lfn_find
  simp only [bind_run, ask_run, ite_run, pure_run]
  split_ifs <;> exact ⟨_, rfl⟩

theorem lfn_setxattr_ok (cid : coll_t) (oid : hobject_t) (n : List Nat) (v : Bytes)
    (w w1 : World σ) (r : Int) (hw : lfn_setxattr st cid oid n v w = (Except.ok r, w1))
    (hr : 0 ≤ r) :
    ∃ fn rest, w1.trace = w.trace ++ chunk_writes fn n v ++ rest ∧
      ∀ e ∈ rest, ∃ raw, e = Mut.sys_removexattr fn raw := by
  obtain ⟨⟨r0, path⟩, hf⟩ := lfn_find_run st cid oid w
  unfold lfn_setxattr at hw
  simp only [bind_run, hf, ite_run, pure_run] at hw
  split_ifs at hw with h0
  · simp only [Prod.mk.injEq, Except.ok.injEq] at hw
    omega
  · exact ⟨path, (do_setxattr_ok st path n v w w1 r hw hr).2⟩

theorem do_removexattr_ok (fn : IndexedPath) (name : List Nat) (w w1 : World σ) (r : Int)
    (hw : do_removexattr st fn name w = (Except.ok r, w1)) (hr : 0 ≤ r) :
    ∃ tl, w1.trace = w.trace ++ Mut.sys_removexattr fn (chunk_name name 0) :: tl ∧
      ∀ e ∈ tl, ∃ raw, e = Mut.sys_removexattr fn raw := by
  unfold do_removexattr at hw
  have hu : (2147483648 : Nat) = 2147483647 + 1 := rfl
  rw [hu] at hw
  unfold do_removexattr_loop at hw
  simp only [bind_run] at hw
  cases hn : raw_xattr_name name 0 w with
  | mk res w2 =>
    cases res with
    | error e => rw [hn] at hw; simp at hw
    | ok raw =>
      obtain ⟨rfl, rfl⟩ := raw_xattr_name_ok name 0 w w2 raw hn
      rw [hn] at hw
      simp only [mutate_run, ite_run, pure_run, true_and] at hw
      split_ifs at hw with h1 h2
      · simp only [Prod.mk.injEq, Except.ok.injEq] at hw
        omega
      · obtain ⟨rest, hrest, hall⟩ := do_removexattr_loop_trace st fn name 2147483647 (0 + 1)
          { w2 with fs := (st.mutate (Mut.sys_removexattr fn (chunk_name name 0)) w2.fs).2,
                    trace := w2.trace ++ [Mut.sys_removexattr fn (chunk_name name 0)] }
        rw [hw] at hrest
        exact ⟨rest, by rw [hrest]; simp, hall⟩
      · omega

theorem lfn_removexattr_ok (cid : coll_t) (oid : hobject_t) (n : List Nat)
    (w w1 : World σ) (r : Int) (hw : lfn_removexattr st cid oid n w = (Except.ok r, w1))
    (hr : 0 ≤ r) :
    ∃ fn tl, w1.trace = w.trace ++ Mut.sys_removexattr fn (chunk_name n 0) :: tl ∧
      ∀ e ∈ tl, ∃ raw, e = Mut.sys_removexattr fn raw := by
  obtain ⟨⟨r0, path⟩, hf⟩ := lfn_find_run st cid oid w
  unfold lfn_removexattr at hw
  simp only [bind_run, hf, ite_run, pure_run] at hw
  split_ifs at hw with h0
  · simp only [Prod.mk.injEq, Except.ok.injEq] at hw
    omega
  · exact ⟨path, do_removexattr_ok st path n w w1 r hw hr⟩

theorem map_erase_of_not_count (m : AttrSet) (k : List Nat) (h : map_count m k = false) :
    map_erase m k = m := by
  unfold map_erase
  unfold map_count at h
  rw [List.filter_eq_self]
  intro a ha
  have := (List.any_eq_false.mp h) a ha
  simpa using this

theorem _setattrs_to_omap_ok (cid : coll_t) (oid : hobject_t) (n : List Nat)
    (p : List Nat × Bytes) (l l2 : SetattrsLocals) (w w2 : World σ)
    (h : _setattrs_to_omap st cid oid n p l w = (Except.ok (Except.ok l2), w2)) (h0 : 0 ≤ l.r) :
    0 ≤ l2.r ∧ l2.inline_set = map_erase l.inline_set p.1 ∧
    l2.omap_set = omap_push_back l.omap_set p.1 p.2 ∧ l2.omap_remove = l.omap_remove ∧
    ∃ seg, w2.trace = w.trace ++ seg ∧ (∀ e ∈ seg, ∃ fn raw, e = Mut.sys_removexattr fn raw) ∧
      (if map_count l.inline_set p.1 then
        ∃ fn tl, seg = Mut.sys_removexattr fn (chunk_name n 0) :: tl
      else seg = []) := by
  unfold _setattrs_to_omap at h
  by_cases hc : map_count l.inline_set p.1 = true
  · simp only [hc, if_true, bind_run] at h
    cases hr : lfn_removexattr st cid oid n w with
    | mk res w3 =>
      cases res with
      | error e => rw [hr] at h; simp at h
      | ok r =>
        rw [hr] at h
        simp only [ite_run, pure_run] at h
        split_ifs at h with hneg
        · simp at h
        · simp only [Prod.mk.injEq, Except.ok.injEq] at h
          obtain ⟨rfl, rfl⟩ := h
          obtain ⟨fn, tl, ht, hall⟩ := lfn_removexattr_ok st cid oid n w w3 r hr (by omega)
          refine ⟨by simpa using hneg, rfl, rfl, rfl, _, ht, ?_, ?_⟩
          · intro e he
            rcases List.mem_cons.mp he with rfl | he
            · exact ⟨_, _, rfl⟩
            · obtain ⟨raw, hraw⟩ := hall e he
              exact ⟨_, _, hraw⟩
          · simp only [hc, if_true]
            exact ⟨fn, tl, rfl⟩
  · simp only [hc, if_false, pure_run, Prod.mk.injEq, Except.ok.injEq] at h
    obtain ⟨rfl, rfl⟩ := h
    have hc0 : map_count l.inline_set p.1 = false := by simpa using hc
    refine ⟨h0, (map_erase_of_not_count _ _ hc0).symm, rfl, rfl, [], by simp, by simp, ?_⟩
    simp [hc0]

theorem _setattrs_loop_ok (g_conf : md_config_t) (hu : g_conf.filestore_xattr_use_omap = true)
    (cid : coll_t) (oid : hobject_t) :
    ∀ (aset : AttrSet) (l l1 : SetattrsLocals) (w w1 : World σ),
      _setattrs_loop st g_conf cid oid aset l w = (Except.ok (Except.ok l1), w1) →
      0 ≤ l.r → 0 ≤ l1.r →
      ∃ segs, placements g_conf l.inline_set aset segs ∧ w1.trace = w.trace ++ segs.flatten ∧
        l1.omap_set = omap_values g_conf l.inline_set aset l.omap_set ∧
        l1.omap_remove = omap_removals g_conf l.inline_set aset l.omap_remove := by
  intro aset
  induction aset with
  | nil =>
    intro l l1 w w1 h _ _
    simp only [_setattrs_loop, pure_run, Prod.mk.injEq, Except.ok.injEq] at h
    obtain ⟨rfl, rfl⟩ := h
    exact ⟨[], rfl, by simp, rfl, rfl⟩
  | cons p rest ih =>
    intro l l1 w w1 h h0 h1
    unfold _setattrs_loop at h
    simp only [hu, true_and, ite_run] at h
    have spill : goes_to_omap g_conf l.inline_set p = true →
        ∀ k : Except Int SetattrsLocals → M σ (Except Int SetattrsLocals),
        (∀ r, k (Except.error r) = pure (Except.error r)) →
        (∀ l2, k (Except.ok l2) = _setattrs_loop st g_conf cid oid rest l2) →
        (_setattrs_to_omap st cid oid (get_attrname p.1 ATTR_MAX_NAME_LEN) p l >>= k) w =
          (Except.ok (Except.ok l1), w1) →
        ∃ segs, placements g_conf l.inline_set (p :: rest) segs ∧
          w1.trace = w.trace ++ segs.flatten ∧
          l1.omap_set = omap_values g_conf l.inline_set (p :: rest) l.omap_set ∧
          l1.omap_remove = omap_removals g_conf l.inline_set (p :: rest) l.omap_remove := by
      intro hg k hk1 hk2 h
      rw [bind_run] at h
      cases ho : _setattrs_to_omap st cid oid (get_attrname p.1 ATTR_MAX_NAME_LEN) p l w with
      | mk res w2 =>
        rw [ho] at h
        cases res with
        | error e => simp at h
        | ok out =>
          cases out with
          | error r => simp [hk1, pure_run] at h
          | ok l2 =>
            simp only [hk2] at h
            obtain ⟨h2, hi, hs, hrm, seg, htr, hall, hfirst⟩ :=
              _setattrs_to_omap_ok st cid oid _ p l l2 w w2 ho h0
            obtain ⟨segs, hp, htr1, hs1, hrm1⟩ := ih l2 l1 w2 w1 h h2 h1
            refine ⟨seg :: segs, ?_, ?_, ?_, ?_⟩
            · refine ⟨seg, segs, rfl, ?_, ?_⟩
              · unfold placed
                rw [if_pos hg]
                exact ⟨hall, hfirst⟩
              · unfold inline_after
                rw [if_pos hg, ← hi]
                exact hp
            · rw [htr1, htr, List.flatten_cons, List.append_assoc]
            · rw [hs1, hi, hs]
              simp only [omap_values, inline_after, hg, if_true]
            · rw [hrm1, hi, hrm]
              simp only [omap_removals, inline_after, hg, if_true]
    split_ifs at h with c1 c2
    · refine spill (by simp [goes_to_omap, c1]) _ ?_ ?_ h
      · intro r; rfl
      · intro l2; rfl
    · refine spill (by simp [goes_to_omap, c2.1, c2.2]) _ ?_ ?_ h
      · intro r; rfl
      · intro l2; rfl
    · have hg : goes_to_omap g_conf l.inline_set p = false := by
        simp only [goes_to_omap, Bool.or_eq_false_iff, decide_eq_false_iff_not,
          Bool.and_eq_false_iff, Bool.not_eq_false']
        refine ⟨c1, ?_⟩
        by_cases hc : map_count l.inline_set p.1 = true
        · exact Or.inl hc
        · exact Or.inr (fun hge => c2 ⟨by simpa using hc, hge⟩)
      rw [bind_run] at h
      cases hr : lfn_setxattr st cid oid (get_attrname p.1 ATTR_MAX_NAME_LEN) p.2 w with
      | mk res w2 =>
        rw [hr] at h
        cases res with
        | error e => simp at h
        | ok r =>
          simp only [ite_run, pure_run] at h
          split_ifs at h with hneg
          · simp only [Prod.mk.injEq, Except.ok.injEq] at h
            obtain ⟨rfl, rfl⟩ := h
            simp only at h1
            omega
          · obtain ⟨fn, tl, htr, hall⟩ := lfn_setxattr_ok st cid oid _ p.2 w w2 r hr (by omega)
            obtain ⟨segs, hp, htr1, hs1, hrm1⟩ := ih _ l1 w2 w1 h (by simpa using hneg) h1
            refine ⟨(chunk_writes fn (get_attrname p.1 ATTR_MAX_NAME_LEN) p.2 ++ tl) :: segs,
              ?_, ?_, ?_, ?_⟩
            · refine ⟨_, segs, rfl, ?_, ?_⟩
              · unfold placed
                rw [hg]
                exact ⟨fn, tl, rfl, hall⟩
              · unfold inline_after
                rw [hg]
                exact hp
            · rw [htr1, htr, List.flatten_cons]
              simp only [List.append_assoc]
            · rw [hs1]
              simp only [omap_values, inline_after, hg]
              rfl
            · rw [hrm1]
              simp only [omap_removals, inline_after, hg]
              rfl

theorem _setattrs_to_omap_error (cid : coll_t) (oid : hobject_t) (n : List Nat)
    (p : List Nat × Bytes) (l : SetattrsLocals) (w w2 : World σ) (r : Int)
    (h : _setattrs_to_omap st cid oid n p l w = (Except.ok (Except.error r), w2)) : r < 0 := by
  unfold _setattrs_to_omap at h
  split_ifs at h with hc
  · rw [bind_run] at h
    cases hr : lfn_removexattr st cid oid n w with
    | mk res w3 =>
      rw [hr] at h
      cases res with
      | error e => simp at h
      | ok r1 =>
        simp only [ite_run, pure_run] at h
        split_ifs at h with hneg
        · simp only [Prod.mk.injEq, Except.ok.injEq, Except.error.injEq] at h
          omega
        · simp at h
  · simp [pure_run] at h

theorem _setattrs_loop_error (g_conf : md_config_t) (cid : coll_t) (oid : hobject_t) :
    ∀ (aset : AttrSet) (l : SetattrsLocals) (w w1 : World σ) (r : Int),
      _setattrs_loop st g_conf cid oid aset l w = (Except.ok (Except.error r), w1) → r < 0 := by
  intro aset
  induction aset with
  | nil => intro l w w1 r h; simp [_setattrs_loop, pure_run] at h
  | cons p rest ih =>
    intro l w w1 r h
    unfold _setattrs_loop at h
    simp only [ite_run] at h
    have spill : ∀ k : Except Int SetattrsLocals → M σ (Except Int SetattrsLocals),
        (∀ r, k (Except.error r) = pure (Except.error r)) →
        (∀ l2, k (Except.ok l2) = _setattrs_loop st g_conf cid oid rest l2) →
        (_setattrs_to_omap st cid oid (get_attrname p.1 ATTR_MAX_NAME_LEN) p l >>= k) w =
          (Except.ok (Except.error r), w1) → r < 0 := by
      intro k hk1 hk2 h
      rw [bind_run] at h
      cases ho : _setattrs_to_omap st cid oid (get_attrname p.1 ATTR_MAX_NAME_LEN) p l w with
      | mk res w2 =>
        rw [ho] at h
        cases res with
        | error e => simp at h
        | ok out =>
          cases out with
          | error r1 =>
            simp only [hk1, pure_run, Prod.mk.injEq, Except.ok.injEq, Except.error.injEq] at h
            exact h.1 ▸ _setattrs_to_omap_error st cid oid _ p l w w2 r1 ho
          | ok l2 =>
            simp only [hk2] at h
            exact ih l2 w2 w1 r h
    by_cases c1 : g_conf.filestore_xattr_use_omap = true ∧
        p.2.length > g_conf.filestore_max_inline_xattr_size
    · rw [if_pos c1] at h
      refine spill _ ?_ ?_ h
      · intro r; rfl
      · intro l2; rfl
    · rw [if_neg c1] at h
      by_cases c2 : g_conf.filestore_xattr_use_omap = true ∧ (map_count l.inline_set p.1 = false ∧
          l.inline_set.length ≥ g_conf.filestore_max_inline_xattrs)
      · rw [if_pos c2] at h
        refine spill _ ?_ ?_ h
        · intro r; rfl
        · intro l2; rfl
      · rw [if_neg c2, bind_run] at h
        cases hr : lfn_setxattr st cid oid (get_attrname p.1 ATTR_MAX_NAME_LEN) p.2 w with
        | mk res w2 =>
          rw [hr] at h
          cases res with
          | error e => simp at h
          | ok r1 =>
            simp only [ite_run, pure_run] at h
            by_cases hneg : r1 < 0
            · rw [if_pos hneg] at h
              simp at h
            · rw [if_neg hneg] at h
              exact ih _ w2 w1 r h

theorem _setattrs_omap_ok (g_conf : md_config_t) (hu : g_conf.filestore_xattr_use_omap = true)
    (cid : coll_t) (oid : hobject_t) (spos : SequencerPosition) (l : SetattrsLocals)
    (w w1 : World σ) (r : Int) (h : _setattrs_omap st g_conf cid oid spos l w = (Except.ok r, w1))
    (hr : 0 ≤ r) :
    r = l.r ∧ w1.trace = w.trace ++ [Mut.object_map_remove_xattrs oid l.omap_remove spos,
      Mut.object_map_set_xattrs oid l.omap_set spos] := by
  unfold _setattrs_omap at h
  simp only [hu, if_true, bind_run, ask_run, ite_run, pure_run, mutate_run] at h
  split_ifs at h with h1 h2 h3
  · simp only [Prod.mk.injEq, Except.ok.injEq] at h
    omega
  · simp only [Prod.mk.injEq, Except.ok.injEq] at h
    omega
  · simp only [Prod.mk.injEq, Except.ok.injEq] at h
    omega
  · simp only [Prod.mk.injEq, Except.ok.injEq] at h
    obtain ⟨rfl, rfl⟩ := h
    exact ⟨rfl, by simp⟩

theorem _setattrs_to_omap_r (cid : coll_t) (oid : hobject_t) (n : List Nat)
    (p : List Nat × Bytes) (l l2 : SetattrsLocals) (w w2 : World σ)
    (h : _setattrs_to_omap st cid oid n p l w = (Except.ok (Except.ok l2), w2)) (h0 : 0 ≤ l.r) :
    0 ≤ l2.r := by
  unfold _setattrs_to_omap at h
  split_ifs at h with hc
  · rw [bind_run] at h
    cases hr : lfn_removexattr st cid oid n w with
    | mk res w3 =>
      rw [hr] at h
      cases res with
      | error e => simp at h
      | ok r1 =>
        simp only [ite_run, pure_run] at h
        split_ifs at h with hneg
        · simp at h
        · simp only [Prod.mk.injEq, Except.ok.injEq] at h
          rw [← h.1]
          simpa using hneg
  · simp only [pure_run, Prod.mk.injEq, Except.ok.injEq] at h
    rw [← h.1]
    exact h0

theorem _setattrs_loop_append (g_conf : md_config_t) (cid : coll_t) (oid : hobject_t)
    (more : AttrSet) :
    ∀ (pre : AttrSet) (l l1 : SetattrsLocals) (w w1 : World σ),
      _setattrs_loop st g_conf cid oid pre l w = (Except.ok (Except.ok l1), w1) →
      0 ≤ l.r → 0 ≤ l1.r →
      _setattrs_loop st g_conf cid oid (pre ++ more) l w =
        _setattrs_loop st g_conf cid oid more l1 w1 := by
  intro pre
  induction pre with
  | nil =>
    intro l l1 w w1 h _ _
    simp only [_setattrs_loop, pure_run, Prod.mk.injEq, Except.ok.injEq] at h
    obtain ⟨rfl, rfl⟩ := h
    rfl
  | cons p rest ih =>
    intro l l1 w w1 h h0 h1
    rw [List.cons_append]
    generalize hX : _setattrs_loop st g_conf cid oid more = X at ih ⊢
    unfold _setattrs_loop at h ⊢
    simp only [ite_run] at h ⊢
    have spill : ∀ k k2 : Except Int SetattrsLocals → M σ (Except Int SetattrsLocals),
        (∀ r, k (Except.error r) = pure (Except.error r)) →
        (∀ l2, k (Except.ok l2) = _setattrs_loop st g_conf cid oid rest l2) →
        (∀ r, k2 (Except.error r) = pure (Except.error r)) →
        (∀ l2, k2 (Except.ok l2) = _setattrs_loop st g_conf cid oid (rest ++ more) l2) →
        (_setattrs_to_omap st cid oid (get_attrname p.1 ATTR_MAX_NAME_LEN) p l >>= k) w =
          (Except.ok (Except.ok l1), w1) →
        (_setattrs_to_omap st cid oid (get_attrname p.1 ATTR_MAX_NAME_LEN) p l >>= k2) w =
          X l1 w1 := by
      intro k k2 hk1 hk2 hk3 hk4 h
      rw [bind_run] at h ⊢
      cases ho : _setattrs_to_omap st cid oid (get_attrname p.1 ATTR_MAX_NAME_LEN) p l w with
      | mk res w2 =>
        rw [ho] at h
        cases res with
        | error e => simp at h
        | ok out =>
          cases out with
          | error r1 => simp [hk1, pure_run] at h
          | ok l2 =>
            simp only [hk2] at h
            simp only [hk4]
            exact ih l2 l1 w2 w1 h (_setattrs_to_omap_r st cid oid _ p l l2 w w2 ho h0) h1
    by_cases c1 : g_conf.filestore_xattr_use_omap = true ∧
        p.2.length > g_conf.filestore_max_inline_xattr_size
    · rw [if_pos c1] at h ⊢
      refine spill _ _ ?_ ?_ ?_ ?_ h
      · intro r; rfl
      · intro l2; rfl
      · intro r; rfl
      · intro l2; rfl
    · rw [if_neg c1] at h ⊢
      by_cases c2 : g_conf.filestore_xattr_use_omap = true ∧ (map_count l.inline_set p.1 = false ∧
          l.inline_set.length ≥ g_conf.filestore_max_inline_xattrs)
      · rw [if_pos c2] at h ⊢
        refine spill _ _ ?_ ?_ ?_ ?_ h
        · intro r; rfl
        · intro l2; rfl
        · intro r; rfl
        · intro l2; rfl
      · rw [if_neg c2, bind_run] at h ⊢
        cases hr : lfn_setxattr st cid oid (get_attrname p.1 ATTR_MAX_NAME_LEN) p.2 w with
        | mk res w2 =>
          rw [hr] at h
          cases res with
          | error e => simp at h
          | ok r1 =>
            simp only [ite_run, pure_run] at h ⊢
            by_cases hneg : r1 < 0
            · rw [if_pos hneg] at h
              simp only [Prod.mk.injEq, Except.ok.injEq] at h
              obtain ⟨rfl, rfl⟩ := h
              exfalso
              split_ifs at h1 <;> simp only at h1 <;> omega
            · rw [if_neg hneg] at h ⊢
              refine ih _ l1 w2 w1 h ?_ h1
              split_ifs <;> simpa using hneg

theorem _setattrs_run (g_conf : md_config_t) (cid : coll_t) (oid : hobject_t) (aset : AttrSet)
    (spos : SequencerPosition) (w : World σ) :
    _setattrs st g_conf cid oid aset spos w =
      match _setattrs_loop st g_conf cid oid aset
          ⟨[], [], if g_conf.filestore_xattr_use_omap then (st._getattrs cid oid w.fs).2 else [], 0⟩ w with
      | (Except.ok (Except.error r), w1) => (Except.ok r, w1)
      | (Except.ok (Except.ok l), w1) => _setattrs_omap st g_conf cid oid spos l w1
      | (Except.error e, w1) => (Except.error e, w1) := by
  unfold _setattrs
  rw [bind_run]
  have h0 : (if g_conf.filestore_xattr_use_omap = true then
      ask (fun s => (st._getattrs cid oid s).2) else (pure [] : M σ AttrSet)) w =
      (Except.ok (if g_conf.filestore_xattr_use_omap then (st._getattrs cid oid w.fs).2 else []),
        w) := by
    split_ifs <;> rfl
  rw [h0]
  simp only [bind_run]
  cases _setattrs_loop st g_conf cid oid aset
      ⟨[], [], if g_conf.filestore_xattr_use_omap then (st._getattrs cid oid w.fs).2 else [], 0⟩
      w with
  | mk res w2 =>
    cases res with
    | error e => rfl
    | ok out => cases out <;> rfl

/-! ### The throttle and the commit cycle -/

theorem toUInt64_small (n : Int) (h0 : 0 ≤ n) (h : n < 18446744073709551616) :
    (toUInt64 n : Int) = n := by
  unfold toUInt64
  omega

/-- The value of a string of decimal digits, continuing `acc`. -/
theorem scan_digits_append_digits (digs rest : List Nat) :
    ∀ acc, (∀ d ∈ digs, 48 ≤ d ∧ d ≤ 57) →
      scan_digits (digs ++ rest) acc =
        scan_digits rest (digs.foldl (fun a d => 10 * a + (d - 48)) acc) := by
  induction digs with
  | nil => intro acc _; rfl
  | cons d digs ih =>
    intro acc h
    have hd := h d (List.mem_cons_self _ _)
    simp only [List.cons_append, scan_digits, List.foldl_cons]
    rw [if_pos hd]
    exact ih _ (fun x hx => h x (List.mem_cons_of_mem _ hx))

theorem decimal_loop_spec :
    ∀ (fuel n : Nat) (ds : List Nat), n < fuel →
      ∃ digs, decimal_loop fuel n ds = digs ++ ds ∧ digs ≠ [] ∧
        (∀ d ∈ digs, 48 ≤ d ∧ d ≤ 57) ∧
        digs.foldl (fun a d => 10 * a + (d - 48)) 0 = n := by
  intro fuel
  induction fuel with
  | zero => intro n ds h; omega
  | succ fuel ih =>
    intro n ds h
    unfold decimal_loop
    split_ifs with h0
    · refine ⟨[48 + n % 10], rfl, by simp, ?_, ?_⟩
      · intro d hd
        simp only [List.mem_singleton] at hd
        omega
      · simp only [List.foldl_cons, List.foldl_nil]
        omega
    · have hlt : n / 10 < fuel := by omega
      obtain ⟨digs, h1, h2, h3, h4⟩ := ih (n / 10) ((48 + n % 10) :: ds) hlt
      refine ⟨digs ++ [48 + n % 10], ?_, by simp, ?_, ?_⟩
      · rw [h1]; simp
      · intro d hd
        rcases List.mem_append.mp hd with hd | hd
        · exact h3 d hd
        · simp only [List.mem_singleton] at hd
          omega
      · rw [List.foldl_append, h4]
        simp only [List.foldl_cons, List.foldl_nil]
        omega

theorem decimal_spec (n : Nat) :
    decimal n ≠ [] ∧ (∀ d ∈ decimal n, 48 ≤ d ∧ d ≤ 57) ∧
      (decimal n).foldl (fun a d => 10 * a + (d - 48)) 0 = n := by
  obtain ⟨digs, h1, h2, h3, h4⟩ := decimal_loop_spec (n + 1) n [] (by omega)
  unfold decimal
  rw [h1, List.append_nil]
  exact ⟨h2, h3, h4⟩

theorem decimal_injective (i j : Nat) (h : decimal i = decimal j) : i = j := by
  have hi := (decimal_spec i).2.2
  have hj := (decimal_spec j).2.2
  rw [h] at hi
  omega

theorem scan_digits_decimal (n c : Nat) (rest : List Nat) (hc : ¬ (48 ≤ c ∧ c ≤ 57)) :
    scan_digits (decimal n ++ c :: rest) 0 = n := by
  rw [scan_digits_append_digits _ _ 0 (decimal_spec n).2.1, (decimal_spec n).2.2]
  simp only [scan_digits]
  rw [if_neg hc]


theorem translate_raw_name_loop_esc (name_len : Int) (suffix : List Nat)
    (hs : suffix = [] ∨ ∃ d t, suffix = 64 :: d :: t ∧ d ≠ 64) :
    ∀ (n : List Nat) (pos : Int), pos + n.length < name_len →
      translate_raw_name_loop name_len (esc n ++ suffix) pos =
        Except.ok (n, pos + n.length, decide (suffix = [])) := by
  intro n
  induction n with
  | nil =>
    intro pos _
    rcases hs with rfl | ⟨d, t, rfl, hd⟩
    · simp [esc, translate_raw_name_loop]
    · simp [esc, translate_raw_name_loop, hd]
  | cons c n ih =>
    intro pos hpos
    have hpos1 : pos + 1 < name_len := by
      simp only [List.length_cons, Nat.cast_add, Nat.cast_one] at hpos
      omega
    have hrec := ih (pos + 1) (by
      simp only [List.length_cons, Nat.cast_add, Nat.cast_one] at hpos
      omega)
    unfold esc
    by_cases hc : c = 64
    · rw [if_pos hc]
      simp only [List.cons_append]
      unfold translate_raw_name_loop
      simp only [if_true, ne_eq, not_true_eq_false, if_false]
      rw [if_pos hpos1, hrec]
      simp only [Except.map, hc, List.length_cons, Nat.cast_add, Nat.cast_one]
      congr 2
      congr 1
      omega
    · rw [if_neg hc]
      simp only [List.cons_append]
      unfold translate_raw_name_loop
      rw [if_neg hc, if_pos hpos1, hrec]
      simp only [Except.map, List.length_cons, Nat.cast_add, Nat.cast_one]
      congr 2
      congr 1
      omega

theorem translate_raw_name_chunk_name (name_len : Int) (n : List Nat) (i : Nat)
    (h : (n.length : Int) < name_len) :
    translate_raw_name (chunk_name n i) name_len = Except.ok (n, (n.length : Int), decide (i = 0)) := by
  unfold translate_raw_name chunk_name
  by_cases hi : i = 0
  · rw [if_pos hi]
    have := translate_raw_name_loop_esc name_len [] (Or.inl rfl) n 0 (by omega)
    simp only [List.append_nil, zero_add] at this
    rw [this]
    simp [hi]
  · rw [if_neg hi]
    obtain ⟨hne, hdig, _⟩ := decimal_spec i
    cases hd : decimal i with
    | nil => exact absurd hd hne
    | cons d t =>
      have hd64 : d ≠ 64 := by
        have := hdig d (by rw [hd]; exact List.mem_cons_self _ _)
        omega
      have := translate_raw_name_loop_esc name_len (64 :: d :: t) (Or.inr ⟨d, t, rfl, hd64⟩) n 0
        (by omega)
      simp only [zero_add] at this
      rw [this]
      simp [hi]

theorem get_raw_xattr_name_loop_pos (raw_len : Int) (name : List Nat) :
    ∀ (pos : Int) (raw_name : List Nat) (pos1 : Int),
      get_raw_xattr_name_loop raw_len name pos = some (raw_name, pos1) →
        pos + name.length ≤ pos1 ∧ (name ≠ [] → pos1 < raw_len - 1) := by
  induction name with
  | nil =>
    intro pos raw_name pos1 h
    simp [get_raw_xattr_name_loop] at h
    simp [h.2]
  | cons c name ih =>
    intro pos raw_name pos1 h
    unfold get_raw_xattr_name_loop at h
    split_ifs at h with h1 h2 h2
    · simp only [Option.map_eq_some'] at h
      obtain ⟨⟨a, b⟩, hab, heq⟩ := h
      simp only [Prod.mk.injEq] at heq
      obtain ⟨hle, hlt⟩ := ih _ _ _ hab
      rw [← heq.2]
      simp only [List.length_cons, Nat.cast_add, Nat.cast_one]
      refine ⟨by omega, fun _ => ?_⟩
      by_cases hn : name = []
      · subst hn
        simp [get_raw_xattr_name_loop] at hab
        omega
      · exact hlt hn
    · simp only [Option.map_eq_some'] at h
      obtain ⟨⟨a, b⟩, hab, heq⟩ := h
      simp only [Prod.mk.injEq] at heq
      obtain ⟨hle, hlt⟩ := ih _ _ _ hab
      rw [← heq.2]
      simp only [List.length_cons, Nat.cast_add, Nat.cast_one]
      refine ⟨by omega, fun _ => ?_⟩
      by_cases hn : name = []
      · subst hn
        simp [get_raw_xattr_name_loop] at hab
        omega
      · exact hlt hn

theorem get_raw_xattr_name_length (name : List Nat) (i : Nat) (raw_len : Int) (raw_name : List Nat)
    (hl : 0 < raw_len)
    (h : get_raw_xattr_name name i raw_len = some raw_name) : (name.length : Int) < raw_len := by
  unfold get_raw_xattr_name at h
  split at h
  · exact absurd h (by simp)
  · rename_i r pos hlp
    obtain ⟨h1, h2⟩ := get_raw_xattr_name_loop_pos raw_len name 0 r pos hlp
    by_cases hn : name = []
    · subst hn; simpa using hl
    · have := h2 hn
      omega


theorem decimal_loop_length :
    ∀ (fuel n : Nat) (ds : List Nat) (k : Nat), n < 10 ^ (k + 1) →
      (decimal_loop fuel n ds).length ≤ ds.length + (k + 1) := by
  intro fuel
  induction fuel with
  | zero => intro n ds k _; simp [decimal_loop]
  | succ fuel ih =>
    intro n ds k h
    unfold decimal_loop
    split_ifs with h0
    · simp
    · cases k with
      | zero => simp at h; omega
      | succ k =>
        have hlt : n / 10 < 10 ^ (k + 1) := by
          rw [Nat.div_lt_iff_lt_mul (by norm_num)]
          rw [pow_succ] at h
          exact h
        have := ih (n / 10) ((48 + n % 10) :: ds) k hlt
        simp only [List.length_cons] at this
        omega

theorem decimal_length_int (i : Nat) (h : i < 2147483648) : (decimal i).length ≤ 10 := by
  have := decimal_loop_length (i + 1) i [] 9 (by norm_num; omega)
  simpa [decimal] using this

theorem esc_length (n : List Nat) : (esc n).length ≤ 2 * n.length := by
  induction n with
  | nil => simp [esc]
  | cons c n ih =>
    unfold esc
    split_ifs <;> simp only [List.length_cons] <;> omega

theorem get_raw_xattr_name_loop_total (raw_len : Int) :
    ∀ (name : List Nat) (pos : Int), pos + (esc name).length < raw_len - 1 →
      get_raw_xattr_name_loop raw_len name pos = some (esc name, pos + (esc name).length) := by
  intro name
  induction name with
  | nil => intro pos _; simp [get_raw_xattr_name_loop, esc]
  | cons c name ih =>
    intro pos h
    unfold esc at h ⊢
    unfold get_raw_xattr_name_loop
    by_cases hc : c = 64
    · rw [if_pos hc] at h ⊢
      simp only [List.length_cons, Nat.cast_add, Nat.cast_one] at h
      rw [if_pos hc, if_pos (by omega), ih (pos + 2) (by omega)]
      simp only [Option.map_some', List.length_cons, Nat.cast_add, Nat.cast_one, Option.some.injEq,
        Prod.mk.injEq, true_and]
      omega
    · rw [if_neg hc] at h ⊢
      simp only [List.length_cons, Nat.cast_add, Nat.cast_one] at h
      rw [if_neg hc, if_pos (by omega), ih (pos + 1) (by omega)]
      simp only [Option.map_some', List.length_cons, Nat.cast_add, Nat.cast_one, Option.some.injEq,
        Prod.mk.injEq, true_and]
      omega

theorem get_raw_xattr_name_total (name : List Nat) (i : Nat)
    (hn : name.length ≤ ATTR_MAX_NAME_LEN) (hi : i < 2147483648) :
    get_raw_xattr_name name i (ATTR_MAX_NAME_LEN * 2 + 16) = some (chunk_name name i) := by
  have hesc := esc_length name
  have hdec := decimal_length_int i hi
  unfold ATTR_MAX_NAME_LEN at hn ⊢
  unfold get_raw_xattr_name chunk_name
  rw [get_raw_xattr_name_loop_total _ name 0 (by push_cast; omega)]
  simp only [zero_add]
  by_cases h0 : i = 0
  · rw [if_pos h0, if_pos h0]
  · rw [if_neg h0, if_neg h0, if_pos]
    simp only [List.length_cons, Nat.cast_add, Nat.cast_one]
    push_cast
    omega

theorem chunk_name_injective (n1 n2 : List Nat) (i1 i2 : Nat)
    (h : chunk_name n1 i1 = chunk_name n2 i2) : n1 = n2 ∧ i1 = i2 := by
  have t1 := translate_raw_name_chunk_name ((n1.length : Int) + n2.length + 1) n1 i1 (by omega)
  have t2 := translate_raw_name_chunk_name ((n1.length : Int) + n2.length + 1) n2 i2 (by omega)
  rw [h, t2] at t1
  simp only [Except.ok.injEq, Prod.mk.injEq, decide_eq_decide] at t1
  obtain ⟨hn, _, hi⟩ := t1
  subst hn
  refine ⟨rfl, ?_⟩
  by_cases h1 : i1 = 0
  · rw [h1]; exact ((hi.mpr h1)).symm
  · have h2 : ¬ i2 = 0 := fun h2 => h1 (hi.mp h2)
    unfold chunk_name at h
    rw [if_neg h1, if_neg h2] at h
    have := List.append_cancel_left h
    simp only [List.cons.injEq, true_and] at this
    exact decimal_injective _ _ this


/-! ### The sequence number file -/

theorem decimal_length_u64 (n : Nat) (h : n < 18446744073709551616) : (decimal n).length ≤ 20 := by
  have := decimal_loop_length (n + 1) n [] 19 (by norm_num; omega)
  simpa [decimal] using this

theorem PRId64_length (seq : Nat) : (PRId64 seq).length ≤ 21 := by
  unfold PRId64
  split_ifs
  · have := decimal_length_u64 (seq % 18446744073709551616) (by omega)
    omega
  · have := decimal_length_u64 (18446744073709551616 - seq % 18446744073709551616) (by omega)
    simp only [List.length_cons]
    omega

theorem takeWhile_append_of_all {α : Type} (p : α → Bool) (a b : List α)
    (h : ∀ x ∈ a, p x = true) : (a ++ b).takeWhile p = a ++ b.takeWhile p := by
  induction a with
  | nil => rfl
  | cons x a ih =>
    simp only [List.cons_append, List.takeWhile_cons, h x (List.mem_cons_self _ _), if_true]
    rw [ih (fun y hy => h y (List.mem_cons_of_mem _ hy))]

theorem atoll_decimal (n : Nat) (rest : List Nat) (hn : n ≤ 9223372036854775807) :
    atoll (decimal n ++ 10 :: rest) = n := by
  obtain ⟨hne, hdig, _⟩ := decimal_spec n
  unfold atoll
  rw [takeWhile_append_of_all _ _ _ (fun x hx => by have := hdig x hx; simp; omega)]
  have hscan := fun r => scan_digits_decimal n 10 r (by omega)
  cases hd : decimal n with
  | nil => exact absurd hd hne
  | cons d t =>
    have hd1 := hdig d (by rw [hd]; exact List.mem_cons_self _ _)
    rw [hd] at hscan
    have hsp : is_space d = false := by
      unfold is_space
      simp only [decide_eq_false_iff_not]
      omega
    simp only [List.cons_append, List.takeWhile_cons, List.dropWhile_cons, hsp]
    simp only [Bool.false_eq_true, if_false]
    rw [if_neg (by omega), if_neg (by omega)]
    have := hscan (List.takeWhile (fun c => c != 0) rest)
    simp only [List.cons_append] at this
    simp only [show ((10 : Nat) != 0) = true from rfl, if_true]
    rw [this]
    simp only [Nat.cast_inj]
    omega

theorem atoll_neg_decimal (n : Nat) (rest : List Nat) (hn : n ≤ 9223372036854775808) :
    atoll (45 :: decimal n ++ 10 :: rest) = - (n : Int) := by
  obtain ⟨hne, hdig, _⟩ := decimal_spec n
  unfold atoll
  have hscan := scan_digits_decimal n 10 (List.takeWhile (fun c => c != 0) rest) (by omega)
  have h45 : is_space 45 = false := by decide
  simp only [List.cons_append, List.takeWhile_cons, show ((45 : Nat) != 0) = true from rfl, if_true,
    List.dropWhile_cons, h45, Bool.false_eq_true, if_false]
  rw [takeWhile_append_of_all _ _ _ (fun x hx => by have := hdig x hx; simp; omega)]
  simp only [List.takeWhile_cons, show ((10 : Nat) != 0) = true from rfl, if_true]
  rw [hscan]
  simp only [neg_inj, Nat.cast_inj]
  omega

theorem atoll_PRId64 (seq : Nat) (rest : List Nat) (h : seq < 18446744073709551616) :
    toUInt64 (atoll (PRId64 seq ++ 10 :: rest)) = seq := by
  unfold PRId64
  rw [Nat.mod_eq_of_lt h]
  split_ifs with h1
  · rw [atoll_decimal seq rest (by omega)]
    unfold toUInt64
    omega
  · rw [atoll_neg_decimal _ rest (by omega)]
    unfold toUInt64
    omega


theorem write_op_seq_mem (st : Store MemFS) (hst : st.toSys = memsys) (w : World MemFS)
    (i : Nat) (n : Inode) (seq : Nat) (hn : w.fs.inodes.lookup i = some n) :
    write_op_seq st (i : Int) seq w =
      (Except.ok (((PRId64 seq).length + 1 : Nat) : Int),
        { w with fs := w.fs.set_inode i
                   { n with data := PRId64 seq ++ 10 :: n.data.drop ((PRId64 seq).length + 1) },
                 trace := w.trace ++ [Mut.sys_pwrite i (PRId64 seq ++ [10]) 0] }) := by
  unfold write_op_seq
  rw [mutate_run, hst]
  have hi : w.fs.inode (i : Int) = some n := by
    unfold MemFS.inode
    rw [if_neg (by omega)]
    simpa using hn
  have hne : PRId64 seq ++ [10] ≠ [] := by simp
  simp only [memsys, MemFS.mutate, hi, MemFS.pwrite, if_neg hne, Int.toNat_ofNat]
  simp [Nat.add_comm]

theorem read_op_seq_mem (st : Store MemFS) (hst : st.toSys = memsys) (w : World MemFS)
    (i : Nat) (n : Inode) (seq0 : Nat) (hino : w.fs.op_seq_ino = some i)
    (hn : w.fs.inodes.lookup i = some n) :
    read_op_seq st seq0 w =
      (Except.ok ((i : Int), toUInt64 (atoll (n.data.take 39))),
        { w with trace := w.trace ++ [Mut.open_current_op_seq (O_CREAT ||| O_RDWR)] }) := by
  unfold read_op_seq
  rw [bind_run, mutate_run, hst]
  have hi : w.fs.inode (i : Int) = some n := by
    unfold MemFS.inode
    rw [if_neg (by omega)]
    simpa using hn
  simp only [memsys, MemFS.mutate, hino, ite_run, bind_run, ask_run, pure_run, MemFS.safe_read, hi]
  rw [if_neg (by omega), if_neg (by omega)]
  simp [List.take_take]

theorem take_PRId64 (seq : Nat) (rest : List Nat) :
    (PRId64 seq ++ 10 :: rest).take 39 =
      PRId64 seq ++ 10 :: rest.take (38 - (PRId64 seq).length) := by
  have h := PRId64_length seq
  rw [List.take_append_eq_append_take, List.take_of_length_le (by omega)]
  have : 39 - (PRId64 seq).length = (38 - (PRId64 seq).length) + 1 := by omega
  rw [this, List.take_succ_cons]


/-! ### The snapshots a commit cycle keeps -/

theorem sync_entry_remove_snaps_run :
    ∀ (k : Nat) (snaps : List Nat) (w : World σ), snaps.length = k →
      sync_entry_remove_snaps st snaps w =
        (Except.ok (snaps.drop (snaps.length - 2)),
          { w with
            fs := (sync_entry_remove_snaps st snaps w).2.fs,
            trace := w.trace ++ (snaps.take (snaps.length - 2)).map (fun a =>
              Mut.btrfs_ioc_snap_destroy (COMMIT_SNAP_ITEM ++ PRId64 a)) }) := by
  intro k
  induction k with
  | zero =>
    intro snaps w h
    have : snaps = [] := List.length_eq_zero.mp h
    subst this
    simp [sync_entry_remove_snaps, pure_run]
  | succ k ih =>
    intro snaps w h
    match snaps, h with
    | [a], _ => simp [sync_entry_remove_snaps, pure_run]
    | [a, b], _ => simp [sync_entry_remove_snaps, pure_run]
    | a :: b :: c :: rest, h =>
      have hk : (b :: c :: rest).length = k := by simpa using h
      have hrec := ih (b :: c :: rest)
        { w with fs := (st.mutate (Mut.btrfs_ioc_snap_destroy (COMMIT_SNAP_ITEM ++ PRId64 a)) w.fs).2,
                 trace := w.trace ++ [Mut.btrfs_ioc_snap_destroy (COMMIT_SNAP_ITEM ++ PRId64 a)] } hk
      unfold sync_entry_remove_snaps
      simp only [bind_run, mutate_run]
      rw [hrec]
      simp only [List.length_cons, Nat.add_sub_cancel, Prod.mk.injEq, Except.ok.injEq]
      have e1 : rest.length + 1 + 1 + 1 - 2 = (rest.length + 1 + 1 - 2) + 1 := by omega
      refine ⟨?_, ?_⟩
      · rw [e1, List.drop_succ_cons]
      · rw [e1, List.take_succ_cons, List.map_cons]
        simp

theorem sync_entry_durability_stable (cp : Nat) (snaps snaps1 : List Nat) (w w3 : World σ)
    (hs : st.btrfs_stable_commits = true)
    (h : sync_entry_durability st cp snaps w = (Except.ok snaps1, w3)) :
    snaps1 = snaps ++ [cp] ∧ ∃ mid, w3.trace = w.trace ++ mid ∧
      ∀ e ∈ mid, e ≠ Mut.commit_finish ∧ ∀ n, e ≠ Mut.btrfs_ioc_snap_destroy n := by
  unfold sync_entry_durability at h
  rw [if_pos hs] at h
  cases h2 : st.btrfs_snap_create_v2
  · rw [h2] at h
    simp only [Bool.false_eq_true, if_false, bind_run, mutate_run, ite_run, die_run, pure_run] at h
    split_ifs at h with h3
    · simp at h
    · simp only [Prod.mk.injEq, Except.ok.injEq] at h
      refine ⟨h.1.symm, [Mut.btrfs_ioc_snap_create (COMMIT_SNAP_ITEM ++ PRId64 cp),
        Mut.commit_started], by rw [← h.2]; simp, ?_⟩
      intro e he
      simp only [List.mem_cons, List.mem_singleton, List.not_mem_nil, or_false] at he
      rcases he with rfl | rfl <;> exact ⟨by simp, by simp⟩
  · rw [h2] at h
    simp only [if_true, bind_run, mutate_run, ite_run, die_run, ask_run, pure_run] at h
    split_ifs at h with h3
    · simp at h
    · simp only [Prod.mk.injEq, Except.ok.injEq] at h
      refine ⟨h.1.symm, [Mut.btrfs_ioc_snap_create_v2 (COMMIT_SNAP_ITEM ++ PRId64 cp),
        Mut.commit_started, Mut.btrfs_ioc_wait_sync _], by rw [← h.2]; simp; rfl, ?_⟩
      intro e he
      simp only [List.mem_cons, List.mem_singleton, List.not_mem_nil, or_false] at he
      rcases he with rfl | rfl | rfl <;> exact ⟨by simp, by simp⟩


/-! ### Listing the attributes -/

theorem do_listxattr_loop_chunks (len : Nat) :
    ∀ (chunks : List (List Nat × Nat)) (dest : Nat) (names : List (List Nat)) (w : World σ),
      (∀ c ∈ chunks, (c.1.length : Int) < ATTR_MAX_NAME_LEN * 2 + 16) →
      dest + ((chunks.filter (fun c => c.2 == 0)).map (fun c => c.1.length + 1)).sum ≤ len →
      do_listxattr_loop len (chunks.map (fun c => chunk_name c.1 c.2)) dest names w =
        (Except.ok (toInt32 ((dest +
            ((chunks.filter (fun c => c.2 == 0)).map (fun c => c.1.length + 1)).sum : Nat)),
          names ++ (chunks.filter (fun c => c.2 == 0)).map Prod.fst), w) := by
  intro chunks
  induction chunks with
  | nil => intro dest names w _ _; simp [do_listxattr_loop, pure_run]
  | cons c chunks ih =>
    intro dest names w hn hlen
    have ht := translate_raw_name_chunk_name (ATTR_MAX_NAME_LEN * 2 + 16) c.1 c.2
      (hn c (List.mem_cons_self _ _))
    have hn1 : ∀ c ∈ chunks, (c.1.length : Int) < ATTR_MAX_NAME_LEN * 2 + 16 :=
      fun x hx => hn x (List.mem_cons_of_mem _ hx)
    simp only [List.map_cons]
    unfold do_listxattr_loop
    rw [ht]
    simp only
    by_cases h0 : c.2 = 0
    · have hf : List.filter (fun c => c.2 == 0) (c :: chunks) =
          c :: List.filter (fun c => c.2 == 0) chunks := by
        rw [List.filter_cons, if_pos (by simp [h0])]
      rw [hf] at hlen ⊢
      simp only [List.map_cons, List.sum_cons] at hlen ⊢
      simp only [h0, decide_True, if_true]
      rw [if_neg (by omega), if_neg (by omega)]
      rw [Int.toNat_ofNat, ih (dest + c.1.length + 1) (names ++ [c.1]) w hn1 (by omega)]
      simp only [List.append_assoc, List.singleton_append, Prod.mk.injEq, Except.ok.injEq, and_true]
      congr 2
      omega
    · have hf : List.filter (fun c => c.2 == 0) (c :: chunks) =
          List.filter (fun c => c.2 == 0) chunks := by
        rw [List.filter_cons, if_neg (by simp [h0])]
      rw [hf] at hlen ⊢
      simp only [h0, decide_False, Bool.false_eq_true, if_false]
      exact ih dest names w hn1 hlen

theorem do_listxattr_chunks (fn : IndexedPath) (len : Nat) (w : World σ)
    (chunks : List (List Nat × Nat)) (r0 r : Int) (l0 : List (List Nat))
    (hlen0 : len ≠ 0)
    (h0 : st.sys_listxattr fn 0 w.fs = (r0, l0)) (hr0 : 0 ≤ r0) (hr1 : r0 * 2 < 2147483648)
    (h1 : st.sys_listxattr fn (r0 * 2).toNat w.fs = (r, chunks.map (fun c => chunk_name c.1 c.2)))
    (hr : 0 ≤ r)
    (hn : ∀ c ∈ chunks, (c.1.length : Int) < ATTR_MAX_NAME_LEN * 2 + 16)
    (hlen : ((chunks.filter (fun c => c.2 == 0)).map (fun c => c.1.length + 1)).sum ≤ len) :
    do_listxattr st fn len w =
      (Except.ok (toInt32 ((((chunks.filter (fun c => c.2 == 0)).map
          (fun c => c.1.length + 1)).sum : Nat)),
        (chunks.filter (fun c => c.2 == 0)).map Prod.fst), w) := by
  unfold do_listxattr
  rw [if_neg hlen0]
  simp only [bind_run, ask_run, h0, ite_run, pure_run, die_run]
  rw [if_neg (by omega), if_neg (by omega)]
  simp only [bind_run, ask_run, h1, ite_run, pure_run]
  rw [if_neg (by omega), do_listxattr_loop_chunks len chunks 0 [] w hn (by omega)]
  simp


theorem raws_of_chunks (raw_len : Int) (hl : 0 < raw_len) :
    ∀ (chunks : List (List Nat × Nat)) (raws : List (List Nat)),
      raws.map some = chunks.map (fun c => get_raw_xattr_name c.1 c.2 raw_len) →
      raws = chunks.map (fun c => chunk_name c.1 c.2) ∧
        ∀ c ∈ chunks, (c.1.length : Int) < raw_len := by
  intro chunks
  induction chunks with
  | nil =>
    intro raws h
    simp only [List.map_nil, List.map_eq_nil_iff] at h
    simp [h]
  | cons c chunks ih =>
    intro raws h
    cases raws with
    | nil => simp at h
    | cons raw raws =>
      simp only [List.map_cons, List.cons.injEq] at h
      obtain ⟨h1, h2⟩ := ih raws h.2
      have hc := get_raw_xattr_name_eq c.1 c.2 raw_len raw h.1.symm
      have hlen := get_raw_xattr_name_length c.1 c.2 raw_len raw hl h.1.symm
      refine ⟨by simp [hc, h1], ?_⟩
      intro x hx
      rcases List.mem_cons.mp hx with rfl | hx
      · exact hlen
      · exact h2 x hx


/-! ### The positions of a batch -/

theorem _do_transaction_loop_stamped (op_seq trans_num : Nat) :
    ∀ (t : List TransactionOp) (k : Nat),
      _do_transaction_loop st t ⟨op_seq, trans_num, k⟩ =
        apply_stamped st ((t.enumFrom k).map (fun p => (p.2, ⟨op_seq, trans_num, p.1⟩))) := by
  intro t
  induction t with
  | nil => intro k; rfl
  | cons op t ih =>
    intro k
    simp only [List.enumFrom, List.map_cons]
    unfold _do_transaction_loop apply_stamped
    simp only [ih]

theorem do_transactions_loop_stamped (op_seq : Nat) :
    ∀ (tls : List Transaction) (j : Nat),
      do_transactions_loop st op_seq tls j 0 =
        apply_batch st ((tls.enumFrom j).map (fun p => stamped op_seq p.1 p.2)) := by
  intro tls
  induction tls with
  | nil => intro j; rfl
  | cons t tls ih =>
    intro j
    simp only [List.enumFrom, List.map_cons]
    unfold do_transactions_loop apply_batch _do_transaction
    have hs : stamped op_seq j t = (t.enumFrom 0).map (fun p => (p.2, ⟨op_seq, j, p.1⟩)) := rfl
    rw [hs, ← _do_transaction_loop_stamped st op_seq j t 0]
    funext w
    simp only [bind_run]
    cases h1 : _do_transaction_loop st t ⟨op_seq, j, 0⟩ w with
    | mk res w1 =>
      cases res with
      | error e => rfl
      | ok u =>
        simp only
        cases h2 : _inject_failure w1 with
        | mk res2 w2 =>
          cases res2 with
          | error e => simp [bind_run, h2]
          | ok u2 => simp [bind_run, h2, pure_run, ih]

theorem stamped_positions (op_seq trans_num : Nat) :
    ∀ (t : List TransactionOp) (k : Nat),
      List.Pairwise (fun a b : SequencerPosition => a < b)
          ((t.enumFrom k).map (fun p => (⟨op_seq, trans_num, p.1⟩ : SequencerPosition))) ∧
        ∀ a ∈ (t.enumFrom k).map (fun p => (⟨op_seq, trans_num, p.1⟩ : SequencerPosition)),
          a.seq = op_seq ∧ a.trans = trans_num ∧ k ≤ a.op := by
  intro t
  induction t with
  | nil => intro k; simp
  | cons op t ih =>
    intro k
    obtain ⟨h1, h2⟩ := ih (k + 1)
    simp only [List.enumFrom, List.map_cons, List.pairwise_cons, List.mem_cons]
    refine ⟨⟨?_, h1⟩, ?_⟩
    · intro b hb
      obtain ⟨hs, ht, ho⟩ := h2 b hb
      rw [SequencerPosition.lt_def]
      right
      refine ⟨hs.symm, Or.inr ⟨ht.symm, ?_⟩⟩
      simp only
      omega
    · intro a ha
      rcases ha with rfl | ha
      · simp
      · obtain ⟨hs, ht, ho⟩ := h2 a ha
        exact ⟨hs, ht, by omega⟩

theorem batch_positions (op_seq : Nat) :
    ∀ (tls : List Transaction) (j : Nat),
      List.Pairwise (fun a b : SequencerPosition => a < b)
          ((((tls.enumFrom j).map (fun p => stamped op_seq p.1 p.2)).flatten).map Prod.snd) ∧
        ∀ a ∈ (((tls.enumFrom j).map (fun p => stamped op_seq p.1 p.2)).flatten).map Prod.snd,
          a.seq = op_seq ∧ j ≤ a.trans := by
  intro tls
  induction tls with
  | nil => intro j; simp
  | cons t tls ih =>
    intro j
    obtain ⟨h1, h2⟩ := ih (j + 1)
    obtain ⟨h3, h4⟩ := stamped_positions op_seq j t 0
    have hst : (stamped op_seq j t).map Prod.snd =
        (t.enumFrom 0).map (fun p => (⟨op_seq, j, p.1⟩ : SequencerPosition)) := by
      simp [stamped, List.enum, Function.comp_def]
    simp only [List.enumFrom, List.map_cons, List.flatten_cons, List.map_append, hst]
    refine ⟨List.pairwise_append.mpr ⟨h3, h1, ?_⟩, ?_⟩
    · intro a ha b hb
      obtain ⟨hs, ht, _⟩ := h4 a ha
      obtain ⟨hs2, ht2⟩ := h2 b hb
      rw [SequencerPosition.lt_def]
      right
      exact ⟨by rw [hs, hs2], Or.inl (by omega)⟩
    · intro a ha
      rcases List.mem_append.mp ha with ha | ha
      · obtain ⟨hs, ht, _⟩ := h4 a ha
        exact ⟨hs, by omega⟩
      · obtain ⟨hs, ht⟩ := h2 a ha
        exact ⟨hs, by omega⟩


/-! ### The pieces of a cloned range -/

theorem toUInt64_nat (n : Nat) (h : n < 18446744073709551616) : toUInt64 (n : Int) = n := by
  unfold toUInt64
  omega

theorem ALIGN_DOWN_eq (x b : Nat) (hx : x < 18446744073709551616) :
    ALIGN_DOWN x b = x - x % b := by
  have hle : x % b ≤ x := Nat.mod_le x b
  unfold ALIGN_DOWN toUInt64
  omega

theorem ALIGN_UP_eq (x b : Nat) (hb : 0 < b) (hx : x < 18446744073709551616)
    (hup : x % b = 0 ∨ x - x % b + b < 18446744073709551616) :
    ALIGN_UP x b = x + (if x % b = 0 then 0 else b - x % b) ∧ b ∣ ALIGN_UP x b := by
  have hle : x % b ≤ x := Nat.mod_le x b
  have hlt : x % b < b := Nat.mod_lt x hb
  unfold ALIGN_UP ALIGNED
  by_cases h0 : x % b = 0
  · simp only [h0, decide_True, if_true, Nat.add_zero, true_and]
    exact Nat.dvd_of_mod_eq_zero h0
  · simp only [h0, decide_False, Bool.false_eq_true, if_false]
    rw [ALIGN_DOWN_eq x b hx]
    have hup1 : x - x % b + b < 18446744073709551616 := hup.resolve_left h0
    have e : toUInt64 (((x - x % b : Nat) : Int) + (b : Int)) = x - x % b + b := by
      unfold toUInt64
      omega
    rw [e]
    refine ⟨by omega, ?_⟩
    exact Nat.dvd_add (Nat.dvd_sub_mod x) (Nat.dvd_refl b)

theorem ALIGN_UP_wrap (x b : Nat) (hb : 0 < b) (hx : x < 18446744073709551616)
    (hb64 : b < 18446744073709551616) (hge : x ≤ ALIGN_UP x b) :
    x % b = 0 ∨ x - x % b + b < 18446744073709551616 := by
  have hle : x % b ≤ x := Nat.mod_le x b
  have hlt : x % b < b := Nat.mod_lt x hb
  by_cases h0 : x % b = 0
  · exact Or.inl h0
  · right
    unfold ALIGN_UP ALIGNED at hge
    simp only [h0, decide_False, Bool.false_eq_true, if_false] at hge
    rw [ALIGN_DOWN_eq x b hx] at hge
    unfold toUInt64 at hge
    omega

theorem _do_clone_range_lenclone_run (blk_size : Nat) (src dst : Int)
    (srcoff len dstoff lenclone : Nat) (w : World σ) :
    ∃ res, _do_clone_range_lenclone st blk_size src dst srcoff len dstoff lenclone w =
        (Except.ok res, w) ∧
      ∀ lc, res = Except.ok lc → lc = lenclone ∨ lc = ALIGN_DOWN lenclone blk_size := by
  unfold _do_clone_range_lenclone
  split_ifs with h1
  · simp only [bind_run, ask_run, ite_run, pure_run]
    split_ifs with h2 h3 h4
    · exact ⟨_, rfl, fun lc h => by simp at h⟩
    · exact ⟨_, rfl, fun lc h => by simp at h⟩
    · exact ⟨_, rfl, fun lc h => Or.inr (Except.ok.inj h).symm⟩
    · exact ⟨_, rfl, fun lc h => Or.inl (Except.ok.inj h).symm⟩
  · exact ⟨_, rfl, fun lc h => Or.inl (Except.ok.inj h).symm⟩

theorem _do_clone_range_end_trace (src dst : Int) (srcoff len srcoffclone dstoffclone lenclone : Nat)
    (r : Int) (w : World σ) :
    (_do_clone_range_end st src dst srcoff len srcoffclone dstoffclone lenclone r w).2.trace =
      w.trace ++
        (if toUInt64 ((srcoffclone : Int) + lenclone) ≠ toUInt64 ((srcoff : Int) + len) then
          [Mut._do_copy_range src dst (toUInt64 ((srcoffclone : Int) + lenclone))
            (toUInt64 ((srcoff : Int) + len - (srcoffclone + lenclone)))
            (toUInt64 ((dstoffclone : Int) + lenclone))]
        else []) := by
  unfold _do_clone_range_end
  split_ifs with h1
  · simp only [bind_run, mutate_run, ite_run, pure_run, ask_run]
    split_ifs <;> rfl
  · simp [pure_run]


theorem _do_clone_range_clone_path (blk_size : Nat) (src dst : Int) (srcoff len dstoff : Nat)
    (w : World σ) (a b c : Nat) (rest : List Mut)
    (hblk : 0 < blk_size) (hcong : srcoff % blk_size = dstoff % blk_size)
    (htr : (_do_clone_range st true blk_size src dst srcoff len dstoff w).2.trace =
      w.trace ++ Mut.btrfs_ioc_clone_range dst src a b c :: rest)
    (hok : calls_succeed st.toSys w.fs (Mut.btrfs_ioc_clone_range dst src a b c :: rest)) :
    a = ALIGN_UP srcoff blk_size ∧ c = ALIGN_UP dstoff blk_size ∧ b ≠ 0 ∧
    ¬ ALIGN_UP srcoff blk_size ≥ toUInt64 ((srcoff : Int) + len) ∧
    (b = toUInt64 ((len : Int) - ((ALIGN_UP srcoff blk_size : Int) - srcoff)) ∨
      b = ALIGN_DOWN (toUInt64 ((len : Int) - ((ALIGN_UP srcoff blk_size : Int) - srcoff)))
        blk_size) ∧
    rest =
      (if ALIGN_UP srcoff blk_size ≠ srcoff then
        [Mut._do_copy_range src dst srcoff (toUInt64 ((ALIGN_UP srcoff blk_size : Int) - srcoff))
          dstoff]
      else []) ++
      (if toUInt64 ((a : Int) + b) ≠ toUInt64 ((srcoff : Int) + len) then
        [Mut._do_copy_range src dst (toUInt64 ((a : Int) + b))
          (toUInt64 ((srcoff : Int) + len - (a + b))) (toUInt64 ((c : Int) + b))]
      else []) := by
  unfold _do_clone_range at htr
  rw [if_neg (by simp), if_neg (by omega), if_neg (not_not.mpr hcong)] at htr
  by_cases h1 : ALIGN_UP srcoff blk_size ≥ toUInt64 ((srcoff : Int) + len)
  · rw [if_pos h1, mutate_run] at htr
    simp at htr
  · rw [if_neg h1, bind_run] at htr
    obtain ⟨res, hres, hlc⟩ := _do_clone_range_lenclone_run st blk_size src dst srcoff len dstoff
      (toUInt64 ((len : Int) - ((ALIGN_UP srcoff blk_size : Int) - srcoff))) w
    rw [hres] at htr
    cases res with
    | error e => simp [pure_run] at htr
    | ok lc =>
      simp only at htr
      by_cases h2 : lc = 0
      · rw [if_pos h2, mutate_run] at htr
        simp at htr
      · rw [if_neg h2, bind_run, mutate_run] at htr
        simp only [ite_run] at htr
        have hlc1 := hlc lc rfl
        by_cases h3 : (st.mutate (Mut.btrfs_ioc_clone_range dst src (ALIGN_UP srcoff blk_size) lc
            (ALIGN_UP dstoff blk_size)) w.fs).1 ≥ 0
        · rw [if_pos h3] at htr
          by_cases h4 : ALIGN_UP srcoff blk_size ≠ srcoff
          · rw [if_pos h4, bind_run, mutate_run] at htr
            simp only [ite_run] at htr
            by_cases h5 : (st.mutate (Mut._do_copy_range src dst srcoff
                (toUInt64 ((ALIGN_UP srcoff blk_size : Int) - srcoff)) dstoff)
                (st.mutate (Mut.btrfs_ioc_clone_range dst src (ALIGN_UP srcoff blk_size) lc
                  (ALIGN_UP dstoff blk_size)) w.fs).2).1 ≥ 0
            · rw [if_pos h5, _do_clone_range_end_trace] at htr
              simp only [List.append_assoc, List.append_cancel_left_eq, List.singleton_append,
                List.cons.injEq, Mut.btrfs_ioc_clone_range.injEq, true_and] at htr
              obtain ⟨⟨rfl, rfl, rfl⟩, hrest⟩ := htr
              refine ⟨rfl, rfl, h2, h1, hlc1, ?_⟩
              rw [if_pos h4]
              rfl
            · exfalso
              rw [if_neg h5] at htr
              simp only [bind_run, ask_run, pure_run, List.append_assoc, List.append_cancel_left_eq,
                List.singleton_append, List.cons.injEq, Mut.btrfs_ioc_clone_range.injEq,
                true_and] at htr
              obtain ⟨⟨rfl, rfl, rfl⟩, hrest⟩ := htr
              rw [← hrest] at hok
              exact h5 hok.2.1
          · rw [if_neg h4, _do_clone_range_end_trace] at htr
            simp only [List.append_assoc, List.append_cancel_left_eq, List.singleton_append,
              List.cons.injEq, Mut.btrfs_ioc_clone_range.injEq, true_and] at htr
            obtain ⟨⟨rfl, rfl, rfl⟩, hrest⟩ := htr
            refine ⟨rfl, rfl, h2, h1, hlc1, ?_⟩
            rw [if_neg h4, ← hrest]
            rfl
        · exfalso
          rw [if_neg h3] at htr
          simp only [bind_run, ask_run, ite_run, mutate_run, pure_run] at htr
          split_ifs at htr
          · simp only [List.append_assoc, List.append_cancel_left_eq, List.singleton_append,
              List.cons.injEq, Mut.btrfs_ioc_clone_range.injEq, true_and] at htr
            obtain ⟨⟨rfl, rfl, rfl⟩, hrest⟩ := htr
            exact h3 hok.1
          · simp only [List.append_assoc, List.append_cancel_left_eq, List.singleton_append,
              List.cons.injEq, Mut.btrfs_ioc_clone_range.injEq, true_and] at htr
            obtain ⟨⟨rfl, rfl, rfl⟩, hrest⟩ := htr
            exact h3 hok.1


/-! ### The extent map -/

theorem exomap_set_append (k v : Nat) :
    ∀ (m : List (Nat × Nat)), (∀ p ∈ m, p.1 < k) → exomap_set m k v = m ++ [(k, v)] := by
  intro m
  induction m with
  | nil => intro _; rfl
  | cons p m ih =>
    intro h
    obtain ⟨k1, v1⟩ := p
    have h1 : k1 < k := h (k1, v1) (List.mem_cons_self _ _)
    unfold exomap_set
    rw [if_neg (by omega), if_neg (by omega), ih (fun q hq => h q (List.mem_cons_of_mem _ hq))]
    rfl

theorem fiemap_cut_eq (offset len : Nat) (extent : fiemap_extent)
    (hol : offset + len < 18446744073709551616)
    (hext : extent.fe_logical + extent.fe_length < 18446744073709551616)
    (hlog : extent.fe_logical ≤ offset + len) :
    fiemap_cut offset len extent =
      if extent.fe_logical + extent.fe_length > offset + len then offset + len - extent.fe_logical
      else extent.fe_length := by
  unfold fiemap_cut
  have e1 : toUInt64 ((extent.fe_logical : Int) + extent.fe_length) =
      extent.fe_logical + extent.fe_length := by
    unfold toUInt64; omega
  have e2 : toUInt64 ((offset : Int) + len) = offset + len := by
    unfold toUInt64; omega
  have e3 : toUInt64 ((offset : Int) + len - extent.fe_logical) =
      offset + len - extent.fe_logical := by
    unfold toUInt64; omega
  rw [e1, e2, e3]

theorem fiemap_loop_spec (offset len : Nat) (hol : offset + len < 18446744073709551616) :
    ∀ (rest : List fiemap_extent) (extent : fiemap_extent) (exomap : List (Nat × Nat)),
      extent.fe_logical + extent.fe_length < 18446744073709551616 →
      extent.fe_logical ≤ offset + len →
      (∀ e ∈ rest, e.fe_logical + e.fe_length < 18446744073709551616 ∧
        e.fe_logical ≤ offset + len) →
      List.Pairwise (fun e1 e2 : fiemap_extent => e1.fe_logical + e1.fe_length ≤ e2.fe_logical)
        (extent :: rest) →
      (∀ p ∈ exomap, p.1 + p.2 < extent.fe_logical) →
      List.Pairwise (fun p q : Nat × Nat => p.1 + p.2 < q.1) exomap →
      List.Pairwise (fun p q : Nat × Nat => p.1 + p.2 < q.1)
          (fiemap_loop offset len extent rest exomap) ∧
        ∀ x, (∃ p ∈ fiemap_loop offset len extent rest exomap, p.1 ≤ x ∧ x < p.1 + p.2) ↔
          ((∃ p ∈ exomap, p.1 ≤ x ∧ x < p.1 + p.2) ∨
            (x < offset + len ∧ ∃ e ∈ extent :: rest,
              e.fe_logical ≤ x ∧ x < e.fe_logical + e.fe_length)) := by
  intro rest
  induction rest with
  | nil =>
    intro extent exomap hext hlog _ _ hex hpw
    unfold fiemap_loop
    rw [exomap_set_append _ _ exomap (fun p hp => by have := hex p hp; omega),
      fiemap_cut_eq offset len extent hol hext hlog]
    refine ⟨?_, ?_⟩
    · rw [List.pairwise_append]
      refine ⟨hpw, by simp, ?_⟩
      intro p hp q hq
      simp only [List.mem_singleton] at hq
      subst hq
      exact hex p hp
    · intro x
      simp only [List.mem_append, List.mem_singleton, List.mem_cons, List.not_mem_nil, or_false,
        exists_eq_left]
      constructor
      · rintro ⟨p, hp | hp, h1, h2⟩
        · exact Or.inl ⟨p, hp, h1, h2⟩
        · subst hp
          right
          simp only at h1 h2
          split_ifs at h2 <;> omega
      · rintro (⟨p, hp, h1, h2⟩ | ⟨h1, h2, h3⟩)
        · exact ⟨p, Or.inl hp, h1, h2⟩
        · refine ⟨_, Or.inr rfl, h2, ?_⟩
          simp only
          split_ifs <;> omega
  | cons next rest ih =>
    intro extent exomap hext hlog hrest hsorted hex hpw
    have hnext := hrest next (List.mem_cons_self _ _)
    have hrest1 : ∀ e ∈ rest, e.fe_logical + e.fe_length < 18446744073709551616 ∧
        e.fe_logical ≤ offset + len := fun e he => hrest e (List.mem_cons_of_mem _ he)
    rw [List.pairwise_cons, List.pairwise_cons] at hsorted
    obtain ⟨hs1, hs2, hs3⟩ := hsorted
    have hadj := hs1 next (List.mem_cons_self _ _)
    unfold fiemap_loop
    have e1 : toUInt64 ((extent.fe_logical : Int) + extent.fe_length) =
        extent.fe_logical + extent.fe_length := by
      unfold toUInt64; omega
    rw [e1]
    by_cases hm : extent.fe_logical + extent.fe_length = next.fe_logical
    · rw [if_pos hm]
      have e2 : toUInt64 ((next.fe_length : Int) + extent.fe_length) =
          next.fe_length + extent.fe_length := by
        unfold toUInt64; omega
      rw [e2]
      obtain ⟨h1, h2⟩ := ih ⟨extent.fe_logical, next.fe_length + extent.fe_length⟩ exomap
        (by simp only; omega) hlog hrest1
        (by
          rw [List.pairwise_cons]
          refine ⟨?_, hs3⟩
          intro e he
          have := hs2 e he
          simp only
          omega)
        hex hpw
      refine ⟨h1, ?_⟩
      intro x
      rw [h2 x]
      simp only [List.mem_cons, exists_eq_or_imp]
      constructor
      · rintro (h | ⟨h3, h4 | h4⟩)
        · exact Or.inl h
        · right
          refine ⟨h3, ?_⟩
          by_cases hx : x < next.fe_logical
          · left; omega
          · right; left; omega
        · exact Or.inr ⟨h3, Or.inr (Or.inr h4)⟩
      · rintro (h | ⟨h3, h4 | h4 | h4⟩)
        · exact Or.inl h
        · exact Or.inr ⟨h3, Or.inl (by omega)⟩
        · exact Or.inr ⟨h3, Or.inl (by omega)⟩
        · exact Or.inr ⟨h3, Or.inr h4⟩
    · rw [if_neg hm, exomap_set_append _ _ exomap (fun p hp => by have := hex p hp; omega),
        fiemap_cut_eq offset len extent hol hext hlog]
      obtain ⟨h1, h2⟩ := ih next
        (exomap ++ [(extent.fe_logical,
          if extent.fe_logical + extent.fe_length > offset + len then
            offset + len - extent.fe_logical
          else extent.fe_length)])
        hnext.1 hnext.2 hrest1 (List.pairwise_cons.mpr ⟨hs2, hs3⟩)
        (by
          intro p hp
          rcases List.mem_append.mp hp with hp | hp
          · have := hex p hp
            omega
          · simp only [List.mem_singleton] at hp
            subst hp
            simp only
            split_ifs <;> omega)
        (by
          rw [List.pairwise_append]
          refine ⟨hpw, by simp, ?_⟩
          intro p hp q hq
          simp only [List.mem_singleton] at hq
          subst hq
          exact hex p hp)
      refine ⟨h1, ?_⟩
      intro x
      rw [h2 x]
      simp only [List.mem_append, List.mem_singleton, List.mem_cons, exists_eq_or_imp,
        List.not_mem_nil, or_false]
      constructor
      · rintro (⟨p, hp | hp, h3, h4⟩ | ⟨h3, h4⟩)
        · exact Or.inl ⟨p, hp, h3, h4⟩
        · subst hp
          right
          simp only at h3 h4
          refine ⟨?_, Or.inl ⟨h3, ?_⟩⟩ <;> split_ifs at h4 <;> omega
        · exact Or.inr ⟨h3, Or.inr h4⟩
      · rintro (⟨p, hp, h3, h4⟩ | ⟨h3, h4 | h4⟩)
        · exact Or.inl ⟨p, Or.inl hp, h3, h4⟩
        · refine Or.inl ⟨_, Or.inr rfl, h4.1, ?_⟩
          simp only
          split_ifs <;> omega
        · exact Or.inr ⟨h3, h4⟩


theorem fiemap_exomap_spec (offset len : Nat) (extents : List fiemap_extent)
    (hol : offset + len < 18446744073709551616)
    (h64 : ∀ e ∈ extents, e.fe_logical + e.fe_length < 18446744073709551616)
    (hsorted : extents.Pairwise (fun e1 e2 => e1.fe_logical ≤ e2.fe_logical))
    (hdisj : extents.Pairwise (fun e1 e2 => e1.fe_logical + e1.fe_length ≤ e2.fe_logical ∨
      e2.fe_logical + e2.fe_length ≤ e1.fe_logical))
    (hne : ∀ e ∈ extents, 0 < e.fe_length)
    (hint : ∀ e ∈ extents, e.fe_logical < offset + len ∧ offset < e.fe_logical + e.fe_length) :
    (∀ x, (∃ p ∈ fiemap_exomap offset len extents, p.1 ≤ x ∧ x < p.1 + p.2) ↔
      (offset ≤ x ∧ x < offset + len ∧
        ∃ e ∈ extents, e.fe_logical ≤ x ∧ x < e.fe_logical + e.fe_length)) ∧
    (fiemap_exomap offset len extents).Pairwise (fun p q => p.1 + p.2 < q.1) := by
  cases extents with
  | nil => simp [fiemap_exomap]
  | cons extent rest =>
    have hseq : List.Pairwise
        (fun e1 e2 : fiemap_extent => e1.fe_logical + e1.fe_length ≤ e2.fe_logical)
        (extent :: rest) := by
      have hboth := hsorted.and hdisj
      refine (hboth.imp_of_mem ?_)
      intro e1 e2 _ he2 h
      have := hne e2 he2
      omega
    have h0 := h64 extent (List.mem_cons_self _ _)
    have hi0 := hint extent (List.mem_cons_self _ _)
    have hrest : ∀ e ∈ rest, e.fe_logical + e.fe_length < 18446744073709551616 ∧
        e.fe_logical ≤ offset + len := fun e he =>
      ⟨h64 e (List.mem_cons_of_mem _ he), by have := hint e (List.mem_cons_of_mem _ he); omega⟩
    have hafter : ∀ e ∈ rest, extent.fe_logical + extent.fe_length ≤ e.fe_logical :=
      (List.pairwise_cons.mp hseq).1
    simp only [fiemap_exomap]
    by_cases hlt : extent.fe_logical < offset
    · rw [if_pos hlt]
      have e1 : toUInt64 ((extent.fe_length : Int) - ((offset : Int) - extent.fe_logical)) =
          extent.fe_length - (offset - extent.fe_logical) := by
        unfold toUInt64; omega
      rw [e1]
      obtain ⟨h1, h2⟩ := fiemap_loop_spec offset len hol rest
        ⟨offset, extent.fe_length - (offset - extent.fe_logical)⟩ []
        (by simp only; omega) (by simp only; omega) hrest
        (by
          rw [List.pairwise_cons]
          refine ⟨?_, (List.pairwise_cons.mp hseq).2⟩
          intro e he
          have := hafter e he
          simp only
          omega)
        (by simp) (by simp)
      refine ⟨?_, h1⟩
      intro x
      rw [h2 x]
      simp only [List.not_mem_nil, false_and, exists_false, false_or, List.mem_cons,
        exists_eq_or_imp]
      constructor
      · rintro ⟨h3, h4 | ⟨e, he, h5, h6⟩⟩
        · exact ⟨h4.1, h3, Or.inl (by omega)⟩
        · have := hafter e he
          exact ⟨by omega, h3, Or.inr ⟨e, he, h5, h6⟩⟩
      · rintro ⟨h3, h4, h5 | h5⟩
        · exact ⟨h4, Or.inl (by omega)⟩
        · exact ⟨h4, Or.inr h5⟩
    · rw [if_neg hlt]
      obtain ⟨h1, h2⟩ := fiemap_loop_spec offset len hol rest extent [] h0 (by omega) hrest hseq
        (by simp) (by simp)
      refine ⟨?_, h1⟩
      intro x
      rw [h2 x]
      simp only [List.not_mem_nil, false_and, exists_false, false_or, List.mem_cons,
        exists_eq_or_imp]
      constructor
      · rintro ⟨h3, h4 | ⟨e, he, h5, h6⟩⟩
        · exact ⟨by omega, h3, Or.inl h4⟩
        · have := hafter e he
          exact ⟨by omega, h3, Or.inr ⟨e, he, h5, h6⟩⟩
      · rintro ⟨h3, h4, h5⟩
        exact ⟨h4, h5⟩

/-! ### The calls of a completed COLL_ADD -/

/-- A `_set_replay_guard` that returns has made exactly its guard steps. -/
theorem _set_replay_guard_run (fd : Int) (spos : SequencerPosition) (hoid : Option hobject_t)
    (in_progress : Bool) (w : World σ) (hs : st.btrfs_stable_commits = false)
    (hk : w.m_filestore_kill_at = 0)
    (h : (_set_replay_guard st fd spos hoid in_progress w).1 = Except.ok ()) :
    _set_replay_guard st fd spos hoid in_progress w =
      (Except.ok (), { w with
        fs := after_calls st.toSys w.fs (guard_steps fd spos hoid in_progress),
        trace := w.trace ++ guard_steps fd spos hoid in_progress }) := by
  revert h
  simp only [_set_replay_guard, hs, Bool.false_eq_true, if_false, bind_run, mutate_run,
    _inject_failure, hk, ite_run, die_run, ne_eq, not_true_eq_false]
  split_ifs with h1
  · intro h; cases h
  · intro _
    simp [guard_steps, after_calls]

/-- A `_close_replay_guard` that returns has made exactly its two steps. -/
theorem _close_replay_guard_run (fd : Int) (spos : SequencerPosition)
    (w : World σ) (hs : st.btrfs_stable_commits = false)
    (hk : w.m_filestore_kill_at = 0)
    (h : (_close_replay_guard st fd spos w).1 = Except.ok ()) :
    _close_replay_guard st fd spos w =
      (Except.ok (), { w with
        fs := after_calls st.toSys w.fs (close_steps fd spos),
        trace := w.trace ++ close_steps fd spos }) := by
  revert h
  simp only [_close_replay_guard, hs, Bool.false_eq_true, if_false, bind_run, mutate_run,
    _inject_failure, hk, ite_run, die_run, ne_eq, not_true_eq_false]
  split_ifs with h1
  · intro h; cases h
  · intro _
    simp [close_steps, after_calls]

/-- The function `lfn_link` makes its two calls in order and stops at the first
that fails; a result that is not negative comes after both. -/
theorem lfn_link_run (c cid : coll_t) (o : hobject_t) (w : World σ) :
    ∃ (r : Int) (links : List Mut),
      lfn_link st c cid o w = (Except.ok r, { w with
        fs := after_calls st.toSys w.fs links, trace := w.trace ++ links }) ∧
      links <+: link_steps (st.index_lookup c o w.fs).2.1 (st.index_lookup cid o w.fs).2.1 cid o ∧
      (0 ≤ r → links = link_steps (st.index_lookup c o w.fs).2.1 (st.index_lookup cid o w.fs).2.1 cid o) := by
  have hnil : ∀ r : Int, r < 0 → ∃ (r1 : Int) (links : List Mut),
      ((Except.ok r, w) : Except Fatal Int × World σ) = (Except.ok r1, { w with
        fs := after_calls st.toSys w.fs links, trace := w.trace ++ links }) ∧
      links <+: link_steps (st.index_lookup c o w.fs).2.1 (st.index_lookup cid o w.fs).2.1 cid o ∧
      (0 ≤ r1 → links =
        link_steps (st.index_lookup c o w.fs).2.1 (st.index_lookup cid o w.fs).2.1 cid o) :=
    fun r hr => ⟨r, [], by simp [after_calls], ⟨_, rfl⟩, fun h => by omega⟩
  simp only [lfn_link, bind_run, ask_run, ite_run, pure_run, mutate_run]
  by_cases h1 : st.get_index (if c < cid then cid else c) w.fs < 0
  · rw [if_pos h1]; exact hnil _ h1
  rw [if_neg h1]
  by_cases h2 : st.get_index (if c < cid then c else cid) w.fs < 0
  · rw [if_pos h2]; exact hnil _ h2
  rw [if_neg h2]
  by_cases h3 : (st.index_lookup c o w.fs).1 < 0
  · rw [if_pos h3]; exact hnil _ h3
  rw [if_neg h3]
  by_cases h4 : (!(st.index_lookup c o w.fs).2.2) = true
  · rw [if_pos h4]; exact hnil _ (by decide)
  rw [if_neg h4]
  by_cases h5 : (st.index_lookup cid o w.fs).1 < 0
  · rw [if_pos h5]; exact hnil _ h5
  rw [if_neg h5]
  by_cases h6 : (st.index_lookup cid o w.fs).2.2 = true
  · rw [if_pos h6]; exact hnil _ (by decide)
  rw [if_neg h6]
  by_cases h7 : (st.mutate (Mut.sys_link (st.index_lookup c o w.fs).2.1
      (st.index_lookup cid o w.fs).2.1) w.fs).1 < 0
  · rw [if_pos h7]
    exact ⟨_, [Mut.sys_link _ _], rfl, by simp [link_steps], fun h => absurd h7 (not_lt.mpr h)⟩
  rw [if_neg h7]
  refine ⟨_, link_steps _ _ cid o, Prod.ext rfl ?_, ⟨[], List.append_nil _⟩, fun _ => rfl⟩
  simp [after_calls, link_steps]

/-- What `_collection_add` does once both checks let it go on and the source is
found, when it leaves `0`: the guard steps with `in_progress = true` on the
descriptor of the source, the calls of `lfn_link`, the steps that close the guard. -/
theorem _collection_add_found (c oldcid : coll_t) (o : hobject_t) (spos : SequencerPosition)
    (w : World σ) (d s fd : Int)
    (hs : st.btrfs_stable_commits = false) (hk : w.m_filestore_kill_at = 0)
    (hd : _check_replay_guard_oid st c o spos w = (Except.ok d, w)) (hpos : d > 0)
    (hsrc : _check_replay_guard_oid st oldcid o spos w = (Except.ok s, w)) (hs0 : 0 ≤ s)
    (hopen : lfn_open st oldcid o 0 false w = (Except.ok fd, w)) (hfd : 0 ≤ fd)
    (hres : (_collection_add st c oldcid o spos w).1 = Except.ok 0) :
    ∃ links : List Mut,
      (_collection_add st c oldcid o spos w).2.trace =
        w.trace ++ (guard_steps fd spos (some o) true ++ links ++ close_steps fd spos) ∧
      links <+: link_steps
        (st.index_lookup oldcid o
          (after_calls st.toSys w.fs (guard_steps fd spos (some o) true))).2.1
        (st.index_lookup c o
          (after_calls st.toSys w.fs (guard_steps fd spos (some o) true))).2.1 c o ∧
      (st.replaying = false → links = link_steps
        (st.index_lookup oldcid o
          (after_calls st.toSys w.fs (guard_steps fd spos (some o) true))).2.1
        (st.index_lookup c o
          (after_calls st.toSys w.fs (guard_steps fd spos (some o) true))).2.1 c o) := by
  have heq : _collection_add st c oldcid o spos w =
      (do
        _set_replay_guard st fd spos (some o) true
        let r ← lfn_link st oldcid c o
        let r := if st.replaying && !st.btrfs_stable_commits && r = - EEXIST then 0 else r
        _inject_failure
        if r = 0 then do
          _close_replay_guard st fd spos
          pure r
        else
          pure r : M σ Int) w := by
    simp only [_collection_add, _collection_add_checked, _collection_add_apply, bind_run, hd, hsrc,
      hopen, ite_run, if_neg (not_lt.mpr hpos.le), if_neg (not_lt.mpr hs0), if_neg (not_lt.mpr hfd),
      if_pos hpos]
  revert hres
  rw [heq, bind_run]
  rcases hg : _set_replay_guard st fd spos (some o) true w with ⟨res1, w2⟩
  cases res1 with
  | error e => intro h; cases h
  | ok u =>
    have hg2 := _set_replay_guard_run st fd spos (some o) true w hs hk (by rw [hg])
    rw [hg] at hg2
    have hw2 : w2 = { w with
        fs := after_calls st.toSys w.fs (guard_steps fd spos (some o) true),
        trace := w.trace ++ guard_steps fd spos (some o) true } := (Prod.mk.inj hg2).2
    obtain ⟨r, links, hl, hpre, hfull⟩ := lfn_link_run st oldcid c o w2
    have hk3 : ({ w2 with fs := after_calls st.toSys w2.fs links, trace := w2.trace ++ links } :
        World σ).m_filestore_kill_at = 0 := by rw [hw2]; exact hk
    have hclose : ∀ r1 : Int,
        ((_close_replay_guard st fd spos >>= fun _ => (pure r1 : M σ Int))
          { w2 with fs := after_calls st.toSys w2.fs links, trace := w2.trace ++ links }).1
            = Except.ok 0 →
        ((_close_replay_guard st fd spos >>= fun _ => (pure r1 : M σ Int))
          { w2 with fs := after_calls st.toSys w2.fs links, trace := w2.trace ++ links }).2.trace
            = w.trace ++ (guard_steps fd spos (some o) true ++ links ++ close_steps fd spos) := by
      intro r1
      rw [bind_run]
      rcases hc : _close_replay_guard st fd spos
        { w2 with fs := after_calls st.toSys w2.fs links, trace := w2.trace ++ links }
        with ⟨res3, w4⟩
      cases res3 with
      | error e => intro h; cases h
      | ok u3 =>
        have hc2 := _close_replay_guard_run st fd spos _ hs hk3 (by rw [hc])
        rw [hc] at hc2
        intro _
        simp only [pure_run, (Prod.mk.inj hc2).2, hw2, List.append_assoc]
    rw [hw2] at hpre hfull
    simp only []
    rw [bind_run, hl]
    simp only []
    rw [bind_run, _inject_failure_off _ hk3]
    simp only []
    by_cases hE : (st.replaying && !st.btrfs_stable_commits && decide (r = - EEXIST)) = true
    · simp only [hE, if_true]
      intro hres
      refine ⟨links, hclose 0 hres, hpre, ?_⟩
      intro hrep
      rw [hrep] at hE
      simp at hE
    · simp only [hE, if_false, Bool.false_eq_true]
      rw [ite_run]
      split_ifs with h0
      · intro hres
        exact ⟨links, hclose r hres, hpre, fun _ => hfull (by omega)⟩
      · intro hres
        simp only [pure_run] at hres
        exact absurd (Except.ok.inj hres) h0

/-! ### The positions of the calls of an opcode -/

theorem AddsAll.pure_all {α : Type} (a : α) (p : Mut → Prop) : AddsAll (pure a : M σ α) p :=
  Adds.pure _ _ (by simp)

theorem AddsAll.die_all {α : Type} (e : Fatal) (p : Mut → Prop) : AddsAll (die e : M σ α) p :=
  Adds.die _ _ (by simp)

theorem AddsAll.ask_all {α : Type} (q : σ → α) (p : Mut → Prop) : AddsAll (ask q : M σ α) p := by
  intro w hk
  exact ⟨hk, [], by simp [ask_run], by simp⟩

theorem AddsAll.inject_all (p : Mut → Prop) : AddsAll (_inject_failure : M σ Unit) p :=
  Adds.inject _ (by simp)

theorem AddsAll.mutate_all (sys : Sys σ) (c : Mut) (p : Mut → Prop) (h : p c) :
    AddsAll (mutate sys c) p :=
  Adds.mutate _ _ _ (fun _ => by simpa using h)

theorem AddsAll.ite_all {α : Type} (c : Prop) [Decidable c] (a b : M σ α) (p : Mut → Prop)
    (ha : AddsAll a p) (hb : AddsAll b p) : AddsAll (if c then a else b) p := by
  split_ifs
  · exact ha
  · exact hb

theorem AddsAll.bind_all {α β : Type} (m : M σ α) (f : α → M σ β) (p : Mut → Prop)
    (hm : AddsAll m p) (hf : ∀ a, AddsAll (f a) p) : AddsAll (m >>= f) p := by
  refine Adds.bind _ _ _ _ hm (fun a l1 h1 => ?_) (fun e l1 h1 => h1)
  refine Adds.mono _ _ _ (hf a) (fun res l2 h2 => ?_)
  intro e he
  rcases List.mem_append.mp he with h | h
  · exact h1 e h
  · exact h2 e h

theorem lfn_open_all (cid : coll_t) (oid : hobject_t) (flags : Nat) (have_index : Bool)
    (spos : SequencerPosition) :
    AddsAll (lfn_open st cid oid flags have_index) (Mut.at_position spos) := by
  unfold lfn_open
  repeat' first
    | with_reducible exact AddsAll.pure_all _ _
    | with_reducible exact AddsAll.die_all _ _
    | with_reducible exact AddsAll.ask_all _ _
    | with_reducible exact AddsAll.inject_all _
    | with_reducible exact AddsAll.mutate_all _ _ _ (by simp [Mut.at_position, Mut.position])
    | with_reducible refine AddsAll.ite_all _ _ _ _ ?_ ?_
    | with_reducible refine AddsAll.bind_all _ _ _ ?_ ?_
    | rintro (⟨_, _, _⟩ : Int × IndexedPath × Bool)
    | rintro (⟨_, _⟩ : Int × IndexedPath)
    | rintro (⟨_, _⟩ : Int × AttrSet)
    | rintro (⟨_, _⟩ : Int × Nat)
    | rintro (⟨_, _⟩ : Int × GuardAttr)
    | rintro (_ : Int)

theorem lfn_find_all (cid : coll_t) (oid : hobject_t) (spos : SequencerPosition) :
    AddsAll (lfn_find st cid oid) (Mut.at_position spos) := by
  unfold lfn_find
  repeat' first
    | with_reducible exact AddsAll.pure_all _ _
    | with_reducible exact AddsAll.die_all _ _
    | with_reducible exact AddsAll.ask_all _ _
    | with_reducible exact AddsAll.inject_all _
    | with_reducible exact AddsAll.mutate_all _ _ _ (by simp [Mut.at_position, Mut.position])
    | with_reducible refine AddsAll.ite_all _ _ _ _ ?_ ?_
    | with_reducible refine AddsAll.bind_all _ _ _ ?_ ?_
    | rintro (⟨_, _, _⟩ : Int × IndexedPath × Bool)
    | rintro (⟨_, _⟩ : Int × IndexedPath)
    | rintro (⟨_, _⟩ : Int × AttrSet)
    | rintro (⟨_, _⟩ : Int × Nat)
    | rintro (⟨_, _⟩ : Int × GuardAttr)
    | rintro (_ : Int)

theorem lfn_truncate_all (cid : coll_t) (oid : hobject_t) (length : Nat) (spos : SequencerPosition) :
    AddsAll (lfn_truncate st cid oid length) (Mut.at_position spos) := by
  unfold lfn_truncate
  repeat' first
    | with_reducible exact AddsAll.pure_all _ _
    | with_reducible exact AddsAll.die_all _ _
    | with_reducible exact AddsAll.ask_all _ _
    | with_reducible exact AddsAll.inject_all _
    | with_reducible exact AddsAll.mutate_all _ _ _ (by simp [Mut.at_position, Mut.position])
    | with_reducible exact lfn_find_all st _ _ _
    | with_reducible refine AddsAll.ite_all _ _ _ _ ?_ ?_
    | with_reducible refine AddsAll.bind_all _ _ _ ?_ ?_
    | rintro (⟨_, _, _⟩ : Int × IndexedPath × Bool)
    | rintro (⟨_, _⟩ : Int × IndexedPath)

theorem lfn_link_all (c cid : coll_t) (o : hobject_t) (spos : SequencerPosition) :
    AddsAll (lfn_link st c cid o) (Mut.at_position spos) := by
  unfold lfn_link
  repeat' first
    | with_reducible exact AddsAll.pure_all _ _
    | with_reducible exact AddsAll.die_all _ _
    | with_reducible exact AddsAll.ask_all _ _
    | with_reducible exact AddsAll.inject_all _
    | with_reducible exact AddsAll.mutate_all _ _ _ (by simp [Mut.at_position, Mut.position])
    | with_reducible refine AddsAll.ite_all _ _ _ _ ?_ ?_
    | with_reducible refine AddsAll.bind_all _ _ _ ?_ ?_
    | rintro (⟨_, _, _⟩ : Int × IndexedPath × Bool)
    | rintro (⟨_, _⟩ : Int × IndexedPath)
    | rintro (⟨_, _⟩ : Int × AttrSet)
    | rintro (⟨_, _⟩ : Int × Nat)
    | rintro (⟨_, _⟩ : Int × GuardAttr)
    | rintro (_ : Int)

theorem lfn_unlink_all (cid : coll_t) (o : hobject_t) (spos : SequencerPosition) :
    AddsAll (lfn_unlink st cid o spos) (Mut.at_position spos) := by
  unfold lfn_unlink
  repeat' first
    | with_reducible exact AddsAll.pure_all _ _
    | with_reducible exact AddsAll.die_all _ _
    | with_reducible exact AddsAll.ask_all _ _
    | with_reducible exact AddsAll.inject_all _
    | with_reducible exact AddsAll.mutate_all _ _ _ (by simp [Mut.at_position, Mut.position])
    | with_reducible refine AddsAll.ite_all _ _ _ _ ?_ ?_
    | with_reducible refine AddsAll.bind_all _ _ _ ?_ ?_
    | rintro (⟨_, _, _⟩ : Int × IndexedPath × Bool)
    | rintro (⟨_, _⟩ : Int × IndexedPath)
    | rintro (⟨_, _⟩ : Int × AttrSet)
    | rintro (⟨_, _⟩ : Int × Nat)
    | rintro (⟨_, _⟩ : Int × GuardAttr)
    | rintro (_ : Int)

theorem _check_replay_guard_all (fd : Int) (p : SequencerPosition) (spos : SequencerPosition) :
    AddsAll (_check_replay_guard st fd p) (Mut.at_position spos) := by
  unfold _check_replay_guard
  repeat' first
    | with_reducible exact AddsAll.pure_all _ _
    | with_reducible exact AddsAll.die_all _ _
    | with_reducible exact AddsAll.ask_all _ _
    | with_reducible exact AddsAll.inject_all _
    | with_reducible exact AddsAll.mutate_all _ _ _ (by simp [Mut.at_position, Mut.position])
    | with_reducible refine AddsAll.ite_all _ _ _ _ ?_ ?_
    | with_reducible refine AddsAll.bind_all _ _ _ ?_ ?_
    | rintro (⟨_, _, _⟩ : Int × IndexedPath × Bool)
    | rintro (⟨_, _⟩ : Int × IndexedPath)
    | rintro (⟨_, _⟩ : Int × AttrSet)
    | rintro (⟨_, _⟩ : Int × Nat)
    | rintro (⟨_, _⟩ : Int × GuardAttr)

theorem _check_replay_guard_oid_all (cid : coll_t) (oid : hobject_t) (p : SequencerPosition)
    (spos : SequencerPosition) :
    AddsAll (_check_replay_guard_oid st cid oid p) (Mut.at_position spos) := by
  unfold _check_replay_guard_oid
  repeat' first
    | with_reducible exact AddsAll.pure_all _ _
    | with_reducible exact AddsAll.die_all _ _
    | with_reducible exact AddsAll.ask_all _ _
    | with_reducible exact AddsAll.inject_all _
    | with_reducible exact AddsAll.mutate_all _ _ _ (by simp [Mut.at_position, Mut.position])
    | with_reducible exact lfn_open_all st _ _ _ _ _
    | with_reducible exact _check_replay_guard_all st _ _ _
    | with_reducible refine AddsAll.ite_all _ _ _ _ ?_ ?_
    | with_reducible refine AddsAll.bind_all _ _ _ ?_ ?_
    | rintro (⟨_, _, _⟩ : Int × IndexedPath × Bool)
    | rintro (⟨_, _⟩ : Int × IndexedPath)
    | rintro (⟨_, _⟩ : Int × AttrSet)
    | rintro (⟨_, _⟩ : Int × Nat)
    | rintro (⟨_, _⟩ : Int × GuardAttr)
    | rintro (_ : Int)

theorem _check_replay_guard_cid_all (cid : coll_t) (p : SequencerPosition) (spos : SequencerPosition) :
    AddsAll (_check_replay_guard_cid st cid p) (Mut.at_position spos) := by
  unfold _check_replay_guard_cid
  repeat' first
    | with_reducible exact AddsAll.pure_all _ _
    | with_reducible exact AddsAll.die_all _ _
    | with_reducible exact AddsAll.ask_all _ _
    | with_reducible exact AddsAll.inject_all _
    | with_reducible exact AddsAll.mutate_all _ _ _ (by simp [Mut.at_position, Mut.position])
    | with_reducible exact _check_replay_guard_all st _ _ _
    | with_reducible refine AddsAll.ite_all _ _ _ _ ?_ ?_
    | with_reducible refine AddsAll.bind_all _ _ _ ?_ ?_
    | rintro (⟨_, _, _⟩ : Int × IndexedPath × Bool)
    | rintro (⟨_, _⟩ : Int × IndexedPath)
    | rintro (⟨_, _⟩ : Int × AttrSet)
    | rintro (⟨_, _⟩ : Int × Nat)
    | rintro (⟨_, _⟩ : Int × GuardAttr)
    | rintro (_ : Int)

theorem _set_replay_guard_all (fd : Int) (hoid : Option hobject_t) (in_progress : Bool)
    (spos : SequencerPosition) :
    AddsAll (_set_replay_guard st fd spos hoid in_progress) (Mut.at_position spos) := by
  unfold _set_replay_guard
  repeat' first
    | with_reducible exact AddsAll.pure_all _ _
    | with_reducible exact AddsAll.die_all _ _
    | with_reducible exact AddsAll.ask_all _ _
    | with_reducible exact AddsAll.inject_all _
    | with_reducible exact AddsAll.mutate_all _ _ _ (by simp [Mut.at_position, Mut.position])
    | with_reducible refine AddsAll.ite_all _ _ _ _ ?_ ?_
    | with_reducible refine AddsAll.bind_all _ _ _ ?_ ?_
    | rintro (⟨_, _, _⟩ : Int × IndexedPath × Bool)
    | rintro (⟨_, _⟩ : Int × IndexedPath)
    | rintro (⟨_, _⟩ : Int × AttrSet)
    | rintro (⟨_, _⟩ : Int × Nat)
    | rintro (⟨_, _⟩ : Int × GuardAttr)
    | rintro (_ : Int)
    | rintro (_ : Nat)
    | rintro (_ : Unit)

theorem _close_replay_guard_all (fd : Int) (spos : SequencerPosition) :
    AddsAll (_close_replay_guard st fd spos) (Mut.at_position spos) := by
  unfold _close_replay_guard
  repeat' first
    | with_reducible exact AddsAll.pure_all _ _
    | with_reducible exact AddsAll.die_all _ _
    | with_reducible exact AddsAll.ask_all _ _
    | with_reducible exact AddsAll.inject_all _
    | with_reducible exact AddsAll.mutate_all _ _ _ (by simp [Mut.at_position, Mut.position])
    | with_reducible refine AddsAll.ite_all _ _ _ _ ?_ ?_
    | with_reducible refine AddsAll.bind_all _ _ _ ?_ ?_
    | rintro (⟨_, _, _⟩ : Int × IndexedPath × Bool)
    | rintro (⟨_, _⟩ : Int × IndexedPath)
    | rintro (⟨_, _⟩ : Int × AttrSet)
    | rintro (⟨_, _⟩ : Int × Nat)
    | rintro (⟨_, _⟩ : Int × GuardAttr)
    | rintro (_ : Int)
    | rintro (_ : Nat)
    | rintro (_ : Unit)

theorem _remove_all (cid : coll_t) (oid : hobject_t) (spos : SequencerPosition) :
    AddsAll (_remove st cid oid spos) (Mut.at_position spos) := by
  unfold _remove
  repeat' first
    | with_reducible exact AddsAll.pure_all _ _
    | with_reducible exact AddsAll.die_all _ _
    | with_reducible exact AddsAll.ask_all _ _
    | with_reducible exact AddsAll.inject_all _
    | with_reducible exact AddsAll.mutate_all _ _ _ (by simp [Mut.at_position, Mut.position])
    | with_reducible exact lfn_unlink_all st _ _ _

theorem _truncate_all (cid : coll_t) (oid : hobject_t) (size : Nat) (spos : SequencerPosition) :
    AddsAll (_truncate st cid oid size) (Mut.at_position spos) := by
  unfold _truncate
  repeat' first
    | with_reducible exact AddsAll.pure_all _ _
    | with_reducible exact AddsAll.die_all _ _
    | with_reducible exact AddsAll.ask_all _ _
    | with_reducible exact AddsAll.inject_all _
    | with_reducible exact AddsAll.mutate_all _ _ _ (by simp [Mut.at_position, Mut.position])
    | with_reducible exact lfn_truncate_all st _ _ _ _

theorem _touch_all (cid : coll_t) (oid : hobject_t) (spos : SequencerPosition) :
    AddsAll (_touch st cid oid) (Mut.at_position spos) := by
  unfold _touch
  repeat' first
    | with_reducible exact AddsAll.pure_all _ _
    | with_reducible exact AddsAll.die_all _ _
    | with_reducible exact AddsAll.ask_all _ _
    | with_reducible exact AddsAll.inject_all _
    | with_reducible exact AddsAll.mutate_all _ _ _ (by simp [Mut.at_position, Mut.position])
    | with_reducible exact lfn_open_all st _ _ _ _ _
    | with_reducible refine AddsAll.ite_all _ _ _ _ ?_ ?_
    | with_reducible refine AddsAll.bind_all _ _ _ ?_ ?_
    | rintro (⟨_, _, _⟩ : Int × IndexedPath × Bool)
    | rintro (⟨_, _⟩ : Int × IndexedPath)
    | rintro (⟨_, _⟩ : Int × AttrSet)
    | rintro (⟨_, _⟩ : Int × Nat)
    | rintro (⟨_, _⟩ : Int × GuardAttr)
    | rintro (_ : Int)

theorem _write_opened_all (fd : Int) (offset len : Nat) (bl : Bytes) (spos : SequencerPosition) :
    AddsAll (_write_opened st fd offset len bl) (Mut.at_position spos) := by
  unfold _write_opened
  repeat' first
    | with_reducible exact AddsAll.pure_all _ _
    | with_reducible exact AddsAll.die_all _ _
    | with_reducible exact AddsAll.ask_all _ _
    | with_reducible exact AddsAll.inject_all _
    | with_reducible exact AddsAll.mutate_all _ _ _ (by simp [Mut.at_position, Mut.position])
    | with_reducible refine AddsAll.ite_all _ _ _ _ ?_ ?_
    | with_reducible refine AddsAll.bind_all _ _ _ ?_ ?_
    | rintro (⟨_, _, _⟩ : Int × IndexedPath × Bool)
    | rintro (⟨_, _⟩ : Int × IndexedPath)
    | rintro (⟨_, _⟩ : Int × AttrSet)
    | rintro (⟨_, _⟩ : Int × Nat)
    | rintro (⟨_, _⟩ : Int × GuardAttr)
    | rintro (_ : Int)

theorem _write_all (cid : coll_t) (oid : hobject_t) (offset len : Nat) (bl : Bytes)
    (spos : SequencerPosition) :
    AddsAll (_write st cid oid offset len bl) (Mut.at_position spos) := by
  unfold _write
  repeat' first
    | with_reducible exact AddsAll.pure_all _ _
    | with_reducible exact AddsAll.die_all _ _
    | with_reducible exact AddsAll.ask_all _ _
    | with_reducible exact AddsAll.inject_all _
    | with_reducible exact AddsAll.mutate_all _ _ _ (by simp [Mut.at_position, Mut.position])
    | with_reducible exact lfn_open_all st _ _ _ _ _
    | with_reducible exact _write_opened_all st _ _ _ _ _
    | with_reducible refine AddsAll.ite_all _ _ _ _ ?_ ?_
    | with_reducible refine AddsAll.bind_all _ _ _ ?_ ?_
    | rintro (⟨_, _, _⟩ : Int × IndexedPath × Bool)
    | rintro (⟨_, _⟩ : Int × IndexedPath)
    | rintro (⟨_, _⟩ : Int × AttrSet)
    | rintro (⟨_, _⟩ : Int × Nat)
    | rintro (⟨_, _⟩ : Int × GuardAttr)
    | rintro (_ : Int)

theorem _zero_all (cid : coll_t) (oid : hobject_t) (offset len : Nat) (spos : SequencerPosition) :
    AddsAll (_zero st cid oid offset len) (Mut.at_position spos) := by
  unfold _zero
  repeat' first
    | with_reducible exact AddsAll.pure_all _ _
    | with_reducible exact AddsAll.die_all _ _
    | with_reducible exact AddsAll.ask_all _ _
    | with_reducible exact AddsAll.inject_all _
    | with_reducible exact AddsAll.mutate_all _ _ _ (by simp [Mut.at_position, Mut.position])
    | with_reducible exact lfn_open_all st _ _ _ _ _
    | with_reducible exact _write_all st _ _ _ _ _ _
    | with_reducible refine AddsAll.ite_all _ _ _ _ ?_ ?_
    | with_reducible refine AddsAll.bind_all _ _ _ ?_ ?_
    | rintro (⟨_, _, _⟩ : Int × IndexedPath × Bool)
    | rintro (⟨_, _⟩ : Int × IndexedPath)
    | rintro (⟨_, _⟩ : Int × AttrSet)
    | rintro (⟨_, _⟩ : Int × Nat)
    | rintro (⟨_, _⟩ : Int × GuardAttr)
    | rintro (_ : Int)

theorem _clone_apply_all (cid : coll_t) (oldoid newoid : hobject_t) (spos : SequencerPosition) :
    AddsAll (_clone_apply st cid oldoid newoid spos) (Mut.at_position spos) := by
  unfold _clone_apply
  repeat' first
    | with_reducible exact AddsAll.pure_all _ _
    | with_reducible exact AddsAll.die_all _ _
    | with_reducible exact AddsAll.ask_all _ _
    | with_reducible exact AddsAll.inject_all _
    | with_reducible exact AddsAll.mutate_all _ _ _ (by simp [Mut.at_position, Mut.position])
    | with_reducible exact lfn_open_all st _ _ _ _ _
    | with_reducible exact _set_replay_guard_all st _ _ _ _
    | with_reducible refine AddsAll.ite_all _ _ _ _ ?_ ?_
    | with_reducible refine AddsAll.bind_all _ _ _ ?_ ?_
    | rintro (⟨_, _, _⟩ : Int × IndexedPath × Bool)
    | rintro (⟨_, _⟩ : Int × IndexedPath)
    | rintro (⟨_, _⟩ : Int × AttrSet)
    | rintro (⟨_, _⟩ : Int × Nat)
    | rintro (⟨_, _⟩ : Int × GuardAttr)
    | rintro (_ : Int)
    | rintro (_ : Nat)
    | rintro (_ : Unit)

theorem _clone_all (cid : coll_t) (oldoid newoid : hobject_t) (spos : SequencerPosition) :
    AddsAll (_clone st cid oldoid newoid spos) (Mut.at_position spos) := by
  unfold _clone
  repeat' first
    | with_reducible exact AddsAll.pure_all _ _
    | with_reducible exact AddsAll.die_all _ _
    | with_reducible exact AddsAll.ask_all _ _
    | with_reducible exact AddsAll.inject_all _
    | with_reducible exact AddsAll.mutate_all _ _ _ (by simp [Mut.at_position, Mut.position])
    | with_reducible exact _check_replay_guard_oid_all st _ _ _ _
    | with_reducible exact _clone_apply_all st _ _ _ _
    | with_reducible refine AddsAll.ite_all _ _ _ _ ?_ ?_
    | with_reducible refine AddsAll.bind_all _ _ _ ?_ ?_
    | rintro (⟨_, _, _⟩ : Int × IndexedPath × Bool)
    | rintro (⟨_, _⟩ : Int × IndexedPath)
    | rintro (⟨_, _⟩ : Int × AttrSet)
    | rintro (⟨_, _⟩ : Int × Nat)
    | rintro (⟨_, _⟩ : Int × GuardAttr)
    | rintro (_ : Int)

theorem _clone_range_apply_all (cid : coll_t) (oldoid newoid : hobject_t)
    (srcoff len dstoff : Nat) (spos : SequencerPosition) :
    AddsAll (_clone_range_apply st cid oldoid newoid srcoff len dstoff spos) (Mut.at_position spos) := by
  unfold _clone_range_apply
  repeat' first
    | with_reducible exact AddsAll.pure_all _ _
    | with_reducible exact AddsAll.die_all _ _
    | with_reducible exact AddsAll.ask_all _ _
    | with_reducible exact AddsAll.inject_all _
    | with_reducible exact AddsAll.mutate_all _ _ _ (by simp [Mut.at_position, Mut.position])
    | with_reducible exact lfn_open_all st _ _ _ _ _
    | with_reducible exact _set_replay_guard_all st _ _ _ _
    | with_reducible refine AddsAll.ite_all _ _ _ _ ?_ ?_
    | with_reducible refine AddsAll.bind_all _ _ _ ?_ ?_
    | rintro (⟨_, _, _⟩ : Int × IndexedPath × Bool)
    | rintro (⟨_, _⟩ : Int × IndexedPath)
    | rintro (⟨_, _⟩ : Int × AttrSet)
    | rintro (⟨_, _⟩ : Int × Nat)
    | rintro (⟨_, _⟩ : Int × GuardAttr)
    | rintro (_ : Int)
    | rintro (_ : Nat)
    | rintro (_ : Unit)

theorem _clone_range_all (cid : coll_t) (oldoid newoid : hobject_t)
    (srcoff len dstoff : Nat) (spos : SequencerPosition) :
    AddsAll (_clone_range st cid oldoid newoid srcoff len dstoff spos) (Mut.at_position spos) := by
  unfold _clone_range
  repeat' first
    | with_reducible exact AddsAll.pure_all _ _
    | with_reducible exact AddsAll.die_all _ _
    | with_reducible exact AddsAll.ask_all _ _
    | with_reducible exact AddsAll.inject_all _
    | with_reducible exact AddsAll.mutate_all _ _ _ (by simp [Mut.at_position, Mut.position])
    | with_reducible exact _check_replay_guard_oid_all st _ _ _ _
    | with_reducible exact _clone_range_apply_all st _ _ _ _ _ _ _
    | with_reducible refine AddsAll.ite_all _ _ _ _ ?_ ?_
    | with_reducible refine AddsAll.bind_all _ _ _ ?_ ?_
    | rintro (⟨_, _, _⟩ : Int × IndexedPath × Bool)
    | rintro (⟨_, _⟩ : Int × IndexedPath)
    | rintro (⟨_, _⟩ : Int × AttrSet)
    | rintro (⟨_, _⟩ : Int × Nat)
    | rintro (⟨_, _⟩ : Int × GuardAttr)
    | rintro (_ : Int)

theorem _create_collection_all (c : coll_t) (spos : SequencerPosition) :
    AddsAll (_create_collection st c) (Mut.at_position spos) := by
  unfold _create_collection
  repeat' first
    | with_reducible exact AddsAll.pure_all _ _
    | with_reducible exact AddsAll.die_all _ _
    | with_reducible exact AddsAll.ask_all _ _
    | with_reducible exact AddsAll.inject_all _
    | with_reducible exact AddsAll.mutate_all _ _ _ (by simp [Mut.at_position, Mut.position])
    | with_reducible refine AddsAll.ite_all _ _ _ _ ?_ ?_
    | with_reducible refine AddsAll.bind_all _ _ _ ?_ ?_
    | rintro (⟨_, _, _⟩ : Int × IndexedPath × Bool)
    | rintro (⟨_, _⟩ : Int × IndexedPath)
    | rintro (⟨_, _⟩ : Int × AttrSet)
    | rintro (⟨_, _⟩ : Int × Nat)
    | rintro (⟨_, _⟩ : Int × GuardAttr)
    | rintro (_ : Int)

theorem _destroy_collection_all (c : coll_t) (spos : SequencerPosition) :
    AddsAll (_destroy_collection st c) (Mut.at_position spos) := by
  unfold _destroy_collection
  repeat' first
    | with_reducible exact AddsAll.pure_all _ _
    | with_reducible exact AddsAll.die_all _ _
    | with_reducible exact AddsAll.ask_all _ _
    | with_reducible exact AddsAll.inject_all _
    | with_reducible exact AddsAll.mutate_all _ _ _ (by simp [Mut.at_position, Mut.position])

theorem _collection_rename_apply_all (cid ncid : coll_t) (spos : SequencerPosition) :
    AddsAll (_collection_rename_apply st cid ncid spos) (Mut.at_position spos) := by
  unfold _collection_rename_apply
  repeat' first
    | with_reducible exact AddsAll.pure_all _ _
    | with_reducible exact AddsAll.die_all _ _
    | with_reducible exact AddsAll.ask_all _ _
    | with_reducible exact AddsAll.inject_all _
    | with_reducible exact AddsAll.mutate_all _ _ _ (by simp [Mut.at_position, Mut.position])
    | with_reducible exact _set_replay_guard_all st _ _ _ _
    | with_reducible refine AddsAll.ite_all _ _ _ _ ?_ ?_
    | with_reducible refine AddsAll.bind_all _ _ _ ?_ ?_
    | rintro (⟨_, _, _⟩ : Int × IndexedPath × Bool)
    | rintro (⟨_, _⟩ : Int × IndexedPath)
    | rintro (⟨_, _⟩ : Int × AttrSet)
    | rintro (⟨_, _⟩ : Int × Nat)
    | rintro (⟨_, _⟩ : Int × GuardAttr)
    | rintro (_ : Int)
    | rintro (_ : Nat)
    | rintro (_ : Unit)

theorem _collection_rename_all (cid ncid : coll_t) (spos : SequencerPosition) :
    AddsAll (_collection_rename st cid ncid spos) (Mut.at_position spos) := by
  unfold _collection_rename
  repeat' first
    | with_reducible exact AddsAll.pure_all _ _
    | with_reducible exact AddsAll.die_all _ _
    | with_reducible exact AddsAll.ask_all _ _
    | with_reducible exact AddsAll.inject_all _
    | with_reducible exact AddsAll.mutate_all _ _ _ (by simp [Mut.at_position, Mut.position])
    | with_reducible exact _check_replay_guard_cid_all st _ _ _
    | with_reducible exact _collection_rename_apply_all st _ _ _
    | with_reducible refine AddsAll.ite_all _ _ _ _ ?_ ?_
    | with_reducible refine AddsAll.bind_all _ _ _ ?_ ?_
    | rintro (⟨_, _, _⟩ : Int × IndexedPath × Bool)
    | rintro (⟨_, _⟩ : Int × IndexedPath)
    | rintro (⟨_, _⟩ : Int × AttrSet)
    | rintro (⟨_, _⟩ : Int × Nat)
    | rintro (⟨_, _⟩ : Int × GuardAttr)
    | rintro (_ : Int)

theorem _collection_add_apply_all (c oldcid : coll_t) (o : hobject_t) (dstcmp : Int)
    (spos : SequencerPosition) :
    AddsAll (_collection_add_apply st c oldcid o spos dstcmp) (Mut.at_position spos) := by
  unfold _collection_add_apply
  repeat' first
    | with_reducible exact AddsAll.pure_all _ _
    | with_reducible exact AddsAll.die_all _ _
    | with_reducible exact AddsAll.ask_all _ _
    | with_reducible exact AddsAll.inject_all _
    | with_reducible exact AddsAll.mutate_all _ _ _ (by simp [Mut.at_position, Mut.position])
    | with_reducible exact lfn_open_all st _ _ _ _ _
    | with_reducible exact _set_replay_guard_all st _ _ _ _
    | with_reducible exact _close_replay_guard_all st _ _
    | with_reducible exact lfn_link_all st _ _ _ _
    | with_reducible refine AddsAll.ite_all _ _ _ _ ?_ ?_
    | with_reducible refine AddsAll.bind_all _ _ _ ?_ ?_
    | rintro (⟨_, _, _⟩ : Int × IndexedPath × Bool)
    | rintro (⟨_, _⟩ : Int × IndexedPath)
    | rintro (⟨_, _⟩ : Int × AttrSet)
    | rintro (⟨_, _⟩ : Int × Nat)
    | rintro (⟨_, _⟩ : Int × GuardAttr)
    | rintro (_ : Int)
    | rintro (_ : Nat)
    | rintro (_ : Unit)

theorem _collection_add_checked_all (c oldcid : coll_t) (o : hobject_t) (dstcmp : Int)
    (spos : SequencerPosition) :
    AddsAll (_collection_add_checked st c oldcid o spos dstcmp) (Mut.at_position spos) := by
  unfold _collection_add_checked
  repeat' first
    | with_reducible exact AddsAll.pure_all _ _
    | with_reducible exact AddsAll.die_all _ _
    | with_reducible exact AddsAll.ask_all _ _
    | with_reducible exact AddsAll.inject_all _
    | with_reducible exact AddsAll.mutate_all _ _ _ (by simp [Mut.at_position, Mut.position])
    | with_reducible exact _check_replay_guard_oid_all st _ _ _ _
    | with_reducible exact _collection_add_apply_all st _ _ _ _ _
    | with_reducible refine AddsAll.ite_all _ _ _ _ ?_ ?_
    | with_reducible refine AddsAll.bind_all _ _ _ ?_ ?_
    | rintro (⟨_, _, _⟩ : Int × IndexedPath × Bool)
    | rintro (⟨_, _⟩ : Int × IndexedPath)
    | rintro (⟨_, _⟩ : Int × AttrSet)
    | rintro (⟨_, _⟩ : Int × Nat)
    | rintro (⟨_, _⟩ : Int × GuardAttr)
    | rintro (_ : Int)

theorem _collection_add_all (c oldcid : coll_t) (o : hobject_t) (spos : SequencerPosition) :
    AddsAll (_collection_add st c oldcid o spos) (Mut.at_position spos) := by
  unfold _collection_add
  repeat' first
    | with_reducible exact AddsAll.pure_all _ _
    | with_reducible exact AddsAll.die_all _ _
    | with_reducible exact AddsAll.ask_all _ _
    | with_reducible exact AddsAll.inject_all _
    | with_reducible exact AddsAll.mutate_all _ _ _ (by simp [Mut.at_position, Mut.position])
    | with_reducible exact _check_replay_guard_oid_all st _ _ _ _
    | with_reducible exact _collection_add_checked_all st _ _ _ _ _
    | with_reducible refine AddsAll.ite_all _ _ _ _ ?_ ?_
    | with_reducible refine AddsAll.bind_all _ _ _ ?_ ?_
    | rintro (⟨_, _, _⟩ : Int × IndexedPath × Bool)
    | rintro (⟨_, _⟩ : Int × IndexedPath)
    | rintro (⟨_, _⟩ : Int × AttrSet)
    | rintro (⟨_, _⟩ : Int × Nat)
    | rintro (⟨_, _⟩ : Int × GuardAttr)
    | rintro (_ : Int)

theorem _omap_clear_all (cid : coll_t) (hoid : hobject_t) (spos : SequencerPosition) :
    AddsAll (_omap_clear st cid hoid spos) (Mut.at_position spos) := by
  unfold _omap_clear
  repeat' first
    | with_reducible exact AddsAll.pure_all _ _
    | with_reducible exact AddsAll.die_all _ _
    | with_reducible exact AddsAll.ask_all _ _
    | with_reducible exact AddsAll.inject_all _
    | with_reducible exact AddsAll.mutate_all _ _ _ (by simp [Mut.at_position, Mut.position])
    | with_reducible exact lfn_find_all st _ _ _
    | with_reducible refine AddsAll.ite_all _ _ _ _ ?_ ?_
    | with_reducible refine AddsAll.bind_all _ _ _ ?_ ?_
    | rintro (⟨_, _, _⟩ : Int × IndexedPath × Bool)
    | rintro (⟨_, _⟩ : Int × IndexedPath)
    | rintro (⟨_, _⟩ : Int × AttrSet)
    | rintro (⟨_, _⟩ : Int × Nat)
    | rintro (⟨_, _⟩ : Int × GuardAttr)
    | rintro (_ : Int)

theorem _omap_setkeys_all (cid : coll_t) (hoid : hobject_t) (aset : AttrSet) (spos : SequencerPosition) :
    AddsAll (_omap_setkeys st cid hoid aset spos) (Mut.at_position spos) := by
  unfold _omap_setkeys
  repeat' first
    | with_reducible exact AddsAll.pure_all _ _
    | with_reducible exact AddsAll.die_all _ _
    | with_reducible exact AddsAll.ask_all _ _
    | with_reducible exact AddsAll.inject_all _
    | with_reducible exact AddsAll.mutate_all _ _ _ (by simp [Mut.at_position, Mut.position])
    | with_reducible exact lfn_find_all st _ _ _
    | with_reducible refine AddsAll.ite_all _ _ _ _ ?_ ?_
    | with_reducible refine AddsAll.bind_all _ _ _ ?_ ?_
    | rintro (⟨_, _, _⟩ : Int × IndexedPath × Bool)
    | rintro (⟨_, _⟩ : Int × IndexedPath)

theorem _omap_rmkeys_all (cid : coll_t) (hoid : hobject_t) (keys : List (List Nat))
    (spos : SequencerPosition) :
    AddsAll (_omap_rmkeys st cid hoid keys spos) (Mut.at_position spos) := by
  unfold _omap_rmkeys
  repeat' first
    | with_reducible exact AddsAll.pure_all _ _
    | with_reducible exact AddsAll.die_all _ _
    | with_reducible exact AddsAll.ask_all _ _
    | with_reducible exact AddsAll.inject_all _
    | with_reducible exact AddsAll.mutate_all _ _ _ (by simp [Mut.at_position, Mut.position])
    | with_reducible exact lfn_find_all st _ _ _
    | with_reducible refine AddsAll.ite_all _ _ _ _ ?_ ?_
    | with_reducible refine AddsAll.bind_all _ _ _ ?_ ?_
    | rintro (⟨_, _, _⟩ : Int × IndexedPath × Bool)
    | rintro (⟨_, _⟩ : Int × IndexedPath)
    | rintro (⟨_, _⟩ : Int × AttrSet)
    | rintro (⟨_, _⟩ : Int × Nat)
    | rintro (⟨_, _⟩ : Int × GuardAttr)
    | rintro (_ : Int)

theorem _omap_setheader_all (cid : coll_t) (hoid : hobject_t) (bl : Bytes) (spos : SequencerPosition) :
    AddsAll (_omap_setheader st cid hoid bl spos) (Mut.at_position spos) := by
  unfold _omap_setheader
  repeat' first
    | with_reducible exact AddsAll.pure_all _ _
    | with_reducible exact AddsAll.die_all _ _
    | with_reducible exact AddsAll.ask_all _ _
    | with_reducible exact AddsAll.inject_all _
    | with_reducible exact AddsAll.mutate_all _ _ _ (by simp [Mut.at_position, Mut.position])
    | with_reducible exact lfn_find_all st _ _ _
    | with_reducible refine AddsAll.ite_all _ _ _ _ ?_ ?_
    | with_reducible refine AddsAll.bind_all _ _ _ ?_ ?_
    | rintro (⟨_, _, _⟩ : Int × IndexedPath × Bool)
    | rintro (⟨_, _⟩ : Int × IndexedPath)

/-- Every call that the `switch` makes for an opcode at `spos` and that is handed
a position is handed `spos`. -/
theorem _do_transaction_switch_all (op : TransactionOp) (spos : SequencerPosition) :
    AddsAll (_do_transaction_switch st op spos) (Mut.at_position spos) := by
  cases op <;> simp only [_do_transaction_switch] <;>
    repeat' first
      | with_reducible exact AddsAll.pure_all _ _
      | with_reducible exact AddsAll.die_all _ _
      | with_reducible exact AddsAll.mutate_all _ _ _ (by simp [Mut.at_position, Mut.position])
      | with_reducible exact _check_replay_guard_oid_all st _ _ _ _
      | with_reducible exact _check_replay_guard_cid_all st _ _ _
      | with_reducible exact _touch_all st _ _ _
      | with_reducible exact _write_all st _ _ _ _ _ _
      | with_reducible exact _zero_all st _ _ _ _ _
      | with_reducible exact _truncate_all st _ _ _ _
      | with_reducible exact _remove_all st _ _ _
      | with_reducible exact _clone_all st _ _ _ _
      | with_reducible exact _clone_range_all st _ _ _ _ _ _ _
      | with_reducible exact _create_collection_all st _ _
      | with_reducible exact _destroy_collection_all st _ _
      | with_reducible exact _collection_add_all st _ _ _ _
      | with_reducible exact _collection_rename_all st _ _ _
      | with_reducible exact _omap_clear_all st _ _ _
      | with_reducible exact _omap_setkeys_all st _ _ _ _
      | with_reducible exact _omap_rmkeys_all st _ _ _ _
      | with_reducible exact _omap_setheader_all st _ _ _ _
      | with_reducible refine AddsAll.ite_all _ _ _ _ ?_ ?_
      | with_reducible refine AddsAll.bind_all _ _ _ ?_ ?_
      | rintro (_ : Int)

theorem AddsAll.mono_all {α : Type} (m : M σ α) (p q : Mut → Prop) (hm : AddsAll m p)
    (h : ∀ e, p e → q e) : AddsAll m q :=
  Adds.mono _ _ _ hm (fun _ _ hl e he => h e (hl e he))

/-- The interpreter loop leaves failure injection off. -/
theorem _do_transaction_loop_all (t : List TransactionOp) (spos : SequencerPosition) :
    AddsAll (_do_transaction_loop st t spos) (fun _ => True) := by
  induction t generalizing spos with
  | nil => exact AddsAll.pure_all _ _
  | cons op rest ih =>
    rw [_do_transaction_loop]
    refine AddsAll.bind_all _ _ _ (AddsAll.inject_all _) (fun _ => ?_)
    refine AddsAll.bind_all _ _ _
      (AddsAll.mono_all _ _ _ (_do_transaction_switch_all st op spos) (fun _ _ => trivial)) (fun r => ?_)
    exact AddsAll.ite_all _ _ _ _ (AddsAll.die_all _ _) (ih _)

/-! ### One opcode in the run of a batch -/

/-- The interpreter loop over `l1 ++ l2` is the loop over `l1` followed by the
loop over `l2`, which starts `l1.length` positions further. -/
theorem _do_transaction_loop_append (l1 l2 : List TransactionOp) (spos : SequencerPosition)
    (w : World σ) :
    _do_transaction_loop st (l1 ++ l2) spos w =
      match _do_transaction_loop st l1 spos w with
      | (Except.ok _, w1) => _do_transaction_loop st l2 { spos with op := spos.op + l1.length } w1
      | (Except.error e, w1) => (Except.error e, w1) := by
  induction l1 generalizing spos w with
  | nil => simp [_do_transaction_loop, pure_run]
  | cons op rest ih =>
    simp only [List.cons_append, _do_transaction_loop, bind_run, List.length_cons]
    rcases _inject_failure w with ⟨r0, w0⟩
    cases r0 with
    | error e => rfl
    | ok u =>
      simp only []
      rcases _do_transaction_switch st op spos w0 with ⟨r1, w1⟩
      cases r1 with
      | error e => rfl
      | ok r =>
        simp only [ite_run]
        split_ifs with hbad
        · rfl
        · rw [show rest.append l2 = rest ++ l2 from rfl, ih]
          have : spos.op + 1 + rest.length = spos.op + (rest.length + 1) := by omega
          simp only [this]

/-- The value of `_do_transaction` in terms of its loop, with failure injection off. -/
theorem _do_transaction_run (t : Transaction) (op_seq trans_num : Nat) (w : World σ)
    (hk : w.m_filestore_kill_at = 0) :
    (_do_transaction_loop st t ⟨op_seq, trans_num, 0⟩ w).2.m_filestore_kill_at = 0 ∧
    _do_transaction st t op_seq trans_num w =
      match _do_transaction_loop st t ⟨op_seq, trans_num, 0⟩ w with
      | (Except.ok _, w1) => (Except.ok 0, w1)
      | (Except.error e, w1) => (Except.error e, w1) := by
  have hk1 := (_do_transaction_loop_all st t ⟨op_seq, trans_num, 0⟩ w hk).1
  refine ⟨hk1, ?_⟩
  simp only [_do_transaction, bind_run]
  rcases hl : _do_transaction_loop st t ⟨op_seq, trans_num, 0⟩ w with ⟨r, w1⟩
  rw [hl] at hk1
  cases r with
  | error e => rfl
  | ok u =>
    simp only []
    rw [_inject_failure_off _ hk1]
    rfl

/-- One turn of `do_transactions_loop`, with failure injection off. -/
theorem do_transactions_loop_cons (op_seq : Nat) (t : Transaction) (tls : List Transaction)
    (i : Nat) (r : Int) (w : World σ) (hk : w.m_filestore_kill_at = 0) :
    do_transactions_loop st op_seq (t :: tls) i r w =
      match _do_transaction_loop st t ⟨op_seq, i, 0⟩ w with
      | (Except.ok _, w1) => do_transactions_loop st op_seq tls (i + 1) 0 w1
      | (Except.error e, w1) => (Except.error e, w1) := by
  rw [do_transactions_loop, bind_run, (_do_transaction_run st t op_seq i w hk).2]
  rcases _do_transaction_loop st t ⟨op_seq, i, 0⟩ w with ⟨r1, w1⟩
  cases r1 with
  | error e => rfl
  | ok u => simp [ite_run]

/-- The transactions before the `j`-th one, when they are applied without a
stop, leave a world from which the rest of the batch is applied. -/
theorem do_transactions_loop_before (op_seq : Nat) (j : Nat) :
    ∀ (tls : List Transaction) (i : Nat) (w : World σ) (X : List Transaction) (r1 : Int)
      (wX : World σ),
      w.m_filestore_kill_at = 0 → j ≤ tls.length →
      do_transactions_loop st op_seq (tls.take j ++ X) i 0 w = (Except.ok r1, wX) →
      ∃ w0 : World σ, w0.m_filestore_kill_at = 0 ∧
        ∀ Y, do_transactions_loop st op_seq (tls.take j ++ Y) i 0 w =
          do_transactions_loop st op_seq Y (i + j) 0 w0 := by
  induction j with
  | zero =>
    intro tls i w X r1 wX hk _ _
    exact ⟨w, hk, fun Y => by simp⟩
  | succ j ih =>
    intro tls i w X r1 wX hk hj hX
    cases tls with
    | nil => simp at hj
    | cons t0 rest =>
      simp only [List.take_succ_cons, List.cons_append] at hX ⊢
      rw [do_transactions_loop_cons st op_seq t0 _ i 0 w hk] at hX
      have hk1 := (_do_transaction_loop_all st t0 ⟨op_seq, i, 0⟩ w hk).1
      rcases hl : _do_transaction_loop st t0 ⟨op_seq, i, 0⟩ w with ⟨r0, w1⟩
      rw [hl] at hX hk1
      cases r0 with
      | error e => simp at hX
      | ok u =>
        simp only [] at hX hk1
        obtain ⟨w0, hk0, h0⟩ := ih rest (i + 1) w1 X r1 wX hk1
          (by simpa using hj) hX
        refine ⟨w0, hk0, fun Y => ?_⟩
        rw [do_transactions_loop_cons st op_seq t0 _ i 0 w hk, hl]
        simp only []
        rw [h0 Y]
        congr 1
        omega

/-- The result of one opcode under the error policy, as `do_transactions` hands
it on: the fatal assertion on an unexpected error, `0` otherwise. -/
theorem do_transactions_loop_step (op_seq : Nat) (t : Transaction) (k n : Nat)
    (op : TransactionOp) (w0 w1 : World σ) (hk : w0.m_filestore_kill_at = 0)
    (hop : t[k]? = some op)
    (h : do_transactions_loop st op_seq [t.take k] n 0 w0 = (Except.ok 0, w1)) :
    w1.m_filestore_kill_at = 0 ∧
    (∀ rest, do_transactions_loop st op_seq (t :: rest) n 0 w0 =
      (do
        _do_transaction_loop st (t.drop k) ⟨op_seq, n, k⟩
        _inject_failure
        do_transactions_loop st op_seq rest (n + 1) 0 : M σ Int) w1) ∧
    do_transactions_loop st op_seq [t.take (k + 1)] n 0 w0 =
      (match _do_transaction_switch st op ⟨op_seq, n, k⟩ w1 with
      | (Except.ok r, w2) =>
        if r < 0 ∧ _do_transaction_ok st.replaying st.btrfs_stable_commits op.get_op r = false then
          (Except.error Fatal.unexpected_error, w2)
        else (Except.ok 0, w2)
      | (Except.error e, w2) => (Except.error e, w2)) := by
  have hlt : k < t.length := by
    rcases Nat.lt_or_ge k t.length with h1 | h1
    · exact h1
    · rw [List.getElem?_eq_none h1] at hop; cases hop
  have hlen : (t.take k).length = k := by simp; omega
  rw [do_transactions_loop_cons st op_seq _ _ n 0 w0 hk] at h
  have hk1 := (_do_transaction_loop_all st (t.take k) ⟨op_seq, n, 0⟩ w0 hk).1
  rcases hl : _do_transaction_loop st (t.take k) ⟨op_seq, n, 0⟩ w0 with ⟨r0, w1a⟩
  rw [hl] at h hk1
  cases r0 with
  | error e => simp at h
  | ok u =>
    simp only [do_transactions_loop, pure_run, Prod.mk.injEq, true_and] at h hk1
    subst h
    refine ⟨hk1, fun rest => ?_, ?_⟩
    · rw [do_transactions_loop_cons st op_seq t rest n 0 w0 hk]
      have happ := _do_transaction_loop_append st (t.take k) (t.drop k) ⟨op_seq, n, 0⟩ w0
      rw [List.take_append_drop, hl] at happ
      simp only [hlen, Nat.zero_add] at happ
      rw [happ, bind_run]
      have hk2 := (_do_transaction_loop_all st (t.drop k) ⟨op_seq, n, k⟩ w1a hk1).1
      rcases hl2 : _do_transaction_loop st (t.drop k) ⟨op_seq, n, k⟩ w1a with ⟨r2, w2⟩
      rw [hl2] at hk2
      cases r2 with
      | error e => rfl
      | ok u2 =>
        simp only [] at hk2 ⊢
        rw [bind_run, _inject_failure_off _ hk2]
    · rw [do_transactions_loop_cons st op_seq _ _ n 0 w0 hk]
      have htk : t.take (k + 1) = t.take k ++ [op] := by
        rw [List.take_succ, hop]; rfl
      have happ := _do_transaction_loop_append st (t.take k) [op] ⟨op_seq, n, 0⟩ w0
      rw [hl] at happ
      simp only [hlen, Nat.zero_add] at happ
      rw [htk, happ]
      simp only [_do_transaction_loop, bind_run, _inject_failure_off _ hk1]
      have hk2 := (_do_transaction_switch_all st op ⟨op_seq, n, k⟩ w1a hk1).1
      rcases hl2 : _do_transaction_switch st op ⟨op_seq, n, k⟩ w1a with ⟨r2, w2⟩
      rw [hl2] at hk2
      cases r2 with
      | error e => rfl
      | ok r =>
        simp only [ite_run, die_run, pure_run] at hk2 ⊢
        split_ifs
        · rfl
        · simp only [_inject_failure_off _ hk2, do_transactions_loop, pure_run, lt_self_iff_false,
            if_false]

/-- The opcode `k` of the transaction `j` in a batch: the world `w1` that the
opcodes before it leave is the world from which the rest of the batch is applied,
beginning with this opcode at the position `(op_seq, j, k)`. -/
theorem do_transactions_at (tls : List Transaction) (op_seq : Nat) (w w1 : World σ)
    (j k : Nat) (t : Transaction) (op : TransactionOp)
    (hk : w.m_filestore_kill_at = 0) (ht : tls[j]? = some t) (hop : t[k]? = some op)
    (h : do_transactions st (tls.take j ++ [t.take k]) op_seq w = (Except.ok 0, w1)) :
    w1.m_filestore_kill_at = 0 ∧
    do_transactions st tls op_seq w =
      (do
        _do_transaction_loop st (t.drop k) ⟨op_seq, j, k⟩
        _inject_failure
        do_transactions_loop st op_seq (tls.drop (j + 1)) (j + 1) 0 : M σ Int) w1 ∧
    do_transactions st (tls.take j ++ [t.take (k + 1)]) op_seq w =
      (match _do_transaction_switch st op ⟨op_seq, j, k⟩ w1 with
      | (Except.ok r, w2) =>
        if r < 0 ∧ _do_transaction_ok st.replaying st.btrfs_stable_commits op.get_op r = false then
          (Except.error Fatal.unexpected_error, w2)
        else (Except.ok 0, w2)
      | (Except.error e, w2) => (Except.error e, w2)) := by
  have hj : j < tls.length := by
    rcases Nat.lt_or_ge j tls.length with h1 | h1
    · exact h1
    · rw [List.getElem?_eq_none h1] at ht; cases ht
  have htj : tls[j] = t := by
    rw [List.getElem?_eq_getElem hj] at ht; exact Option.some.inj ht
  have hsplit : tls = tls.take j ++ (t :: tls.drop (j + 1)) := by
    rw [← htj, ← List.drop_eq_getElem_cons hj, List.take_append_drop]
  unfold do_transactions at h ⊢
  obtain ⟨w0, hk0, h0⟩ := do_transactions_loop_before st op_seq j tls 0 w [t.take k] 0 w1 hk
    hj.le h
  rw [h0, Nat.zero_add] at h
  obtain ⟨hk1, hR, hS⟩ := do_transactions_loop_step st op_seq t k j op w0 w1 hk0 hop h
  refine ⟨hk1, ?_, ?_⟩
  · rw [← hR (tls.drop (j + 1))]
    conv_lhs => rw [hsplit]
    rw [h0, Nat.zero_add]
  · rw [h0, Nat.zero_add, hS]

/-- An opcode whose guard check says skip changes nothing and leaves `0`. -/
theorem _do_transaction_switch_skip (op : TransactionOp) (g : GuardTarget) (d : Int)
    (spos : SequencerPosition) (w : World σ) (hg : op.guard_target = some g)
    (hd : check_guard st g spos w = (Except.ok d, w)) (hneg : d < 0) :
    _do_transaction_switch st op spos w = (Except.ok 0, w) := by
  have hle : ¬ d > 0 := by omega
  cases op <;> simp only [TransactionOp.guard_target] at hg <;> cases hg <;>
    simp only [check_guard] at hd <;>
    simp [_do_transaction_switch, _clone, _clone_range, _collection_add, _collection_rename,
      bind_run, pure_run, ite_run, hd, hneg, hle]

/-- An opcode with a check in front: the call is made when the check says replay,
and nothing is done otherwise. -/
theorem _do_transaction_switch_checked (op : TransactionOp) (cid : coll_t) (oid : hobject_t)
    (d : Int) (spos : SequencerPosition) (w : World σ)
    (hop : op.checks_before_call cid oid = true)
    (hd : _check_replay_guard_oid st cid oid spos w = (Except.ok d, w)) :
    _do_transaction_switch st op spos w =
      if d > 0 then op.primitive st spos w else (Except.ok 0, w) := by
  cases op <;>
    simp only [TransactionOp.checks_before_call, decide_eq_true_eq, Bool.false_eq_true] at hop
  all_goals
    obtain ⟨rfl, rfl⟩ := hop
    simp only [_do_transaction_switch, TransactionOp.primitive, bind_run, hd, ite_run, pure_run]

/-- A `_set_replay_guard` with failure injection off returns or stops at its
assertion on the result of the attribute write. -/
theorem _set_replay_guard_result (fd : Int) (spos : SequencerPosition) (hoid : Option hobject_t)
    (in_progress : Bool) (w : World σ) (hk : w.m_filestore_kill_at = 0) :
    (_set_replay_guard st fd spos hoid in_progress w).1 = Except.ok () ∨
    (_set_replay_guard st fd spos hoid in_progress w).1 = Except.error Fatal.fsetxattr_failed := by
  simp only [_set_replay_guard, bind_run, mutate_run, _inject_failure, hk, ite_run, die_run,
    ne_eq, not_true_eq_false, if_false, pure_run]
  split_ifs <;> simp

/-- What `_clone_range` adds when the check lets it go on and both files are
opened: the copy, then the guard steps at `spos` with `in_progress = false` on the
descriptor of the destination. -/
theorem _clone_range_stamps (cid : coll_t) (oldoid newoid : hobject_t)
    (srcoff len dstoff : Nat) (spos : SequencerPosition) (w wn : World σ) (d o n : Int)
    (hs : st.btrfs_stable_commits = false) (hk : w.m_filestore_kill_at = 0)
    (hd : _check_replay_guard_oid st cid newoid spos w = (Except.ok d, w)) (hd0 : 0 ≤ d)
    (ho : lfn_open st cid oldoid O_RDONLY false w = (Except.ok o, w)) (ho0 : 0 ≤ o)
    (hn : lfn_open st cid newoid (O_CREAT ||| O_WRONLY) false w = (Except.ok n, wn)) (hn0 : 0 ≤ n)
    (hres : (_clone_range st cid oldoid newoid srcoff len dstoff spos w).1 ≠
      Except.error Fatal.fsetxattr_failed) :
    (_clone_range st cid oldoid newoid srcoff len dstoff spos w).2.trace =
      wn.trace ++ (Mut._do_clone_range o n srcoff len dstoff ::
        guard_steps n spos (some newoid) false) := by
  have hkn : wn.m_filestore_kill_at = 0 := by
    have := (lfn_open_all st cid newoid (O_CREAT ||| O_WRONLY) false spos w hk).1
    rw [hn] at this; exact this
  have heq : _clone_range st cid oldoid newoid srcoff len dstoff spos w =
      (do
        let r ← mutate st.toSys (Mut._do_clone_range o n srcoff len dstoff)
        _set_replay_guard st n spos (some newoid) _set_replay_guard_default_in_progress
        pure r : M σ Int) wn := by
    simp only [_clone_range, _clone_range_apply, bind_run, hd, ho, hn, ite_run,
      if_neg (not_lt.mpr hd0), if_neg (not_lt.mpr ho0), if_neg (not_lt.mpr hn0)]
  revert hres
  rw [heq, bind_run, mutate_run]
  simp only []
  rw [bind_run]
  have hk2 : (World.mk (st.mutate (Mut._do_clone_range o n srcoff len dstoff) wn.fs).2
      (wn.trace ++ [Mut._do_clone_range o n srcoff len dstoff]) wn.m_filestore_kill_at
      wn.finished).m_filestore_kill_at = 0 := hkn
  rcases _set_replay_guard_result st n spos (some newoid) _set_replay_guard_default_in_progress
    _ hk2 with h1 | h1
  · rw [_set_replay_guard_run st n spos (some newoid) _ _ hs hk2 h1]
    intro _
    simp [pure_run, _set_replay_guard_default_in_progress]
  · intro hres
    exfalso
    apply hres
    rcases hg : _set_replay_guard st n spos (some newoid) _set_replay_guard_default_in_progress
      (World.mk (st.mutate (Mut._do_clone_range o n srcoff len dstoff) wn.fs).2
        (wn.trace ++ [Mut._do_clone_range o n srcoff len dstoff]) wn.m_filestore_kill_at
        wn.finished) with ⟨r1, w3⟩
    rw [hg] at h1
    simp only at h1
    subst h1
    rfl

/-- The error policy changes no world, and hands on a stop. -/
theorem policy_world (op : OpCode) (x : Except Fatal Int × World σ) :
    (match x with
      | (Except.ok r, w2) =>
        if r < 0 ∧ _do_transaction_ok st.replaying st.btrfs_stable_commits op r = false then
          ((Except.error Fatal.unexpected_error, w2) : Except Fatal Int × World σ)
        else (Except.ok 0, w2)
      | (Except.error e, w2) => (Except.error e, w2)).2 = x.2 ∧
    ∀ e, x.1 = Except.error e →
      (match x with
      | (Except.ok r, w2) =>
        if r < 0 ∧ _do_transaction_ok st.replaying st.btrfs_stable_commits op r = false then
          ((Except.error Fatal.unexpected_error, w2) : Except Fatal Int × World σ)
        else (Except.ok 0, w2)
      | (Except.error e, w2) => (Except.error e, w2)).1 = Except.error e := by
  obtain ⟨r, w2⟩ := x
  cases r with
  | error e => exact ⟨rfl, fun e1 h => h⟩
  | ok r =>
    refine ⟨?_, fun e1 h => by cases h⟩
    simp only []
    split_ifs <;> rfl

end Proofs

/-! ## The replay guard check (C1) -/

/-- C1: under journal replay without snapshot commits, `_check_replay_guard(fd, SP)`
returns replay (1) when the guard attribute cannot be read, and for a stored
guard `(opos, in_progress)` it returns skip (-1) if `opos > SP`, replay (1) if
`opos < SP`, conditional (0) if `opos = SP` with `in_progress` set and skip (-1)
if `opos = SP` with `in_progress` clear; it changes nothing; positions are
compared lexicographically on `(seq, trans, op)`. -/
theorem check_replay_guard_contract {σ : Type} (st : Store σ) (w : World σ) (fd : Int)
    (spos : SequencerPosition)
    (hr : st.replaying = true) (hs : st.btrfs_stable_commits = false) :
    ((st.do_fgetxattr_guard fd w.fs).1 < 0 →
      _check_replay_guard st fd spos w = (Except.ok 1, w)) ∧
    (∀ (opos : SequencerPosition) (in_progress : Bool),
      0 ≤ (st.do_fgetxattr_guard fd w.fs).1 →
      (st.do_fgetxattr_guard fd w.fs).2 = ⟨opos, some in_progress⟩ →
        (opos > spos → _check_replay_guard st fd spos w = (Except.ok (-1), w)) ∧
        (opos < spos → _check_replay_guard st fd spos w = (Except.ok 1, w)) ∧
        (opos = spos → in_progress = true →
          _check_replay_guard st fd spos w = (Except.ok 0, w)) ∧
        (opos = spos → in_progress = false →
          _check_replay_guard st fd spos w = (Except.ok (-1), w))) ∧
    (∀ a b : SequencerPosition, a < b ↔
      a.seq < b.seq ∨ (a.seq = b.seq ∧ (a.trans < b.trans ∨ (a.trans = b.trans ∧ a.op < b.op)))) := by
  refine ⟨?_, ?_, fun a b => Iff.rfl⟩
  · intro h
    rw [_check_replay_guard_replaying st w fd spos hr hs, if_pos h]
  · intro opos in_progress h0 hg
    rw [_check_replay_guard_of_read st w fd spos _ hr hs h0 hg]
    refine ⟨?_, ?_, ?_, ?_⟩
    · intro h
      simp only [gt_iff_lt] at h
      simp [h]
    · intro h
      have h1 : ¬ spos < opos := SequencerPosition.lt_asymm _ _ h
      have h2 : opos ≠ spos := by
        rintro rfl
        exact SequencerPosition.lt_irrefl _ h
      simp [h1, h2]
    · rintro rfl rfl
      simp [SequencerPosition.lt_irrefl]
    · rintro rfl rfl
      simp [SequencerPosition.lt_irrefl]

/-- C1 at a concrete store: the object `1/2` of `w_closed` carries the guard
`((5, 0, 1), false)`, and the check at the older position `(5, 0, 0)` says skip. -/
theorem check_replay_guard_contract_witness :
    _check_replay_guard (memstore true false) 7 ⟨5, 0, 0⟩ w_closed = (Except.ok (-1), w_closed) :=
  ((check_replay_guard_contract (memstore true false) w_closed 7 ⟨5, 0, 0⟩ rfl rfl).2.1
    ⟨5, 0, 1⟩ false (by decide) (by decide)).1 (by decide)

/-! ## The error policy of the interpreter (C6, C7, C8) -/

/-- C6: for every opcode other than CLONE, CLONERANGE and CLONERANGE2, in every
mode, when the opcode leaves `r = -ENOENT` the interpreter does not reach the
fatal assertion: it goes on with the next opcode, at the next position, from
the world the opcode left. -/
theorem enoent_tolerated {σ : Type} (st : Store σ) (w w1 : World σ) (op : TransactionOp)
    (rest : List TransactionOp) (spos : SequencerPosition)
    (hk : w.m_filestore_kill_at = 0)
    (hop : op.get_op ≠ OpCode.OP_CLONE ∧ op.get_op ≠ OpCode.OP_CLONERANGE ∧
      op.get_op ≠ OpCode.OP_CLONERANGE2)
    (hsw : _do_transaction_switch st op spos w = (Except.ok (- ENOENT), w1)) :
    _do_transaction_loop st (op :: rest) spos w =
      _do_transaction_loop st rest { spos with op := spos.op + 1 } w1 := by
  rw [_do_transaction_loop_step st w w1 op rest spos _ hk hsw]
  have hok : _do_transaction_ok st.replaying st.btrfs_stable_commits op.get_op (- ENOENT) = true := by
    simp [_do_transaction_ok, hop.1, hop.2.1, hop.2.2, ENOENT, ENODATA, EEXIST, ERANGE]
  simp [hok]

/-- C6 at a concrete store: removing the missing object `1/9` leaves `-ENOENT`,
and the interpreter goes on to the `TOUCH` that follows. -/
theorem enoent_tolerated_witness :
    _do_transaction_loop (memstore false false)
        [TransactionOp.OP_REMOVE 1 9, TransactionOp.OP_TOUCH 1 3] ⟨4, 0, 0⟩ w_hello =
      _do_transaction_loop (memstore false false) [TransactionOp.OP_TOUCH 1 3] ⟨4, 0, 1⟩
        (_do_transaction_switch (memstore false false) (TransactionOp.OP_REMOVE 1 9)
          ⟨4, 0, 0⟩ w_hello).2 :=
  enoent_tolerated (memstore false false) w_hello _ (TransactionOp.OP_REMOVE 1 9)
    [TransactionOp.OP_TOUCH 1 3] ⟨4, 0, 0⟩ rfl (by decide) (Prod.ext (by decide) rfl)

/-- C7: when the opcode leaves `-EEXIST` and is MKCOLL, COLL_ADD or COLL_MOVE, or
leaves `-ERANGE`, the interpreter goes on with the next opcode if it is
replaying without snapshot commits, and reaches the fatal assertion if it is
not replaying. -/
theorem eexist_erange_policy {σ : Type} (st : Store σ) (w w1 : World σ) (op : TransactionOp)
    (rest : List TransactionOp) (spos : SequencerPosition) (r : Int)
    (hk : w.m_filestore_kill_at = 0)
    (hsw : _do_transaction_switch st op spos w = (Except.ok r, w1))
    (hres : (r = - EEXIST ∧ (op.get_op = OpCode.OP_MKCOLL ∨ op.get_op = OpCode.OP_COLL_ADD ∨
      op.get_op = OpCode.OP_COLL_MOVE)) ∨ r = - ERANGE) :
    (st.replaying = true → st.btrfs_stable_commits = false →
      _do_transaction_loop st (op :: rest) spos w =
        _do_transaction_loop st rest { spos with op := spos.op + 1 } w1) ∧
    (st.replaying = false →
      _do_transaction_loop st (op :: rest) spos w = (Except.error Fatal.unexpected_error, w1)) := by
  rw [_do_transaction_loop_step st w w1 op rest spos r hk hsw]
  constructor
  · intro hr hs
    have hok : _do_transaction_ok st.replaying st.btrfs_stable_commits op.get_op r = true := by
      rcases hres with ⟨rfl, h⟩ | rfl
      · rcases h with h | h | h <;>
          simp [_do_transaction_ok, hr, hs, h, ENOENT, ENODATA, EEXIST, ERANGE]
      · simp [_do_transaction_ok, hr, hs, ENOENT, ENODATA, EEXIST, ERANGE]
    simp [hok]
  · intro hr
    have hok : _do_transaction_ok st.replaying st.btrfs_stable_commits op.get_op r = false := by
      rcases hres with ⟨rfl, _⟩ | rfl <;>
        simp [_do_transaction_ok, hr, ENOENT, ENODATA, EEXIST, ERANGE]
    have hneg : r < 0 := by
      rcases hres with ⟨rfl, _⟩ | rfl <;> simp [EEXIST, ERANGE]
    simp [hok, hneg]

/-- C7 at a concrete store: creating the collection `1`, which exists, leaves
`-EEXIST`; under replay the interpreter goes on, outside replay it stops. -/
theorem eexist_erange_policy_witness :
    _do_transaction_loop (memstore true false) [TransactionOp.OP_MKCOLL 1] ⟨4, 0, 0⟩ w_hello =
      _do_transaction_loop (memstore true false) [] ⟨4, 0, 1⟩
        (_do_transaction_switch (memstore true false) (TransactionOp.OP_MKCOLL 1)
          ⟨4, 0, 0⟩ w_hello).2 ∧
    _do_transaction_loop (memstore false false) [TransactionOp.OP_MKCOLL 1] ⟨4, 0, 0⟩ w_hello =
      (Except.error Fatal.unexpected_error,
        (_do_transaction_switch (memstore false false) (TransactionOp.OP_MKCOLL 1)
          ⟨4, 0, 0⟩ w_hello).2) :=
  ⟨(eexist_erange_policy (memstore true false) w_hello _ (TransactionOp.OP_MKCOLL 1) []
      ⟨4, 0, 0⟩ (- EEXIST) rfl (Prod.ext (by decide) rfl) (Or.inl ⟨rfl, Or.inl rfl⟩)).1 rfl rfl,
   (eexist_erange_policy (memstore false false) w_hello _ (TransactionOp.OP_MKCOLL 1) []
      ⟨4, 0, 0⟩ (- EEXIST) rfl (Prod.ext (by decide) rfl) (Or.inl ⟨rfl, Or.inl rfl⟩)).2 rfl⟩

/-- C8: for every opcode and in every mode, when the opcode leaves `-ENOSPC` or
`-ENOTEMPTY` the interpreter reaches the fatal assertion and applies none of
the remaining opcodes. -/
theorem enospc_enotempty_fatal {σ : Type} (st : Store σ) (w w1 : World σ) (op : TransactionOp)
    (rest : List TransactionOp) (spos : SequencerPosition) (r : Int)
    (hk : w.m_filestore_kill_at = 0)
    (hsw : _do_transaction_switch st op spos w = (Except.ok r, w1))
    (hres : r = - ENOSPC ∨ r = - ENOTEMPTY) :
    _do_transaction_loop st (op :: rest) spos w = (Except.error Fatal.unexpected_error, w1) := by
  rw [_do_transaction_loop_step st w w1 op rest spos r hk hsw]
  have hok : _do_transaction_ok st.replaying st.btrfs_stable_commits op.get_op r = false := by
    rcases hres with rfl | rfl <;>
      cases st.replaying <;> cases st.btrfs_stable_commits <;>
      simp [_do_transaction_ok, ENOENT, ENODATA, EEXIST, ERANGE, ENOSPC, ENOTEMPTY]
  have hneg : r < 0 := by
    rcases hres with rfl | rfl <;> simp [ENOSPC, ENOTEMPTY]
  simp [hok, hneg]

/-- C8 at a concrete store: removing the collection `1`, which holds an object,
leaves `-ENOTEMPTY`, and the interpreter stops before the `TOUCH` that follows,
also under replay. -/
theorem enospc_enotempty_fatal_witness :
    _do_transaction_loop (memstore true false)
        [TransactionOp.OP_RMCOLL 1, TransactionOp.OP_TOUCH 1 3] ⟨4, 0, 0⟩ w_hello =
      (Except.error Fatal.unexpected_error,
        (_do_transaction_switch (memstore true false) (TransactionOp.OP_RMCOLL 1)
          ⟨4, 0, 0⟩ w_hello).2) :=
  enospc_enotempty_fatal (memstore true false) w_hello _ (TransactionOp.OP_RMCOLL 1)
    [TransactionOp.OP_TOUCH 1 3] ⟨4, 0, 0⟩ (- ENOTEMPTY) rfl (Prod.ext (by decide) rfl)
    (Or.inr rfl)

/-! ## The status handed to the completions (C9) -/

/-- C9, the code at the failing input: outside replay, `REMOVE` of the missing
object `1/9` leaves `-ENOENT`, which the policy tolerates; `do_transactions`
hands back `0`, and `_finish_op` completes `onreadable_sync` with `0` and queues
`onreadable` with no status of its own. -/
theorem remove_enoent_status_zero :
    (_do_transaction_switch (memstore false false) (TransactionOp.OP_REMOVE 1 9)
      ⟨4, 0, 0⟩ w_hello).1 = Except.ok (- ENOENT) ∧
    (_do_op (memstore false false) ⟨[[TransactionOp.OP_REMOVE 1 9]], 4, some 11, some 12⟩
      w_hello).1 = Except.ok 0 ∧
    (_finish_op ⟨[[TransactionOp.OP_REMOVE 1 9]], 4, some 11, some 12⟩
      (_do_op (memstore false false) ⟨[[TransactionOp.OP_REMOVE 1 9]], 4, some 11, some 12⟩
        w_hello).2).2.finished = [(12, some 0), (11, none)] := by
  refine ⟨by decide, by decide, by decide⟩

/-! ## Replay against a closed guard (C2, C3) -/

/-- C2: if the object `cid/oid` carries the replay guard `(SP_F, in_progress = false)`,
then under replay without snapshot commits every file-mutating opcode that
targets it, at any position `spos ≤ SP_F`, leaves `r = 0` and the world as it
was: the guard check says skip and no state-changing call is made. -/
theorem guarded_replay_is_noop {σ : Type} (st : Store σ) (w : World σ) (cid : coll_t)
    (oid : hobject_t) (SP_F spos : SequencerPosition) (op : TransactionOp)
    (hr : st.replaying = true) (hs : st.btrfs_stable_commits = false)
    (hg : carries_guard st w cid oid ⟨SP_F, some false⟩) (hle : spos ≤ SP_F)
    (hop : op.mutates_object cid oid = true) :
    _do_transaction_switch st op spos w = (Except.ok 0, w) := by
  have hskip := _check_replay_guard_oid_skip st w cid oid spos SP_F hr hs hg hle
  cases op <;> simp only [TransactionOp.mutates_object, decide_eq_true_eq, Bool.false_eq_true] at hop
  case OP_COLL_ADD ncid ocid o =>
    obtain ⟨hc, rfl⟩ := hop
    obtain ⟨d, hd⟩ := _check_replay_guard_oid_pure st w ncid o spos
    rcases hc with rfl | rfl
    · simp [_do_transaction_switch, _collection_add, bind_run, pure_run, hskip]
    · simp [_do_transaction_switch, _collection_add, _collection_add_checked, bind_run, pure_run,
        ite_run, hd, hskip]
  all_goals
    obtain ⟨rfl, rfl⟩ := hop
    simp [_do_transaction_switch, _clone, _clone_range, bind_run, pure_run, hskip]

/-- C2 at a concrete store: `CLONE(1, 2, 3)` was applied at position `(5, 0, 1)` and
left its guard on the object `1/3`; replayed at its own position it is not
repeated. -/
theorem guarded_replay_is_noop_witness :
    _do_transaction_switch (memstore true false) (TransactionOp.OP_CLONE 1 2 3) ⟨5, 0, 1⟩
      w_cloned = (Except.ok 0, w_cloned) :=
  guarded_replay_is_noop (memstore true false) w_cloned 1 3 ⟨5, 0, 1⟩ ⟨5, 0, 1⟩
    (TransactionOp.OP_CLONE 1 2 3) rfl rfl
    ⟨102, by decide, Prod.ext (by decide) rfl, by decide, by decide⟩ (Or.inr rfl) (by decide)

/-- C3: under replay without snapshot commits, when the guard stored on the
destination is newer than `spos`, the primitives of CLONE, CLONERANGE and
CLONERANGE2 (`_clone`, `_clone_range`), of COLL_ADD (`_collection_add`) and of
COLL_RENAME (`_collection_rename`) return `0` and leave the world as it was:
they make no state-changing call. -/
theorem newer_guard_no_mutation {σ : Type} (st : Store σ) (w : World σ)
    (spos : SequencerPosition) (g : GuardAttr)
    (hr : st.replaying = true) (hs : st.btrfs_stable_commits = false)
    (hlt : g.opos > spos) :
    (∀ (cid : coll_t) (oldoid newoid : hobject_t), carries_guard st w cid newoid g →
      _clone st cid oldoid newoid spos w = (Except.ok 0, w)) ∧
    (∀ (cid : coll_t) (oldoid newoid : hobject_t) (srcoff len dstoff : Nat),
      carries_guard st w cid newoid g →
      _clone_range st cid oldoid newoid srcoff len dstoff spos w = (Except.ok 0, w)) ∧
    (∀ (c oldcid : coll_t) (o : hobject_t), carries_guard st w c o g →
      _collection_add st c oldcid o spos w = (Except.ok 0, w)) ∧
    (∀ (cid ncid : coll_t), coll_carries_guard st w ncid g →
      _collection_rename st cid ncid spos w = (Except.ok 0, w)) := by
  refine ⟨?_, ?_, ?_, ?_⟩
  · intro cid oldoid newoid hg
    simp [_clone, bind_run, pure_run, ite_run,
      _check_replay_guard_oid_newer st w cid newoid spos g hr hs hg hlt]
  · intro cid oldoid newoid srcoff len dstoff hg
    simp [_clone_range, bind_run, pure_run, ite_run,
      _check_replay_guard_oid_newer st w cid newoid spos g hr hs hg hlt]
  · intro c oldcid o hg
    simp [_collection_add, bind_run, pure_run, ite_run,
      _check_replay_guard_oid_newer st w c o spos g hr hs hg hlt]
  · intro cid ncid hg
    have h := _check_replay_guard_cid_of_carries st w ncid spos g hr hs hg
    simp only [gt_iff_lt] at hlt
    simp only [gt_iff_lt, hlt, if_true] at h
    simp [_collection_rename, bind_run, pure_run, ite_run, h]

/-- C3 at a concrete store: the object `1/2` of `w_closed` carries a guard at
`(5, 0, 1)`; a CLONERANGE2 into it at the older position `(5, 0, 0)` returns `0`
and changes nothing. -/
theorem newer_guard_no_mutation_witness :
    _clone_range (memstore true false) 1 9 2 0 3 0 ⟨5, 0, 0⟩ w_closed = (Except.ok 0, w_closed) :=
  (newer_guard_no_mutation (memstore true false) w_closed ⟨5, 0, 0⟩ ⟨⟨5, 0, 1⟩, some false⟩
    rfl rfl (by decide)).2.1 1 9 2 0 3 0
    ⟨7, by decide, Prod.ext (by decide) rfl, by decide, by decide⟩

/-! ## Replay against an open guard (C4) -/

/-- C4 fails for TOUCH: the object `1/2` of `w_in_progress` carries the guard
`((5, 0, 1), in_progress = true)`, the check at `(5, 0, 1)` says conditional (0),
and the interpreter leaves `r = 0` and the world as it was, without the call of
`_touch`, which opens the file with `O_WRONLY|O_CREAT`. -/
theorem conditional_skips_touch :
    _check_replay_guard_oid (memstore true false) 1 2 ⟨5, 0, 1⟩ w_in_progress =
      (Except.ok 0, w_in_progress) ∧
    _do_transaction_switch (memstore true false) (TransactionOp.OP_TOUCH 1 2) ⟨5, 0, 1⟩
      w_in_progress = (Except.ok 0, w_in_progress) ∧
    (_touch (memstore true false) 1 2 w_in_progress).2.trace =
      w_in_progress.trace ++ [Mut.sys_open ⟨1, 2⟩ 65] :=
  ⟨Prod.ext (by decide) rfl, Prod.ext (by decide) rfl, by decide⟩

/-- C4, amended: under replay without snapshot commits, when the object
`cid/oid` carries the guard `(spos, in_progress = true)`, so that the check at
`spos` says conditional, CLONE, CLONERANGE and CLONERANGE2 into it and COLL_ADD
into it run the statements after the check on the destination (COLL_ADD with
`dstcmp = 0`), while TOUCH, WRITE, ZERO, TRUNCATE, REMOVE, SETATTR, SETATTRS,
RMATTR and RMATTRS on it leave `r = 0` without a call of their primitive. -/
theorem conditional_replay_policy {σ : Type} (st : Store σ) (w : World σ) (cid : coll_t)
    (oid : hobject_t) (spos : SequencerPosition)
    (hr : st.replaying = true) (hs : st.btrfs_stable_commits = false)
    (hg : carries_guard st w cid oid ⟨spos, some true⟩) :
    (∀ oldoid, _do_transaction_switch st (TransactionOp.OP_CLONE cid oldoid oid) spos w =
      _clone_apply st cid oldoid oid spos w) ∧
    (∀ oldoid off len,
      _do_transaction_switch st (TransactionOp.OP_CLONERANGE cid oldoid oid off len) spos w =
        _clone_range_apply st cid oldoid oid off len off spos w) ∧
    (∀ oldoid srcoff len dstoff,
      _do_transaction_switch st (TransactionOp.OP_CLONERANGE2 cid oldoid oid srcoff len dstoff)
          spos w =
        _clone_range_apply st cid oldoid oid srcoff len dstoff spos w) ∧
    (∀ ocid, _do_transaction_switch st (TransactionOp.OP_COLL_ADD cid ocid oid) spos w =
      _collection_add_checked st cid ocid oid spos 0 w) ∧
    (∀ op : TransactionOp, op.checks_before_call cid oid = true →
      _do_transaction_switch st op spos w = (Except.ok 0, w)) := by
  have hc : _check_replay_guard_oid st cid oid spos w = (Except.ok 0, w) := by
    rw [_check_replay_guard_oid_of_carries st w cid oid spos _ hr hs hg]
    simp [SequencerPosition.lt_irrefl]
  refine ⟨?_, ?_, ?_, ?_, ?_⟩
  · intro oldoid
    simp [_do_transaction_switch, _clone, bind_run, ite_run, hc]
  · intro oldoid off len
    simp [_do_transaction_switch, _clone_range, bind_run, ite_run, hc]
  · intro oldoid srcoff len dstoff
    simp [_do_transaction_switch, _clone_range, bind_run, ite_run, hc]
  · intro ocid
    simp [_do_transaction_switch, _collection_add, bind_run, ite_run, hc]
  · intro op hop
    cases op <;>
      simp only [TransactionOp.checks_before_call, decide_eq_true_eq, Bool.false_eq_true] at hop
    all_goals
      obtain ⟨rfl, rfl⟩ := hop
      simp [_do_transaction_switch, bind_run, pure_run, ite_run, hc]

/-- C4 amended, at a concrete store: against the open guard of `w_in_progress`
at `(5, 0, 1)`, a WRITE on the object `1/2` at that position leaves `0` and
changes nothing. -/
theorem conditional_replay_policy_witness :
    _do_transaction_switch (memstore true false) (TransactionOp.OP_WRITE 1 2 0 1 [33])
      ⟨5, 0, 1⟩ w_in_progress = (Except.ok 0, w_in_progress) :=
  (conditional_replay_policy (memstore true false) w_in_progress 1 2 ⟨5, 0, 1⟩ rfl rfl
    ⟨7, by decide, Prod.ext (by decide) rfl, by decide, by decide⟩).2.2.2.2
    (TransactionOp.OP_WRITE 1 2 0 1 [33]) (by decide)

/-! ## The order of guard writes and mutations (C5) -/

/-- C5 fails for CLONE: applied outside replay, without snapshot commits, at
position `(5, 0, 1)`, `CLONE(1, 2, 3)` first opens the destination with
`O_CREAT|O_TRUNC|O_WRONLY`, copies the bytes, clones the object map entry and sets
the attributes, and only then writes the guard, once, with `in_progress = false`. -/
theorem clone_opens_no_guard :
    (_do_transaction_switch (memstore false false) (TransactionOp.OP_CLONE 1 2 3) ⟨5, 0, 1⟩
      w_hello).1 = Except.ok 0 ∧
    (_do_transaction_switch (memstore false false) (TransactionOp.OP_CLONE 1 2 3) ⟨5, 0, 1⟩
      w_hello).2.trace =
      [Mut.sys_open ⟨1, 3⟩ 577, Mut.index_created 1 3 ⟨1, 3⟩, Mut._do_clone_range 7 102 0 5 0,
       Mut.object_map_clone 2 3 ⟨5, 0, 1⟩, Mut._setattrs 1 3 [] ⟨5, 0, 1⟩,
       Mut.sys_fsync 102, Mut.object_map_sync (some 3) ⟨5, 0, 1⟩,
       Mut.do_fsetxattr_guard 102 ⟨⟨5, 0, 1⟩, some false⟩, Mut.sys_fsync 102] := by
  decide

/-- C5, amended: without snapshot commits and with failure injection off,
COLL_ADD whose check on the destination says replay, whose check on the source
does not say skip, which finds the source and leaves `0` makes exactly these
calls: the steps of `_set_replay_guard` with `in_progress = true` on the
descriptor of the source, then the calls of `lfn_link` (outside replay both of
them, the `::link` of the source path to the destination path and the entry in
the index of the destination; under replay at least the beginning of them, the
link being allowed to exist already), then the steps of `_close_replay_guard`.
Without the condition on the source, such a COLL_ADD either makes no
state-changing call or makes calls of this shape. CLONE, CLONERANGE, CLONERANGE2
and COLL_RENAME, whenever they return, have made calls that are no guard steps
followed either by nothing or, after at least one such call, by the calls of one
`_set_replay_guard` with `in_progress = false`. -/
theorem guard_write_order {σ : Type} (st : Store σ) (w : World σ) (spos : SequencerPosition)
    (hs : st.btrfs_stable_commits = false) (hk : w.m_filestore_kill_at = 0) :
    (∀ (ncid ocid : coll_t) (oid : hobject_t) (d s fd : Int),
      _check_replay_guard_oid st ncid oid spos w = (Except.ok d, w) → d > 0 →
      _check_replay_guard_oid st ocid oid spos w = (Except.ok s, w) → 0 ≤ s →
      lfn_open st ocid oid 0 false w = (Except.ok fd, w) → 0 ≤ fd →
      (_do_transaction_switch st (TransactionOp.OP_COLL_ADD ncid ocid oid) spos w).1
        = Except.ok 0 →
      ∃ links : List Mut,
        added w (_do_transaction_switch st (TransactionOp.OP_COLL_ADD ncid ocid oid) spos w).2.trace
          = guard_steps fd spos (some oid) true ++ links ++ close_steps fd spos ∧
        links <+: link_steps
          (st.index_lookup ocid oid
            (after_calls st.toSys w.fs (guard_steps fd spos (some oid) true))).2.1
          (st.index_lookup ncid oid
            (after_calls st.toSys w.fs (guard_steps fd spos (some oid) true))).2.1 ncid oid ∧
        (st.replaying = false → links = link_steps
          (st.index_lookup ocid oid
            (after_calls st.toSys w.fs (guard_steps fd spos (some oid) true))).2.1
          (st.index_lookup ncid oid
            (after_calls st.toSys w.fs (guard_steps fd spos (some oid) true))).2.1 ncid oid)) ∧
    (∀ (ncid ocid : coll_t) (oid : hobject_t) (d : Int),
      _check_replay_guard_oid st ncid oid spos w = (Except.ok d, w) → d > 0 →
      (_do_transaction_switch st (TransactionOp.OP_COLL_ADD ncid ocid oid) spos w).1
        = Except.ok 0 →
      added w (_do_transaction_switch st (TransactionOp.OP_COLL_ADD ncid ocid oid) spos w).2.trace
        = [] ∨
      link_inside_guard spos (some oid)
        (added w (_do_transaction_switch st (TransactionOp.OP_COLL_ADD ncid ocid oid) spos w).2.trace)
        = true) ∧
    (∀ (cid : coll_t) (oid noid : hobject_t) (r : Int),
      (_do_transaction_switch st (TransactionOp.OP_CLONE cid oid noid) spos w).1 = Except.ok r →
      closed_guard_last spos (some noid)
        (added w (_do_transaction_switch st (TransactionOp.OP_CLONE cid oid noid) spos w).2.trace)
        = true) ∧
    (∀ (cid : coll_t) (oid noid : hobject_t) (off len : Nat) (r : Int),
      (_do_transaction_switch st (TransactionOp.OP_CLONERANGE cid oid noid off len) spos w).1
        = Except.ok r →
      closed_guard_last spos (some noid)
        (added w
          (_do_transaction_switch st (TransactionOp.OP_CLONERANGE cid oid noid off len) spos w).2.trace)
        = true) ∧
    (∀ (cid : coll_t) (oid noid : hobject_t) (srcoff len dstoff : Nat) (r : Int),
      (_do_transaction_switch st (TransactionOp.OP_CLONERANGE2 cid oid noid srcoff len dstoff)
        spos w).1 = Except.ok r →
      closed_guard_last spos (some noid)
        (added w (_do_transaction_switch st
          (TransactionOp.OP_CLONERANGE2 cid oid noid srcoff len dstoff) spos w).2.trace) = true) ∧
    (∀ (cid ncid : coll_t) (r : Int),
      (_do_transaction_switch st (TransactionOp.OP_COLL_RENAME cid ncid) spos w).1 = Except.ok r →
      closed_guard_last spos none
        (added w (_do_transaction_switch st (TransactionOp.OP_COLL_RENAME cid ncid) spos w).2.trace)
        = true) := by
  refine ⟨?_, ?_, ?_, ?_, ?_, ?_⟩
  · intro ncid ocid oid d s fd hd hpos hsrc hs0 hopen hfd hres
    obtain ⟨links, h1, h2, h3⟩ := _collection_add_found st ncid ocid oid spos w d s fd hs hk hd
      hpos hsrc hs0 hopen hfd hres
    refine ⟨links, ?_, h2, h3⟩
    simp only [_do_transaction_switch]
    rw [h1, added_append]
  · intro ncid ocid oid d hd hpos
    have heq : _do_transaction_switch st (TransactionOp.OP_COLL_ADD ncid ocid oid) spos w =
        _collection_add_checked st ncid ocid oid spos d w := by
      simp [_do_transaction_switch, _collection_add, bind_run, ite_run, hd, not_lt.mpr hpos.le]
    rw [heq]
    obtain ⟨_, l, ht, hp⟩ := _collection_add_checked_adds st ncid ocid oid spos d hs hpos w hk
    rw [ht, added_append]
    exact hp
  · intro cid oid noid r
    obtain ⟨_, l, ht, hp⟩ := _clone_adds st cid oid noid spos hs w hk
    simp only [_do_transaction_switch]
    rw [ht, added_append]
    exact hp r
  · intro cid oid noid off len r
    obtain ⟨_, l, ht, hp⟩ := _clone_range_adds st cid oid noid off len off spos hs w hk
    simp only [_do_transaction_switch]
    rw [ht, added_append]
    exact hp r
  · intro cid oid noid srcoff len dstoff r
    obtain ⟨_, l, ht, hp⟩ := _clone_range_adds st cid oid noid srcoff len dstoff spos hs w hk
    simp only [_do_transaction_switch]
    rw [ht, added_append]
    exact hp r
  · intro cid ncid r
    obtain ⟨_, l, ht, hp⟩ := _collection_rename_adds st cid ncid spos hs w hk
    simp only [_do_transaction_switch]
    rw [ht, added_append]
    exact hp r

/-- C5 amended, at a concrete store: `COLL_ADD(4, 1, 2)` applied outside replay at
position `(6, 0, 0)` finds the object `1/2` on the descriptor `7`; its calls are
the guard steps with `in_progress = true`, the link of `1/2` as `4/2` with its
entry in the index, and the steps that close the guard. -/
theorem guard_write_order_witness :
    added w_hello (_do_transaction_switch (memstore false false)
      (TransactionOp.OP_COLL_ADD 4 1 2) ⟨6, 0, 0⟩ w_hello).2.trace =
      [Mut.sys_fsync 7, Mut.object_map_sync (some 2) ⟨6, 0, 0⟩,
        Mut.do_fsetxattr_guard 7 ⟨⟨6, 0, 0⟩, some true⟩, Mut.sys_fsync 7,
        Mut.sys_link ⟨1, 2⟩ ⟨4, 2⟩, Mut.index_created 4 2 ⟨4, 2⟩,
        Mut.do_fsetxattr_guard 7 ⟨⟨6, 0, 0⟩, some false⟩, Mut.sys_fsync 7] := by
  obtain ⟨links, h1, _, h3⟩ := (guard_write_order (memstore false false) w_hello ⟨6, 0, 0⟩ rfl
    rfl).1 4 1 2 1 1 7 (Prod.ext (by decide) rfl) (by decide) (Prod.ext (by decide) rfl)
    (by decide) (Prod.ext (by decide) rfl) (by decide) (by decide)
  rw [h1, h3 rfl]
  decide

/-! ## Write then read (C10) -/

/-- C10 fails for `len = 0`: on the object `1/2`, which holds "hello", a write of
the empty byte string at offset `0` succeeds, and `read(1, 2, 0, 0)` then returns
the five bytes of the object, because `read` takes `len = 0` to mean the size of
the file. -/
theorem zero_length_write_read :
    (_write (memstore false false) 1 2 0 0 [] w_hello).1 = Except.ok 0 ∧
    (read (memstore false false) 1 2 0 0 (_write (memstore false false) 1 2 0 0 [] w_hello).2).1 =
      Except.ok (5, [104, 101, 108, 108, 111]) := by
  decide

/-- C10, amended: on the in-memory file system, for every object, offset `off`
and non-empty byte string `B` (a `bufferlist`, so shorter than `2^32`), after
`_write(cid, oid, off, |B|, B)` has succeeded, `read(cid, oid, off, |B|)` returns
`|B|` and exactly `B`, and changes nothing. -/
theorem write_read_roundtrip (st : Store MemFS) (hst : st.toSys = memsys) (w w1 : World MemFS)
    (cid : coll_t) (oid : hobject_t) (off : Nat) (B : Bytes) (r : Int)
    (hne : B ≠ []) (h32 : B.length < 4294967296)
    (hw : _write st cid oid off B.length B w = (Except.ok r, w1)) (hr : 0 ≤ r) :
    read st cid oid off B.length w1 = (Except.ok ((B.length : Int), B), w1) := by
  obtain ⟨h1, hc, i, n0, hn, hi⟩ := _write_mem st hst w w1 cid oid off B.length B r hw hr
  have h31 : B.length < 2147483648 := by
    have h := toInt32_nonneg B.length h32 (h1 ▸ hr)
    rw [h] at h1
    unfold toInt32 at h
    omega
  exact read_mem st hst w1 cid oid off B i _ hc hn hi hne h31 (pwrite_read n0.data off B hne)

/-- C10 amended, at a concrete store: three bytes written at offset `1` of the
object `1/2` are read back. -/
theorem write_read_roundtrip_witness :
    read (memstore false false) 1 2 1 3 (_write (memstore false false) 1 2 1 3 [9, 9, 9] w_hello).2 =
      (Except.ok (3, [9, 9, 9]), (_write (memstore false false) 1 2 1 3 [9, 9, 9] w_hello).2) :=
  write_read_roundtrip (memstore false false) rfl w_hello _ 1 2 1 [9, 9, 9] 3 (by decide)
    (by decide) (Prod.ext (by decide) rfl) (by decide)

/-! ## The round trip of a chunked attribute (C11) -/

/-- C11 fails on the code. On the object `1/2`, whose attribute `k` holds 4096
bytes in the chunks `k` and `k@1`, `do_setxattr` of a value of 2048 bytes
succeeds and leaves the chunk `k@1` in place: it hands the raw name `k@1` to
`do_removexattr`, which escapes it once more and removes nothing. Reading `k` back
with a buffer of 2048 bytes gives `-ERANGE`, the length query gives 4096, and a
buffer of 4096 bytes gives the new value followed by the old second chunk. And
on an object without attributes, after `do_setxattr` of 2048 bytes, reading with
a buffer of 4096 bytes gives `-ENODATA`, from the read of the chunk `k@1` that
is not there. -/
theorem setxattr_roundtrip_broken :
    (do_setxattr (memstore false false) ⟨1, 2⟩ [107] (List.replicate 2048 2) w_k4096).1 =
      Except.ok 2048 ∧
    (do_getxattr (memstore false false) ⟨1, 2⟩ [107] 2048 w_k2048).1.map Prod.fst =
      Except.ok (- ERANGE) ∧
    (do_getxattr (memstore false false) ⟨1, 2⟩ [107] 0 w_k2048).1 = Except.ok (4096, []) ∧
    (do_getxattr (memstore false false) ⟨1, 2⟩ [107] 4096 w_k2048).1 =
      Except.ok (4096, List.replicate 2048 2 ++ List.replicate 2048 1) ∧
    (do_setxattr (memstore false false) ⟨1, 2⟩ [107] (List.replicate 2048 2) w_hello).1 =
      Except.ok 2048 ∧
    (do_getxattr (memstore false false) ⟨1, 2⟩ [107] 4096 w_fresh2048).1.map Prod.fst =
      Except.ok (- ENODATA) := by
  decide!

/-! ## The chunks `do_setxattr` writes (C12) -/

/-- C12: for every attribute name and every value `v` of `n` bytes (`n` in the
range of the `int` result), a `do_setxattr` that returns and does not fail
returns `n`, and the calls it made are the writes of the chunks `esc(name)`,
`esc(name)@1`, ..., `esc(name)@m` with `m = max(0, ceil(n/2048) - 1)`, chunk `i`
holding the bytes `[2048 i, min(n, 2048 (i+1)))` of `v`, in this order, followed
by removals only. -/
theorem do_setxattr_chunks {σ : Type} (st : Store σ) (fn : IndexedPath) (name : List Nat)
    (v : Bytes) (w w1 : World σ) (ret : Int) (hv : v.length < 2147483648)
    (hw : do_setxattr st fn name v w = (Except.ok ret, w1)) (hret : 0 ≤ ret) :
    ret = v.length ∧ ∃ rest, w1.trace = w.trace ++ chunk_writes fn name v ++ rest ∧
      ∀ e ∈ rest, ∃ n, e = Mut.sys_removexattr fn n := by
  obtain ⟨h1, h2⟩ := do_setxattr_ok st fn name v w w1 ret hw hret
  refine ⟨?_, h2⟩
  rw [h1]
  unfold toInt32
  omega

/-- C12 at a concrete store: 2049 bytes stored under the name `k@` on the object
`1/2` go to the chunks `k@@` and `k@@@1`. -/
theorem do_setxattr_chunks_witness :
    (2049 : Int) = ((List.replicate 2049 7 : Bytes).length : Nat) ∧ ∃ rest,
      (do_setxattr (memstore false false) ⟨1, 2⟩ [107, 64] (List.replicate 2049 7) w_hello).2.trace =
        w_hello.trace ++ chunk_writes ⟨1, 2⟩ [107, 64] (List.replicate 2049 7) ++ rest ∧
      ∀ e ∈ rest, ∃ n, e = Mut.sys_removexattr ⟨1, 2⟩ n :=
  do_setxattr_chunks (memstore false false) ⟨1, 2⟩ [107, 64] (List.replicate 2049 7) w_hello
    (do_setxattr (memstore false false) ⟨1, 2⟩ [107, 64] (List.replicate 2049 7) w_hello).2 2049
    (by rw [List.length_replicate]; omega) (eq_of_fst_eq _ _ (by decide!)) (by decide)

/-! ## Where `_setattrs` puts a value (C13) -/

/-- C13: with `filestore_xattr_use_omap` set, when `_setattrs` returns without
an error, the calls it made are, entry by entry of `aset`, as the test of the
entry against the inline attributes of the moment says (`placements`): an entry
that is too long, or not inline with the inline attributes at their bound, gets
no inline write and its inline copy, if any, is removed; every other entry is
written inline in chunks. After them `_setattrs` removes from the object map the
names written inline and sets in it the entries that went there. -/
theorem setattrs_placement {σ : Type} (st : Store σ) (g_conf : md_config_t)
    (hu : g_conf.filestore_xattr_use_omap = true) (cid : coll_t) (oid : hobject_t)
    (aset : AttrSet) (spos : SequencerPosition) (w w1 : World σ) (r : Int)
    (hw : _setattrs st g_conf cid oid aset spos w = (Except.ok r, w1)) (hr : 0 ≤ r) :
    ∃ segs, placements g_conf (st._getattrs cid oid w.fs).2 aset segs ∧
      w1.trace = w.trace ++ segs.flatten ++
        [Mut.object_map_remove_xattrs oid
            (omap_removals g_conf (st._getattrs cid oid w.fs).2 aset []) spos,
          Mut.object_map_set_xattrs oid
            (omap_values g_conf (st._getattrs cid oid w.fs).2 aset []) spos] := by
  unfold _setattrs at hw
  simp only [hu, if_true] at hw
  rw [bind_run, ask_run] at hw
  simp only at hw
  rw [bind_run] at hw
  cases hl : _setattrs_loop st g_conf cid oid aset ⟨[], [], (st._getattrs cid oid w.fs).2, 0⟩ w with
  | mk res w2 =>
    rw [hl] at hw
    cases res with
    | error e => simp at hw
    | ok out =>
      cases out with
      | error r1 =>
        simp only [pure_run, Prod.mk.injEq, Except.ok.injEq] at hw
        have := _setattrs_loop_error st g_conf cid oid aset _ w w2 r1 hl
        omega
      | ok l1 =>
        simp only at hw
        obtain ⟨h1, h2⟩ := _setattrs_omap_ok st g_conf hu cid oid spos l1 w2 w1 r hw hr
        obtain ⟨segs, hp, htr, hs, hrm⟩ := _setattrs_loop_ok st g_conf hu cid oid aset _ l1 w w2 hl
          (le_refl _) (h1 ▸ hr)
        exact ⟨segs, hp, by rw [h2, htr, hs, hrm]⟩

/-- C13 at a concrete store: on the object `1/2`, which holds `_` inline, a value
of 513 bytes for `_` goes to the object map and the inline copy is removed, and
one byte for the name 96 is written inline. -/
theorem setattrs_placement_witness :
    ∃ segs, placements conf_omap ((memstore false false)._getattrs 1 2 w_attr.fs).2
        [([95], List.replicate 513 0), ([96], [7])] segs ∧
      (_setattrs (memstore false false) conf_omap 1 2
          [([95], List.replicate 513 0), ([96], [7])] ⟨5, 0, 1⟩ w_attr).2.trace =
        w_attr.trace ++ segs.flatten ++
          [Mut.object_map_remove_xattrs 2
              (omap_removals conf_omap ((memstore false false)._getattrs 1 2 w_attr.fs).2
                [([95], List.replicate 513 0), ([96], [7])] []) ⟨5, 0, 1⟩,
            Mut.object_map_set_xattrs 2
              (omap_values conf_omap ((memstore false false)._getattrs 1 2 w_attr.fs).2
                [([95], List.replicate 513 0), ([96], [7])] []) ⟨5, 0, 1⟩] :=
  setattrs_placement (memstore false false) conf_omap rfl 1 2
    [([95], List.replicate 513 0), ([96], [7])] ⟨5, 0, 1⟩ w_attr
    (_setattrs (memstore false false) conf_omap 1 2
      [([95], List.replicate 513 0), ([96], [7])] ⟨5, 0, 1⟩ w_attr).2 1
    (eq_of_fst_eq _ _ (by decide!)) (by decide)

/-! ## `ENOSPC` from an inline write (C14) -/

/-- C14 fails on the code: with room for eight bytes of attribute values, the
inline write of nine bytes under the name `_` fails with `ENOSPC`; `_setattrs`
returns `-ENOSPC`, and the set it hands to the object map is empty. -/
theorem setattrs_returns_enospc :
    (lfn_setxattr (memstore false false) 1 2 (get_attrname [95] ATTR_MAX_NAME_LEN)
      [1, 2, 3, 4, 5, 6, 7, 8, 9] w_small).1 = Except.ok (- ENOSPC) ∧
    (_setattrs (memstore false false) conf_omap 1 2 [([95], [1, 2, 3, 4, 5, 6, 7, 8, 9])]
      ⟨5, 0, 0⟩ w_small).1 = Except.ok (- ENOSPC) ∧
    (_setattrs (memstore false false) conf_omap 1 2 [([95], [1, 2, 3, 4, 5, 6, 7, 8, 9])]
      ⟨5, 0, 0⟩ w_small).2.trace =
      [Mut.sys_setxattr ⟨1, 2⟩ (user_ceph ++ [95]) [1, 2, 3, 4, 5, 6, 7, 8, 9],
        Mut.object_map_remove_xattrs 2 [[95]] ⟨5, 0, 0⟩,
        Mut.object_map_set_xattrs 2 [] ⟨5, 0, 0⟩] := by
  decide

/-- C14, amended: when `_setattrs` has gone through the entries `pre` without
leaving the loop and the inline write of the next entry `p` fails with `ENOSPC`,
it makes no further attribute call: what it does after the failed write is at
most the two calls of the object map, with the set of values as it stood before
`p`, so the value of `p` is not stored there. It returns a negative result:
`-ENOSPC` itself when the object map is not in use or its calls succeed. -/
theorem inline_enospc_not_migrated {σ : Type} (st : Store σ) (g_conf : md_config_t) (cid : coll_t) (oid : hobject_t)
    (spos : SequencerPosition) (pre : AttrSet) (p : List Nat × Bytes) (rest : AttrSet)
    (l : SetattrsLocals) (w w0 w1 : World σ)
    (hpre : _setattrs_loop st g_conf cid oid pre
      ⟨[], [], if g_conf.filestore_xattr_use_omap then (st._getattrs cid oid w.fs).2 else [], 0⟩ w =
        (Except.ok (Except.ok l), w0))
    (hl : 0 ≤ l.r)
    (hin : g_conf.filestore_xattr_use_omap = true → goes_to_omap g_conf l.inline_set p = false)
    (hw : lfn_setxattr st cid oid (get_attrname p.1 ATTR_MAX_NAME_LEN) p.2 w0 =
      (Except.ok (- ENOSPC), w1)) :
    ∃ r tl, (_setattrs st g_conf cid oid (pre ++ p :: rest) spos w).1 = Except.ok r ∧ r < 0 ∧
      (_setattrs st g_conf cid oid (pre ++ p :: rest) spos w).2.trace = w1.trace ++ tl ∧
      (∀ e ∈ tl, e = Mut.object_map_remove_xattrs oid (set_insert l.omap_remove p.1) spos ∨
        e = Mut.object_map_set_xattrs oid l.omap_set spos) ∧
      (g_conf.filestore_xattr_use_omap = false → r = - ENOSPC ∧ tl = []) ∧
      (0 ≤ st.get_index cid w1.fs →
        0 ≤ (st.mutate (Mut.object_map_remove_xattrs oid (set_insert l.omap_remove p.1) spos)
          w1.fs).1 →
        0 ≤ (st.mutate (Mut.object_map_set_xattrs oid l.omap_set spos)
          (st.mutate (Mut.object_map_remove_xattrs oid (set_insert l.omap_remove p.1) spos)
            w1.fs).2).1 →
        r = - ENOSPC) := by
  have happ := _setattrs_loop_append st g_conf cid oid (p :: rest) pre _ l w w0 hpre (le_refl _) hl
  have hstep : ∃ l1, _setattrs_loop st g_conf cid oid (p :: rest) l w0 =
      (Except.ok (Except.ok l1), w1) ∧ l1.r = - ENOSPC ∧ l1.omap_set = l.omap_set ∧
      (g_conf.filestore_xattr_use_omap = true → l1.omap_remove = set_insert l.omap_remove p.1) := by
    unfold _setattrs_loop
    by_cases hu : g_conf.filestore_xattr_use_omap = true
    · have hg := hin hu
      simp only [goes_to_omap, Bool.or_eq_false_iff, decide_eq_false_iff_not,
        Bool.and_eq_false_iff, Bool.not_eq_false'] at hg
      have c1 : ¬ (g_conf.filestore_xattr_use_omap = true ∧
          p.2.length > g_conf.filestore_max_inline_xattr_size) := fun h => hg.1 h.2
      have c2 : ¬ (g_conf.filestore_xattr_use_omap = true ∧ (map_count l.inline_set p.1 = false ∧
          l.inline_set.length ≥ g_conf.filestore_max_inline_xattrs)) := by
        rintro ⟨-, h1, h2⟩
        rcases hg.2 with h | h
        · rw [h1] at h; exact Bool.noConfusion h
        · exact h h2
      rw [if_neg c1, if_neg c2, bind_run, hw]
      simp only [ENOSPC, ite_run, pure_run, hu, if_true]
      exact ⟨_, rfl, rfl, rfl, fun _ => rfl⟩
    · have c1 : ¬ (g_conf.filestore_xattr_use_omap = true ∧
          p.2.length > g_conf.filestore_max_inline_xattr_size) := fun h => hu h.1
      have c2 : ¬ (g_conf.filestore_xattr_use_omap = true ∧ (map_count l.inline_set p.1 = false ∧
          l.inline_set.length ≥ g_conf.filestore_max_inline_xattrs)) := fun h => hu h.1
      rw [if_neg c1, if_neg c2, bind_run, hw]
      simp only [ENOSPC, ite_run, pure_run, hu]
      exact ⟨_, rfl, rfl, rfl, fun h => absurd h (by simp)⟩
  obtain ⟨l1, hstep, hr1, hs1, hrm1⟩ := hstep
  rw [_setattrs_run, happ, hstep]
  simp only
  unfold _setattrs_omap
  by_cases hu : g_conf.filestore_xattr_use_omap = true
  · simp only [hu, if_true, bind_run, ask_run, ite_run, pure_run, mutate_run, hrm1 hu, hs1, hr1]
    split_ifs with h1 h2 h3
    · exact ⟨_, [], rfl, h1, by simp, by simp, fun h => absurd h (by simp), fun h => by omega⟩
    · exact ⟨_, [Mut.object_map_remove_xattrs oid (set_insert l.omap_remove p.1) spos], rfl,
        h2.1, by simp, by simp, fun h => absurd h (by simp), fun _ h => by omega⟩
    · exact ⟨_, [Mut.object_map_remove_xattrs oid (set_insert l.omap_remove p.1) spos,
          Mut.object_map_set_xattrs oid l.omap_set spos], rfl,
        h3, by simp, by simp, fun h => absurd h (by simp), fun _ _ h => by omega⟩
    · exact ⟨_, [Mut.object_map_remove_xattrs oid (set_insert l.omap_remove p.1) spos,
          Mut.object_map_set_xattrs oid l.omap_set spos], rfl,
        by simp [ENOSPC], by simp, by simp, fun h => absurd h (by simp), fun _ _ _ => rfl⟩
  · have hb : g_conf.filestore_xattr_use_omap = false := by simpa using hu
    simp only [hb, Bool.false_eq_true, if_false, pure_run, hr1]
    exact ⟨_, [], rfl, by simp [ENOSPC], by simp, by simp, fun _ => ⟨rfl, rfl⟩,
      fun _ _ _ => rfl⟩

/-- C14 amended, at a concrete store: with room for eight bytes, `_setattrs` of
nine bytes for `_` and one byte for the name 96 stops at the first entry. -/
theorem inline_enospc_not_migrated_witness :
    ∃ r tl, (_setattrs (memstore false false) conf_omap 1 2
        ([] ++ ([95], [1, 2, 3, 4, 5, 6, 7, 8, 9]) :: [([96], [1])]) ⟨5, 0, 0⟩ w_small).1 =
        Except.ok r ∧ r < 0 ∧
      (_setattrs (memstore false false) conf_omap 1 2
        ([] ++ ([95], [1, 2, 3, 4, 5, 6, 7, 8, 9]) :: [([96], [1])]) ⟨5, 0, 0⟩ w_small).2.trace =
        (lfn_setxattr (memstore false false) 1 2 (get_attrname [95] ATTR_MAX_NAME_LEN)
          [1, 2, 3, 4, 5, 6, 7, 8, 9] w_small).2.trace ++ tl ∧
      (∀ e ∈ tl, e = Mut.object_map_remove_xattrs 2 (set_insert [] [95]) ⟨5, 0, 0⟩ ∨
        e = Mut.object_map_set_xattrs 2 [] ⟨5, 0, 0⟩) :=
  have h := inline_enospc_not_migrated (memstore false false) conf_omap 1 2 ⟨5, 0, 0⟩ []
    ([95], [1, 2, 3, 4, 5, 6, 7, 8, 9]) [([96], [1])]
    ⟨[], [], if conf_omap.filestore_xattr_use_omap then
      ((memstore false false)._getattrs 1 2 w_small.fs).2 else [], 0⟩
    w_small w_small _ rfl (by decide) (fun _ => by decide) (Prod.ext (by decide) rfl)
  match h with
  | ⟨r, tl, h1, h2, h3, h4, _⟩ => ⟨r, tl, h1, h2, h3, h4⟩

/-! ## `collection_empty` (C15) -/

/-- C15 fails on the code: the collection `1` of `fs_hello` holds the object `2`,
the listing of at most one object gives `[2]`, and `collection_empty` returns
`true`; the collection `4` holds nothing, the listing is empty, and
`collection_empty` returns `false`. The function returns `ls.size() > 0`. -/
theorem collection_empty_inverted :
    memsys.collection_list_partial 1 0 1 1 0 fs_hello = (0, [2]) ∧
    collection_empty (memstore false false) 1 fs_hello = true ∧
    memsys.collection_list_partial 4 0 1 1 0 fs_hello = (0, []) ∧
    collection_empty (memstore false false) 4 fs_hello = false := by
  decide

/-! ## The throttle and one large op (C16) -/

/-- C16 fails where the sum of the queued bytes and the bytes of the op leaves
the range of `uint64_t`: with a byte limit of 100 and one byte queued, an op of
`2^64 - 1` bytes is let in, because the sum is computed as `0`. -/
theorem throttle_sum_wraps :
    _op_queue_reserve_throttle_max ⟨50, 100, 0, 0⟩ false = (50, 100) ∧
    _op_queue_reserve_throttle ⟨50, 100, 0, 0⟩ false ⟨1, 1⟩ 18446744073709551615 =
      some ⟨2, 0⟩ := by
  decide

/-- C16, amended: an op whose byte count exceeds the non-zero byte limit in
force is let in at once when the queue is empty, and has to wait whenever bytes
are queued and their sum with the bytes of the op is in the range of `uint64_t`. -/
theorem large_op_admission (m : ThrottleLimits) (is_committing : Bool) (q : OpQueueCounts)
    (bytes : Nat)
    (hlim : (_op_queue_reserve_throttle_max m is_committing).2 ≠ 0)
    (hbig : bytes > (_op_queue_reserve_throttle_max m is_committing).2) :
    (q = ⟨0, 0⟩ → _op_queue_reserve_throttle m is_committing q bytes = some ⟨1, toUInt64 bytes⟩) ∧
    (q.op_queue_bytes ≠ 0 → q.op_queue_bytes + bytes < 18446744073709551616 →
      _op_queue_reserve_throttle m is_committing q bytes = none) := by
  generalize hmax : (_op_queue_reserve_throttle_max m is_committing) = lim at hlim hbig
  constructor
  · rintro rfl
    have h1 : toUInt64 (((0 : Nat) : Int) + 1) = 1 := by
      have := toUInt64_small (((0 : Nat) : Int) + 1) (by omega) (by omega)
      omega
    have hw : _op_queue_reserve_throttle_wait lim.1 lim.2 ⟨0, 0⟩ bytes = false := by
      unfold _op_queue_reserve_throttle_wait
      simp only [h1, ne_eq, not_true_eq_false, false_and, and_false, or_false,
        decide_eq_false_iff_not, not_and, not_lt, gt_iff_lt]
      intro h0
      omega
    have h1a : toUInt64 1 = 1 := by unfold toUInt64; omega
    unfold _op_queue_reserve_throttle
    rw [hmax, hw]
    simp [h1a]
  · intro hq hsum
    have h2 : toUInt64 ((q.op_queue_bytes : Int) + (bytes : Int)) = q.op_queue_bytes + bytes := by
      have := toUInt64_small ((q.op_queue_bytes : Int) + (bytes : Int)) (by omega) (by omega)
      omega
    have hw : _op_queue_reserve_throttle_wait lim.1 lim.2 q bytes = true := by
      unfold _op_queue_reserve_throttle_wait
      simp only [decide_eq_true_eq]
      right
      refine ⟨hlim, hq, ?_⟩
      rw [h2]
      omega
    unfold _op_queue_reserve_throttle
    rw [hmax, hw]
    rfl

/-- C16 amended, at concrete counts: with a byte limit of 100, an op of 200 bytes
is let in on the empty queue and waits behind 7 queued bytes. -/
theorem large_op_admission_witness :
    _op_queue_reserve_throttle ⟨50, 100, 0, 0⟩ false ⟨0, 0⟩ 200 = some ⟨1, toUInt64 200⟩ ∧
    _op_queue_reserve_throttle ⟨50, 100, 0, 0⟩ false ⟨3, 7⟩ 200 = none :=
  ⟨(large_op_admission ⟨50, 100, 0, 0⟩ false ⟨0, 0⟩ 200 (by decide) (by decide)).1 rfl,
    (large_op_admission ⟨50, 100, 0, 0⟩ false ⟨3, 7⟩ 200 (by decide) (by decide)).2 (by decide)
      (by decide)⟩

/-! ## The throttle while a commit is in flight (C17) -/

/-- C17 fails on the code. With `filestore_queue_max_ops = 0`, which the loop
takes as no limit, and the allowances 500 and 104857600, an op is let in behind
500 queued ops when no commit is in flight, and has to wait while one is: the
limit has become 500. And a negative allowance lowers a limit of 5 to 4. -/
theorem commit_shrinks_limit :
    _op_queue_reserve_throttle ⟨0, 0, 500, 104857600⟩ false ⟨500, 0⟩ 10 = some ⟨501, 10⟩ ∧
    _op_queue_reserve_throttle_max ⟨0, 0, 500, 104857600⟩ true = (500, 104857600) ∧
    _op_queue_reserve_throttle ⟨0, 0, 500, 104857600⟩ true ⟨500, 0⟩ 10 = none ∧
    _op_queue_reserve_throttle ⟨5, 100, -1, 0⟩ false ⟨4, 0⟩ 10 = some ⟨5, 10⟩ ∧
    _op_queue_reserve_throttle_max ⟨5, 100, -1, 0⟩ true = (4, 100) ∧
    _op_queue_reserve_throttle ⟨5, 100, -1, 0⟩ true ⟨4, 0⟩ 10 = none := by
  decide

/-- C17, amended: when the limits and the allowances are not negative, each
limit with its allowance stays in the range of `uint64_t`, and a limit is zero
only if its allowance is zero too, an op that is let in with no commit in flight
is let in, with the same counts, while a commit is in flight. -/
theorem commit_enlarges_limits (m : ThrottleLimits) (q q1 : OpQueueCounts) (bytes : Nat)
    (h1 : 0 ≤ m.m_filestore_queue_max_ops) (h2 : 0 ≤ m.m_filestore_queue_committing_max_ops)
    (h3 : m.m_filestore_queue_max_ops + m.m_filestore_queue_committing_max_ops <
      18446744073709551616)
    (h4 : 0 ≤ m.m_filestore_queue_max_bytes) (h5 : 0 ≤ m.m_filestore_queue_committing_max_bytes)
    (h6 : m.m_filestore_queue_max_bytes + m.m_filestore_queue_committing_max_bytes <
      18446744073709551616)
    (h7 : m.m_filestore_queue_max_ops ≠ 0 ∨ m.m_filestore_queue_committing_max_ops = 0)
    (h8 : m.m_filestore_queue_max_bytes ≠ 0 ∨ m.m_filestore_queue_committing_max_bytes = 0)
    (h : _op_queue_reserve_throttle m false q bytes = some q1) :
    _op_queue_reserve_throttle m true q bytes = some q1 := by
  have e1 := toUInt64_small m.m_filestore_queue_max_ops h1 (by omega)
  have e2 := toUInt64_small m.m_filestore_queue_max_bytes h4 (by omega)
  have e3 := toUInt64_small
    (toUInt64 m.m_filestore_queue_max_ops + m.m_filestore_queue_committing_max_ops)
    (by omega) (by omega)
  have e4 := toUInt64_small
    (toUInt64 m.m_filestore_queue_max_bytes + m.m_filestore_queue_committing_max_bytes)
    (by omega) (by omega)
  unfold _op_queue_reserve_throttle at h ⊢
  unfold _op_queue_reserve_throttle_max at h ⊢
  simp only [Bool.false_eq_true, if_false, if_true] at h ⊢
  generalize toUInt64 (toUInt64 m.m_filestore_queue_max_ops +
    m.m_filestore_queue_committing_max_ops) = mo1 at e3 ⊢
  generalize toUInt64 (toUInt64 m.m_filestore_queue_max_bytes +
    m.m_filestore_queue_committing_max_bytes) = mb1 at e4 ⊢
  generalize toUInt64 m.m_filestore_queue_max_ops = mo at e1 e3 h
  generalize toUInt64 m.m_filestore_queue_max_bytes = mb at e2 e4 h
  unfold _op_queue_reserve_throttle_wait at h ⊢
  generalize toUInt64 (↑q.op_queue_len + 1) = a at h ⊢
  generalize toUInt64 (↑q.op_queue_bytes + ↑bytes) = b at h ⊢
  split_ifs at h with hw
  split_ifs with hw1
  · exfalso
    simp only [decide_eq_true_eq, ne_eq, gt_iff_lt, not_or, not_and, not_lt] at hw hw1
    rcases hw1 with ⟨c1, c2⟩ | ⟨c1, c2, c3⟩
    · have := hw.1
      omega
    · have := hw.2
      omega
  · exact h

/-- C17 amended, at concrete values: limits of 500 ops and 1000 bytes with
allowances of the same size. -/
theorem commit_enlarges_limits_witness :
    _op_queue_reserve_throttle ⟨500, 1000, 500, 1000⟩ true ⟨499, 10⟩ 5 = some ⟨500, 15⟩ :=
  commit_enlarges_limits ⟨500, 1000, 500, 1000⟩ ⟨499, 10⟩ ⟨500, 15⟩ 5 (by decide) (by decide)
    (by decide) (by decide) (by decide) (by decide) (by decide) (by decide) (by decide)

/-! ## The order of a commit cycle (C19) -/

/-- C20 fails on the code: when the base directory lists `snap_5` before
`snap_3`, `mount` rolls back to `snap_3`, the last one listed (`snaps.back()`),
not to the largest; only when they are listed in ascending order is it `snap_5`. -/
theorem mount_rolls_back_to_last_listed :
    mount_snaps [COMMIT_SNAP_ITEM ++ decimal 5, COMMIT_SNAP_ITEM ++ decimal 3] ([], []) =
      ([5, 3], []) ∧
    mount_rollback true true [] false false
      [COMMIT_SNAP_ITEM ++ decimal 5, COMMIT_SNAP_ITEM ++ decimal 3] =
      Except.ok (RollbackTarget.commit_snap 3) ∧
    mount_rollback true true [] false false
      [COMMIT_SNAP_ITEM ++ decimal 3, COMMIT_SNAP_ITEM ++ decimal 5] =
      Except.ok (RollbackTarget.commit_snap 5) := by
  decide

/-! ## The journal mode after `mount` (C21) -/

/-- C21: when `mount` gets past `_sanity_check_fs`, `queue_transactions` does not
reach `assert(0)`, and with a journal exactly one of the three mode flags is
set; with more than one flag configured the check gives `-EINVAL`; with a
journal and no flag configured `mount` sets `parallel` when btrfs, snapshot
commits and `SNAP_CREATE_V2` are all there, and `writeahead` otherwise. -/
theorem journal_mode_exactly_one
    (btrfs btrfs_stable_commits btrfs_snap_create_v2 : Bool) (m : JournalMode) :
    (∀ journal m1,
      mount_journal_mode journal btrfs btrfs_stable_commits btrfs_snap_create_v2 m =
        Except.ok m1 →
      (journal = true →
        m1.m_filestore_journal_writeahead.toNat + m1.m_filestore_journal_parallel.toNat +
          m1.m_filestore_journal_trailing.toNat = 1) ∧
      ∀ filestore_blackhole journal_is_writeable,
        queue_transactions_path filestore_blackhole journal journal_is_writeable m1 ≠
          QueuePath.assert_0) ∧
    (∀ journal, m.m_filestore_journal_writeahead.toNat + m.m_filestore_journal_parallel.toNat +
        m.m_filestore_journal_trailing.toNat > 1 →
      mount_journal_mode journal btrfs btrfs_stable_commits btrfs_snap_create_v2 m =
        Except.error (- EINVAL)) ∧
    (m = ⟨false, false, false⟩ →
      mount_journal_mode true btrfs btrfs_stable_commits btrfs_snap_create_v2 m =
        Except.ok ⟨btrfs && btrfs_stable_commits && btrfs_snap_create_v2, false,
          !(btrfs && btrfs_stable_commits && btrfs_snap_create_v2)⟩) := by
  obtain ⟨p, t, a⟩ := m
  refine ⟨fun journal m1 h => ?_, fun journal h => ?_, fun h => ?_⟩
  · have h1 : _sanity_check_fs (mount_select_journal_mode journal btrfs btrfs_stable_commits
        btrfs_snap_create_v2 ⟨p, t, a⟩) = 0 ∧
        m1 = mount_select_journal_mode journal btrfs btrfs_stable_commits
          btrfs_snap_create_v2 ⟨p, t, a⟩ := by
      unfold mount_journal_mode at h
      split_ifs at h with h0
      · exact ⟨not_not.mp h0, (Except.ok.inj h).symm⟩
    obtain ⟨h0, rfl⟩ := h1
    revert h0
    cases journal <;> cases btrfs <;> cases btrfs_stable_commits <;>
      cases btrfs_snap_create_v2 <;> cases p <;> cases t <;> cases a <;> decide
  · revert h
    cases journal <;> cases btrfs <;> cases btrfs_stable_commits <;>
      cases btrfs_snap_create_v2 <;> cases p <;> cases t <;> cases a <;> decide
  · cases h
    cases btrfs <;> cases btrfs_stable_commits <;> cases btrfs_snap_create_v2 <;> decide

/-- On btrfs with snapshot commits and `SNAP_CREATE_V2`, and no mode configured,
`mount` selects the parallel mode, and `queue_transactions` journals in
parallel. -/
theorem journal_mode_exactly_one_witness :
    mount_journal_mode true true true true ⟨false, false, false⟩ =
        Except.ok ⟨true, false, false⟩ ∧
      (true.toNat + false.toNat + false.toNat = 1) ∧
      queue_transactions_path false true true ⟨true, false, false⟩ ≠ QueuePath.assert_0 :=
  ⟨by decide,
    ((journal_mode_exactly_one true true true ⟨false, false, false⟩).1 true ⟨true, false, false⟩
      (by decide)).1 rfl,
    ((journal_mode_exactly_one true true true ⟨false, false, false⟩).1 true ⟨true, false, false⟩
      (by decide)).2 false true⟩


/-! ## The snapshots a commit cycle keeps (C25) -/

/-- C25: a commit cycle that runs under snapshot commits keeps the last two
entries of the list `snaps` as it is after the sequence number `cp` of the cycle
has been appended (all of it when it has fewer than three entries), so at most
two; after `commit_finish` it calls `BTRFS_IOC_SNAP_DESTROY` for the entries
before them, in the order of the list, and for nothing else. -/
theorem snapshot_gc_keeps_last_two {σ : Type} (st : Store σ) (filestore_debug_omap_check : Bool)
    (snaps snaps1 : List Nat) (w w1 : World σ)
    (hs : st.btrfs_stable_commits = true)
    (hc : (st.mutate Mut.commit_start w.fs).1 ≠ 0)
    (h : sync_entry_commit st filestore_debug_omap_check snaps w = (Except.ok snaps1, w1)) :
    snaps1.length ≤ 2 ∧
    snaps1 = (snaps ++ [st.committing_seq (st.mutate Mut.commit_start w.fs).2]).drop
      ((snaps ++ [st.committing_seq (st.mutate Mut.commit_start w.fs).2]).length - 2) ∧
    snaps1.getLast? = some (st.committing_seq (st.mutate Mut.commit_start w.fs).2) ∧
    ∃ before, (∀ e ∈ before, ∀ n, e ≠ Mut.btrfs_ioc_snap_destroy n) ∧
      w1.trace = w.trace ++ before ++ Mut.commit_finish ::
        ((snaps ++ [st.committing_seq (st.mutate Mut.commit_start w.fs).2]).take
          ((snaps ++ [st.committing_seq (st.mutate Mut.commit_start w.fs).2]).length - 2)).map
          (fun a => Mut.btrfs_ioc_snap_destroy (COMMIT_SNAP_ITEM ++ PRId64 a)) := by
  generalize hcp : st.committing_seq (st.mutate Mut.commit_start w.fs).2 = cp
  unfold sync_entry_commit write_op_seq at h
  simp only [bind_run, mutate_run, ite_run, pure_run, ask_run, die_run] at h
  rw [if_neg hc] at h
  split_ifs at h with h2 h3
  · simp at h
  · simp at h
  · rw [hcp] at h
    generalize hres : sync_entry_durability st cp snaps _ = out at h
    obtain ⟨res, w3⟩ := out
    cases res with
    | error e => simp at h
    | ok s1 =>
      obtain ⟨hs1, mid, hmid, hno⟩ := sync_entry_durability_stable st cp snaps s1 _ w3 hs hres
      simp only at h
      rw [sync_entry_remove_snaps_run st _ s1 _ rfl] at h
      simp only [Prod.mk.injEq, Except.ok.injEq] at h
      obtain ⟨h4, h5⟩ := h
      subst hs1
      refine ⟨?_, h4.symm, ?_, [Mut.commit_start, Mut.sys_pwrite st.op_fd (PRId64 cp ++ [10]) 0] ++ mid,
        ?_, ?_⟩
      · rw [← h4]
        simp only [List.length_drop, List.length_append, List.length_singleton]
        omega
      · rw [← h4, List.getLast?_drop]
        simp
        omega
      · intro e he n
        simp only [List.cons_append, List.nil_append, List.mem_cons] at he
        rcases he with rfl | rfl | he
        · simp
        · simp
        · exact (hno e he).2 n
      · rw [← h5]
        simp only [hmid]
        simp

/-- A cycle on the snapshots `3, 4`, at the sequence number `0` that the
in-memory store commits: `snap_3` is destroyed, `4, 0` are kept. -/
theorem snapshot_gc_keeps_last_two_witness :
    (sync_entry_commit { memstore false true with btrfs := true, op_fd := 7 } false [3, 4] w_hello).1 =
        Except.ok [4, 0] ∧
      ∃ before, (∀ e ∈ before, ∀ n, e ≠ Mut.btrfs_ioc_snap_destroy n) ∧
        (sync_entry_commit { memstore false true with btrfs := true, op_fd := 7 } false [3, 4] w_hello).2.trace =
          w_hello.trace ++ before ++
            [Mut.commit_finish, Mut.btrfs_ioc_snap_destroy (COMMIT_SNAP_ITEM ++ PRId64 3)] :=
  ⟨by decide,
    (snapshot_gc_keeps_last_two { memstore false true with btrfs := true, op_fd := 7 } false [3, 4] [4, 0]
      w_hello _ rfl (by decide) (eq_of_fst_eq _ _ (by decide))).2.2.2⟩


/-! ## What `write_op_seq` writes (C22) -/

/-- C22 fails on the code for the sequence numbers from `2^63` on:
`write_op_seq(fd, 9223372036854775808)` writes the 21 bytes of
`-9223372036854775808` and a newline at offset `0`, the value printed as a signed
number (`PRId64`), and returns `21`; the decimal representation of the sequence
number and a newline are the 20 bytes of `9223372036854775808` and a newline. -/
theorem write_op_seq_prints_signed :
    (write_op_seq (memstore false false) 50 9223372036854775808 w_op_seq).1 = Except.ok 21 ∧
    (write_op_seq (memstore false false) 50 9223372036854775808 w_op_seq).2.trace =
      [Mut.sys_pwrite 50 [45, 57, 50, 50, 51, 51, 55, 50, 48, 51, 54, 56, 53, 52, 55, 55, 53, 56,
        48, 56, 10] 0] ∧
    decimal 9223372036854775808 ++ [10] =
      [57, 50, 50, 51, 51, 55, 50, 48, 51, 54, 56, 53, 52, 55, 55, 53, 56, 48, 56, 10] := by
  decide

/-! ## Reading the sequence number back (C26) -/

/-- C26: on the in-memory file system, for every sequence number `seq` of 64
bits and every content of `current/commit_op_seq`, `write_op_seq(fd, seq)` on a
descriptor of the file succeeds and leaves the characters it printed, a newline
and the bytes the file had after them; `read_op_seq` then returns the descriptor
it opened and sets `*seq` to `seq`. -/
theorem read_op_seq_after_write (st : Store MemFS) (hst : st.toSys = memsys) (w : World MemFS)
    (i : Nat) (n : Inode) (seq seq0 : Nat) (hseq : seq < 18446744073709551616)
    (hino : w.fs.op_seq_ino = some i) (hn : w.fs.inodes.lookup i = some n) :
    (write_op_seq st (i : Int) seq w).1 = Except.ok ((((PRId64 seq).length + 1 : Nat)) : Int) ∧
    ((write_op_seq st (i : Int) seq w).2.fs.inodes.lookup i).map Inode.data =
      some (PRId64 seq ++ 10 :: n.data.drop ((PRId64 seq).length + 1)) ∧
    (read_op_seq st seq0 (write_op_seq st (i : Int) seq w).2).1 = Except.ok ((i : Int), seq) := by
  rw [write_op_seq_mem st hst w i n seq hn]
  refine ⟨rfl, ?_, ?_⟩
  · simp only [lookup_set_inode, Option.map_some']
  · rw [read_op_seq_mem st hst _ i _ seq0 (by simpa [MemFS.set_inode] using hino)
      (lookup_set_inode _ _ _)]
    simp only [take_PRId64, atoll_PRId64 _ _ hseq]

/-- The file holds `12345` and a newline; after `write_op_seq(fd, 7)` it holds
`7`, a newline, and the old bytes `345` and newline, and `read_op_seq` gives `7`. -/
theorem read_op_seq_after_write_witness :
    ((write_op_seq (memstore false false) 50 7 w_op_seq).2.fs.inodes.lookup 50).map Inode.data =
        some [55, 10, 51, 52, 53, 10] ∧
      (read_op_seq (memstore false false) 0
        (write_op_seq (memstore false false) 50 7 w_op_seq).2).1 = Except.ok (50, 7) :=
  ⟨(read_op_seq_after_write (memstore false false) rfl w_op_seq 50
      ⟨[49, 50, 51, 52, 53, 10], 1, none, []⟩ 7 0 (by decide) rfl rfl).2.1,
    (read_op_seq_after_write (memstore false false) rfl w_op_seq 50
      ⟨[49, 50, 51, 52, 53, 10], 1, none, []⟩ 7 0 (by decide) rfl rfl).2.2⟩

/-! ## Raw names are not shared (C27) -/

/-- C27: for names of at most `ATTR_MAX_NAME_LEN` characters and chunk indices in
the range of `int`, `get_raw_xattr_name` on a buffer of
`ATTR_MAX_NAME_LEN * 2 + 16` characters passes its assertions, and gives the same
raw name for `(n1, i1)` and `(n2, i2)` only when `n1 = n2` and `i1 = i2`. -/
theorem get_raw_xattr_name_injective (n1 n2 : List Nat) (i1 i2 : Nat)
    (hn1 : n1.length ≤ ATTR_MAX_NAME_LEN) (hn2 : n2.length ≤ ATTR_MAX_NAME_LEN)
    (hi1 : i1 < 2147483648) (hi2 : i2 < 2147483648) :
    (get_raw_xattr_name n1 i1 (ATTR_MAX_NAME_LEN * 2 + 16)).isSome = true ∧
    (get_raw_xattr_name n2 i2 (ATTR_MAX_NAME_LEN * 2 + 16)).isSome = true ∧
    (get_raw_xattr_name n1 i1 (ATTR_MAX_NAME_LEN * 2 + 16) =
        get_raw_xattr_name n2 i2 (ATTR_MAX_NAME_LEN * 2 + 16) → n1 = n2 ∧ i1 = i2) := by
  rw [get_raw_xattr_name_total n1 i1 hn1 hi1, get_raw_xattr_name_total n2 i2 hn2 hi2]
  refine ⟨rfl, rfl, fun h => ?_⟩
  exact chunk_name_injective n1 n2 i1 i2 (Option.some.inj h)

/-- The first chunk of the attribute `a@1`, whose raw name is `a@@1`, and the
chunk `1` of the attribute `a`, whose raw name is `a@1`, have different raw
names. -/
theorem get_raw_xattr_name_injective_witness :
    get_raw_xattr_name [97, 64, 49] 0 (ATTR_MAX_NAME_LEN * 2 + 16) = some [97, 64, 64, 49] ∧
      get_raw_xattr_name [97] 1 (ATTR_MAX_NAME_LEN * 2 + 16) = some [97, 64, 49] ∧
      get_raw_xattr_name [97, 64, 49] 0 (ATTR_MAX_NAME_LEN * 2 + 16) ≠
        get_raw_xattr_name [97] 1 (ATTR_MAX_NAME_LEN * 2 + 16) :=
  ⟨by decide, by decide, fun h =>
    absurd ((get_raw_xattr_name_injective [97, 64, 49] [97] 0 1 (by decide) (by decide)
      (by decide) (by decide)).2.2 h).2 (by decide)⟩

/-! ## Raw names translated back (C28) -/

/-- C28: for a name `n` of at most `ATTR_MAX_NAME_LEN` characters and a chunk
index `i` in the range of `int`, `translate_raw_name` on the raw name that
`get_raw_xattr_name(n, i)` made leaves `n` in `name`, returns its length, and
sets `is_first` exactly when `i = 0`. And when the attributes that
`sys_listxattr` lists are the raw names of the chunks `chunks` and `names` has
room for them, `do_listxattr` leaves in `names` the name of every chunk `0`,
unescaped, in the order listed, and nothing for the other chunks; its result is
the number of bytes of these names and their terminators. -/
theorem translate_raw_name_inverts {σ : Type} (st : Store σ) :
    (∀ (n : List Nat) (i : Nat), n.length ≤ ATTR_MAX_NAME_LEN → i < 2147483648 →
      ∃ raw_name, get_raw_xattr_name n i (ATTR_MAX_NAME_LEN * 2 + 16) = some raw_name ∧
        translate_raw_name raw_name (ATTR_MAX_NAME_LEN * 2 + 16) =
          Except.ok (n, (n.length : Int), decide (i = 0))) ∧
    (∀ (fn : IndexedPath) (len : Nat) (w : World σ) (chunks : List (List Nat × Nat))
        (r0 r : Int) (l0 raws : List (List Nat)),
      len ≠ 0 →
      st.sys_listxattr fn 0 w.fs = (r0, l0) → 0 ≤ r0 → r0 * 2 < 2147483648 →
      st.sys_listxattr fn (r0 * 2).toNat w.fs = (r, raws) → 0 ≤ r →
      raws.map some =
        chunks.map (fun c => get_raw_xattr_name c.1 c.2 (ATTR_MAX_NAME_LEN * 2 + 16)) →
      ((chunks.filter (fun c => c.2 == 0)).map (fun c => c.1.length + 1)).sum ≤ len →
      do_listxattr st fn len w =
        (Except.ok (toInt32 ((((chunks.filter (fun c => c.2 == 0)).map
            (fun c => c.1.length + 1)).sum : Nat)),
          (chunks.filter (fun c => c.2 == 0)).map Prod.fst), w)) := by
  refine ⟨fun n i hn hi => ?_, ?_⟩
  · refine ⟨chunk_name n i, get_raw_xattr_name_total n i hn hi, ?_⟩
    exact translate_raw_name_chunk_name _ n i (by unfold ATTR_MAX_NAME_LEN at hn ⊢; push_cast; omega)
  · intro fn len w chunks r0 r l0 raws hlen0 h0 hr0 hr1 h1 hr hraws hlen
    obtain ⟨hr2, hn⟩ := raws_of_chunks (ATTR_MAX_NAME_LEN * 2 + 16) (by decide) chunks raws hraws
    rw [hr2] at h1
    exact do_listxattr_chunks st fn len w chunks r0 r l0 hlen0 h0 hr0 hr1 h1 hr hn hlen

/-- The raw name `k@@` is the first chunk of `k@`, and `k@@@1` is a later one. The
object `1/2` has the raw attributes `k@@`, `k@@@1` and `m`: `do_listxattr` lists
`k@` and `m`, five bytes with the terminators. -/
theorem translate_raw_name_inverts_witness :
    (∃ raw_name, get_raw_xattr_name [107, 64] 1 (ATTR_MAX_NAME_LEN * 2 + 16) = some raw_name ∧
      translate_raw_name raw_name (ATTR_MAX_NAME_LEN * 2 + 16) =
        Except.ok ([107, 64], 2, false)) ∧
    do_listxattr (memstore false false) ⟨1, 2⟩ 100 w_chunks =
      (Except.ok (5, [[107, 64], [109]]), w_chunks) :=
  ⟨(translate_raw_name_inverts (memstore false false)).1 [107, 64] 1 (by decide) (by decide),
    (translate_raw_name_inverts (memstore false false)).2 ⟨1, 2⟩ 100 w_chunks
      [([107, 64], 0), ([107, 64], 1), ([109], 0)] 12 12 []
      [[107, 64, 64], [107, 64, 64, 64, 49], [109]]
      (by decide) (by decide) (by decide) (by decide) (by decide) (by decide) (by decide)
      (by decide)⟩


/-! ## The positions of a batch (C24) -/

/-- C24: `do_transactions` on a batch applied at `op_seq` runs as the opcodes
applied one after the other, the `k`-th opcode of the `j`-th transaction (both
counted from `0`) at the position `(op_seq, j, k)`, and these positions, in the
order of application, increase strictly in the lexicographic order. With failure
injection off, let `w1` be the world that the opcodes before the `k`-th opcode
of the `j`-th transaction leave. The rest of the batch is applied from `w1`,
beginning with the interpreter loop at `(op_seq, j, k)`. The opcode is
guard-checked with `(op_seq, j, k)`: if the check of its object or collection at
this position says skip, the opcode changes nothing; for the opcodes with the
check in front, the world after the opcode is the world that their call leaves
when the check at this position says replay, and `w1` otherwise. The opcode is
stamped with `(op_seq, j, k)`: every call it makes that is handed a position,
the write of the guard among them, is handed this one; and CLONERANGE and
CLONERANGE2, without snapshot commits, once the check lets them go on and both
files are opened, make the copy and then the guard steps at `(op_seq, j, k)`,
unless the write of the guard attribute fails. -/
theorem positions_of_a_batch {σ : Type} (st : Store σ) (tls : List Transaction) (op_seq : Nat) :
    do_transactions st tls op_seq = apply_batch st (batch_stamped op_seq tls) ∧
    (∀ (j k : Nat) (t : Transaction) (op : TransactionOp),
      tls[j]? = some t → t[k]? = some op →
        ((batch_stamped op_seq tls)[j]?).bind (fun l => l[k]?) = some (op, ⟨op_seq, j, k⟩)) ∧
    List.Pairwise (fun a b : SequencerPosition => a < b)
      ((batch_stamped op_seq tls).flatten.map Prod.snd) ∧
    (∀ (w w1 : World σ) (j k : Nat) (t : Transaction) (op : TransactionOp),
      w.m_filestore_kill_at = 0 → tls[j]? = some t → t[k]? = some op →
      do_transactions st (tls.take j ++ [t.take k]) op_seq w = (Except.ok 0, w1) →
      do_transactions st tls op_seq w =
        (do
          _do_transaction_loop st (t.drop k) ⟨op_seq, j, k⟩
          _inject_failure
          do_transactions_loop st op_seq (tls.drop (j + 1)) (j + 1) 0 : M σ Int) w1 ∧
      (∀ (g : GuardTarget) (d : Int), op.guard_target = some g →
        check_guard st g ⟨op_seq, j, k⟩ w1 = (Except.ok d, w1) → d < 0 →
        do_transactions st (tls.take j ++ [t.take (k + 1)]) op_seq w = (Except.ok 0, w1)) ∧
      (∀ (cid : coll_t) (oid : hobject_t) (d : Int), op.checks_before_call cid oid = true →
        _check_replay_guard_oid st cid oid ⟨op_seq, j, k⟩ w1 = (Except.ok d, w1) →
        (do_transactions st (tls.take j ++ [t.take (k + 1)]) op_seq w).2 =
          if d > 0 then (op.primitive st ⟨op_seq, j, k⟩ w1).2 else w1) ∧
      (∀ e ∈ added w1 (do_transactions st (tls.take j ++ [t.take (k + 1)]) op_seq w).2.trace,
        e.at_position ⟨op_seq, j, k⟩) ∧
      (∀ (cid : coll_t) (oid noid : hobject_t) (srcoff len dstoff : Nat) (d o n : Int)
          (wn : World σ),
        st.btrfs_stable_commits = false →
        (op = TransactionOp.OP_CLONERANGE2 cid oid noid srcoff len dstoff ∨
          (op = TransactionOp.OP_CLONERANGE cid oid noid srcoff len ∧ dstoff = srcoff)) →
        _check_replay_guard_oid st cid noid ⟨op_seq, j, k⟩ w1 = (Except.ok d, w1) → 0 ≤ d →
        lfn_open st cid oid O_RDONLY false w1 = (Except.ok o, w1) → 0 ≤ o →
        lfn_open st cid noid (O_CREAT ||| O_WRONLY) false w1 = (Except.ok n, wn) → 0 ≤ n →
        (do_transactions st (tls.take j ++ [t.take (k + 1)]) op_seq w).1 ≠
          Except.error Fatal.fsetxattr_failed →
        (do_transactions st (tls.take j ++ [t.take (k + 1)]) op_seq w).2.trace =
          wn.trace ++ (Mut._do_clone_range o n srcoff len dstoff ::
            guard_steps n ⟨op_seq, j, k⟩ (some noid) false))) := by
  refine ⟨?_, ?_, ?_, ?_⟩
  · exact do_transactions_loop_stamped st op_seq tls 0
  · intro j k t op hj hk
    simp only [batch_stamped, stamped, List.getElem?_map, List.getElem?_enum, hj, Option.map_some',
      Option.some_bind, hk]
  · exact (batch_positions op_seq tls 0).1
  · intro w w1 j k t op hk ht hop h
    obtain ⟨hk1, hR, hS⟩ := do_transactions_at st tls op_seq w w1 j k t op hk ht hop h
    obtain ⟨hw, he⟩ := policy_world st op.get_op (_do_transaction_switch st op ⟨op_seq, j, k⟩ w1)
    refine ⟨hR, ?_, ?_, ?_, ?_⟩
    · intro g d hg hd hneg
      rw [hS, _do_transaction_switch_skip st op g d _ w1 hg hd hneg]
      simp
    · intro cid oid d hc hd
      rw [hS, hw, _do_transaction_switch_checked st op cid oid d _ w1 hc hd]
      split_ifs <;> rfl
    · intro e hmem
      obtain ⟨_, l, hl, hall⟩ := _do_transaction_switch_all st op ⟨op_seq, j, k⟩ w1 hk1
      rw [hS, hw, hl, added_append] at hmem
      exact hall e hmem
    · intro cid oid noid srcoff len dstoff d o n wn hs hcase hd hd0 ho ho0 hn hn0 hres
      have hsw : _do_transaction_switch st op ⟨op_seq, j, k⟩ w1 =
          _clone_range st cid oid noid srcoff len dstoff ⟨op_seq, j, k⟩ w1 := by
        rcases hcase with rfl | ⟨rfl, rfl⟩ <;> rfl
      rw [hS, hw, hsw]
      refine _clone_range_stamps st cid oid noid srcoff len dstoff _ w1 wn d o n hs hk1 hd hd0 ho
        ho0 hn hn0 (fun hbad => hres ?_)
      rw [hS]
      exact he _ (by rw [hsw]; exact hbad)

/-- Three batches. Under replay at sequence number `5`, the WRITE that is the
opcode `1` of the transaction `0` meets the closed guard `(5, 0, 1)` of `w_closed`
and is skipped; at sequence number `6` the same batch writes. Outside replay, the
CLONERANGE2 that is the opcode `1` of the transaction `1` of a batch at `5`
stamps the guard of the destination with `(5, 1, 1)`. -/
theorem positions_of_a_batch_witness :
    do_transactions (memstore true false)
      [[TransactionOp.OP_NOP, TransactionOp.OP_WRITE 1 2 0 1 [33]]] 5 w_closed =
        (Except.ok 0, w_closed) ∧
    (do_transactions (memstore true false)
      [[TransactionOp.OP_NOP, TransactionOp.OP_WRITE 1 2 0 1 [33]]] 6 w_closed).2.trace =
        w_closed.trace ++ [Mut.sys_open ⟨1, 2⟩ 65, Mut.sys_lseek64 7 0, Mut.write_fd 7 [33]] ∧
    (do_transactions (memstore false false)
      [[TransactionOp.OP_NOP],
        [TransactionOp.OP_TOUCH 1 2, TransactionOp.OP_CLONERANGE2 1 2 3 0 5 0]] 5 w_hello).2.trace =
        [Mut.sys_open ⟨1, 2⟩ 65, Mut.sys_open ⟨1, 3⟩ 65, Mut.index_created 1 3 ⟨1, 3⟩,
          Mut._do_clone_range 7 102 0 5 0] ++ guard_steps 102 ⟨5, 1, 1⟩ (some 3) false := by
  refine ⟨?_, ?_, ?_⟩
  · exact ((positions_of_a_batch (memstore true false)
      [[TransactionOp.OP_NOP, TransactionOp.OP_WRITE 1 2 0 1 [33]]] 5).2.2.2 w_closed w_closed 0 1
      [TransactionOp.OP_NOP, TransactionOp.OP_WRITE 1 2 0 1 [33]]
      (TransactionOp.OP_WRITE 1 2 0 1 [33]) (by decide) rfl rfl (Prod.ext (by decide) rfl)).2.1
      (GuardTarget.object 1 2) (-1) rfl (Prod.ext (by decide) rfl) (by decide)
  · have h := ((positions_of_a_batch (memstore true false)
      [[TransactionOp.OP_NOP, TransactionOp.OP_WRITE 1 2 0 1 [33]]] 6).2.2.2 w_closed w_closed 0 1
      [TransactionOp.OP_NOP, TransactionOp.OP_WRITE 1 2 0 1 [33]]
      (TransactionOp.OP_WRITE 1 2 0 1 [33]) (by decide) rfl rfl (Prod.ext (by decide) rfl)).2.2.1
      1 2 1 (by decide) (Prod.ext (by decide) rfl)
    exact (congrArg World.trace h).trans (by decide)
  · have h := ((positions_of_a_batch (memstore false false)
      [[TransactionOp.OP_NOP],
        [TransactionOp.OP_TOUCH 1 2, TransactionOp.OP_CLONERANGE2 1 2 3 0 5 0]] 5).2.2.2 w_hello _ 1 1
      [TransactionOp.OP_TOUCH 1 2, TransactionOp.OP_CLONERANGE2 1 2 3 0 5 0]
      (TransactionOp.OP_CLONERANGE2 1 2 3 0 5 0) (by decide) rfl rfl
        (eq_of_fst_eq _ _ (by decide))).2.2.2.2
      1 2 3 0 5 0 1 7 102 _ rfl (Or.inl rfl) (eq_of_fst_eq _ _ (by decide)) (by decide)
      (eq_of_fst_eq _ _ (by decide)) (by decide) (eq_of_fst_eq _ _ (by decide)) (by decide)
      (by decide)
    exact h.trans (by decide)


/-! ## The pieces of a cloned range (C29) -/

/-- C29: on the clone path of `_do_clone_range`, that is when clone-range is
supported, the block size is positive, `srcoff` and `dstoff` are congruent
modulo the block size, the block-aligned start of the source lies in
`[srcoff, srcoff + len)`, the `ioctl` is called with a length that is not zero,
and the `ioctl` and the calls of `_do_copy_range` after it succeed, with the
destination range `[dstoff, dstoff + len)` in the range of `uint64_t`: every
piece handed to the `ioctl` or to `_do_copy_range` is not empty and is written at
its source offset plus `dstoff - srcoff`; the pieces cover `[srcoff, srcoff + len)`
exactly and are pairwise disjoint; and the offsets of the cloned piece in the
source and in the destination are multiples of the block size. -/
theorem clone_range_pieces {σ : Type} (st : Store σ) (blk_size : Nat) (src dst : Int)
    (srcoff len dstoff : Nat) (w : World σ) (a b c : Nat) (rest : List Mut)
    (hblk : 0 < blk_size) (hblk64 : blk_size < 18446744073709551616)
    (hs64 : srcoff < 18446744073709551616) (hl64 : len < 18446744073709551616)
    (hdst : dstoff + len < 18446744073709551616)
    (hcong : srcoff % blk_size = dstoff % blk_size)
    (hin : srcoff ≤ ALIGN_UP srcoff blk_size ∧ ALIGN_UP srcoff blk_size < srcoff + len)
    (htr : (_do_clone_range st true blk_size src dst srcoff len dstoff w).2.trace =
      w.trace ++ Mut.btrfs_ioc_clone_range dst src a b c :: rest)
    (hok : calls_succeed st.toSys w.fs (Mut.btrfs_ioc_clone_range dst src a b c :: rest)) :
    (∀ e ∈ Mut.btrfs_ioc_clone_range dst src a b c :: rest, ∃ p, e.piece = some p ∧
      0 < p.len ∧ p.dst + srcoff = p.src + dstoff) ∧
    (∀ x, (srcoff ≤ x ∧ x < srcoff + len) ↔
      ∃ e ∈ Mut.btrfs_ioc_clone_range dst src a b c :: rest, ∃ p, e.piece = some p ∧
        p.src ≤ x ∧ x < p.src + p.len) ∧
    List.Pairwise (fun e1 e2 => ∀ p1 p2, e1.piece = some p1 → e2.piece = some p2 →
        p1.src + p1.len ≤ p2.src ∨ p2.src + p2.len ≤ p1.src)
      (Mut.btrfs_ioc_clone_range dst src a b c :: rest) ∧
    blk_size ∣ a ∧ blk_size ∣ c := by
  obtain ⟨ha, hc, hb0, hchk, hb, hrest⟩ :=
    _do_clone_range_clone_path st blk_size src dst srcoff len dstoff w a b c rest hblk hcong htr hok
  have hm : srcoff % blk_size < blk_size := Nat.mod_lt _ hblk
  have hms : srcoff % blk_size ≤ srcoff := Nat.mod_le _ _
  have hmd : dstoff % blk_size ≤ dstoff := Nat.mod_le _ _
  have hsum : srcoff + len < 18446744073709551616 := by
    by_contra hge
    apply hchk
    unfold toUInt64
    omega
  obtain ⟨hA, hAd⟩ := ALIGN_UP_eq srcoff blk_size hblk hs64
    (ALIGN_UP_wrap srcoff blk_size hblk hs64 hblk64 hin.1)
  have hpad : (if srcoff % blk_size = 0 then 0 else blk_size - srcoff % blk_size) < len := by
    omega
  obtain ⟨hC, hCd⟩ := ALIGN_UP_eq dstoff blk_size hblk (by omega) (by
    by_cases h0 : srcoff % blk_size = 0
    · left; rw [← hcong]; exact h0
    · right
      rw [if_neg h0] at hpad
      omega)
  rw [← hcong] at hC
  rw [← ha] at hA hAd hin hrest hb
  rw [← hc] at hC hCd
  generalize (if srcoff % blk_size = 0 then 0 else blk_size - srcoff % blk_size) = pad at hA hC hpad
  have hL0 : toUInt64 ((len : Int) - ((a : Int) - srcoff)) = len - pad := by
    unfold toUInt64
    omega
  rw [hL0] at hb
  have hble : b ≤ len - pad := by
    rcases hb with hb | hb
    · omega
    · rw [hb, ALIGN_DOWN_eq _ _ (by omega)]
      omega
  have e1 : toUInt64 ((a : Int) - srcoff) = pad := by
    unfold toUInt64
    omega
  have e2 : toUInt64 ((a : Int) + b) = a + b := by
    unfold toUInt64
    omega
  have e3 : toUInt64 ((srcoff : Int) + len) = srcoff + len := by
    unfold toUInt64
    omega
  have e4 : toUInt64 ((srcoff : Int) + len - (a + b)) = srcoff + len - (a + b) := by
    unfold toUInt64
    omega
  have e5 : toUInt64 ((c : Int) + b) = c + b := by
    unfold toUInt64
    omega
  rw [e1, e2, e3, e4, e5] at hrest
  have hfacts : a = srcoff + pad ∧ c = dstoff + pad ∧ pad < len ∧ b ≤ len - pad ∧ 0 < b :=
    ⟨hA, hC, hpad, hble, by omega⟩
  clear e1 e2 e3 e4 e5 hL0 hb htr hok hchk ha hc hcong hm hms hmd hA hC hpad hble hb0 hin
  obtain ⟨hA, hC, hpad, hble, hb0⟩ := hfacts
  refine ⟨?_, ?_, ?_, hAd, hCd⟩
  · intro e he
    rw [hrest] at he
    simp only [List.mem_cons, List.mem_append] at he
    rcases he with rfl | he | he
    · exact ⟨⟨a, b, c⟩, rfl, hb0, by show c + srcoff = a + dstoff; omega⟩
    · split_ifs at he with h1
      · simp only [List.mem_singleton] at he
        subst he
        exact ⟨⟨srcoff, pad, dstoff⟩, rfl, by show 0 < pad; omega,
          by show dstoff + srcoff = srcoff + dstoff; omega⟩
      · simp at he
    · split_ifs at he with h1
      · simp only [List.mem_singleton] at he
        subst he
        exact ⟨⟨a + b, srcoff + len - (a + b), c + b⟩, rfl,
          by show 0 < srcoff + len - (a + b); omega,
          by show c + b + srcoff = a + b + dstoff; omega⟩
      · simp at he
  · intro x
    by_cases h1 : a ≠ srcoff <;> by_cases h2 : a + b ≠ srcoff + len
    · rw [if_pos h1, if_pos h2] at hrest
      subst hrest
      simp only [List.mem_cons, List.singleton_append, List.mem_singleton, exists_eq_or_imp,
        exists_eq_left, Mut.piece, Option.some.injEq, exists_eq_left', List.not_mem_nil,
        false_and, exists_false, or_false]
      omega
    · rw [if_pos h1, if_neg h2] at hrest
      subst hrest
      simp only [List.mem_cons, List.append_nil, List.mem_singleton, exists_eq_or_imp,
        exists_eq_left, Mut.piece, Option.some.injEq, exists_eq_left', List.not_mem_nil,
        false_and, exists_false, or_false]
      omega
    · rw [if_neg h1, if_pos h2] at hrest
      subst hrest
      simp only [List.mem_cons, List.nil_append, List.mem_singleton, exists_eq_or_imp,
        exists_eq_left, Mut.piece, Option.some.injEq, exists_eq_left', List.not_mem_nil,
        false_and, exists_false, or_false]
      omega
    · rw [if_neg h1, if_neg h2] at hrest
      subst hrest
      simp only [List.mem_cons, List.append_nil, List.mem_singleton, exists_eq_or_imp,
        exists_eq_left, Mut.piece, Option.some.injEq, exists_eq_left', List.not_mem_nil,
        false_and, exists_false, or_false]
      omega
  · by_cases h1 : a ≠ srcoff <;> by_cases h2 : a + b ≠ srcoff + len
    · rw [if_pos h1, if_pos h2] at hrest
      subst hrest
      simp only [List.singleton_append, List.pairwise_cons, List.mem_cons, List.mem_singleton,
        forall_eq_or_imp, forall_eq, Mut.piece, Option.some.injEq, List.not_mem_nil,
        IsEmpty.forall_iff, implies_true, List.Pairwise.nil, and_true]
      refine ⟨⟨?_, ?_⟩, ?_⟩ <;> intro p1 p2 hp1 hp2 <;> subst hp1 <;> subst hp2 <;>
        simp only <;> omega
    · rw [if_pos h1, if_neg h2] at hrest
      subst hrest
      simp only [List.append_nil, List.pairwise_cons, List.mem_cons, List.mem_singleton,
        forall_eq_or_imp, forall_eq, Mut.piece, Option.some.injEq, List.not_mem_nil,
        IsEmpty.forall_iff, implies_true, List.Pairwise.nil, and_true]
      intro p1 p2 hp1 hp2
      subst hp1
      subst hp2
      simp only
      omega
    · rw [if_neg h1, if_pos h2] at hrest
      subst hrest
      simp only [List.nil_append, List.pairwise_cons, List.mem_cons, List.mem_singleton,
        forall_eq_or_imp, forall_eq, Mut.piece, Option.some.injEq, List.not_mem_nil,
        IsEmpty.forall_iff, implies_true, List.Pairwise.nil, and_true]
      intro p1 p2 hp1 hp2
      subst hp1
      subst hp2
      simp only
      omega
    · rw [if_neg h1, if_neg h2] at hrest
      subst hrest
      simp

/-- With blocks of `4` bytes, `_do_clone_range` from offset `1`, of `9` of the
`12` bytes of the source, to offset `5`: the blocks `[4, 8)` are cloned to offset
`8`, the head `[1, 4)` is copied to offset `5` and the tail `[8, 10)` to offset
`12`. -/
theorem clone_range_pieces_witness :
    (_do_clone_range (memstore false false) true 4 7 8 1 9 5 w_clone).2.trace =
        [Mut.btrfs_ioc_clone_range 8 7 4 4 8, Mut._do_copy_range 7 8 1 3 5,
          Mut._do_copy_range 7 8 8 2 12] ∧
      (∀ x, (1 ≤ x ∧ x < 1 + 9) ↔
        ∃ e ∈ [Mut.btrfs_ioc_clone_range 8 7 4 4 8, Mut._do_copy_range 7 8 1 3 5,
          Mut._do_copy_range 7 8 8 2 12], ∃ p, e.piece = some p ∧ p.src ≤ x ∧ x < p.src + p.len) ∧
      4 ∣ 4 ∧ 4 ∣ 8 :=
  ⟨by decide,
    (clone_range_pieces (memstore false false) 4 7 8 1 9 5 w_clone 4 4 8
      [Mut._do_copy_range 7 8 1 3 5, Mut._do_copy_range 7 8 8 2 12]
      (by decide) (by decide) (by decide) (by decide) (by decide) (by decide) (by decide)
      (by decide) ⟨by decide, by decide, by decide, trivial⟩).2.1,
    (clone_range_pieces (memstore false false) 4 7 8 1 9 5 w_clone 4 4 8
      [Mut._do_copy_range 7 8 1 3 5, Mut._do_copy_range 7 8 8 2 12]
      (by decide) (by decide) (by decide) (by decide) (by decide) (by decide) (by decide)
      (by decide) ⟨by decide, by decide, by decide, trivial⟩).2.2.2⟩

/-! ## The extent map of `fiemap` (C30) -/

/-- C30 fails on the code when `offset + len` leaves the range of `uint64_t`. The
kernel reports the extents `[0, 20)`, `[20, 25)` and `[30, 40)`, which are
sorted, disjoint, not empty and meet the range from offset `10` of `2^64 - 1`
bytes; `fiemap` takes the end of the range modulo `2^64`, which is `9`, cuts
every extent there, and encodes the entries `(10, 2^64 - 1)` and
`(30, 2^64 - 21)`: the first one covers the offset `27`, which no extent of the
kernel covers, and reaches over the second one. -/
theorem fiemap_range_end_wraps :
    (fiemap store_three_extents true 0 1 2 10 18446744073709551615 w_hello).1 =
      Except.ok (0, some [(10, 18446744073709551615), (30, 18446744073709551595)]) ∧
    (∀ e ∈ [(⟨0, 20⟩ : fiemap_extent), ⟨20, 5⟩, ⟨30, 10⟩],
      0 < e.fe_length ∧ e.fe_logical < 10 + 18446744073709551615 ∧
        10 < e.fe_logical + e.fe_length) ∧
    List.Pairwise (fun e1 e2 : fiemap_extent => e1.fe_logical + e1.fe_length ≤ e2.fe_logical)
      [⟨0, 20⟩, ⟨20, 5⟩, ⟨30, 10⟩] ∧
    (10 ≤ 27 ∧ 27 < 10 + 18446744073709551615) ∧
    ¬ (∃ e ∈ [(⟨0, 20⟩ : fiemap_extent), ⟨20, 5⟩, ⟨30, 10⟩],
      e.fe_logical ≤ 27 ∧ 27 < e.fe_logical + e.fe_length) ∧
    ¬ (10 + 18446744073709551615 < 30) := by
  decide

/-- C30, amended: on the FIEMAP path of `fiemap`, that is when `ioctl_fiemap` is
set, `len` is above the threshold, the object opens and `do_fiemap` succeeds,
and when `offset + len` is in the range of `uint64_t`, for extents of the kernel
that lie in this range, are sorted by their logical offset, pairwise disjoint,
not empty, and meet `[offset, offset + len)` each: `fiemap` returns `0` and
encodes a map whose extents cover exactly the offsets of `[offset, offset + len)`
that an extent of the kernel covers, and in which every extent ends before the
next one begins, with a gap between them. -/
theorem fiemap_extent_map {σ : Type} (st : Store σ) (m_filestore_fiemap_threshold : Int)
    (cid : coll_t) (oid : hobject_t) (offset len : Nat) (w w1 w2 : World σ) (fd : Int)
    (extents : List fiemap_extent)
    (hthr : toUInt64 m_filestore_fiemap_threshold < len)
    (hopen : lfn_open st cid oid O_RDONLY false w = (Except.ok fd, w1)) (hfd : 0 ≤ fd)
    (hfm : do_fiemap st fd offset len w1 = (Except.ok (0, extents), w2))
    (hol : offset + len < 18446744073709551616)
    (h64 : ∀ e ∈ extents, e.fe_logical + e.fe_length < 18446744073709551616)
    (hsorted : extents.Pairwise (fun e1 e2 => e1.fe_logical ≤ e2.fe_logical))
    (hdisj : extents.Pairwise (fun e1 e2 => e1.fe_logical + e1.fe_length ≤ e2.fe_logical ∨
      e2.fe_logical + e2.fe_length ≤ e1.fe_logical))
    (hne : ∀ e ∈ extents, 0 < e.fe_length)
    (hint : ∀ e ∈ extents, e.fe_logical < offset + len ∧ offset < e.fe_logical + e.fe_length) :
    ∃ exomap,
      fiemap st true m_filestore_fiemap_threshold cid oid offset len w =
        (Except.ok (0, some exomap), w2) ∧
      (∀ x, (∃ p ∈ exomap, p.1 ≤ x ∧ x < p.1 + p.2) ↔
        (offset ≤ x ∧ x < offset + len ∧
          ∃ e ∈ extents, e.fe_logical ≤ x ∧ x < e.fe_logical + e.fe_length)) ∧
      exomap.Pairwise (fun p q => p.1 + p.2 < q.1) := by
  refine ⟨fiemap_exomap offset len extents, ?_,
    fiemap_exomap_spec offset len extents hol h64 hsorted hdisj hne hint⟩
  unfold fiemap
  rw [if_neg (by simp; omega), bind_run, hopen]
  simp only [ite_run]
  rw [if_neg (by omega), bind_run, hfm]
  simp [pure_run]

/-- C30 amended, at a concrete store: the kernel reports the extents `[0, 20)`,
`[20, 25)` and `[30, 40)`; `fiemap` of the object `1/2` from offset `10`, of `25`
bytes, encodes `[10, 25)` and `[30, 35)`: the first two extents as one, cut at
both ends of the range. -/
theorem fiemap_extent_map_witness :
    (fiemap store_three_extents true 0 1 2 10 25 w_hello).1 =
        Except.ok (0, some [(10, 15), (30, 5)]) ∧
      ∃ exomap,
        (fiemap store_three_extents true 0 1 2 10 25 w_hello).1 = Except.ok (0, some exomap) ∧
        (∀ x, (∃ p ∈ exomap, p.1 ≤ x ∧ x < p.1 + p.2) ↔
          (10 ≤ x ∧ x < 10 + 25 ∧
            ∃ e ∈ [(⟨0, 20⟩ : fiemap_extent), ⟨20, 5⟩, ⟨30, 10⟩],
              e.fe_logical ≤ x ∧ x < e.fe_logical + e.fe_length)) ∧
        exomap.Pairwise (fun p q => p.1 + p.2 < q.1) := by
  refine ⟨by decide, ?_⟩
  obtain ⟨exomap, h1, h2, h3⟩ :=
    fiemap_extent_map store_three_extents 0 1 2 10 25 w_hello _ _ 7
      [⟨0, 20⟩, ⟨20, 5⟩, ⟨30, 10⟩] (by decide) (eq_of_fst_eq _ _ (by decide)) (by decide)
      (eq_of_fst_eq _ _ (by decide)) (by decide) (by decide) (by decide) (by decide) (by decide)
      (by decide)
  exact ⟨exomap, by rw [h1], h2, h3⟩

end FileStore

/-! ## `Throttle::get_or_fail` (C23) -/

/-- C23: for `c ≥ 0` and a sum `count + c` in the range of `int64_t`,
`Throttle::get_or_fail(c)` returns `true` exactly when no waiter is queued and
`_should_wait(c)` is false, and then `count` has grown by `c`; otherwise it
returns `false` and leaves the members as they were. -/
theorem Throttle.get_or_fail_exact (_should_wait : Throttle → Int → Bool) (t : Throttle) (c : Int)
    (hc : 0 ≤ c) (hr : t.count + c ≤ 9223372036854775807) :
    Throttle.get_or_fail _should_wait t c =
      some (if t.cond = [] ∧ _should_wait t c = false then (true, { t with count := t.count + c })
        else (false, t)) := by
  unfold Throttle.get_or_fail
  rw [if_neg (by omega)]
  cases hs : _should_wait t c
  · cases ht : t.cond with
    | nil => simp; omega
    | cons a l => simp
  · simp

/-- A throttle holding 3 of at most 10, nobody waiting, takes 4 more; with a
waiter queued it does not. -/
theorem Throttle.get_or_fail_exact_witness :
    Throttle.get_or_fail (fun t c => decide (t.max ≠ 0 ∧ t.count + c > t.max)) ⟨3, 10, []⟩ 4 =
        some (true, ⟨7, 10, []⟩) ∧
      Throttle.get_or_fail (fun t c => decide (t.max ≠ 0 ∧ t.count + c > t.max)) ⟨3, 10, [5]⟩ 4 =
        some (false, ⟨3, 10, [5]⟩) :=
  ⟨Throttle.get_or_fail_exact _ ⟨3, 10, []⟩ 4 (by decide) (by decide),
    Throttle.get_or_fail_exact _ ⟨3, 10, [5]⟩ 4 (by decide) (by decide)⟩
